import Mathlib

/-! # Coarse initializer of the direct sparse odometry front end

A shallow embedding of `src/FullSystem/CoarseInitializer.cpp`.

Conventions of the embedding.

* `float` values are exact rationals (`ℚ`): rounding, infinities and NaN are
  not modelled.  Where the source tests `std::isfinite`, the sampled value
  carries an explicit finiteness flag.
* A C array of points `Pnt *points[lvl]` with its length `numPoints[lvl]` is a
  `List Pnt`; the per-level table is a function of the level.
* A `for (i = 0; i < n; i++)` loop whose iterations read what earlier
  iterations wrote is `forLoop`; a loop whose iterations touch only their own
  element is a `List.map` / `List.mapIdx` traversal.
* Code of other translation units (image interpolation, Sophus, Eigen's
  solver, `expf`, `sqrtf`, the accumulators, the settings) is a field of
  `Env` or `Settings`, or a small model with a doc comment saying so.
-/

namespace dso

/-! ## Data model -/

/-- Eigen `Vec2f`. -/
abbrev Vec2f := ℚ × ℚ

/-- Eigen `Vec3f`. -/
abbrev Vec3f := Fin 3 → ℚ

/-- Eigen `Vec8f`. -/
abbrev Vec8f := Fin 8 → ℚ

/-- Eigen `Vec10f`, one entry of `JbBuffer`. -/
abbrev Vec10f := Fin 10 → ℚ

/-- Eigen `Mat33f`. -/
abbrev Mat33f := Matrix (Fin 3) (Fin 3) ℚ

/-- Eigen `Mat88f`. -/
abbrev Mat88f := Matrix (Fin 8) (Fin 8) ℚ

/-- Eigen `Mat99f`, the accumulator matrix of `Accumulator9`. -/
abbrev Mat99f := Matrix (Fin 9) (Fin 9) ℚ

/-- The candidate point `struct Pnt` (declared in `CoarseInitializer.h`); the
fields are the ones `CoarseInitializer.cpp` reads and writes. -/
structure Pnt where
  u : ℚ
  v : ℚ
  idepth : ℚ
  isGood : Bool
  energy : Vec2f
  isGood_new : Bool
  idepth_new : ℚ
  energy_new : Vec2f
  iR : ℚ
  iRSumNum : ℚ
  lastHessian : ℚ
  lastHessian_new : ℚ
  maxstep : ℚ
  parent : Int
  parentDist : ℚ
  neighbours : Fin 10 → Int
  neighboursDist : Fin 10 → ℚ
  my_type : ℚ
  outlierTH : ℚ

/-- The brightness transfer `AffLight` (gain exponent `a`, bias `b`). -/
structure AffLight where
  a : ℚ
  b : ℚ

/-- A rigid transform, as Sophus `SE3` exposes it through `rotationMatrix()`
and `translation()`. -/
structure SE3 where
  R : Mat33f
  t : Vec3f

/-- The identity transform `SE3()`. -/
def SE3.identity : SE3 := ⟨1, 0⟩

/-- Composition `A * B` of rigid transforms. -/
def SE3.mul (A B : SE3) : SE3 := ⟨A.R * B.R, A.R.mulVec B.t + A.t⟩

/-- The effect of `translation().setZero()`. -/
def SE3.setTranslationZero (A : SE3) : SE3 := ⟨A.R, 0⟩

/-- The squared norm `translation().squaredNorm()`. -/
def SE3.translationSquaredNorm (A : SE3) : ℚ := A.t 0 * A.t 0 + A.t 1 * A.t 1 + A.t 2 * A.t 2

/-- The global settings `CoarseInitializer.cpp` reads from `util/settings.h`. -/
structure Settings where
  pyrLevelsUsed : Nat
  patternP : List (Int × Int)
  patternPadding : Int
  setting_huberTH : ℚ
  setting_outlierTH : ℚ
  SCALE_XI_ROT : ℚ
  SCALE_XI_TRANS : ℚ
  SCALE_A : ℚ
  SCALE_B : ℚ

/-- The constant `patternNum`, the number of offsets of the sampling pattern. -/
def Settings.patternNum (cfg : Settings) : Nat := cfg.patternP.length

/-- A sampled image value together with the outcome of `std::isfinite` on its
intensity channel. -/
structure Sample3 where
  val : Vec3f
  finite : Bool

/-- A sampled intensity together with the outcome of `std::isfinite`. -/
structure Sample1 where
  val : ℚ
  finite : Bool

/-- A `FrameHessian` as the initializer reads it: the interpolated look-ups
into `dIp[lvl]`, the raw intensity `dIp[lvl][i][0]`, and `ab_exposure`. -/
structure FrameHessian where
  interp33 : Nat → ℚ → ℚ → Sample3
  interp31 : Nat → ℚ → ℚ → Sample1
  color0 : Nat → Int → Sample1
  ab_exposure : ℚ

/-- Functions of other libraries the initializer calls. -/
structure Env where
  cfg : Settings
  expf : ℚ → ℚ
  logf : ℚ → ℚ
  sqrtf : ℚ → ℚ
  se3Exp : (Fin 6 → ℚ) → SE3
  se3Log : SE3 → Fin 6 → ℚ
  ldltSolve6 : Matrix (Fin 6) (Fin 6) ℚ → (Fin 6 → ℚ) → (Fin 6 → ℚ)
  ldltSolve8 : Mat88f → Vec8f → Vec8f
  knn10 : List Pnt → ℚ × ℚ → (Fin 10 → Int) × (Fin 10 → ℚ)
  knn1 : List Pnt → ℚ × ℚ → Int × ℚ

/-- The member variables of `class CoarseInitializer` that the functions below
use. -/
structure CoarseInitializer where
  points : Nat → List Pnt
  JbBuffer : Nat → Vec10f
  JbBuffer_new : Nat → Vec10f
  thisToNext : SE3
  thisToNext_aff : AffLight
  snapped : Bool
  frameID : Int
  snappedAt : Int
  fixAffine : Bool
  alphaK : ℚ
  alphaW : ℚ
  regWeight : ℚ
  couplingWeight : ℚ
  w_ : Nat → Int
  h_ : Nat → Int
  fx_ : Nat → ℚ
  fy_ : Nat → ℚ
  cx_ : Nat → ℚ
  cy_ : Nat → ℚ
  Ki_ : Nat → Mat33f
  firstFrame : FrameHessian
  newFrame : FrameHessian
  idepth_ : Nat → Int → ℚ
  weight_sums_ : Nat → Int → ℚ
  weight_sums_bak_ : Nat → Int → ℚ
  pc_ : Nat → List (ℚ × ℚ × ℚ × ℚ)

/-- The member `numPoints[lvl]`. -/
def CoarseInitializer.numPoints (s : CoarseInitializer) (lvl : Nat) : Nat := (s.points lvl).length

/-! ## Loops and array access -/

/-- The loop `for (i = 0; i < n; i++) s = body i s`. -/
def forLoop {σ : Type} : Nat → (Nat → σ → σ) → σ → σ
  | 0, _, s => s
  | n + 1, body, s => body n (forLoop n body s)

/-- The element `pts[j]` for a C `int` index; `none` outside the array. -/
def getPnt (pts : List Pnt) (j : Int) : Option Pnt :=
  if j < 0 then none else pts[j.toNat]?

/-- An in-place update `pts[j] = f pts[j]` for a C `int` index. -/
def modifyPnt (pts : List Pnt) (j : Int) (f : Pnt → Pnt) : List Pnt :=
  match getPnt pts j with
  | some p => pts.set j.toNat (f p)
  | none => pts

/-- The value `std::nth_element` leaves at position `n`: the element of rank
`n` in ascending order. -/
def nthElement (xs : List ℚ) (n : Nat) : ℚ :=
  (xs.insertionSort (fun a b => a ≤ b)).getD n 0

/-! ## Regularizer -/

/-- The inner loop of `optReg`: the `iR` of the good neighbours of a point,
in the order of its neighbour slots. -/
def goodNeighbourIR (ptsl : List Pnt) (point : Pnt) : List ℚ :=
  (List.ofFn point.neighbours).filterMap fun j =>
    if j = -1 then none
    else match getPnt ptsl j with
      | some other => if other.isGood then some other.iR else none
      | none => none

/-- One iteration of the main loop of `optReg` (the snapped case). -/
def optRegStep (regWeight : ℚ) (i : Nat) (ptsl : List Pnt) : List Pnt :=
  match ptsl[i]? with
  | none => ptsl
  | some point =>
    if !point.isGood then ptsl
    else
      let idnn := goodNeighbourIR ptsl point
      let nnn := idnn.length
      if nnn > 2 then
        ptsl.set i { point with
          iR := (1 - regWeight) * point.idepth + regWeight * nthElement idnn (nnn / 2) }
      else ptsl

/-- The body of `optReg` on the point array of one level. -/
def optRegPts (snapped : Bool) (regWeight : ℚ) (ptsl : List Pnt) : List Pnt :=
  if !snapped then ptsl.map fun p => { p with iR := 1 }
  else forLoop ptsl.length (optRegStep regWeight) ptsl

/-- The member function `CoarseInitializer::optReg`. -/
def optReg (s : CoarseInitializer) (lvl : Nat) : CoarseInitializer :=
  { s with points := Function.update s.points lvl (optRegPts s.snapped s.regWeight (s.points lvl)) }

/-- The member function `CoarseInitializer::calcEC`: the regularization
energies of the committed and of the proposed depths, and the point count. -/
def calcEC (s : CoarseInitializer) (lvl : Nat) : ℚ × ℚ × ℚ :=
  if !s.snapped then (0, 0, (s.numPoints lvl : ℚ))
  else
    let good := (s.points lvl).filter fun p => p.isGood_new
    let eOld := (good.map fun p => (p.idepth - p.iR) * (p.idepth - p.iR)).sum
    let eNew := (good.map fun p => (p.idepth_new - p.iR) * (p.idepth_new - p.iR)).sum
    (s.couplingWeight * eOld, s.couplingWeight * eNew, (good.length : ℚ))

/-! ## Depth propagation -/

/-- The first loop of `propagateUp`: clear the accumulators of a parent. -/
def clearAccum (p : Pnt) : Pnt := { p with iR := 0, iRSumNum := 0 }

/-- One iteration of the second loop of `propagateUp`: a good point adds its
weighted `iR` into its parent. -/
def accumStep (ptss : List Pnt) (i : Nat) (ptst : List Pnt) : List Pnt :=
  match ptss[i]? with
  | none => ptst
  | some point =>
    if !point.isGood then ptst
    else modifyPnt ptst point.parent fun parent =>
      { parent with
        iR := parent.iR + point.iR * point.lastHessian
        iRSumNum := parent.iRSumNum + point.lastHessian }

/-- The third loop of `propagateUp`: a parent with positive weight takes the
weighted mean. -/
def normalizeParent (parent : Pnt) : Pnt :=
  if parent.iRSumNum > 0 then
    { parent with
      idepth := parent.iR / parent.iRSumNum
      iR := parent.iR / parent.iRSumNum
      isGood := true }
  else parent

/-- The three loops of `propagateUp`, before its closing `optReg` call. -/
def propagateUpPts (ptss ptst : List Pnt) : List Pnt :=
  (forLoop ptss.length (accumStep ptss) (ptst.map clearAccum)).map normalizeParent

/-- The member function `CoarseInitializer::propagateUp`. -/
def propagateUp (s : CoarseInitializer) (srcLvl : Nat) : CoarseInitializer :=
  optReg
    { s with
      points := Function.update s.points (srcLvl + 1)
        (propagateUpPts (s.points srcLvl) (s.points (srcLvl + 1))) }
    (srcLvl + 1)

/-- The loop body of `propagateDown` for one point of the finer level. -/
def propagateDownPnt (ptss : List Pnt) (point : Pnt) : Pnt :=
  match getPnt ptss point.parent with
  | none => point
  | some parent =>
    if !parent.isGood || parent.lastHessian < 1 / 10 then point
    else if !point.isGood then
      { point with
        iR := parent.iR, idepth := parent.iR, idepth_new := parent.iR
        isGood := true, lastHessian := 0 }
    else
      let newiR := (point.iR * point.lastHessian * 2 + parent.iR * parent.lastHessian) /
                   (point.lastHessian * 2 + parent.lastHessian)
      { point with iR := newiR, idepth := newiR, idepth_new := newiR }

/-- The member function `CoarseInitializer::propagateDown`. -/
def propagateDown (s : CoarseInitializer) (srcLvl : Nat) : CoarseInitializer :=
  optReg
    { s with
      points := Function.update s.points (srcLvl - 1)
        ((s.points (srcLvl - 1)).map (propagateDownPnt (s.points srcLvl))) }
    (srcLvl - 1)

/-! ## Point updates of the optimizer -/

/-- One iteration of the loop of `resetPoints`. -/
def resetPointsStep (pyrLevelsUsed lvl : Nat) (i : Nat) (pts : List Pnt) : List Pnt :=
  match pts[i]? with
  | none => pts
  | some p =>
    let p1 : Pnt := { p with energy := (0, 0), idepth_new := p.idepth }
    let pts1 := pts.set i p1
    if lvl = pyrLevelsUsed - 1 ∧ !p1.isGood then
      let nb := goodNeighbourIR pts1 p1
      let snd := nb.sum
      let sn : ℚ := nb.length
      if sn > 0 then
        pts1.set i { p1 with isGood := true, iR := snd / sn, idepth := snd / sn, idepth_new := snd / sn }
      else pts1
    else pts1

/-- The member function `CoarseInitializer::resetPoints`. -/
def resetPoints (cfg : Settings) (s : CoarseInitializer) (lvl : Nat) : CoarseInitializer :=
  { s with
    points := Function.update s.points lvl
      (forLoop (s.points lvl).length (resetPointsStep cfg.pyrLevelsUsed lvl) (s.points lvl)) }

/-- The dot product `JbBuffer[i].head<8>().dot(inc)`. -/
def head8Dot (jb : Vec10f) (inc : Vec8f) : ℚ :=
  ∑ k : Fin 8, jb (Fin.castLE (by decide) k) * inc k

/-- The loop body of `doStep` for point `i`. -/
def doStepPnt (JbBuffer : Nat → Vec10f) (lambda : ℚ) (inc : Vec8f) (i : Nat) (p : Pnt) : Pnt :=
  if !p.isGood then p
  else
    let b := JbBuffer i 8 + head8Dot (JbBuffer i) inc
    let step := -b * JbBuffer i 9 / (1 + lambda)
    let maxstep := (1 / 4) * p.maxstep
    let maxstep := if maxstep > 10 ^ 10 then 10 ^ 10 else maxstep
    let step := if step > maxstep then maxstep else step
    let step := if step < -maxstep then -maxstep else step
    let newIdepth := p.idepth + step
    let newIdepth := if newIdepth < 1 / 1000 then 1 / 1000 else newIdepth
    let newIdepth := if newIdepth > 50 then 50 else newIdepth
    { p with idepth_new := newIdepth }

/-- The member function `CoarseInitializer::doStep`. -/
def doStep (s : CoarseInitializer) (lvl : Nat) (lambda : ℚ) (inc : Vec8f) : CoarseInitializer :=
  { s with
    points := Function.update s.points lvl
      ((s.points lvl).mapIdx (doStepPnt s.JbBuffer lambda inc)) }

/-- The loop body of `applyStep` for one point. -/
def applyStepPnt (p : Pnt) : Pnt :=
  if !p.isGood then { p with idepth := p.iR, idepth_new := p.iR }
  else { p with
    energy := p.energy_new, isGood := p.isGood_new
    idepth := p.idepth_new, lastHessian := p.lastHessian_new }

/-- The member function `CoarseInitializer::applyStep`: commit the proposal of
every point and swap the two Jacobian buffers. -/
def applyStep (s : CoarseInitializer) (lvl : Nat) : CoarseInitializer :=
  { s with
    points := Function.update s.points lvl ((s.points lvl).map applyStepPnt)
    JbBuffer := s.JbBuffer_new
    JbBuffer_new := s.JbBuffer }

/-! ## Residual and Hessian accumulation -/

/-- Modelled from the spec: `Accumulator11` of `OptimizationBackend/MatrixAccumulators.h`,
which is not among the sources.  `updateSingle` adds a value to the running
sum and counts it; `finish` publishes the running sum as `A`. -/
structure Accumulator11 where
  A : ℚ
  sum : ℚ
  num : Nat

/-- The call `initialize()`. -/
def Accumulator11.initialize : Accumulator11 := ⟨0, 0, 0⟩

/-- The call `updateSingle(val)`. -/
def Accumulator11.updateSingle (E : Accumulator11) (val : ℚ) : Accumulator11 :=
  { E with sum := E.sum + val, num := E.num + 1 }

/-- The call `finish()`. -/
def Accumulator11.finish (E : Accumulator11) : Accumulator11 := { E with A := E.sum }

/-- Modelled from the spec: `Accumulator9::updateSingle` / `updateSSE` of
`MatrixAccumulators.h` (not among the sources) add the outer product of the
row `(J0, …, J7, r)` into the 9×9 matrix `H`. -/
def acc9Update (H : Mat99f) (J : Fin 9 → ℚ) : Mat99f := H + Matrix.vecMulVec J J

/-- Modelled from the spec: `Accumulator9::updateSingleWeighted` adds the outer
product of the row, scaled by the weight `w`. -/
def acc9UpdateWeighted (H : Mat99f) (J : Fin 9 → ℚ) (w : ℚ) : Mat99f :=
  H + w • Matrix.vecMulVec J J

/-- The locals `calcResAndGS` computes before its loops. -/
structure ResCtx where
  wl : Int
  hl : Int
  RKi : Mat33f
  t : Vec3f
  r2new_aff : Vec2f
  fxl : ℚ
  fyl : ℚ
  cxl : ℚ
  cyl : ℚ
  colorRef : ℚ → ℚ → Sample1
  colorNew : ℚ → ℚ → Sample3
  huberTH : ℚ
  sqrtf : ℚ → ℚ

/-- The state of the loop over the sampling pattern for one point: the locals
`isGood` and `energy`, the member `point->maxstep`, the entry
`JbBuffer_new[i]`, and the rows `(dp0[idx], …, dp7[idx], r[idx])` written so
far. -/
structure PatState where
  isGood : Bool
  energy : ℚ
  maxstep : ℚ
  jb : Vec10f
  rows : List (Fin 9 → ℚ)

/-- The locals `pt`, `u`, `v`, `Ku`, `Kv` and `new_idepth` of one iteration of
the loop over the sampling pattern: the projection of the pattern pixel into
the new frame. -/
structure Proj where
  pt : Vec3f
  u : ℚ
  v : ℚ
  Ku : ℚ
  Kv : ℚ
  new_idepth : ℚ

/-- The projection of the pattern pixel `(point->u + dx, point->v + dy)` at the
working inverse depth `point->idepth_new`. -/
def project (c : ResCtx) (point : Pnt) (d : Int × Int) : Proj :=
  let dx : ℚ := d.1
  let dy : ℚ := d.2
  let pt : Vec3f := c.RKi.mulVec ![point.u + dx, point.v + dy, 1] + point.idepth_new • c.t
  let u := pt 0 / pt 2
  let v := pt 1 / pt 2
  { pt := pt, u := u, v := v
    Ku := c.fxl * u + c.cxl
    Kv := c.fyl * v + c.cyl
    new_idepth := point.idepth_new / pt 2 }

/-- The test `Ku > 1 && Kv > 1 && Ku < wl - 2 && Kv < hl - 2 && new_idepth > 0`. -/
def Proj.inside (c : ResCtx) (pr : Proj) : Prop :=
  pr.Ku > 1 ∧ pr.Kv > 1 ∧ pr.Ku < c.wl - 2 ∧ pr.Kv < c.hl - 2 ∧ pr.new_idepth > 0

instance (c : ResCtx) (pr : Proj) : Decidable (pr.inside c) := by
  unfold Proj.inside; exact inferInstance

/-- The Huber weight `hw` of a residual. -/
def huberWeight (th residual : ℚ) : ℚ := if |residual| < th then 1 else th / |residual|

/-- One iteration of the loop over the sampling pattern (`idx`), for the
offset `(dx, dy)`; after a `break` the remaining iterations do nothing. -/
def patternStep (c : ResCtx) (point : Pnt) (st : PatState) (d : Int × Int) : PatState :=
  if !st.isGood then st
  else
    let dx : ℚ := d.1
    let dy : ℚ := d.2
    let pr := project c point d
    let pt := pr.pt
    let u := pr.u
    let v := pr.v
    let new_idepth := pr.new_idepth
    if ¬ pr.inside c then { st with isGood := false }
    else
      let hitColor := c.colorNew pr.Ku pr.Kv
      let rlR := c.colorRef (point.u + dx) (point.v + dy)
      if !rlR.finite || !hitColor.finite then { st with isGood := false }
      else
        let residual := hitColor.val 0 - c.r2new_aff.1 * rlR.val - c.r2new_aff.2
        let hw : ℚ := huberWeight c.huberTH residual
        let energy := st.energy + hw * residual * residual * (2 - hw)
        let dxdd := (c.t 0 - c.t 2 * u) / pt 2
        let dydd := (c.t 1 - c.t 2 * v) / pt 2
        let hw := if hw < 1 then c.sqrtf hw else hw
        let dxInterp := hw * hitColor.val 1 * c.fxl
        let dyInterp := hw * hitColor.val 2 * c.fyl
        let dp0 := new_idepth * dxInterp
        let dp1 := new_idepth * dyInterp
        let dp2 := -new_idepth * (u * dxInterp + v * dyInterp)
        let dp3 := -u * v * dxInterp - (1 + v * v) * dyInterp
        let dp4 := (1 + u * u) * dxInterp + u * v * dyInterp
        let dp5 := -v * dxInterp + u * dyInterp
        let dp6 := -hw * c.r2new_aff.1 * rlR.val
        let dp7 := -hw * 1
        let dd := dxInterp * dxdd + dyInterp * dydd
        let r := hw * residual
        let norm := c.sqrtf (dxdd * c.fxl * (dxdd * c.fxl) + dydd * c.fyl * (dydd * c.fyl))
        -- `1.0f / 0` is `+inf`, which is never below `point->maxstep`
        let maxstep := if norm ≠ 0 ∧ 1 / norm < st.maxstep then 1 / norm else st.maxstep
        { isGood := true
          energy := energy
          maxstep := maxstep
          jb := st.jb + ![dp0 * dd, dp1 * dd, dp2 * dd, dp3 * dd, dp4 * dd, dp5 * dd,
                          dp6 * dd, dp7 * dd, r * dd, dd * dd]
          rows := st.rows ++ [![dp0, dp1, dp2, dp3, dp4, dp5, dp6, dp7, r]] }

/-- The whole loop over the sampling pattern for one good point, started with
`maxstep = 1e10` and `JbBuffer_new[i]` zeroed. -/
def patternLoop (c : ResCtx) (patternP : List (Int × Int)) (point : Pnt) : PatState :=
  patternP.foldl (patternStep c point) ⟨true, 0, 10 ^ 10, 0, []⟩

/-- The state of the first loop of `calcResAndGS` over the points. -/
structure ResState where
  pts : List Pnt
  jbNew : Nat → Vec10f
  E : Accumulator11
  acc9 : Mat99f

/-- One iteration of the first loop of `calcResAndGS`, for point `i`. -/
def resStep (c : ResCtx) (patternP : List (Int × Int)) (i : Nat) (st : ResState) : ResState :=
  match st.pts[i]? with
  | none => st
  | some point =>
    if !point.isGood then
      { st with
        pts := st.pts.set i { point with
          maxstep := 10 ^ 10, energy_new := point.energy, isGood_new := false }
        E := st.E.updateSingle point.energy.1 }
    else
      let ps := patternLoop c patternP point
      if !ps.isGood || ps.energy > point.outlierTH * 20 then
        { st with
          pts := st.pts.set i { point with
            maxstep := ps.maxstep, energy_new := point.energy, isGood_new := false }
          jbNew := Function.update st.jbNew i ps.jb
          E := st.E.updateSingle point.energy.1 }
      else
        { pts := st.pts.set i { point with
            maxstep := ps.maxstep, energy_new := (ps.energy, point.energy_new.2)
            isGood_new := true }
          jbNew := Function.update st.jbNew i ps.jb
          E := st.E.updateSingle ps.energy
          acc9 := ps.rows.foldl acc9Update st.acc9 }

/-- The loop body of the alpha-energy loop for one point: a point that is good
in this trial stores its depth-prior energy. -/
def alphaPnt (point : Pnt) : Pnt :=
  if !point.isGood_new then point
  else { point with
    energy_new := (point.energy_new.1, (point.idepth_new - 1) * (point.idepth_new - 1)) }

/-- The value the alpha-energy loop passes to `E.updateSingle` for one point. -/
def alphaVal (point : Pnt) : ℚ :=
  if !point.isGood_new then point.energy.2
  else (point.idepth_new - 1) * (point.idepth_new - 1)

/-- The state of the Schur-complement loop of `calcResAndGS`. -/
structure SchurState where
  pts : List Pnt
  jbNew : Nat → Vec10f
  acc9SC : Mat99f

/-- The entry `JbBuffer_new[i]` after the Schur-complement loop body. -/
def schurJb (alphaOpt couplingWeight : ℚ) (point : Pnt) (jb : Vec10f) : Vec10f :=
  let jb8 := jb 8 + alphaOpt * (point.idepth_new - 1)
  let jb9 := jb 9 + alphaOpt
  let jb8 := if alphaOpt = 0 then jb8 + couplingWeight * (point.idepth_new - point.iR) else jb8
  let jb9 := if alphaOpt = 0 then jb9 + couplingWeight else jb9
  Function.update (Function.update jb 8 jb8) 9 (1 / (1 + jb9))

/-- One iteration of the Schur-complement loop of `calcResAndGS`. -/
def schurStep (alphaOpt couplingWeight : ℚ) (i : Nat) (st : SchurState) : SchurState :=
  match st.pts[i]? with
  | none => st
  | some point =>
    if !point.isGood_new then st
    else
      let jb := schurJb alphaOpt couplingWeight point (st.jbNew i)
      { pts := st.pts.set i { point with lastHessian_new := st.jbNew i 9 }
        jbNew := Function.update st.jbNew i jb
        acc9SC := acc9UpdateWeighted st.acc9SC
          (fun k => jb (Fin.castLE (by decide) k)) (jb 9) }

/-- What `calcResAndGS` returns: the four output arguments and the `Vec3f`
result `(E.A, alphaEnergy, E.num)`. -/
structure ResOut where
  H_out : Mat88f
  b_out : Vec8f
  H_out_sc : Mat88f
  b_out_sc : Vec8f
  res : ℚ × ℚ × ℚ

/-- The block `H.topLeftCorner<8, 8>()`. -/
def topLeft88 (H : Mat99f) : Mat88f :=
  fun i j => H (Fin.castLE (by decide) i) (Fin.castLE (by decide) j)

/-- The block `H.topRightCorner<8, 1>()`. -/
def topRight81 (H : Mat99f) : Vec8f := fun i => H (Fin.castLE (by decide) i) 8

/-- The locals of `calcResAndGS` for a level, a pose and a brightness transfer. -/
def mkResCtx (env : Env) (s : CoarseInitializer) (lvl : Nat) (refToNew : SE3)
    (refToNew_aff : AffLight) : ResCtx :=
  { wl := s.w_ lvl
    hl := s.h_ lvl
    RKi := refToNew.R * s.Ki_ lvl
    t := refToNew.t
    r2new_aff := (env.expf refToNew_aff.a, refToNew_aff.b)
    fxl := s.fx_ lvl
    fyl := s.fy_ lvl
    cxl := s.cx_ lvl
    cyl := s.cy_ lvl
    colorRef := s.firstFrame.interp31 lvl
    colorNew := fun x y => s.newFrame.interp33 lvl x y
    huberTH := env.cfg.setting_huberTH
    sqrtf := env.sqrtf }

/-- The member function `CoarseInitializer::calcResAndGS`. -/
def calcResAndGS (env : Env) (s : CoarseInitializer) (lvl : Nat) (refToNew : SE3)
    (refToNew_aff : AffLight) : CoarseInitializer × ResOut :=
  let c := mkResCtx env s lvl refToNew refToNew_aff
  let npts := s.numPoints lvl
  let l1 := forLoop npts (resStep c env.cfg.patternP)
    ⟨s.points lvl, s.JbBuffer_new, Accumulator11.initialize, 0⟩
  let E := l1.E.finish
  -- the alpha-energy loop feeds `E` (already finished), not `EAlpha`
  let EAlpha := Accumulator11.initialize
  let E := l1.pts.foldl (fun E p => E.updateSingle (alphaVal p)) E
  let pts2 := l1.pts.map alphaPnt
  let EAlpha := EAlpha.finish
  let alphaEnergy := s.alphaW * (EAlpha.A + refToNew.translationSquaredNorm * npts)
  let alphaOpt : ℚ := if alphaEnergy > s.alphaK * npts then 0 else s.alphaW
  let alphaEnergy := if alphaEnergy > s.alphaK * npts then s.alphaK * npts else alphaEnergy
  let l3 := forLoop npts (schurStep alphaOpt s.couplingWeight) ⟨pts2, l1.jbNew, 0⟩
  let tlog := env.se3Log refToNew
  let H_out : Mat88f := topLeft88 l1.acc9 +
    Matrix.diagonal fun k => if k.val < 3 then alphaOpt * npts else 0
  let b_out : Vec8f := topRight81 l1.acc9 +
    fun k => if h : k.val < 3 then tlog ⟨k.val, by omega⟩ * alphaOpt * npts else 0
  ({ s with points := Function.update s.points lvl l3.pts, JbBuffer_new := l3.jbNew },
   { H_out := H_out
     b_out := b_out
     H_out_sc := topLeft88 l3.acc9SC
     b_out_sc := topRight81 l3.acc9SC
     res := (E.A, alphaEnergy, (E.num : ℚ)) })

/-! ### Per-point views of the loops of `calcResAndGS`

Each iteration of the loops of `calcResAndGS` reads and writes only its own
point and its own entry of `JbBuffer_new`.  The functions below give, for one
point, what the iteration that handles it produces. -/

/-- Whether the first loop accepts a good point: the pattern loop ran through
and the energy is within `20 * outlierTH`. -/
def resAccepted (c : ResCtx) (patternP : List (Int × Int)) (point : Pnt) : Bool :=
  point.isGood && !(!(patternLoop c patternP point).isGood ||
    decide ((patternLoop c patternP point).energy > point.outlierTH * 20))

/-- The point the first loop stores for a point. -/
def resPnt (c : ResCtx) (patternP : List (Int × Int)) (point : Pnt) : Pnt :=
  if !point.isGood then
    { point with maxstep := 10 ^ 10, energy_new := point.energy, isGood_new := false }
  else if resAccepted c patternP point then
    { point with
      maxstep := (patternLoop c patternP point).maxstep
      energy_new := ((patternLoop c patternP point).energy, point.energy_new.2)
      isGood_new := true }
  else
    { point with
      maxstep := (patternLoop c patternP point).maxstep
      energy_new := point.energy, isGood_new := false }

/-- The entry of `JbBuffer_new` the first loop leaves for a point. -/
def resJb (c : ResCtx) (patternP : List (Int × Int)) (point : Pnt) (old : Vec10f) : Vec10f :=
  if !point.isGood then old else (patternLoop c patternP point).jb

/-- The value the first loop passes to `E.updateSingle` for a point. -/
def resE (c : ResCtx) (patternP : List (Int × Int)) (point : Pnt) : ℚ :=
  if resAccepted c patternP point then (patternLoop c patternP point).energy
  else point.energy.1

/-- What the first loop adds to `acc9` for a point. -/
def resAcc9 (c : ResCtx) (patternP : List (Int × Int)) (point : Pnt) : Mat99f :=
  if resAccepted c patternP point then
    ((patternLoop c patternP point).rows.map fun J => Matrix.vecMulVec J J).sum
  else 0

/-- The point the Schur-complement loop stores for a point whose entry of
`JbBuffer_new` is `jb`. -/
def schurPnt (point : Pnt) (jb : Vec10f) : Pnt :=
  if !point.isGood_new then point else { point with lastHessian_new := jb 9 }

/-- The entry of `JbBuffer_new` the Schur-complement loop leaves for a point. -/
def schurJbOf (alphaOpt couplingWeight : ℚ) (point : Pnt) (jb : Vec10f) : Vec10f :=
  if !point.isGood_new then jb else schurJb alphaOpt couplingWeight point jb

/-- What the Schur-complement loop adds to `acc9SC` for a point. -/
def schurAcc (alphaOpt couplingWeight : ℚ) (point : Pnt) (jb : Vec10f) : Mat99f :=
  if !point.isGood_new then 0
  else
    let jb1 := schurJb alphaOpt couplingWeight point jb
    jb1 9 • Matrix.vecMulVec (fun k : Fin 9 => jb1 (Fin.castLE (by decide) k))
      (fun k : Fin 9 => jb1 (Fin.castLE (by decide) k))

/-- The point `calcResAndGS` leaves for a point whose entry of `JbBuffer_new`
was `old` on entry: the three loops in turn. -/
def trialPnt (c : ResCtx) (patternP : List (Int × Int)) (point : Pnt) (old : Vec10f) : Pnt :=
  schurPnt (alphaPnt (resPnt c patternP point)) (resJb c patternP point old)

/-! ## The coarse-to-fine driver -/

/-- The member `wM`, the diagonal scaling the constructor fills in. -/
def wM (cfg : Settings) : Mat88f :=
  Matrix.diagonal ![cfg.SCALE_XI_ROT, cfg.SCALE_XI_ROT, cfg.SCALE_XI_ROT,
    cfg.SCALE_XI_TRANS, cfg.SCALE_XI_TRANS, cfg.SCALE_XI_TRANS, cfg.SCALE_A, cfg.SCALE_B]

/-- The local table `maxIterations` of `trackFrame`. -/
def maxIterations : List Nat := [5, 5, 10, 30, 50]

/-- The entry `maxIterations[lvl]`; the table has five entries and a read past
its end is undefined in the source, it is `0` here. -/
def maxIterationsAt (lvl : Nat) : Nat := maxIterations.getD lvl 0

/-- A ghost record of one call of `calcResAndGS` made by `trackFrame`: the
level, the pose it was given, the `Vec3f` it returned, and the cap
`alphaK * numPoints[lvl]` of the alpha energy. -/
structure EvalLog where
  lvl : Nat
  pose : SE3
  res : ℚ × ℚ × ℚ
  cap : ℚ

/-- The locals of `trackFrame` that live across the iterations of the inner
loop of one level.  The field `evaluated` is a ghost: the calls of
`calcResAndGS` made so far, oldest first. -/
structure LMState where
  s : CoarseInitializer
  H : Mat88f
  b : Vec8f
  Hsc : Mat88f
  bsc : Vec8f
  resOld : ℚ × ℚ × ℚ
  refToNew_current : SE3
  refToNew_aff_current : AffLight
  lambda : ℚ
  fails : Nat
  evaluated : List EvalLog

/-- The increment `inc` the inner loop solves for. -/
def solveInc (env : Env) (st : LMState) (lvl : Nat) : Vec8f :=
  let Hl : Mat88f := fun i j => if i = j then st.H i j * (1 + st.lambda) else st.H i j
  let Hl := Hl - (1 / (1 + st.lambda)) • st.Hsc
  let bl := st.b - (1 / (1 + st.lambda)) • st.bsc
  let sc : ℚ := (1 / 100) / ((st.s.w_ lvl * st.s.h_ lvl : Int) : ℚ)
  let Hl := sc • (wM env.cfg * Hl * wM env.cfg)
  let bl := sc • (wM env.cfg).mulVec bl
  if st.s.fixAffine then
    let Hl6 : Matrix (Fin 6) (Fin 6) ℚ :=
      fun i j => Hl (Fin.castLE (by decide) i) (Fin.castLE (by decide) j)
    let wM6 : Matrix (Fin 6) (Fin 6) ℚ :=
      fun i j => wM env.cfg (Fin.castLE (by decide) i) (Fin.castLE (by decide) j)
    let sol := wM6.mulVec (env.ldltSolve6 Hl6 fun k => bl (Fin.castLE (by decide) k))
    fun k => if h : k.val < 6 then -(sol ⟨k.val, h⟩) else 0
  else
    -((wM env.cfg).mulVec (env.ldltSolve8 Hl bl))

/-- The norm `inc.norm()`. -/
def incNorm (env : Env) (inc : Vec8f) : ℚ := env.sqrtf (∑ k, inc k * inc k)

/-- The pose `SE3::exp(inc.head<6>()) * refToNew_current` a trial evaluates. -/
def trialPose (env : Env) (st : LMState) (inc : Vec8f) : SE3 :=
  SE3.mul (env.se3Exp fun k => inc (Fin.castLE (by decide) k)) st.refToNew_current

/-- The brightness transfer a trial evaluates. -/
def trialAff (st : LMState) (inc : Vec8f) : AffLight :=
  ⟨st.refToNew_aff_current.a + inc 6, st.refToNew_aff_current.b + inc 7⟩

/-- What one trial computes before the accept test: the state after `doStep`
and `calcResAndGS` at the proposal, the outputs of `calcResAndGS`, and the
result of `calcEC`. -/
structure Trial where
  inc : Vec8f
  refToNew_new : SE3
  refToNew_aff_new : AffLight
  s : CoarseInitializer
  out : ResOut
  regEnergy : ℚ × ℚ × ℚ

/-- The first half of the body of the inner loop, up to `calcEC`. -/
def runTrial (env : Env) (lvl : Nat) (st : LMState) : Trial :=
  let inc := solveInc env st lvl
  let refToNew_new := trialPose env st inc
  let refToNew_aff_new := trialAff st inc
  let s1 := doStep st.s lvl st.lambda inc
  let r := calcResAndGS env s1 lvl refToNew_new refToNew_aff_new
  { inc := inc, refToNew_new := refToNew_new, refToNew_aff_new := refToNew_aff_new
    s := r.1, out := r.2, regEnergy := calcEC r.1 lvl }

/-- The local `eTotalNew`. -/
def Trial.eTotalNew (tr : Trial) : ℚ := tr.out.res.1 + tr.out.res.2.1 + tr.regEnergy.2.1

/-- The local `eTotalOld`. -/
def Trial.eTotalOld (tr : Trial) (st : LMState) : ℚ :=
  st.resOld.1 + st.resOld.2.1 + tr.regEnergy.1

/-- The local `accept`. -/
def Trial.accept (tr : Trial) (st : LMState) : Bool := decide (tr.eTotalOld st > tr.eTotalNew)

/-- The `if (accept)` branch of the inner loop. -/
def acceptTrial (lvl : Nat) (st : LMState) (tr : Trial) : LMState :=
  let s1 : CoarseInitializer :=
    if tr.out.res.2.1 = tr.s.alphaK * tr.s.numPoints lvl then { tr.s with snapped := true }
    else tr.s
  let s2 := optReg (applyStep s1 lvl) lvl
  let lambda := st.lambda * (1 / 2)
  { s := s2
    H := tr.out.H_out, b := tr.out.b_out, Hsc := tr.out.H_out_sc, bsc := tr.out.b_out_sc
    resOld := tr.out.res
    refToNew_current := tr.refToNew_new
    refToNew_aff_current := tr.refToNew_aff_new
    lambda := if lambda < 1 / 10000 then 1 / 10000 else lambda
    fails := 0
    evaluated := st.evaluated ++
      [⟨lvl, tr.refToNew_new, tr.out.res, tr.s.alphaK * tr.s.numPoints lvl⟩] }

/-- The `else` branch of the inner loop. -/
def rejectTrial (lvl : Nat) (st : LMState) (tr : Trial) : LMState :=
  let lambda := st.lambda * 4
  { st with
    s := tr.s
    fails := st.fails + 1
    lambda := if lambda > 10000 then 10000 else lambda
    evaluated := st.evaluated ++
      [⟨lvl, tr.refToNew_new, tr.out.res, tr.s.alphaK * tr.s.numPoints lvl⟩] }

/-- One pass through the body of the inner loop, up to the quit test. -/
def lmTrial (env : Env) (lvl : Nat) (st : LMState) : LMState :=
  let tr := runTrial env lvl st
  if tr.accept st then acceptTrial lvl st tr else rejectTrial lvl st tr

/-- The quit test at the end of the body of the inner loop, for the state
after the trial. -/
def quitOpt (env : Env) (lvl : Nat) (iteration : Nat) (inc : Vec8f) (st : LMState) : Bool :=
  !decide (incNorm env inc > 1 / 10000) || decide (iteration ≥ maxIterationsAt lvl) ||
    decide (st.fails ≥ 2)

/-- The inner loop `while (true)` of `trackFrame`, entered with the counter
`iteration`. -/
def lmLoop (env : Env) (lvl : Nat) (iteration : Nat) (st : LMState) : LMState :=
  let st1 := lmTrial env lvl st
  if h : quitOpt env lvl iteration (solveInc env st lvl) st1 = true then st1
  else lmLoop env lvl (iteration + 1) st1
termination_by maxIterationsAt lvl - iteration
decreasing_by
  simp only [quitOpt, Bool.or_eq_true, decide_eq_true_eq, not_or] at h
  omega

/-- The locals of `trackFrame` that live across the levels; `evaluated` is the
ghost list of the calls of `calcResAndGS`. -/
structure TrackState where
  s : CoarseInitializer
  refToNew_current : SE3
  refToNew_aff_current : AffLight
  latestRes : ℚ × ℚ × ℚ
  evaluated : List EvalLog

/-- The body of the loop over the levels, for level `lvl`. -/
def trackLevel (env : Env) (lvl : Nat) (ts : TrackState) : TrackState :=
  let s0 := if lvl < env.cfg.pyrLevelsUsed - 1 then propagateDown ts.s (lvl + 1) else ts.s
  let s1 := resetPoints env.cfg s0 lvl
  let r := calcResAndGS env s1 lvl ts.refToNew_current ts.refToNew_aff_current
  let s2 := applyStep r.1 lvl
  let st := lmLoop env lvl 0
    { s := s2, H := r.2.H_out, b := r.2.b_out, Hsc := r.2.H_out_sc, bsc := r.2.b_out_sc
      resOld := r.2.res
      refToNew_current := ts.refToNew_current
      refToNew_aff_current := ts.refToNew_aff_current
      lambda := 1 / 10, fails := 0
      evaluated := ts.evaluated ++
        [⟨lvl, ts.refToNew_current, r.2.res, r.1.alphaK * r.1.numPoints lvl⟩] }
  { s := st.s
    refToNew_current := st.refToNew_current
    refToNew_aff_current := st.refToNew_aff_current
    latestRes := st.resOld
    evaluated := st.evaluated }

/-- The loop `for (lvl = n - 1; lvl >= 0; lvl--)` over the levels. -/
def trackLevels (env : Env) : Nat → TrackState → TrackState
  | 0, ts => ts
  | n + 1, ts => trackLevels env n (trackLevel env n ts)

/-- The reset `trackFrame` performs on entry while the initializer has not
snapped. -/
def unsnappedReset (cfg : Settings) (s : CoarseInitializer) : CoarseInitializer :=
  if !s.snapped then
    { s with
      thisToNext := s.thisToNext.setTranslationZero
      points := fun lvl =>
        if lvl < cfg.pyrLevelsUsed then
          (s.points lvl).map fun p => { p with iR := 1, idepth_new := 1, lastHessian := 0 }
        else s.points lvl }
  else s

/-- The end of `trackFrame`: the frame counter and the snap marker. -/
def finishFrame (s : CoarseInitializer) : CoarseInitializer :=
  let frameID := s.frameID + 1
  let snappedAt := if !s.snapped then 0 else s.snappedAt
  let snappedAt := if s.snapped ∧ snappedAt = 0 then frameID else snappedAt
  { s with frameID := frameID, snappedAt := snappedAt }

/-- The constants `trackFrame` assigns on entry, and the new frame. -/
def enterFrame (s : CoarseInitializer) (newFrameHessian : FrameHessian) : CoarseInitializer :=
  { s with newFrame := newFrameHessian, alphaK := 5 / 2 * (5 / 2), alphaW := 150 * 150,
           regWeight := 4 / 5, couplingWeight := 1 }

/-- The member function `CoarseInitializer::trackFrame` up to, and without,
the statement `frameID++`. -/
def trackFrameBody (env : Env) (s : CoarseInitializer) (newFrameHessian : FrameHessian) :
    TrackState :=
  let s := enterFrame s newFrameHessian
  let s := unsnappedReset env.cfg s
  let refToNew_aff_current : AffLight :=
    if s.firstFrame.ab_exposure > 0 ∧ s.newFrame.ab_exposure > 0 then
      ⟨env.logf (s.newFrame.ab_exposure / s.firstFrame.ab_exposure), 0⟩
    else s.thisToNext_aff
  let ts := trackLevels env env.cfg.pyrLevelsUsed
    { s := s, refToNew_current := s.thisToNext, refToNew_aff_current := refToNew_aff_current
      latestRes := (0, 0, 0), evaluated := [] }
  let s := { ts.s with thisToNext := ts.refToNew_current
                       thisToNext_aff := ts.refToNew_aff_current }
  let s := forLoop (env.cfg.pyrLevelsUsed - 1) (fun i s => propagateUp s i) s
  { ts with s := s }

/-- The member function `CoarseInitializer::trackFrame` up to its `return`:
the final state of the object together with the ghost list of the calls of
`calcResAndGS`. -/
def trackFrameRun (env : Env) (s : CoarseInitializer) (newFrameHessian : FrameHessian) :
    TrackState :=
  let ts := trackFrameBody env s newFrameHessian
  { ts with s := finishFrame ts.s }

/-- The value `trackFrame` returns. -/
def readyFlag (s : CoarseInitializer) : Bool := s.snapped && decide (s.frameID > s.snappedAt + 5)

/-- The member function `CoarseInitializer::trackFrame`: the state it leaves
and the flag it returns. -/
def trackFrame (env : Env) (s : CoarseInitializer) (newFrameHessian : FrameHessian) :
    CoarseInitializer × Bool :=
  let ts := trackFrameRun env s newFrameHessian
  (ts.s, readyFlag ts.s)

/-- The committed state of a point: the committed depth, the regularized
depth, the validity flag, the energy and the confidence. -/
def Pnt.committed (p : Pnt) : ℚ × ℚ × Bool × Vec2f × ℚ :=
  (p.idepth, p.iR, p.isGood, p.energy, p.lastHessian)

/-! ## Coarse depth maps -/

/-- The conversion of a `float` to `int`, which truncates toward zero. -/
def truncToInt (x : ℚ) : Int := if 0 ≤ x then ⌊x⌋ else ⌈x⌉

/-- The buffers `idepth_[lvl]` and `weight_sums_[lvl]` of one level, and the
compact list `(pc_u_, pc_v_, pc_idepth_, pc_color_)[lvl]` up to `pc_n_[lvl]`. -/
structure DepthBuf where
  idepth : Int → ℚ
  weight : Int → ℚ
  pc : List (ℚ × ℚ × ℚ × ℚ)

/-- The cell `u + w_[lvl] * v` a point is splatted into. -/
def splatIndex (wl : Int) (p : Pnt) : Int :=
  truncToInt (p.u + 1 / 2) + wl * truncToInt (p.v + 1 / 2)

/-- The loop body of the splatting loop for one point. -/
def splatPnt (wl : Int) (buf : DepthBuf) (p : Pnt) : DepthBuf :=
  if p.isGood then
    let i := splatIndex wl p
    { buf with
      idepth := Function.update buf.idepth i (buf.idepth i + p.iR * 1)
      weight := Function.update buf.weight i (buf.weight i + 1) }
  else buf

/-- The neighbour offsets of the dilation of levels 0 and 1. -/
def diagOffsets (wl : Int) : List Int := [1 + wl, -1 - wl, wl - 1, -wl + 1]

/-- The neighbour offsets of the dilation of the levels from 2 on. -/
def axisOffsets (wl : Int) : List Int := [1, -1, wl, -wl]

/-- The loop body of a dilation pass for cell `i`; `bak` is the copy
`weightSumsl_bak` taken before the pass. -/
def dilateCell (offs : List Int) (bak : Int → ℚ) (i : Int) (buf : DepthBuf) : DepthBuf :=
  if bak i ≤ 0 then
    let hit := offs.filter fun o => decide (bak (i + o) > 0)
    let sum := (hit.map fun o => buf.idepth (i + o)).sum
    let num := (hit.map fun o => bak (i + o)).sum
    let numn : ℚ := hit.length
    if numn > 0 then
      { buf with
        idepth := Function.update buf.idepth i (sum / numn)
        weight := Function.update buf.weight i (num / numn) }
    else buf
  else buf

/-- The copy `memcpy(weightSumsl_bak, weightSumsl, w * h * sizeof(float))`. -/
def memcpyBak (wl hl : Int) (bak weight : Int → ℚ) : Int → ℚ :=
  fun j => if 0 ≤ j ∧ j < wl * hl then weight j else bak j

/-- One dilation pass over the cells `w ≤ i < w * h - w` of a level; returns the
buffers and the copy `weightSumsl_bak`. -/
def dilatePass (offs : List Int) (wl hl : Int) (bak : Int → ℚ) (buf : DepthBuf) :
    DepthBuf × (Int → ℚ) :=
  let wh := wl * hl - wl
  let bak1 := memcpyBak wl hl bak buf.weight
  (forLoop (wh - wl).toNat (fun k => dilateCell offs bak1 (wl + k)) buf, bak1)

/-- The loop body of the normalization for the cell of pixel `(x, y)`. -/
def normalizeCell (color0 : Int → Sample1) (wl : Int) (x y : Int) (buf : DepthBuf) : DepthBuf :=
  let i := x + y * wl
  if buf.weight i > 0 then
    let d := buf.idepth i / buf.weight i
    let c := color0 i
    if !c.finite || !decide (d > 0) then
      { buf with idepth := Function.update buf.idepth i (-1) }
    else
      { idepth := Function.update buf.idepth i d
        weight := Function.update buf.weight i 1
        pc := buf.pc ++ [((x : ℚ), (y : ℚ), d, c.val)] }
  else
    { buf with
      idepth := Function.update buf.idepth i (-1)
      weight := Function.update buf.weight i 1 }

/-- The normalization loops `for (y = 2; y < hl - 2; y++) for (x = 2; x < wl - 2; x++)`
of one level, started with an empty compact list. -/
def normalizeLevel (color0 : Int → Sample1) (wl hl : Int) (buf : DepthBuf) : DepthBuf :=
  forLoop (hl - 4).toNat
    (fun ky => forLoop (wl - 4).toNat (fun kx => normalizeCell color0 wl (2 + kx) (2 + ky)))
    { buf with pc := [] }

/-- The buffers of level `lvl` as a `DepthBuf`. -/
def getBuf (s : CoarseInitializer) (lvl : Nat) : DepthBuf :=
  ⟨s.idepth_ lvl, s.weight_sums_ lvl, s.pc_ lvl⟩

/-- Store a `DepthBuf` as the buffers of level `lvl`. -/
def setBuf (s : CoarseInitializer) (lvl : Nat) (buf : DepthBuf) : CoarseInitializer :=
  { s with
    idepth_ := Function.update s.idepth_ lvl buf.idepth
    weight_sums_ := Function.update s.weight_sums_ lvl buf.weight
    pc_ := Function.update s.pc_ lvl buf.pc }

/-- The two `memset` calls at the start of `makeCoarseDepth`, which clear the
buffers of level 0. -/
def clearLevel0 (s : CoarseInitializer) : CoarseInitializer :=
  { s with
    idepth_ := Function.update s.idepth_ 0
      fun j => if 0 ≤ j ∧ j < s.w_ 0 * s.h_ 0 then 0 else s.idepth_ 0 j
    weight_sums_ := Function.update s.weight_sums_ 0
      fun j => if 0 ≤ j ∧ j < s.w_ 0 * s.h_ 0 then 0 else s.weight_sums_ 0 j }

/-- The splatting loop of `makeCoarseDepth` for level `lvl`. -/
def splatLevel (lvl : Nat) (s : CoarseInitializer) : CoarseInitializer :=
  setBuf s lvl ((s.points lvl).foldl (splatPnt (s.w_ lvl)) (getBuf s lvl))

/-- A dilation pass of `makeCoarseDepth` on level `lvl`. -/
def dilateLevel (offs : Int → List Int) (lvl : Nat) (s : CoarseInitializer) : CoarseInitializer :=
  let r := dilatePass (offs (s.w_ lvl)) (s.w_ lvl) (s.h_ lvl) (s.weight_sums_bak_ lvl) (getBuf s lvl)
  { setBuf s lvl r.1 with weight_sums_bak_ := Function.update s.weight_sums_bak_ lvl r.2 }

/-- The normalization of `makeCoarseDepth` on level `lvl`. -/
def normalizeLvl (lvl : Nat) (s : CoarseInitializer) : CoarseInitializer :=
  setBuf s lvl (normalizeLevel (s.firstFrame.color0 lvl) (s.w_ lvl) (s.h_ lvl) (getBuf s lvl))

/-- The member function `CoarseInitializer::makeCoarseDepth`. -/
def makeCoarseDepth (cfg : Settings) (s : CoarseInitializer) : CoarseInitializer :=
  let s := clearLevel0 s
  let s := forLoop cfg.pyrLevelsUsed splatLevel s
  let s := forLoop 2 (dilateLevel diagOffsets) s
  let s := forLoop (cfg.pyrLevelsUsed - 2) (fun k => dilateLevel axisOffsets (k + 2)) s
  forLoop cfg.pyrLevelsUsed normalizeLvl s

/-! ## Neighbour graph -/

/-- The weights `makeNN` stores in `neighboursDist` for the squared distances
`ret_dist` of a nearest-neighbour query: `df = expf(-ret_dist[k] * NNDistFactor)`
with `NNDistFactor = 0.05`, then `neighboursDist[k] *= 10 / sumDF`.  The
definition is generic in the field so that it can be read with the real
exponential as well as with the `expf` of `Env`. -/
def nnWeights {F : Type} [Field F] (expf : F → F) (ret_dist : Fin 10 → F) : Fin 10 → F :=
  let df : Fin 10 → F := fun k => expf (-ret_dist k * (5 / 100))
  let sumDF : F := ∑ k, df k
  fun k => df k * (10 / sumDF)

/-- The loop body of `makeNN` for one point of level `lvl`. -/
def makeNNPnt (env : Env) (points : Nat → List Pnt) (lvl : Nat) (p : Pnt) : Pnt :=
  let r := env.knn10 (points lvl) (p.u, p.v)
  let p1 : Pnt := { p with neighbours := r.1, neighboursDist := nnWeights env.expf r.2 }
  if lvl < env.cfg.pyrLevelsUsed - 1 then
    let r1 := env.knn1 (points (lvl + 1)) (p.u * (1 / 2) - 1 / 4, p.v * (1 / 2) - 1 / 4)
    { p1 with parent := r1.1, parentDist := env.expf (-r1.2 * (5 / 100)) }
  else { p1 with parent := -1, parentDist := -1 }

/-- The member function `CoarseInitializer::makeNN`. -/
def makeNN (env : Env) (s : CoarseInitializer) : CoarseInitializer :=
  { s with
    points := fun lvl =>
      if lvl < env.cfg.pyrLevelsUsed then (s.points lvl).map (makeNNPnt env s.points lvl)
      else s.points lvl }

/-! ## Predicates used in the statements -/

/-- A step of the object that keeps the counters `frameID` and `snappedAt`, the
constants and the number of points of every level, and does not clear `snapped`. -/
def CtlStep (s s' : CoarseInitializer) : Prop :=
  s'.frameID = s.frameID ∧ s'.snappedAt = s.snappedAt ∧ (s.snapped = true → s'.snapped = true) ∧
  s'.alphaK = s.alphaK ∧ s'.alphaW = s.alphaW ∧ s'.regWeight = s.regWeight ∧
  s'.couplingWeight = s.couplingWeight ∧
  ∀ lvl, (s'.points lvl).length = (s.points lvl).length

/-! ## Example data -/

/-- The assignments `setFirst` makes to a freshly allocated point at pixel
`(x, y)`; the fields it leaves unassigned keep the value of `old`. -/
def seedPnt (cfg : Settings) (x y : Int) (my_type : ℚ) (old : Pnt) : Pnt :=
  { old with
    u := x + 1 / 10, v := y + 1 / 10
    idepth := 1, iR := 1, isGood := true
    energy := (0, 0), lastHessian := 0, lastHessian_new := 0
    my_type := my_type
    outlierTH := cfg.patternNum * cfg.setting_outlierTH }

/-- A point with every field cleared and no neighbour and no parent. -/
def blankPnt : Pnt :=
  { u := 0, v := 0, idepth := 0, isGood := false, energy := (0, 0), isGood_new := false
    idepth_new := 0, energy_new := (0, 0), iR := 0, iRSumNum := 0, lastHessian := 0
    lastHessian_new := 0, maxstep := 0, parent := -1, parentDist := -1
    neighbours := fun _ => -1, neighboursDist := fun _ => 0, my_type := 0, outlierTH := 0 }

/-- Example settings: two pyramid levels, the 8-point sampling pattern, and
the thresholds and scales of the reference configuration. -/
def exampleCfg : Settings :=
  { pyrLevelsUsed := 2
    patternP := [(0, -2), (-1, -1), (1, -1), (-2, 0), (0, 0), (2, 0), (-1, 1), (0, 2)]
    patternPadding := 2
    setting_huberTH := 9
    setting_outlierTH := 144
    SCALE_XI_ROT := 1
    SCALE_XI_TRANS := 1 / 2
    SCALE_A := 10
    SCALE_B := 1000 }

/-- An example environment.  The library functions are stand-ins: the solver
returns the zero increment and `se3Exp` the identity, as for a linear system
with zero right-hand side. -/
def exampleEnv : Env :=
  { cfg := exampleCfg
    expf := fun _ => 1
    logf := fun _ => 0
    sqrtf := fun x => x
    se3Exp := fun _ => SE3.identity
    se3Log := fun _ _ => 0
    ldltSolve6 := fun _ _ => 0
    ldltSolve8 := fun _ _ => 0
    knn10 := fun _ _ => (fun _ => 0, fun _ => 0)
    knn1 := fun _ _ => (0, 0) }

/-- An example frame of constant intensity 100 with zero gradient. -/
def exampleFrame : FrameHessian :=
  { interp33 := fun _ _ _ => ⟨![100, 0, 0], true⟩
    interp31 := fun _ _ _ => ⟨100, true⟩
    color0 := fun _ _ => ⟨100, true⟩
    ab_exposure := 1 }

/-- A point as `setFirst` seeds it at pixel `(x, y)`, with the working depth 1
that the entry reset of `trackFrame` gives it, and with the given neighbours
and parent. -/
def examplePnt (x y : Int) (nb : Fin 10 → Int) (parent : Int) : Pnt :=
  { seedPnt exampleCfg x y 1 blankPnt with idepth_new := 1, neighbours := nb, parent := parent }

/-- The single point of level 1 of the example object. -/
def examplePnt1 : Pnt := examplePnt 5 4 ![0, -1, -1, -1, -1, -1, -1, -1, -1, -1] (-1)

/-- An example of a freshly seeded object: a 32×24 image with two levels, two
points on level 0 with the single point of level 1 as their parent. -/
def exampleState : CoarseInitializer :=
  { points := fun lvl =>
      if lvl = 0 then
        [examplePnt 8 8 ![0, 1, -1, -1, -1, -1, -1, -1, -1, -1] 0,
         examplePnt 12 8 ![1, 0, -1, -1, -1, -1, -1, -1, -1, -1] 0]
      else if lvl = 1 then [examplePnt1]
      else []
    JbBuffer := fun _ => 0
    JbBuffer_new := fun _ => 0
    thisToNext := SE3.identity
    thisToNext_aff := ⟨0, 0⟩
    snapped := false
    frameID := 0
    snappedAt := 0
    fixAffine := true
    alphaK := 5 / 2 * (5 / 2)
    alphaW := 150 * 150
    regWeight := 4 / 5
    couplingWeight := 1
    w_ := fun lvl => if lvl = 0 then 32 else 16
    h_ := fun lvl => if lvl = 0 then 24 else 12
    fx_ := fun lvl => if lvl = 0 then 20 else 10
    fy_ := fun lvl => if lvl = 0 then 20 else 10
    cx_ := fun lvl => if lvl = 0 then 16 else 31 / 4
    cy_ := fun lvl => if lvl = 0 then 12 else 23 / 4
    Ki_ := fun lvl =>
      if lvl = 0 then !![1 / 20, 0, -4 / 5; 0, 1 / 20, -3 / 5; 0, 0, 1]
      else !![1 / 10, 0, -31 / 40; 0, 1 / 10, -23 / 40; 0, 0, 1]
    firstFrame := exampleFrame
    newFrame := exampleFrame
    idepth_ := fun _ _ => 0
    weight_sums_ := fun _ _ => 0
    weight_sums_bak_ := fun _ _ => 0
    pc_ := fun _ => [] }

/-- The example object some frames after it snapped at frame 5. -/
def snappedState : CoarseInitializer :=
  { exampleState with snapped := true, frameID := 9, snappedAt := 5 }

/-- A point of the regularizer example: committed depth 1, regularized depth
`iR`, good, with the three points of the level as its neighbours. -/
def regPnt (iR : ℚ) (nb : Fin 10 → Int) : Pnt :=
  { seedPnt exampleCfg 8 8 1 blankPnt with iR := iR, idepth_new := 1, neighbours := nb }

/-- A snapped object whose level 0 holds three good points of committed depth 1
and regularized depths 1, 2 and 3, each with all three as neighbours. -/
def regState : CoarseInitializer :=
  { exampleState with
    snapped := true
    points := fun lvl =>
      if lvl = 0 then
        [regPnt 1 ![0, 1, 2, -1, -1, -1, -1, -1, -1, -1],
         regPnt 2 ![1, 0, 2, -1, -1, -1, -1, -1, -1, -1],
         regPnt 3 ![2, 1, 0, -1, -1, -1, -1, -1, -1, -1]]
      else [] }

/-- The projected pixel `(Ku, Kv)` lies outside the image of the level, whose
pixel coordinates run over `0 … wl - 1` and `0 … hl - 1`. -/
def Proj.outsideImage (c : ResCtx) (pr : Proj) : Prop :=
  pr.Ku < 0 ∨ pr.Kv < 0 ∨ pr.Ku > c.wl - 1 ∨ pr.Kv > c.hl - 1

/-- The value `alphaOpt` of `calcResAndGS`: 0 when the alpha energy exceeds its
cap, `alphaW` otherwise. -/
def alphaOptOf (s : CoarseInitializer) (lvl : Nat) (refToNew : SE3) : ℚ :=
  if s.alphaW * ( Accumulator11.initialize.finish.A + refToNew.translationSquaredNorm *
      s.numPoints lvl) > s.alphaK * s.numPoints lvl then 0 else s.alphaW

/-- The object with point `i` of level `lvl` flagged not good. -/
def markNotGood (s : CoarseInitializer) (lvl i : Nat) : CoarseInitializer :=
  { s with
    points := Function.update s.points lvl
      (match (s.points lvl)[i]? with
        | some p => (s.points lvl).set i { p with isGood := false }
        | none => s.points lvl) }

/-- A pose with the identity rotation and a translation of 100 along `x`. -/
def farPose : SE3 := ⟨1, ![100, 0, 0]⟩

/-- What a run of successive `trackFrame` calls leaves: the final object, the
flags the calls returned, and the ghost records of all their `calcResAndGS`
calls, oldest first. -/
structure FramesRun where
  s : CoarseInitializer
  flags : List Bool
  log : List EvalLog

/-- Successive calls of `trackFrame`, one per frame of the list. -/
def trackFrames (env : Env) : CoarseInitializer → List FrameHessian → FramesRun
  | s, [] => ⟨s, [], []⟩
  | s, f :: fs =>
    let r := trackFrames env (trackFrame env s f).1 fs
    ⟨r.s, (trackFrame env s f).2 :: r.flags, (trackFrameRun env s f).evaluated ++ r.log⟩

/-- Every pose handed to `calcResAndGS` during the successive calls has zero
translation. -/
def ZeroTranslationRuns (env : Env) (s : CoarseInitializer) (fs : List FrameHessian) : Prop :=
  ∀ e ∈ (trackFrames env s fs).log, e.pose.t = 0

/-- The invariant of `trackFrame` behind the absence of a snap: `alphaK` is the
constant `trackFrame` sets, every level in use has a point, and as long as
every recorded pose has zero translation the object has not snapped and every
recorded alpha energy is below its cap. -/
def NoSnapInv (env : Env) (s : CoarseInitializer) (log : List EvalLog) : Prop :=
  s.alphaK = 5 / 2 * (5 / 2) ∧
  (∀ l < env.cfg.pyrLevelsUsed, 1 ≤ (s.points l).length) ∧
  ((∀ e ∈ log, e.pose.t = 0) → s.snapped = false ∧ ∀ e ∈ log, e.res.2.1 < e.cap)

/-- The operations of `trackFrame` that change points, and the assignment
`snapped = true` of its accept branch. -/
inductive PointOp where
  | resetPoints (lvl : Nat)
  | doStep (lvl : Nat) (lambda : ℚ) (inc : Vec8f)
  | applyStep (lvl : Nat)
  | optReg (lvl : Nat)
  | propagateUp (srcLvl : Nat)
  | propagateDown (srcLvl : Nat)
  | calcResAndGS (lvl : Nat) (refToNew : SE3) (refToNew_aff : AffLight)
  | snap

/-- Whether an operation is the assignment `snapped = true`. -/
def PointOp.isSnap : PointOp → Bool
  | PointOp.snap => true
  | _ => false

/-- The effect of one operation on the object. -/
def PointOp.run (env : Env) (s : CoarseInitializer) : PointOp → CoarseInitializer
  | PointOp.resetPoints lvl => dso.resetPoints env.cfg s lvl
  | PointOp.doStep lvl lambda inc => dso.doStep s lvl lambda inc
  | PointOp.applyStep lvl => dso.applyStep s lvl
  | PointOp.optReg lvl => dso.optReg s lvl
  | PointOp.propagateUp srcLvl => dso.propagateUp s srcLvl
  | PointOp.propagateDown srcLvl => dso.propagateDown s srcLvl
  | PointOp.calcResAndGS lvl refToNew refToNew_aff =>
      (dso.calcResAndGS env s lvl refToNew refToNew_aff).1
  | PointOp.snap => { s with snapped := true }

/-- The effect of a sequence of operations, first to last. -/
def runOps (env : Env) (s : CoarseInitializer) (ops : List PointOp) : CoarseInitializer :=
  ops.foldl (PointOp.run env) s

/-- A freshly seeded object, as `setFirst` leaves it and with the working depth
the entry reset of `trackFrame` assigns: not snapped, and every point of every
level has `idepth = iR = idepth_new = 1` and `lastHessian = lastHessian_new = 0`. -/
def Seeded (s : CoarseInitializer) : Prop :=
  s.snapped = false ∧
  ∀ lvl, ∀ p ∈ s.points lvl,
    p.idepth = 1 ∧ p.iR = 1 ∧ p.idepth_new = 1 ∧ p.lastHessian = 0 ∧ p.lastHessian_new = 0

/-- Every point of every level has its committed inverse depth in `[1e-3, 50]`. -/
def DepthInRange (s : CoarseInitializer) : Prop :=
  ∀ lvl, ∀ p ∈ s.points lvl, 1 / 1000 ≤ p.idepth ∧ p.idepth ≤ 50

/-- A pose turned by half a turn about the vertical axis, with zero
translation: every point is behind the camera. -/
def turnedPose : SE3 := ⟨Matrix.diagonal ![-1, 1, -1], 0⟩

/-- The operations of two successive `trackFrame` calls on two levels, in the
order `trackFrame` performs them, for a current pose turned away from the
scene: level 1 and level 0 of the first frame, each with its first
`calcResAndGS`; at level 0 one accepted trial (at a pose with translation)
that snaps; the closing `propagateUp`; and the start of level 1 of the next
frame. -/
def snapOps : List PointOp :=
  [PointOp.resetPoints 1, PointOp.calcResAndGS 1 turnedPose ⟨0, 0⟩, PointOp.applyStep 1,
   PointOp.propagateDown 1, PointOp.resetPoints 0,
   PointOp.calcResAndGS 0 turnedPose ⟨0, 0⟩, PointOp.applyStep 0,
   PointOp.doStep 0 (1 / 10) 0, PointOp.calcResAndGS 0 farPose ⟨0, 0⟩,
   PointOp.snap, PointOp.applyStep 0, PointOp.optReg 0,
   PointOp.propagateUp 0,
   PointOp.resetPoints 1, PointOp.calcResAndGS 1 farPose ⟨0, 0⟩, PointOp.applyStep 1]

/-- The operations of `snapOps` without the snap. -/
def noSnapOps : List PointOp := snapOps.filter fun op => !op.isSnap

/-- The depths of a point are in `[1e-3, 50]` and its confidences are not
negative. -/
def PntOK (p : Pnt) : Prop :=
  1 / 1000 ≤ p.idepth ∧ p.idepth ≤ 50 ∧ 1 / 1000 ≤ p.iR ∧ p.iR ≤ 50 ∧
  1 / 1000 ≤ p.idepth_new ∧ p.idepth_new ≤ 50 ∧ 0 ≤ p.lastHessian ∧ 0 ≤ p.lastHessian_new

/-- As `PntOK`, but with `iR` and `iRSumNum` holding the accumulators of
`propagateUp`: a weight that is not negative and a weighted sum within
`[1e-3, 50]` times the weight. -/
def PntAcc (p : Pnt) : Prop :=
  1 / 1000 ≤ p.idepth ∧ p.idepth ≤ 50 ∧
  0 ≤ p.iRSumNum ∧ 1 / 1000 * p.iRSumNum ≤ p.iR ∧ p.iR ≤ 50 * p.iRSumNum ∧
  1 / 1000 ≤ p.idepth_new ∧ p.idepth_new ≤ 50 ∧ 0 ≤ p.lastHessian ∧ 0 ≤ p.lastHessian_new

/-- The invariant of the operations while the object has not snapped. -/
def RangeInv (s : CoarseInitializer) : Prop :=
  s.snapped = false ∧ ∀ lvl, ∀ p ∈ s.points lvl, PntOK p

/-- Every point of the list carries the depth `c`: `idepth = iR = c`. -/
def FlatLevel (l : List Pnt) (c : ℚ) : Prop := ∀ p ∈ l, p.idepth = c ∧ p.iR = c

/-- Every point of the coarser list `ptst` is the parent of at least one good
point of `ptss` with positive `lastHessian`. -/
def ParentsCovered (ptss ptst : List Pnt) : Prop :=
  ∀ j < ptst.length, ∃ p ∈ ptss, p.isGood = true ∧ 0 < p.lastHessian ∧ p.parent = (j : Int)

/-- A point of the flat-field example: depth 2 everywhere, with the given
confidence. -/
def flatPnt (lastHessian : ℚ) (nb : Fin 10 → Int) (parent : Int) : Pnt :=
  { examplePnt 8 8 nb parent with
    idepth := 2, iR := 2, idepth_new := 2, lastHessian := lastHessian }

/-- A snapped object with a flat depth field `c = 2` on both levels: two good
points of confidence 0 on level 0, their parent of confidence 1 on level 1. -/
def flatState : CoarseInitializer :=
  { exampleState with
    snapped := true
    points := fun lvl =>
      if lvl = 0 then
        [flatPnt 0 ![0, 1, -1, -1, -1, -1, -1, -1, -1, -1] 0,
         flatPnt 0 ![1, 0, -1, -1, -1, -1, -1, -1, -1, -1] 0]
      else if lvl = 1 then [flatPnt 1 ![0, -1, -1, -1, -1, -1, -1, -1, -1, -1] (-1)]
      else [] }

/-- The pixel column `int u = ptsl[i].u + 0.5f` a point is splatted into. -/
def roundX (p : Pnt) : Int := truncToInt (p.u + 1 / 2)

/-- The pixel row `int v = ptsl[i].v + 0.5f` a point is splatted into. -/
def roundY (p : Pnt) : Int := truncToInt (p.v + 1 / 2)

/-- A dense depth field on a `w × h` grid: every good point of the list rounds
to a pixel of the grid, and every pixel `(x, y)` of the grid is the rounded
position of exactly one good point, which carries `iR = d x y > 0`. -/
def CoversGrid (pts : List Pnt) (w h : Int) (d : Int → Int → ℚ) : Prop :=
  (∀ p ∈ pts, p.isGood = true → 0 ≤ roundX p ∧ roundX p < w ∧ 0 ≤ roundY p ∧ roundY p < h) ∧
  ∀ x y, 0 ≤ x → x < w → 0 ≤ y → y < h →
    0 < d x y ∧
    ∃ p, pts.filter (fun p => p.isGood && decide (roundX p = x) && decide (roundY p = y)) = [p] ∧
      p.iR = d x y

/-- The interior pixels (margin 2) of a `w × h` grid in the order of the
normalization loops, each with its depth and its reference intensity. -/
def interiorList (w h : Int) (d : Int → Int → ℚ) (color0 : Int → Sample1) :
    List (ℚ × ℚ × ℚ × ℚ) :=
  (List.range (h - 4).toNat).flatMap fun (ky : Nat) =>
    (List.range (w - 4).toNat).map fun (kx : Nat) =>
      (((2 + kx : Int) : ℚ), ((2 + ky : Int) : ℚ), d (2 + kx) (2 + ky),
        (color0 ((2 + kx : Int) + (2 + ky : Int) * w)).val)


/-- A point as `setFirst` seeds it at pixel `(x, y)` of a 5×5 image, with the
regularized depth `1 + x + 5 y`. -/
def gridPnt (x y : Nat) : Pnt :=
  { seedPnt exampleCfg x y 1 blankPnt with iR := 1 + x + 5 * y }

/-- One point for every pixel of a 5×5 image, row by row. -/
def gridPoints : List Pnt :=
  [0, 1, 2, 3, 4].flatMap fun (y : Nat) => [0, 1, 2, 3, 4].map fun (x : Nat) => gridPnt x y

/-- The depth field the points of `gridPoints` carry. -/
def gridDepth (x y : Int) : ℚ := 1 + x + 5 * y

/-- The example object with a 5×5 level 0 that has a point at every pixel. -/
def gridState : CoarseInitializer :=
  { exampleState with
    points := fun lvl => if lvl = 0 then gridPoints else []
    w_ := fun lvl => if lvl = 0 then 5 else 2
    h_ := fun lvl => if lvl = 0 then 5 else 2 }

/-- The two `assert`s of `makeNN`: for every point of a level below
`pyrLevelsUsed`, the ten indices the neighbour search returns lie in the point
array of the level, and, below the coarsest level, the index the parent search
returns lies in the point array of the next level. -/
def makeNNAsserts (env : Env) (s : CoarseInitializer) : Prop :=
  ∀ lvl, lvl < env.cfg.pyrLevelsUsed → ∀ p ∈ s.points lvl,
    (∀ k, 0 ≤ (env.knn10 (s.points lvl) (p.u, p.v)).1 k ∧
      (env.knn10 (s.points lvl) (p.u, p.v)).1 k < s.numPoints lvl) ∧
    (lvl < env.cfg.pyrLevelsUsed - 1 →
      0 ≤ (env.knn1 (s.points (lvl + 1)) (p.u * (1 / 2) - 1 / 4, p.v * (1 / 2) - 1 / 4)).1 ∧
      (env.knn1 (s.points (lvl + 1)) (p.u * (1 / 2) - 1 / 4, p.v * (1 / 2) - 1 / 4)).1 <
        s.numPoints (lvl + 1))

/-- Follow the parent links from point `i` of level `lvl`, for at most `fuel`
links: the number of links followed.  A link leads from a point of a level to
the point `parent` of the next level; the walk stops at a point whose parent is
the sentinel `-1` and at an index outside the array. -/
def parentSteps (points : Nat → List Pnt) : Nat → Nat → Int → Nat
  | 0, _, _ => 0
  | fuel + 1, lvl, i =>
    match getPnt (points lvl) i with
    | none => 0
    | some p => if p.parent = -1 then 0 else 1 + parentSteps points fuel (lvl + 1) p.parent
/-- The clamp of `x` to the interval `[lo, hi]`, as the statements about
`doStep` use it. -/
def clampTo (x lo hi : ℚ) : ℚ := max lo (min x hi)

/-- The depth step `doStep` derives for point `i` before bounding it:
`-(JbBuffer[i][8] + JbBuffer[i].head<8>().dot(inc)) * JbBuffer[i][9] / (1 + lambda)`. -/
def rawStep (JbBuffer : Nat → Vec10f) (lambda : ℚ) (inc : Vec8f) (i : Nat) : ℚ :=
  -(JbBuffer i 8 + head8Dot (JbBuffer i) inc) * JbBuffer i 9 / (1 + lambda)

/-- The bound `min(0.25 * maxstep, 1e10)` on the depth step of a point. -/
def stepBound (p : Pnt) : ℚ := min (1 / 4 * p.maxstep) (10 ^ 10)
/-- The state with which `trackFrame` enters the inner loop of level `lvl`:
the statements of the body of the loop over the levels up to `int iteration = 0`. -/
def lmInit (env : Env) (lvl : Nat) (ts : TrackState) : LMState :=
  let s0 := if lvl < env.cfg.pyrLevelsUsed - 1 then propagateDown ts.s (lvl + 1) else ts.s
  let s1 := resetPoints env.cfg s0 lvl
  let r := calcResAndGS env s1 lvl ts.refToNew_current ts.refToNew_aff_current
  let s2 := applyStep r.1 lvl
  { s := s2, H := r.2.H_out, b := r.2.b_out, Hsc := r.2.H_out_sc, bsc := r.2.b_out_sc
    resOld := r.2.res
    refToNew_current := ts.refToNew_current
    refToNew_aff_current := ts.refToNew_aff_current
    lambda := 1 / 10, fails := 0
    evaluated := ts.evaluated ++
      [⟨lvl, ts.refToNew_current, r.2.res, r.1.alphaK * r.1.numPoints lvl⟩] }

/-- A ghost count for the inner loop `while (true)` of `trackFrame`: the number
of passes through its body (trials) when it is entered with the counter
`iteration`. -/
def lmTrials (env : Env) (lvl : Nat) (iteration : Nat) (st : LMState) : Nat :=
  let st1 := lmTrial env lvl st
  if h : quitOpt env lvl iteration (solveInc env st lvl) st1 = true then 1
  else 1 + lmTrials env lvl (iteration + 1) st1
termination_by maxIterationsAt lvl - iteration
decreasing_by
  simp only [quitOpt, Bool.or_eq_true, decide_eq_true_eq, not_or] at h
  omega
/-- A square root on the rationals through the integer square roots of the
numerator and the denominator; it is exact on the squares of rationals. -/
def ratSqrt (x : ℚ) : ℚ := (Nat.sqrt x.num.toNat : ℚ) / (Nat.sqrt x.den : ℚ)

/-- The alpha energy before capping as `calcResAndGS` computes it:
`alphaW * (EAlpha.A + refToNew.translation().squaredNorm() * npts)`, where
`EAlpha` is initialized and finished but never updated. -/
def alphaEnergyRaw (s : CoarseInitializer) (lvl : Nat) (refToNew : SE3) : ℚ :=
  s.alphaW * ( Accumulator11.initialize.finish.A +
    refToNew.translationSquaredNorm * s.numPoints lvl)

/-- The alpha energy before capping as the specification states it, for the
points of a level after the residual loop and the translation of the pose:
`alphaW * (Σ (idepth_new - 1)² + ‖t‖² * N)`, the sum over the good points. -/
def alphaEnergySpec (alphaW : ℚ) (pts : List Pnt) (refToNew : SE3) : ℚ :=
  alphaW * (((pts.filter fun p => p.isGood_new).map fun p =>
    (p.idepth_new - 1) * (p.idepth_new - 1)).sum +
    refToNew.translationSquaredNorm * pts.length)

/-- A seeded point at pixel `(8, 8)` whose committed and working depth are 2. -/
def deepPnt : Pnt :=
  { examplePnt 8 8 ![0, -1, -1, -1, -1, -1, -1, -1, -1, -1] (-1) with idepth := 2, idepth_new := 2 }

/-- The example object with the single point `deepPnt` on level 0. -/
def deepState : CoarseInitializer :=
  { exampleState with points := fun lvl => if lvl = 0 then [deepPnt] else [] }
/-- The good points of a level whose parent link is point `j` of the next
level. -/
def childrenOf (ptss : List Pnt) (j : Nat) : List Pnt :=
  ptss.filter fun p => p.isGood && decide (p.parent = (j : Int))

/-- The accumulated weight of point `j` of the coarser level: the sum of
`lastHessian` over its good children. -/
def accWeight (ptss : List Pnt) (j : Nat) : ℚ := ((childrenOf ptss j).map Pnt.lastHessian).sum

/-- The accumulated depth of point `j` of the coarser level: the sum of
`iR * lastHessian` over its good children. -/
def accDepth (ptss : List Pnt) (j : Nat) : ℚ :=
  ((childrenOf ptss j).map fun p => p.iR * p.lastHessian).sum

/-- Two good children of parent 0, with `iR = 1`, weight 1 and `iR = 5`,
weight 3, and a child that is not good. -/
def weighedChildren : List Pnt :=
  [{ flatPnt 1 (fun _ => -1) 0 with iR := 1 }, { flatPnt 3 (fun _ => -1) 0 with iR := 5 },
   { flatPnt 7 (fun _ => -1) 0 with iR := 9, isGood := false }]

/-- The blended depth `newiR` of `propagateDown` for a child and its parent. -/
def blendIR (point parent : Pnt) : ℚ :=
  (point.iR * point.lastHessian * 2 + parent.iR * parent.lastHessian) /
    (point.lastHessian * 2 + parent.lastHessian)

/-- A coarser level with one good point of depth 4 and confidence 1. -/
def blendParents : List Pnt := [{ flatPnt 1 (fun _ => -1) (-1) with iR := 4 }]

/-- A good child of parent 0 with depth 2 and confidence 1/2. -/
def blendChild : Pnt := flatPnt (1 / 2) (fun _ => -1) 0

/-- The energy one sample adds in `calcResAndGS`:
`hw * residual * residual * (2 - hw)` with the Huber weight `hw`. -/
def huberEnergy (th residual : ℚ) : ℚ :=
  huberWeight th residual * residual * residual * (2 - huberWeight th residual)

/-- The function `deleteOut(v, i)` of `FullSystem.h` on the sequence of the
elements of the vector: `v[i] = v.back(); v.pop_back();`.  The `delete` of the
object `v[i]` points to is not part of the sequence. -/
def deleteOut {α : Type} (v : List α) (i : Nat) : List α :=
  match v.getLast? with
  | some b => (v.set i b).dropLast
  | none => v

/-- The body `v[k - 1] = v[k]` of the loop of `deleteOutOrder`, for
`k = i + 1 + j`. -/
def shiftStep {α : Type} (i j : Nat) (w : List α) : List α :=
  match w[i + 1 + j]? with
  | some x => w.set (i + j) x
  | none => w

/-- The function `deleteOutOrder(v, i)` of `FullSystem.h` on the sequence of
the elements of the vector: `for (k = i + 1; k < v.size(); k++) v[k - 1] = v[k];`
and then `v.pop_back()`. -/
def deleteOutOrder {α : Type} (v : List α) (i : Nat) : List α :=
  (forLoop (v.length - (i + 1)) (shiftStep i) v).dropLast

/-- The local `dd[idx]` of one iteration of the loop over the sampling pattern:
the derivative of the weighted residual of the sample with respect to the
inverse depth of the point. -/
def sampleDd (c : ResCtx) (point : Pnt) (d : Int × Int) : ℚ :=
  let dx : ℚ := d.1
  let dy : ℚ := d.2
  let pr := project c point d
  let hitColor := c.colorNew pr.Ku pr.Kv
  let rlR := c.colorRef (point.u + dx) (point.v + dy)
  let residual := hitColor.val 0 - c.r2new_aff.1 * rlR.val - c.r2new_aff.2
  let hw : ℚ := huberWeight c.huberTH residual
  let dxdd := (c.t 0 - c.t 2 * pr.u) / pr.pt 2
  let dydd := (c.t 1 - c.t 2 * pr.v) / pr.pt 2
  let hw := if hw < 1 then c.sqrtf hw else hw
  let dxInterp := hw * hitColor.val 1 * c.fxl
  let dyInterp := hw * hitColor.val 2 * c.fyl
  dxInterp * dxdd + dyInterp * dydd

/-- A seeded point at pixel `(3, 8)`: with `patternPadding = 2` the column
`x = 3` is the leftmost one `setFirst` seeds. -/
def edgePnt : Pnt := examplePnt 3 8 ![0, -1, -1, -1, -1, -1, -1, -1, -1, -1] (-1)

/-- The example object with the single point `edgePnt` on level 0. -/
def edgeState : CoarseInitializer :=
  { exampleState with points := fun lvl => if lvl = 0 then [edgePnt] else [] }

/-- The last statements of `setFirst`:
`thisToNext = SE3(); snapped = false; frameID = snappedAt = 0;`. -/
def setFirstTail (s : CoarseInitializer) : CoarseInitializer :=
  { s with thisToNext := SE3.identity, snapped := false, frameID := 0, snappedAt := 0 }

/-- The object after the first `k` calls of `trackFrame` that follow
`setFirst`, one call per frame of `fs`. -/
def framesState (env : Env) (s : CoarseInitializer) (fs : List FrameHessian) (k : Nat) :
    CoarseInitializer :=
  (trackFrames env (setFirstTail s) (fs.take k)).s

/-- Whether an operation is a call of `applyStep`, the only place where the two
Jacobian buffers are swapped. -/
def PointOp.isApplyStep : PointOp → Bool
  | PointOp.applyStep _ => true
  | _ => false

/-- A ghost trace: the operations one pass through the body of the inner loop
performs on the object, in order (`calcEC` only reads it). -/
def trialOps (env : Env) (lvl : Nat) (st : LMState) : List PointOp :=
  let tr := runTrial env lvl st
  [PointOp.doStep lvl st.lambda tr.inc,
   PointOp.calcResAndGS lvl tr.refToNew_new tr.refToNew_aff_new] ++
    if tr.accept st then
      (if tr.out.res.2.1 = tr.s.alphaK * tr.s.numPoints lvl then [PointOp.snap] else []) ++
        [PointOp.applyStep lvl, PointOp.optReg lvl]
    else []

/-- A ghost flag: whether the trial with 0-based index `k` of the inner loop
entered with the state `st` is accepted. -/
def trialAccepted (env : Env) (lvl : Nat) (st : LMState) (k : Nat) : Bool :=
  (runTrial env lvl ((lmTrial env lvl)^[k] st)).accept ((lmTrial env lvl)^[k] st)

/-- A ghost count: the number of accepted trials of the inner loop of a level
entered with the state `st`. -/
def lmAccepts (env : Env) (lvl : Nat) (st : LMState) : Nat :=
  (List.range (lmTrials env lvl 0 st)).countP (trialAccepted env lvl st)

/-- A ghost trace: the operations the inner loop entered with the state `st`
performs on the object. -/
def lmOps (env : Env) (lvl : Nat) (st : LMState) : List PointOp :=
  (List.range (lmTrials env lvl 0 st)).flatMap fun k =>
    trialOps env lvl ((lmTrial env lvl)^[k] st)

/-- A ghost trace: the operations the body of the loop over the levels performs
on the object for level `lvl`. -/
def levelOps (env : Env) (lvl : Nat) (ts : TrackState) : List PointOp :=
  (if lvl < env.cfg.pyrLevelsUsed - 1 then [PointOp.propagateDown (lvl + 1)] else []) ++
    [PointOp.resetPoints lvl,
     PointOp.calcResAndGS lvl ts.refToNew_current ts.refToNew_aff_current,
     PointOp.applyStep lvl] ++
    lmOps env lvl (lmInit env lvl ts)

/-- The offsets of the neighbours of cell `j` that a dilation pass reads: those
whose cell has a positive weight in the copy `weightSumsl_bak`. -/
def dilateHit (offs : List Int) (bak1 : Int → ℚ) (j : Int) : List Int :=
  offs.filter fun o => decide (bak1 (j + o) > 0)

/-- The cells a dilation pass writes: the cells `w ≤ j < w * h - w` that are
empty in the copy `weightSumsl_bak` and have a neighbour that is not. -/
def DilateFills (offs : List Int) (wl hl : Int) (bak1 : Int → ℚ) (j : Int) : Prop :=
  wl ≤ j ∧ j < wl * hl - wl ∧ bak1 j ≤ 0 ∧ dilateHit offs bak1 j ≠ []

/-- Two objects agree in what `makeCoarseDepth` reads and writes for level
`lvl`: the buffers of the level, its copy `weight_sums_bak_`, the points, the
level sizes and the reference frame. -/
def LevelEq (lvl : Nat) (s t : CoarseInitializer) : Prop :=
  getBuf s lvl = getBuf t lvl ∧ s.weight_sums_bak_ lvl = t.weight_sums_bak_ lvl ∧
  s.points = t.points ∧ s.w_ = t.w_ ∧ s.h_ = t.h_ ∧ s.firstFrame = t.firstFrame

/-- Settings with three pyramid levels. -/
def sparseCfg : Settings := { exampleCfg with pyrLevelsUsed := 3 }

/-- A seeded point at pixel `(3, 3)` with regularized depth 2. -/
def sparsePnt : Pnt :=
  { examplePnt 3 3 ![0, -1, -1, -1, -1, -1, -1, -1, -1, -1] (-1) with iR := 2 }

/-- An object with three levels of 32×24, 16×12 and 8×6 pixels whose level 2
holds the single point `sparsePnt`; all buffers are zero. -/
def sparseState : CoarseInitializer :=
  { exampleState with
    points := fun lvl => if lvl = 2 then [sparsePnt] else []
    w_ := fun lvl => if lvl = 0 then 32 else if lvl = 1 then 16 else 8
    h_ := fun lvl => if lvl = 0 then 24 else if lvl = 1 then 12 else 6 }

/-- The 6×6 system the inner loop hands to the solver when `fixAffine` is set:
`Hl.topLeftCorner<6, 6>()` and `bl.head<6>()` after damping, Schur correction
and scaling. -/
def incSystem6 (env : Env) (st : LMState) (lvl : Nat) :
    Matrix (Fin 6) (Fin 6) ℚ × (Fin 6 → ℚ) :=
  let Hl : Mat88f := fun i j => if i = j then st.H i j * (1 + st.lambda) else st.H i j
  let Hl := Hl - (1 / (1 + st.lambda)) • st.Hsc
  let bl := st.b - (1 / (1 + st.lambda)) • st.bsc
  let sc : ℚ := (1 / 100) / ((st.s.w_ lvl * st.s.h_ lvl : Int) : ℚ)
  let Hl := sc • (wM env.cfg * Hl * wM env.cfg)
  let bl := sc • (wM env.cfg).mulVec bl
  (fun i j => Hl (Fin.castLE (by decide) i) (Fin.castLE (by decide) j),
   fun k => bl (Fin.castLE (by decide) k))

/-- What an LDLT solve returns for a diagonal system: with `L = 1` and `D = H`,
component `k` of the solution is `b k / H k k`, and `0` where the pivot
`H k k` vanishes, as in the solve of Eigen's `LDLT`, which divides by the
pivots of `D` and sets the components of vanishing pivots to zero. -/
def diagSolve6 (H : Matrix (Fin 6) (Fin 6) ℚ) (b : Fin 6 → ℚ) : Fin 6 → ℚ :=
  fun k => if H k k = 0 then 0 else b k / H k k

/-- The intensities of an image of vertical stripes of period 2: 100 in the
even columns, 105 in the odd columns. -/
def stripePixel (x _y : Int) : ℚ := if x % 2 = 0 then 100 else 105

/-- Modelled from the spec: the entry `dIp[lvl][x + y * w]` of a frame, the
intensity of the pixel and its central differences in `x` and in `y` (the
gradient precomputation is not among the sources). -/
def gradPixel (I : Int → Int → ℚ) (x y : Int) : Vec3f :=
  ![I x y, (I (x + 1) y - I (x - 1) y) / 2, (I x (y + 1) - I x (y - 1)) / 2]

/-- Modelled from the spec: the bilinear sampling `getInterpolatedElement33` of
the three channels at a sub-pixel position with coordinates that are not
negative. -/
def bilinear33 (img : Int → Int → Vec3f) (x y : ℚ) : Vec3f :=
  let ix : Int := ⌊x⌋
  let iy : Int := ⌊y⌋
  let dx := x - ix
  let dy := y - iy
  let dxdy := dx * dy
  dxdy • img (ix + 1) (iy + 1) + (dy - dxdy) • img ix (iy + 1) +
    (dx - dxdy) • img (ix + 1) iy + (1 - dx - dy + dxdy) • img ix iy

/-- The frame of the striped image: bilinear sampling of the intensities and
of their central differences; every pixel is finite. -/
def stripeFrame : FrameHessian :=
  { interp33 := fun _ x y => ⟨bilinear33 (gradPixel stripePixel) x y, true⟩
    interp31 := fun _ x y => ⟨bilinear33 (gradPixel stripePixel) x y 0, true⟩
    color0 := fun lvl i => ⟨stripePixel (i % (32 / 2 ^ lvl)) 0, true⟩
    ab_exposure := 1 }

/-- An environment for a single pyramid level.  The library functions are
exact on the arguments they get in the run from `stripeTrack`: `expf` at 0,
`sqrtf` on squares of rationals (`ratSqrt`), `se3Exp` and `se3Log` on
transforms without rotation, and the solver on diagonal systems
(`diagSolve6`). -/
def stripeEnv : Env :=
  { exampleEnv with
    cfg := { exampleCfg with pyrLevelsUsed := 1 }
    sqrtf := ratSqrt
    se3Exp := fun v => ⟨1, ![v 0, v 1, v 2]⟩
    se3Log := fun P k => if h : k.val < 3 then P.t ⟨k.val, h⟩ else 0
    ldltSolve6 := diagSolve6 }

/-- A seeded point at pixel `(8, 8)` with depth 1. -/
def stripePnt : Pnt := examplePnt 8 8 ![0, -1, -1, -1, -1, -1, -1, -1, -1, -1] (-1)

/-- The example object after it snapped, with focal length 200, with the single
point `stripePnt` on level 0, a reference frame of constant intensity 100 and
the striped image as the new frame. -/
def stripeState : CoarseInitializer :=
  { snappedState with
    points := fun lvl => if lvl = 0 then [stripePnt] else []
    fx_ := fun _ => 200
    fy_ := fun _ => 200
    Ki_ := fun _ => !![1 / 200, 0, -16 / 200; 0, 1 / 200, -12 / 200; 0, 0, 1]
    newFrame := stripeFrame }

/-- The locals of `trackFrame` before the loop over the levels, for
`stripeState` with the pose estimate `thisToNext` a translation of `7/1000`
along `x`. -/
def stripeTrack : TrackState :=
  { s := stripeState
    refToNew_current := ⟨1, ![7 / 1000, 0, 0]⟩
    refToNew_aff_current := ⟨0, 0⟩
    latestRes := (0, 0, 0)
    evaluated := [] }

/-- The photometric energy of `stripePnt` when its samples lie at the distance
`T` (in pixels, at most 1) from an even column: five samples of the pattern
start in an even column and have the residual `5 T`, three start in an odd
column and have the residual `5 - 5 T`. -/
def stripeEnergy (T : ℚ) : ℚ := 5 * (5 * T * (5 * T)) + 3 * ((5 - 5 * T) * (5 - 5 * T))

/-- The distance of the samples of `stripePnt` from an even column under a
translation `x` along the `x` axis with `0 <= 200 x + 1/10 < 2`. -/
def stripePhase (x : ℚ) : ℚ := if 200 * x + 1 / 10 < 1 then 200 * x + 1 / 10 else 2 - (200 * x + 1 / 10)

/-- The fields of the object the run from `stripeTrack` never changes, and its
single point up to the fields a trial writes. -/
def StripeObj (s : CoarseInitializer) : Prop :=
  s.snapped = true ∧ s.alphaK = 25 / 4 ∧ s.alphaW = 22500 ∧ s.couplingWeight = 1 ∧
  s.fixAffine = true ∧ s.w_ = stripeState.w_ ∧ s.h_ = stripeState.h_ ∧
  s.fx_ = stripeState.fx_ ∧ s.fy_ = stripeState.fy_ ∧ s.cx_ = stripeState.cx_ ∧
  s.cy_ = stripeState.cy_ ∧ s.Ki_ = stripeState.Ki_ ∧ s.firstFrame = exampleFrame ∧
  s.newFrame = stripeFrame ∧
  ∃ p, s.points 0 = [p] ∧ p.u = 81 / 10 ∧ p.v = 81 / 10 ∧ p.isGood = true ∧ p.idepth = 1 ∧
    p.idepth_new = 1 ∧ p.iR = 1 ∧ p.outlierTH = 1152 ∧ 0 ≤ p.maxstep ∧
    p.neighbours = ![0, -1, -1, -1, -1, -1, -1, -1, -1, -1]

/-- The states of the inner loop of level 0 in the run from `stripeTrack`: the
pose estimate is a translation of `x` along `x`, the system is the one of the
alpha prior at that pose, and `resOld` holds the energies of that pose. -/
def Striped (x : ℚ) (st : LMState) : Prop :=
  StripeObj st.s ∧ (∀ k : Fin 10, k ≠ 9 → st.s.JbBuffer 0 k = 0) ∧
  st.refToNew_current = ⟨1, ![x, 0, 0]⟩ ∧ st.refToNew_aff_current = ⟨0, 0⟩ ∧
  (∀ i j : Fin 6, st.H (Fin.castLE (by decide) i) (Fin.castLE (by decide) j) =
    if i = j ∧ i.val < 3 then 22500 else 0) ∧
  (∀ k : Fin 6, st.b (Fin.castLE (by decide) k) = if k.val = 0 then 22500 * x else 0) ∧
  (∀ i j : Fin 6, st.Hsc (Fin.castLE (by decide) i) (Fin.castLE (by decide) j) = 0) ∧
  (∀ k : Fin 6, st.bsc (Fin.castLE (by decide) k) = 0) ∧
  st.resOld.1 = stripeEnergy (stripePhase x) ∧ st.resOld.2.1 = 22500 * (x * x)

/-- The intensity the striped image has at the sample with horizontal offset
`dx` of `stripePnt` under a translation `x` along the `x` axis. -/
def stripeSample (x : ℚ) (dx : Int) : ℚ :=
  if 200 * x + 1 / 10 < 1 then
    (1 - (200 * x + 1 / 10)) * stripePixel (8 + dx) 0 +
      (200 * x + 1 / 10) * stripePixel (8 + dx + 1) 0
  else
    (1 - (200 * x + 1 / 10 - 1)) * stripePixel (9 + dx) 0 +
      (200 * x + 1 / 10 - 1) * stripePixel (9 + dx + 1) 0

/-- The locals of `calcResAndGS` for `stripeState` under a translation `x`
along the `x` axis. -/
def stripeCtx (x : ℚ) : ResCtx := mkResCtx stripeEnv stripeState 0 ⟨1, ![x, 0, 0]⟩ ⟨0, 0⟩
/-- The translation the trial of the run from `stripeTrack` proposes at the
translation `x` under the damping `lam`: the step of the damped system of the
alpha prior is `-x / (1 + lam)`. -/
def stripeStep (x lam : ℚ) : ℚ := x - x / (1 + lam)

/-- The total energy of the run from `stripeTrack` at the translation `x`: the
photometric energy of the point and the alpha energy `alphaW * x^2`; the
regularization energy is zero. -/
def stripeTotal (x : ℚ) : ℚ := stripeEnergy (stripePhase x) + 22500 * (x * x)

/-! # Theorems -/


/-! ## Loop principles -/

theorem forLoop_preserves {σ : Type} (P : σ → Prop) (body : Nat → σ → σ)
    (h : ∀ i s, P s → P (body i s)) (n : Nat) (s : σ) (hs : P s) : P (forLoop n body s) := by
  induction n with
  | zero => exact hs
  | succ n ih => exact h n _ ih

theorem lmLoop_preserves (env : Env) (lvl : Nat) (P : LMState → Prop)
    (h : ∀ st, P st → P (lmTrial env lvl st)) :
    ∀ (n iteration : Nat) (st : LMState), maxIterationsAt lvl - iteration ≤ n → P st →
      P (lmLoop env lvl iteration st) := by
  intro n
  induction n with
  | zero =>
    intro iteration st hn hst
    rw [lmLoop]
    have hq : quitOpt env lvl iteration (solveInc env st lvl) (lmTrial env lvl st) = true := by
      simp only [quitOpt, Bool.or_eq_true, decide_eq_true_eq]
      left; right; omega
    simp only [hq, ↓reduceDIte]
    exact h st hst
  | succ n ih =>
    intro iteration st hn hst
    rw [lmLoop]
    by_cases hq : quitOpt env lvl iteration (solveInc env st lvl) (lmTrial env lvl st) = true
    · simp only [hq, ↓reduceDIte]
      exact h st hst
    · simp only [hq]
      exact ih (iteration + 1) _ (by omega) (h st hst)

theorem trackLevels_preserves (env : Env) (P : TrackState → Prop) :
    ∀ (n : Nat), (∀ lvl, lvl < n → ∀ ts, P ts → P (trackLevel env lvl ts)) →
      ∀ ts : TrackState, P ts → P (trackLevels env n ts) := by
  intro n
  induction n with
  | zero => intro _ ts hts; exact hts
  | succ n ih =>
    intro h ts hts
    exact ih (fun lvl hl => h lvl (Nat.lt_succ_of_lt hl)) _ (h n (Nat.lt_succ_self n) ts hts)

theorem CtlStep.refl (s : CoarseInitializer) : CtlStep s s :=
  ⟨rfl, rfl, id, rfl, rfl, rfl, rfl, fun _ => rfl⟩

theorem CtlStep.trans {a b c : CoarseInitializer} (h1 : CtlStep a b) (h2 : CtlStep b c) :
    CtlStep a c := by
  obtain ⟨a1, a2, a3, a4, a5, a6, a7, a8⟩ := h1
  obtain ⟨b1, b2, b3, b4, b5, b6, b7, b8⟩ := h2
  exact ⟨b1.trans a1, b2.trans a2, fun h => b3 (a3 h), b4.trans a4, b5.trans a5, b6.trans a6,
    b7.trans a7, fun lvl => (b8 lvl).trans (a8 lvl)⟩

theorem length_update_points (f : Nat → List Pnt) (lvl : Nat) (l : List Pnt)
    (h : l.length = (f lvl).length) (k : Nat) :
    ((Function.update f lvl l) k).length = (f k).length := by
  by_cases hk : k = lvl
  · subst hk; simp [h]
  · simp [Function.update_noteq hk]

theorem length_forLoop_pts (body : Nat → List Pnt → List Pnt)
    (h : ∀ i l, (body i l).length = l.length) (n : Nat) (l : List Pnt) :
    (forLoop n body l).length = l.length := by
  induction n with
  | zero => rfl
  | succ n ih => simp only [forLoop]; rw [h, ih]

theorem length_optRegStep (rw : ℚ) (i : Nat) (l : List Pnt) :
    (optRegStep rw i l).length = l.length := by
  unfold optRegStep
  split
  · rfl
  · split
    · rfl
    · simp only []
      split <;> simp

theorem length_optRegPts (sn : Bool) (rw : ℚ) (l : List Pnt) :
    (optRegPts sn rw l).length = l.length := by
  unfold optRegPts
  split
  · simp
  · exact length_forLoop_pts _ (length_optRegStep rw) _ _

theorem ctl_optReg (s : CoarseInitializer) (lvl : Nat) : CtlStep s (optReg s lvl) :=
  ⟨rfl, rfl, id, rfl, rfl, rfl, rfl,
    fun k => length_update_points _ _ _ (length_optRegPts _ _ _) k⟩



theorem length_modifyPnt (l : List Pnt) (j : Int) (f : Pnt → Pnt) :
    (modifyPnt l j f).length = l.length := by
  unfold modifyPnt
  split <;> simp

theorem length_accumStep (ptss : List Pnt) (i : Nat) (l : List Pnt) :
    (accumStep ptss i l).length = l.length := by
  unfold accumStep
  split
  · rfl
  · split
    · rfl
    · exact length_modifyPnt _ _ _

theorem length_propagateUpPts (ptss ptst : List Pnt) :
    (propagateUpPts ptss ptst).length = ptst.length := by
  unfold propagateUpPts
  rw [List.length_map, length_forLoop_pts _ (length_accumStep ptss), List.length_map]

theorem ctl_propagateUp (s : CoarseInitializer) (lvl : Nat) : CtlStep s (propagateUp s lvl) := by
  unfold propagateUp
  refine CtlStep.trans ?_ (ctl_optReg _ _)
  exact ⟨rfl, rfl, id, rfl, rfl, rfl, rfl,
    fun k => length_update_points _ _ _ (length_propagateUpPts _ _) k⟩

theorem ctl_propagateDown (s : CoarseInitializer) (lvl : Nat) :
    CtlStep s (propagateDown s lvl) := by
  unfold propagateDown
  refine CtlStep.trans ?_ (ctl_optReg _ _)
  exact ⟨rfl, rfl, id, rfl, rfl, rfl, rfl,
    fun k => length_update_points _ _ _ (List.length_map _ _) k⟩

theorem length_resetPointsStep (n lvl i : Nat) (l : List Pnt) :
    (resetPointsStep n lvl i l).length = l.length := by
  unfold resetPointsStep
  split
  · rfl
  · simp only []
    split
    · split <;> simp
    · simp

theorem ctl_resetPoints (cfg : Settings) (s : CoarseInitializer) (lvl : Nat) :
    CtlStep s (resetPoints cfg s lvl) :=
  ⟨rfl, rfl, id, rfl, rfl, rfl, rfl,
    fun k => length_update_points _ _ _
      (length_forLoop_pts _ (length_resetPointsStep _ _) _ _) k⟩

theorem ctl_doStep (s : CoarseInitializer) (lvl : Nat) (lambda : ℚ) (inc : Vec8f) :
    CtlStep s (doStep s lvl lambda inc) :=
  ⟨rfl, rfl, id, rfl, rfl, rfl, rfl,
    fun k => length_update_points _ _ _ (List.length_mapIdx) k⟩

theorem ctl_applyStep (s : CoarseInitializer) (lvl : Nat) : CtlStep s (applyStep s lvl) :=
  ⟨rfl, rfl, id, rfl, rfl, rfl, rfl,
    fun k => length_update_points _ _ _ (List.length_map _ _) k⟩

theorem length_resStep (c : ResCtx) (pat : List (Int × Int)) (i : Nat) (st : ResState) :
    (resStep c pat i st).pts.length = st.pts.length := by
  unfold resStep
  split
  · rfl
  · split
    · simp
    · simp only []
      split <;> simp

theorem length_schurStep (a cw : ℚ) (i : Nat) (st : SchurState) :
    (schurStep a cw i st).pts.length = st.pts.length := by
  unfold schurStep
  split
  · rfl
  · split
    · rfl
    · simp

theorem length_resLoop (c : ResCtx) (pat : List (Int × Int)) (n : Nat) (st : ResState) :
    (forLoop n (resStep c pat) st).pts.length = st.pts.length := by
  induction n with
  | zero => rfl
  | succ n ih => simp only [forLoop]; rw [length_resStep, ih]

theorem length_schurLoop (a cw : ℚ) (n : Nat) (st : SchurState) :
    (forLoop n (schurStep a cw) st).pts.length = st.pts.length := by
  induction n with
  | zero => rfl
  | succ n ih => simp only [forLoop]; rw [length_schurStep, ih]

theorem ctl_calcResAndGS (env : Env) (s : CoarseInitializer) (lvl : Nat) (P : SE3)
    (aff : AffLight) : CtlStep s (calcResAndGS env s lvl P aff).1 := by
  refine ⟨rfl, rfl, id, rfl, rfl, rfl, rfl, fun k => length_update_points _ _ _ ?_ k⟩
  rw [length_schurLoop, List.length_map, length_resLoop]



theorem ctl_runTrial (env : Env) (lvl : Nat) (st : LMState) :
    CtlStep st.s (runTrial env lvl st).s :=
  CtlStep.trans (ctl_doStep _ _ _ _) (ctl_calcResAndGS _ _ _ _ _)

theorem ctl_acceptTrial (lvl : Nat) (st : LMState) (tr : Trial) :
    CtlStep tr.s (acceptTrial lvl st tr).s := by
  unfold acceptTrial
  simp only []
  refine CtlStep.trans ?_ (CtlStep.trans (ctl_applyStep _ _) (ctl_optReg _ _))
  split
  · exact ⟨rfl, rfl, fun _ => rfl, rfl, rfl, rfl, rfl, fun _ => rfl⟩
  · exact CtlStep.refl _

theorem ctl_lmTrial (env : Env) (lvl : Nat) (st : LMState) :
    CtlStep st.s (lmTrial env lvl st).s := by
  unfold lmTrial
  simp only []
  split
  · exact CtlStep.trans (ctl_runTrial env lvl st) (ctl_acceptTrial _ _ _)
  · exact ctl_runTrial env lvl st

theorem ctl_lmLoop (env : Env) (lvl : Nat) (iteration : Nat) (st : LMState) :
    CtlStep st.s (lmLoop env lvl iteration st).s :=
  lmLoop_preserves env lvl (fun st' => CtlStep st.s st'.s)
    (fun st' h => CtlStep.trans h (ctl_lmTrial env lvl st')) _ iteration st le_rfl
    (CtlStep.refl _)

theorem ctl_trackLevel (env : Env) (lvl : Nat) (ts : TrackState) :
    CtlStep ts.s (trackLevel env lvl ts).s := by
  unfold trackLevel
  simp only []
  refine CtlStep.trans ?_ (ctl_lmLoop env lvl 0 _)
  simp only []
  refine CtlStep.trans ?_ (ctl_applyStep _ _)
  refine CtlStep.trans ?_ (ctl_calcResAndGS _ _ _ _ _)
  refine CtlStep.trans ?_ (ctl_resetPoints _ _ _)
  split
  · exact ctl_propagateDown _ _
  · exact CtlStep.refl _

theorem ctl_trackLevels (env : Env) (n : Nat) (ts : TrackState) :
    CtlStep ts.s (trackLevels env n ts).s :=
  trackLevels_preserves env (fun ts' => CtlStep ts.s ts'.s) n
    (fun lvl _ ts' h => CtlStep.trans h (ctl_trackLevel env lvl ts')) ts (CtlStep.refl _)

theorem ctl_unsnappedReset (cfg : Settings) (s : CoarseInitializer) :
    CtlStep s (unsnappedReset cfg s) := by
  unfold unsnappedReset
  split
  · refine ⟨rfl, rfl, id, rfl, rfl, rfl, rfl, fun lvl => ?_⟩
    simp only []
    split <;> simp
  · exact CtlStep.refl _

theorem ctl_propagateUpLoop (n : Nat) (s : CoarseInitializer) :
    CtlStep s (forLoop n (fun i s => propagateUp s i) s) :=
  forLoop_preserves (fun s' => CtlStep s s') _
    (fun i s' h => CtlStep.trans h (ctl_propagateUp s' i)) n s (CtlStep.refl _)

theorem ctl_setPose (s : CoarseInitializer) (P : SE3) (aff : AffLight) :
    CtlStep s { s with thisToNext := P, thisToNext_aff := aff } :=
  ⟨rfl, rfl, id, rfl, rfl, rfl, rfl, fun _ => rfl⟩

theorem ctl_trackFrameBody (env : Env) (s : CoarseInitializer) (f : FrameHessian) :
    CtlStep (enterFrame s f) (trackFrameBody env s f).s := by
  unfold trackFrameBody
  simp only []
  refine CtlStep.trans ?_ (ctl_propagateUpLoop _ _)
  refine CtlStep.trans (ctl_unsnappedReset env.cfg (enterFrame s f)) ?_
  exact CtlStep.trans (ctl_trackLevels env env.cfg.pyrLevelsUsed ⟨_, _, _, _, _⟩)
    (ctl_setPose _ _ _)



/-! ## Lists processed by an index loop -/

theorem prefix_getElem? {α : Type} (l : List α) (g : α → α) (n : Nat) :
    ((l.take n).map g ++ l.drop n)[n]? = l[n]? := by
  by_cases h : n < l.length
  · rw [List.getElem?_append_right (by simp)]
    simp [List.getElem?_drop, Nat.min_eq_left (le_of_lt h)]
  · have h1 : l.length ≤ n := Nat.le_of_not_lt h
    rw [List.getElem?_eq_none h1, List.getElem?_eq_none]
    simp only [List.length_append, List.length_map, List.length_take, List.length_drop]
    omega

theorem prefix_set {α : Type} (l : List α) (g : α → α) (n : Nat) (h : n < l.length) (x : α)
    (hx : x = g l[n]) :
    ((l.take n).map g ++ l.drop n).set n x = (l.take (n + 1)).map g ++ l.drop (n + 1) := by
  subst hx
  have hlen : ((l.take n).map g).length = n := by
    simp [Nat.min_eq_left (le_of_lt h)]
  rw [List.drop_eq_getElem_cons h, List.set_append_right _ _ (by omega), hlen, Nat.sub_self,
    List.set_cons_zero]
  have h2 : l.take (n + 1) = l.take n ++ [l[n]] := by
    rw [List.take_succ, List.getElem?_eq_getElem h]; rfl
  rw [h2, List.map_append, List.append_assoc]
  rfl

theorem prefix_all {α : Type} (l : List α) (g : α → α) :
    (l.take l.length).map g ++ l.drop l.length = l.map g := by
  simp



/-! ## The loops of `calcResAndGS`, point by point -/

theorem foldl_acc9Update (rows : List (Fin 9 → ℚ)) (H : Mat99f) :
    rows.foldl acc9Update H = H + (rows.map fun J => Matrix.vecMulVec J J).sum := by
  induction rows generalizing H with
  | nil => simp
  | cons J rows ih =>
    simp only [List.foldl_cons, List.map_cons, List.sum_cons]
    rw [ih, acc9Update, add_assoc]

theorem resStep_eq (c : ResCtx) (pat : List (Int × Int)) (i : Nat) (st : ResState) (point : Pnt)
    (h : st.pts[i]? = some point) :
    resStep c pat i st =
      { pts := st.pts.set i (resPnt c pat point)
        jbNew := Function.update st.jbNew i (resJb c pat point (st.jbNew i))
        E := st.E.updateSingle (resE c pat point)
        acc9 := st.acc9 + resAcc9 c pat point } := by
  unfold resStep
  rw [h]
  simp only []
  by_cases hg : point.isGood = true
  · by_cases ha : (!(patternLoop c pat point).isGood ||
        decide ((patternLoop c pat point).energy > point.outlierTH * 20)) = true
    · simp [resPnt, resJb, resE, resAcc9, resAccepted, hg, ha]
    · simp [resPnt, resJb, resE, resAcc9, resAccepted, hg, ha, foldl_acc9Update]
  · simp [resPnt, resJb, resE, resAcc9, resAccepted, hg]



theorem resLoop_eq (c : ResCtx) (pat : List (Int × Int)) (pts : List Pnt) (jb : Nat → Vec10f)
    (E0 : Accumulator11) (H0 : Mat99f) (n : Nat) (hn : n ≤ pts.length) :
    forLoop n (resStep c pat) ⟨pts, jb, E0, H0⟩ =
      { pts := (pts.take n).map (resPnt c pat) ++ pts.drop n
        jbNew := fun j => if j < n then
            (match pts[j]? with
              | some p => resJb c pat p (jb j)
              | none => jb j)
          else jb j
        E := (pts.take n).foldl (fun E p => E.updateSingle (resE c pat p)) E0
        acc9 := H0 + ((pts.take n).map (resAcc9 c pat)).sum } := by
  induction n with
  | zero => simp [forLoop]
  | succ n ih =>
    have hlt : n < pts.length := hn
    have h2 : pts.take (n + 1) = pts.take n ++ [pts[n]] := by
      rw [List.take_succ, List.getElem?_eq_getElem hlt]; rfl
    simp only [forLoop]
    rw [ih (le_of_lt hlt)]
    rw [resStep_eq c pat n _ pts[n] (by
      simp only []
      rw [prefix_getElem?, List.getElem?_eq_getElem hlt])]
    simp only []
    congr 1
    · exact prefix_set pts (resPnt c pat) n hlt _ rfl
    · funext j
      by_cases hj : j = n
      · subst hj
        simp [List.getElem?_eq_getElem hlt]
      · rw [Function.update_noteq hj]
        by_cases hj2 : j < n
        · simp [hj2, Nat.lt_succ_of_lt hj2]
        · have : ¬ j < n + 1 := by omega
          simp [hj2, this]
    · rw [h2, List.foldl_append]; rfl
    · rw [h2, List.map_append, List.sum_append, add_assoc]; simp

theorem schurStep_eq (a cw : ℚ) (i : Nat) (st : SchurState) (point : Pnt)
    (h : st.pts[i]? = some point) :
    schurStep a cw i st =
      { pts := st.pts.set i (schurPnt point (st.jbNew i))
        jbNew := Function.update st.jbNew i (schurJbOf a cw point (st.jbNew i))
        acc9SC := st.acc9SC + schurAcc a cw point (st.jbNew i) } := by
  unfold schurStep
  rw [h]
  simp only []
  by_cases hg : point.isGood_new = true
  · simp [schurPnt, schurJbOf, schurAcc, hg, acc9UpdateWeighted]
  · have hs : st.pts.set i point = st.pts := by
      apply List.ext_getElem?
      intro k
      by_cases hk : i = k
      · subst hk
        rw [h]
        have hi : i < st.pts.length := by
          by_contra hc
          rw [List.getElem?_eq_none (Nat.le_of_not_lt hc)] at h
          cases h
        simp [List.getElem?_set, hi]
      · simp [List.getElem?_set_ne hk]
    simp [schurPnt, schurJbOf, schurAcc, hg, hs]



theorem schurLoop_eq (a cw : ℚ) (pts : List Pnt) (jb : Nat → Vec10f) (H0 : Mat99f) (n : Nat)
    (hn : n ≤ pts.length) :
    forLoop n (schurStep a cw) ⟨pts, jb, H0⟩ =
      { pts := pts.mapIdx fun j p => if j < n then schurPnt p (jb j) else p
        jbNew := fun j => if j < n then
            (match pts[j]? with
              | some p => schurJbOf a cw p (jb j)
              | none => jb j)
          else jb j
        acc9SC := H0 + ((List.range n).map fun j =>
            match pts[j]? with
              | some p => schurAcc a cw p (jb j)
              | none => 0).sum } := by
  induction n with
  | zero =>
    simp only [forLoop, Nat.not_lt_zero, ↓reduceIte, List.range_zero, List.map_nil, List.sum_nil,
      add_zero]
    congr 1
    apply List.ext_getElem?
    intro k
    simp
  | succ n ih =>
    have hlt : n < pts.length := hn
    simp only [forLoop]
    rw [ih (le_of_lt hlt)]
    rw [schurStep_eq a cw n _ pts[n] (by simp [List.getElem?_eq_getElem hlt])]
    simp only [lt_self_iff_false, ↓reduceIte]
    congr 1
    · apply List.ext_getElem?
      intro k
      by_cases hk : n = k
      · subst hk
        simp [List.getElem?_set, hlt, List.getElem?_eq_getElem hlt]
      · rw [List.getElem?_set_ne hk]
        simp only [List.getElem?_mapIdx]
        by_cases hk2 : k < n
        · simp [hk2, Nat.lt_succ_of_lt hk2]
        · have : ¬ k < n + 1 := by omega
          simp [hk2, this]
    · funext j
      by_cases hj : j = n
      · subst hj
        simp [List.getElem?_eq_getElem hlt]
      · rw [Function.update_noteq hj]
        by_cases hj2 : j < n
        · simp [hj2, Nat.lt_succ_of_lt hj2]
        · have : ¬ j < n + 1 := by omega
          simp [hj2, this]
    · rw [List.range_succ, List.map_append, List.sum_append, add_assoc]
      simp [List.getElem?_eq_getElem hlt]



theorem calcResAndGS_getElem? (env : Env) (s : CoarseInitializer) (lvl : Nat) (P : SE3)
    (aff : AffLight) (j : Nat) :
    ((calcResAndGS env s lvl P aff).1.points lvl)[j]? =
      ((s.points lvl)[j]?).map fun p =>
        trialPnt (mkResCtx env s lvl P aff) env.cfg.patternP p (s.JbBuffer_new j) := by
  unfold calcResAndGS
  simp only [CoarseInitializer.numPoints, Function.update_same]
  rw [resLoop_eq _ _ _ _ _ _ _ le_rfl]
  simp only []
  rw [schurLoop_eq _ _ _ _ _ _ (by simp)]
  simp only [List.getElem?_mapIdx, List.take_length, List.drop_length, List.append_nil,
    List.length_map, List.getElem?_map, Option.map_map]
  cases h : (s.points lvl)[j]? with
  | none => simp
  | some p =>
    have hj : j < (s.points lvl).length := by
      by_contra hc
      rw [List.getElem?_eq_none (Nat.le_of_not_lt hc)] at h
      cases h
    simp [trialPnt, hj]

theorem calcResAndGS_points_other (env : Env) (s : CoarseInitializer) (lvl : Nat) (P : SE3)
    (aff : AffLight) (k : Nat) (hk : k ≠ lvl) :
    (calcResAndGS env s lvl P aff).1.points k = s.points k := by
  unfold calcResAndGS
  simp only [Function.update_noteq hk]

theorem calcResAndGS_JbBuffer (env : Env) (s : CoarseInitializer) (lvl : Nat) (P : SE3)
    (aff : AffLight) : (calcResAndGS env s lvl P aff).1.JbBuffer = s.JbBuffer := rfl



/-! ## What a trial leaves untouched -/

theorem trialPnt_frame (c : ResCtx) (pat : List (Int × Int)) (p : Pnt) (old : Vec10f) :
    trialPnt c pat p old =
      { p with
        isGood_new := (trialPnt c pat p old).isGood_new
        energy_new := (trialPnt c pat p old).energy_new
        lastHessian_new := (trialPnt c pat p old).lastHessian_new
        maxstep := (trialPnt c pat p old).maxstep } := by
  unfold trialPnt schurPnt alphaPnt resPnt
  split_ifs <;> rfl

theorem trialPnt_committed (c : ResCtx) (pat : List (Int × Int)) (p : Pnt) (old : Vec10f) :
    (trialPnt c pat p old).committed = p.committed := by
  rw [trialPnt_frame]; rfl

theorem trialPnt_isGood_new (c : ResCtx) (pat : List (Int × Int)) (p : Pnt) (old : Vec10f) :
    (trialPnt c pat p old).isGood_new = resAccepted c pat p := by
  unfold trialPnt schurPnt alphaPnt resPnt
  by_cases hg : p.isGood = true
  · by_cases ha : resAccepted c pat p = true
    · simp [hg, ha]
    · simp [hg, ha]
  · have : resAccepted c pat p = false := by simp [resAccepted, hg]
    simp [hg, this]

theorem resAccepted_isGood (c : ResCtx) (pat : List (Int × Int)) (p : Pnt)
    (h : resAccepted c pat p = true) : p.isGood = true := by
  unfold resAccepted at h
  simp only [Bool.and_eq_true] at h
  exact h.1

theorem trialPnt_idepth_new (c : ResCtx) (pat : List (Int × Int)) (p : Pnt) (old : Vec10f) :
    (trialPnt c pat p old).idepth_new = p.idepth_new := by
  rw [trialPnt_frame]

theorem doStepPnt_frame (Jb : Nat → Vec10f) (lambda : ℚ) (inc : Vec8f) (i : Nat) (p : Pnt) :
    doStepPnt Jb lambda inc i p = { p with idepth_new := (doStepPnt Jb lambda inc i p).idepth_new } := by
  unfold doStepPnt
  split_ifs <;> rfl

theorem doStepPnt_committed (Jb : Nat → Vec10f) (lambda : ℚ) (inc : Vec8f) (i : Nat) (p : Pnt) :
    (doStepPnt Jb lambda inc i p).committed = p.committed := by
  rw [doStepPnt_frame]; rfl

theorem map_committed_doStep (s : CoarseInitializer) (lvl : Nat) (lambda : ℚ) (inc : Vec8f)
    (k : Nat) :
    ((doStep s lvl lambda inc).points k).map Pnt.committed = (s.points k).map Pnt.committed := by
  unfold doStep
  by_cases hk : k = lvl
  · subst hk
    simp only [Function.update_same]
    apply List.ext_getElem?
    intro j
    simp only [List.getElem?_map, List.getElem?_mapIdx, Option.map_map]
    cases (s.points k)[j]? with
    | none => rfl
    | some p => simp [doStepPnt_committed]
  · simp only [Function.update_noteq hk]

theorem map_committed_calcResAndGS (env : Env) (s : CoarseInitializer) (lvl : Nat) (P : SE3)
    (aff : AffLight) (k : Nat) :
    ((calcResAndGS env s lvl P aff).1.points k).map Pnt.committed =
      (s.points k).map Pnt.committed := by
  by_cases hk : k = lvl
  · subst hk
    apply List.ext_getElem?
    intro j
    simp only [List.getElem?_map, calcResAndGS_getElem?, Option.map_map]
    cases (s.points k)[j]? with
    | none => rfl
    | some p => simp [trialPnt_committed]
  · rw [calcResAndGS_points_other _ _ _ _ _ _ hk]



theorem calcResAndGS_isGood_new (env : Env) (s : CoarseInitializer) (lvl : Nat) (P : SE3)
    (aff : AffLight) (q : Pnt) (hq : q ∈ (calcResAndGS env s lvl P aff).1.points lvl)
    (h : q.isGood_new = true) : q.isGood = true := by
  obtain ⟨j, hj⟩ := List.getElem?_of_mem hq
  rw [calcResAndGS_getElem?] at hj
  cases hp : (s.points lvl)[j]? with
  | none => rw [hp] at hj; cases hj
  | some p =>
    rw [hp] at hj
    simp only [Option.map_some', Option.some.injEq] at hj
    subst hj
    rw [trialPnt_isGood_new] at h
    have h1 := resAccepted_isGood _ _ _ h
    have h2 := congrArg (fun t => t.2.2.1) (trialPnt_committed (mkResCtx env s lvl P aff)
      env.cfg.patternP p (s.JbBuffer_new j))
    simp only [Pnt.committed] at h2
    rw [h2]; exact h1

theorem regEnergy_after_applyStep (l : List Pnt) (h : ∀ q ∈ l, q.isGood_new = true → q.isGood = true) :
    (((l.map applyStepPnt).filter fun p => p.isGood_new).map
        fun p => (p.idepth - p.iR) * (p.idepth - p.iR)) =
      ((l.filter fun p => p.isGood_new).map
        fun p => (p.idepth_new - p.iR) * (p.idepth_new - p.iR)) := by
  induction l with
  | nil => rfl
  | cons p l ih =>
    have ih' := ih (fun q hq => h q (List.mem_cons_of_mem _ hq))
    have hp := h p (List.mem_cons_self _ _)
    by_cases hn : p.isGood_new = true
    · have hg := hp hn
      have h1 : (applyStepPnt p).isGood_new = true := by simp [applyStepPnt, hg, hn]
      simp only [List.map_cons, List.filter_cons, h1, hn, ↓reduceIte, ih']
      simp [applyStepPnt, hg]
    · have h1 : (applyStepPnt p).isGood_new = false := by
        unfold applyStepPnt
        split_ifs <;> simpa using hn
      have hn' : p.isGood_new = false := by simpa using hn
      simp only [List.map_cons, List.filter_cons, h1, hn']
      simpa using ih'



theorem calcEC_after_applyStep (s : CoarseInitializer) (lvl : Nat)
    (h : ∀ q ∈ s.points lvl, q.isGood_new = true → q.isGood = true) :
    (calcEC (applyStep s lvl) lvl).1 = (calcEC s lvl).2.1 := by
  unfold calcEC
  have hs : (applyStep s lvl).snapped = s.snapped := rfl
  have hc : (applyStep s lvl).couplingWeight = s.couplingWeight := rfl
  have hp : (applyStep s lvl).points lvl = (s.points lvl).map applyStepPnt := by
    simp [applyStep]
  rw [hs, hc, hp]
  by_cases hsn : s.snapped = true
  · simp only [hsn, Bool.not_true, Bool.false_eq_true, ↓reduceIte]
    rw [regEnergy_after_applyStep _ h]
  · simp [hsn]

theorem runTrial_isGood_new (env : Env) (lvl : Nat) (st : LMState) :
    ∀ q ∈ (runTrial env lvl st).s.points lvl, q.isGood_new = true → q.isGood = true :=
  fun q hq h => calcResAndGS_isGood_new _ _ _ _ _ q hq h

/-- C2: a trial of the inner loop of `trackFrame` is accepted exactly when the
old total energy (photometric + alpha + regularization) is strictly greater
than the new one; the accepted branch stores the new residual as `resOld`, and
the total energy of the state it commits (its photometric and alpha energy plus
the regularization energy `calcEC` gives the committed depths) is strictly
smaller than the total of the state committed before exactly when the trial is
accepted.  `lmTrial` takes the accepted branch exactly on `accept`. -/
theorem accept_iff_total_decreases (env : Env) (lvl : Nat) (st : LMState) :
    ((runTrial env lvl st).accept st = true ↔
      st.resOld.1 + st.resOld.2.1 + (runTrial env lvl st).regEnergy.1 >
        (runTrial env lvl st).out.res.1 + (runTrial env lvl st).out.res.2.1 +
          (runTrial env lvl st).regEnergy.2.1) ∧
    (acceptTrial lvl st (runTrial env lvl st)).resOld = (runTrial env lvl st).out.res ∧
    ((runTrial env lvl st).accept st = true ↔
      (acceptTrial lvl st (runTrial env lvl st)).resOld.1 +
          (acceptTrial lvl st (runTrial env lvl st)).resOld.2.1 +
          (calcEC (applyStep (runTrial env lvl st).s lvl) lvl).1 <
        st.resOld.1 + st.resOld.2.1 + (calcEC (runTrial env lvl st).s lvl).1) ∧
    lmTrial env lvl st =
      (if (runTrial env lvl st).accept st = true then acceptTrial lvl st (runTrial env lvl st)
       else rejectTrial lvl st (runTrial env lvl st)) := by
  have h1 : (runTrial env lvl st).accept st = true ↔
      st.resOld.1 + st.resOld.2.1 + (runTrial env lvl st).regEnergy.1 >
        (runTrial env lvl st).out.res.1 + (runTrial env lvl st).out.res.2.1 +
          (runTrial env lvl st).regEnergy.2.1 := by
    simp [Trial.accept, Trial.eTotalOld, Trial.eTotalNew]
  refine ⟨h1, rfl, ?_, rfl⟩
  rw [calcEC_after_applyStep _ _ (runTrial_isGood_new env lvl st)]
  exact h1

/-- C3: a rejected trial of the inner loop of `trackFrame` (`doStep`, then
`calcResAndGS` at the proposal, then `calcEC`, then the reject branch) leaves
the committed state of every point of every level (`idepth`, `iR`, `isGood`,
`energy`, `lastHessian`) as it was, leaves every entry of the current scratch
`JbBuffer` as it was, and keeps the current pose, the current brightness
transfer, the linearization and `resOld`. -/
theorem rejected_trial_keeps_committed (env : Env) (lvl : Nat) (st : LMState) :
    (∀ k, ((rejectTrial lvl st (runTrial env lvl st)).s.points k).map Pnt.committed =
        (st.s.points k).map Pnt.committed) ∧
    (∀ i, (rejectTrial lvl st (runTrial env lvl st)).s.JbBuffer i = st.s.JbBuffer i) ∧
    (rejectTrial lvl st (runTrial env lvl st)).refToNew_current = st.refToNew_current ∧
    (rejectTrial lvl st (runTrial env lvl st)).refToNew_aff_current = st.refToNew_aff_current ∧
    (rejectTrial lvl st (runTrial env lvl st)).s.thisToNext = st.s.thisToNext ∧
    (rejectTrial lvl st (runTrial env lvl st)).s.thisToNext_aff = st.s.thisToNext_aff ∧
    (rejectTrial lvl st (runTrial env lvl st)).s.snapped = st.s.snapped ∧
    (rejectTrial lvl st (runTrial env lvl st)).H = st.H ∧
    (rejectTrial lvl st (runTrial env lvl st)).b = st.b ∧
    (rejectTrial lvl st (runTrial env lvl st)).Hsc = st.Hsc ∧
    (rejectTrial lvl st (runTrial env lvl st)).bsc = st.bsc ∧
    (rejectTrial lvl st (runTrial env lvl st)).resOld = st.resOld := by
  refine ⟨fun k => ?_, fun i => rfl, rfl, rfl, rfl, rfl, rfl, rfl, rfl, rfl, rfl, rfl⟩
  show ((calcResAndGS env (doStep st.s lvl st.lambda (solveInc env st lvl)) lvl _ _).1.points k).map
    Pnt.committed = _
  rw [map_committed_calcResAndGS, map_committed_doStep]

/-- C4 (amended): `trackFrame` returns true exactly when, at the end of the
call, `snapped` is true and strictly more than 5 frames have elapsed since the
snap frame, that is `frameID - snappedAt >= 6`. -/
theorem trackFrame_ready_iff (env : Env) (s : CoarseInitializer) (f : FrameHessian) :
    (trackFrame env s f).2 = true ↔
      (trackFrame env s f).1.snapped = true ∧
        (trackFrame env s f).1.frameID - (trackFrame env s f).1.snappedAt ≥ 6 := by
  simp only [trackFrame, readyFlag, Bool.and_eq_true, decide_eq_true_eq]
  constructor
  · rintro ⟨h1, h2⟩; exact ⟨h1, by omega⟩
  · rintro ⟨h1, h2⟩; exact ⟨h1, by omega⟩



theorem trackFrame_counters (env : Env) (s : CoarseInitializer) (f : FrameHessian) :
    (trackFrame env s f).1.frameID = s.frameID + 1 ∧
    (s.snapped = true → (trackFrame env s f).1.snapped = true) ∧
    (s.snapped = true → s.snappedAt ≠ 0 → (trackFrame env s f).1.snappedAt = s.snappedAt) := by
  obtain ⟨h1, h2, h3, -⟩ := ctl_trackFrameBody env s f
  have e1 : (enterFrame s f).frameID = s.frameID := rfl
  have e2 : (enterFrame s f).snappedAt = s.snappedAt := rfl
  have e3 : (enterFrame s f).snapped = s.snapped := rfl
  rw [e1] at h1; rw [e2] at h2; rw [e3] at h3
  refine ⟨?_, ?_, ?_⟩
  · simp [trackFrame, trackFrameRun, finishFrame, h1]
  · intro hs
    simp [trackFrame, trackFrameRun, finishFrame, h3 hs]
  · intro hs hne
    simp [trackFrame, trackFrameRun, finishFrame, h3 hs, h2, hne]

/-- C4 (counterexample): for the example object with `snapped` true that snapped
at frame 5 and is at frame 9 on entry, `trackFrame` ends with `snapped` true and
`frameID - snappedAt = 5 >= 5`, and returns false. -/
theorem trackFrame_ready_counterexample :
    (trackFrame exampleEnv snappedState exampleFrame).1.snapped = true ∧
    (trackFrame exampleEnv snappedState exampleFrame).1.frameID -
      (trackFrame exampleEnv snappedState exampleFrame).1.snappedAt ≥ 5 ∧
    (trackFrame exampleEnv snappedState exampleFrame).2 = false := by
  obtain ⟨h1, h2, h3⟩ := trackFrame_counters exampleEnv snappedState exampleFrame
  have hs := h2 rfl
  have ha := h3 rfl (by decide)
  have hf : (trackFrame exampleEnv snappedState exampleFrame).1.frameID = 10 := h1
  have ha' : (trackFrame exampleEnv snappedState exampleFrame).1.snappedAt = 5 := ha
  refine ⟨hs, ?_, ?_⟩
  · rw [hf, ha']; decide
  · have : (trackFrame exampleEnv snappedState exampleFrame).2 =
        readyFlag (trackFrame exampleEnv snappedState exampleFrame).1 := rfl
    rw [this, readyFlag, hs, hf, ha']
    decide

/-! ## Neighbour weights -/

theorem nnWeights_pos_of_pos {F : Type} [LinearOrderedField F] (expf : F → F)
    (hpos : ∀ x, 0 < expf x) (d : Fin 10 → F) :
    (∑ k, expf (-d k * (5 / 100))) ≠ 0 ∧ (∀ k, 0 < nnWeights expf d k) ∧
      ∑ k, nnWeights expf d k = 10 := by
  have hsum : 0 < ∑ k, expf (-d k * (5 / 100)) :=
    Finset.sum_pos (fun k _ => hpos _) Finset.univ_nonempty
  refine ⟨ne_of_gt hsum, fun k => ?_, ?_⟩
  · unfold nnWeights
    exact mul_pos (hpos _) (div_pos (by norm_num) hsum)
  · unfold nnWeights
    simp only []
    rw [← Finset.sum_mul, mul_div_assoc', mul_comm, mul_div_assoc, div_self (ne_of_gt hsum),
      mul_one]

/-- The weight formula of `makeNN` with the real exponential in the place of
`expf`: for every list of 10 squared distances the normalising divisor `sumDF`
is not zero, and the weights `exp(-0.05 * d_k) * (10 / sumDF)` are all positive
and sum to exactly 10. -/
theorem nnWeights_real (d : Fin 10 → ℝ) :
    (∑ k, Real.exp (-d k * (5 / 100))) ≠ 0 ∧ (∀ k, 0 < nnWeights Real.exp d k) ∧
      ∑ k, nnWeights Real.exp d k = 10 :=
  nnWeights_pos_of_pos Real.exp Real.exp_pos d

/-! ## Regularizer -/

/-- C5 (counterexample): on the snapped example with three mutually neighbouring
good points of depth 1 and regularized depths 1, 2, 3, one run of `optReg`
gives `iR = 9/5, 9/5, 41/25` and a second run gives `41/25, 189/125, 189/125`. -/
theorem optReg_not_idempotent :
    ((optReg regState 0).points 0).map Pnt.iR = [9 / 5, 9 / 5, 41 / 25] ∧
    ((optReg (optReg regState 0) 0).points 0).map Pnt.iR = [41 / 25, 189 / 125, 189 / 125] := by
  constructor
  · simp [optReg, optRegPts, regState, exampleState, forLoop, optRegStep, goodNeighbourIR,
      getPnt, nthElement, regPnt, seedPnt, blankPnt, List.ofFn_succ]
    norm_num
  · simp [optReg, optRegPts, regState, exampleState, forLoop, optRegStep, goodNeighbourIR,
      getPnt, nthElement, regPnt, seedPnt, blankPnt, List.ofFn_succ]
    norm_num

theorem optRegPts_unsnapped_twice (rw : ℚ) (l : List Pnt) :
    optRegPts false rw (optRegPts false rw l) = optRegPts false rw l := by
  simp [optRegPts]

/-- C5 (amended): while the optimizer has not snapped, the Regularizer is
idempotent: running `optReg(lvl)` twice in a row leaves the object, and so
every point's `iR`, as it is after the first run, where every `iR` is 1. -/
theorem optReg_idempotent_unsnapped (s : CoarseInitializer) (lvl : Nat)
    (h : s.snapped = false) :
    optReg (optReg s lvl) lvl = optReg s lvl ∧
      ∀ p ∈ (optReg s lvl).points lvl, p.iR = 1 := by
  constructor
  · unfold optReg
    simp only [h, Function.update_same, Function.update_idem, optRegPts_unsnapped_twice]
  · intro p hp
    simp only [optReg, h, Function.update_same, optRegPts, Bool.not_false, ↓reduceIte,
      List.mem_map] at hp
    obtain ⟨q, -, rfl⟩ := hp
    rfl

/-- Witness of `optReg_idempotent_unsnapped` on the example object, which has
not snapped. -/
theorem optReg_idempotent_unsnapped_witness :
    exampleState.snapped = false ∧
      (optReg (optReg exampleState 0) 0 = optReg exampleState 0 ∧
        ∀ p ∈ (optReg exampleState 0).points 0, p.iR = 1) :=
  ⟨rfl, optReg_idempotent_unsnapped exampleState 0 rfl⟩

/-! ## Points that leave the image -/

theorem schurSum_eq (c : ResCtx) (pat : List (Int × Int)) (a cw : ℚ) (pts : List Pnt)
    (jb : Nat → Vec10f) :
    ((List.range pts.length).map fun j =>
      match (List.map alphaPnt (List.map (resPnt c pat) pts))[j]? with
        | some p => schurAcc a cw p
            (if j < pts.length then
              (match pts[j]? with
                | some p => resJb c pat p (jb j)
                | none => jb j)
             else jb j)
        | none => 0) =
    ((List.range pts.length).map fun j =>
      match pts[j]? with
        | some p => schurAcc a cw (alphaPnt (resPnt c pat p)) (resJb c pat p (jb j))
        | none => 0) := by
  apply List.map_congr_left
  intro j hj
  have hj' : j < pts.length := List.mem_range.mp hj
  simp [List.getElem?_eq_getElem hj', hj']

theorem calcResAndGS_acc (env : Env) (s : CoarseInitializer) (lvl : Nat) (P : SE3)
    (aff : AffLight) :
    (calcResAndGS env s lvl P aff).2.H_out =
        topLeft88 (((s.points lvl).map
          (resAcc9 (mkResCtx env s lvl P aff) env.cfg.patternP)).sum) +
        Matrix.diagonal (fun k : Fin 8 =>
          if k.val < 3 then alphaOptOf s lvl P * s.numPoints lvl else 0) ∧
    (calcResAndGS env s lvl P aff).2.b_out =
        topRight81 (((s.points lvl).map
          (resAcc9 (mkResCtx env s lvl P aff) env.cfg.patternP)).sum) +
        (fun k : Fin 8 => if h : k.val < 3 then
          env.se3Log P ⟨k.val, by omega⟩ * alphaOptOf s lvl P * s.numPoints lvl else 0) ∧
    (calcResAndGS env s lvl P aff).2.H_out_sc =
        topLeft88 (((List.range (s.points lvl).length).map fun j =>
          match (s.points lvl)[j]? with
            | some p => schurAcc (alphaOptOf s lvl P) s.couplingWeight
                (alphaPnt (resPnt (mkResCtx env s lvl P aff) env.cfg.patternP p))
                (resJb (mkResCtx env s lvl P aff) env.cfg.patternP p (s.JbBuffer_new j))
            | none => 0).sum) ∧
    (calcResAndGS env s lvl P aff).2.b_out_sc =
        topRight81 (((List.range (s.points lvl).length).map fun j =>
          match (s.points lvl)[j]? with
            | some p => schurAcc (alphaOptOf s lvl P) s.couplingWeight
                (alphaPnt (resPnt (mkResCtx env s lvl P aff) env.cfg.patternP p))
                (resJb (mkResCtx env s lvl P aff) env.cfg.patternP p (s.JbBuffer_new j))
            | none => 0).sum) := by
  unfold calcResAndGS alphaOptOf
  simp only [CoarseInitializer.numPoints]
  rw [resLoop_eq _ _ _ _ _ _ _ le_rfl]
  simp only [List.take_length, List.drop_length, List.append_nil, zero_add]
  rw [schurLoop_eq _ _ _ _ _ _ (by simp)]
  simp only [List.length_map, zero_add]
  rw [schurSum_eq]
  refine ⟨?_, ?_, ?_, ?_⟩ <;> trivial

theorem foldl_patternStep_bad (c : ResCtx) (p : Pnt) (pat : List (Int × Int)) (st : PatState)
    (h : st.isGood = false) : pat.foldl (patternStep c p) st = st := by
  induction pat with
  | nil => rfl
  | cons d pat ih =>
    simp only [List.foldl_cons]
    have : patternStep c p st d = st := by simp [patternStep, h]
    rw [this, ih]

theorem not_inside_of_outsideImage (c : ResCtx) (pr : Proj) (h : pr.outsideImage c) :
    ¬ pr.inside c := by
  intro hin
  obtain ⟨h1, h2, h3, h4, -⟩ := hin
  rcases h with h | h | h | h <;> linarith

theorem patternLoop_outside (c : ResCtx) (p : Pnt) (pat : List (Int × Int)) (hne : pat ≠ [])
    (hout : ∀ d ∈ pat, (project c p d).outsideImage c) :
    (patternLoop c pat p).isGood = false := by
  cases pat with
  | nil => exact absurd rfl hne
  | cons d pat =>
    have h1 := not_inside_of_outsideImage c _ (hout d (List.mem_cons_self _ _))
    unfold patternLoop
    simp only [List.foldl_cons]
    have h2 : (patternStep c p ⟨true, 0, 10 ^ 10, 0, []⟩ d).isGood = false := by
      simp [patternStep, h1]
    rw [foldl_patternStep_bad c p pat _ h2, h2]

theorem resAccepted_outside (c : ResCtx) (p : Pnt) (pat : List (Int × Int)) (hne : pat ≠ [])
    (hout : ∀ d ∈ pat, (project c p d).outsideImage c) : resAccepted c pat p = false := by
  simp [resAccepted, patternLoop_outside c p pat hne hout]

theorem resAccepted_not_good (c : ResCtx) (p : Pnt) (pat : List (Int × Int)) :
    resAccepted c pat { p with isGood := false } = false := by
  simp [resAccepted]

theorem resAcc9_rejected (c : ResCtx) (p : Pnt) (pat : List (Int × Int))
    (h : resAccepted c pat p = false) : resAcc9 c pat p = 0 := by
  simp [resAcc9, h]

theorem schurAcc_rejected (c : ResCtx) (p : Pnt) (pat : List (Int × Int)) (a cw : ℚ)
    (jb : Vec10f) (h : resAccepted c pat p = false) :
    schurAcc a cw (alphaPnt (resPnt c pat p)) jb = 0 := by
  have h1 : (alphaPnt (resPnt c pat p)).isGood_new = false := by
    unfold alphaPnt resPnt
    split_ifs <;> simp_all
  simp [schurAcc, h1]

theorem map_set_same {α β : Type} (l : List α) (i : Nat) (a b : α) (f : α → β)
    (h : l[i]? = some a) (hf : f b = f a) : (l.set i b).map f = l.map f := by
  apply List.ext_getElem?
  intro j
  by_cases hj : i = j
  · subst hj
    have hi : i < l.length := by
      by_contra hc
      rw [List.getElem?_eq_none (Nat.le_of_not_lt hc)] at h
      cases h
    have h2 : l[i] = a := by
      rw [List.getElem?_eq_getElem hi] at h
      exact Option.some.inj h
    simp [List.getElem?_set, hi, hf, h2]
  · simp [List.getElem?_set_ne hj]

theorem markNotGood_points (s : CoarseInitializer) (lvl i : Nat) (p : Pnt)
    (hp : (s.points lvl)[i]? = some p) :
    (markNotGood s lvl i).points lvl = (s.points lvl).set i { p with isGood := false } := by
  simp [markNotGood, hp]

/-- C10: in one `calcResAndGS` pass, a good point whose every sampling-pattern
offset projects outside the image is marked invalid for the trial
(`isGood_new = false`) and its `energy_new` is its last committed energy; the
iterations of the accumulation loop and of the Schur-complement loop that
handle it leave `acc9` and `acc9SC` as they found them; and the returned
`H_out`, `b_out`, `H_out_sc` and `b_out_sc` are the ones the pass returns when
the point is flagged not good beforehand, a point both loops skip. -/
theorem outside_point_adds_nothing (env : Env) (s : CoarseInitializer) (lvl : Nat) (P : SE3)
    (aff : AffLight) (i : Nat) (p : Pnt)
    (hp : (s.points lvl)[i]? = some p) (hg : p.isGood = true)
    (hne : env.cfg.patternP ≠ [])
    (hout : ∀ d ∈ env.cfg.patternP,
      (project (mkResCtx env s lvl P aff) p d).outsideImage (mkResCtx env s lvl P aff)) :
    (((calcResAndGS env s lvl P aff).1.points lvl)[i]?.map fun q => (q.isGood_new, q.energy_new)) =
      some (false, p.energy) ∧
    (∀ st : ResState, st.pts[i]? = some p →
      (resStep (mkResCtx env s lvl P aff) env.cfg.patternP i st).acc9 = st.acc9) ∧
    (∀ st : SchurState,
      st.pts[i]? = some (alphaPnt (resPnt (mkResCtx env s lvl P aff) env.cfg.patternP p)) →
      (schurStep (alphaOptOf s lvl P) s.couplingWeight i st).acc9SC = st.acc9SC) ∧
    (calcResAndGS env s lvl P aff).2.H_out =
      (calcResAndGS env (markNotGood s lvl i) lvl P aff).2.H_out ∧
    (calcResAndGS env s lvl P aff).2.b_out =
      (calcResAndGS env (markNotGood s lvl i) lvl P aff).2.b_out ∧
    (calcResAndGS env s lvl P aff).2.H_out_sc =
      (calcResAndGS env (markNotGood s lvl i) lvl P aff).2.H_out_sc ∧
    (calcResAndGS env s lvl P aff).2.b_out_sc =
      (calcResAndGS env (markNotGood s lvl i) lvl P aff).2.b_out_sc := by
  have hrej := resAccepted_outside (mkResCtx env s lvl P aff) p env.cfg.patternP hne hout
  have hrej' := resAccepted_not_good (mkResCtx env s lvl P aff) p env.cfg.patternP
  have hi : i < (s.points lvl).length := by
    by_contra hc
    rw [List.getElem?_eq_none (Nat.le_of_not_lt hc)] at hp
    cases hp
  -- the point after the pass
  have h1 : (((calcResAndGS env s lvl P aff).1.points lvl)[i]?.map
      fun q => (q.isGood_new, q.energy_new)) = some (false, p.energy) := by
    rw [calcResAndGS_getElem?, hp]
    simp only [Option.map_some', Option.some.injEq, Prod.mk.injEq]
    refine ⟨by rw [trialPnt_isGood_new, hrej], ?_⟩
    simp [trialPnt, schurPnt, alphaPnt, resPnt, hg, hrej]
  -- the two loop iterations
  have h2 : ∀ st : ResState, st.pts[i]? = some p →
      (resStep (mkResCtx env s lvl P aff) env.cfg.patternP i st).acc9 = st.acc9 := by
    intro st hst
    rw [resStep_eq _ _ _ _ _ hst, resAcc9_rejected _ _ _ hrej]
    simp
  have h3 : ∀ st : SchurState,
      st.pts[i]? = some (alphaPnt (resPnt (mkResCtx env s lvl P aff) env.cfg.patternP p)) →
      (schurStep (alphaOptOf s lvl P) s.couplingWeight i st).acc9SC = st.acc9SC := by
    intro st hst
    rw [schurStep_eq _ _ _ _ _ hst, schurAcc_rejected _ _ _ _ _ _ hrej]
    simp
  -- the whole pass against the pass with the point flagged not good
  have hpts := markNotGood_points s lvl i p hp
  have hc : mkResCtx env (markNotGood s lvl i) lvl P aff = mkResCtx env s lvl P aff := rfl
  have hlen : ((markNotGood s lvl i).points lvl).length = (s.points lvl).length := by
    rw [hpts, List.length_set]
  have ha : alphaOptOf (markNotGood s lvl i) lvl P = alphaOptOf s lvl P := by
    simp only [alphaOptOf, CoarseInitializer.numPoints, hlen]
    rfl
  have hcw : (markNotGood s lvl i).couplingWeight = s.couplingWeight := rfl
  have hjb : (markNotGood s lvl i).JbBuffer_new = s.JbBuffer_new := rfl
  have hsum1 : ((markNotGood s lvl i).points lvl).map
      (resAcc9 (mkResCtx env s lvl P aff) env.cfg.patternP) =
      (s.points lvl).map (resAcc9 (mkResCtx env s lvl P aff) env.cfg.patternP) := by
    rw [hpts]
    exact map_set_same _ _ _ _ _ hp
      (by rw [resAcc9_rejected _ _ _ hrej, resAcc9_rejected _ _ _ hrej'])
  have hsum2 : ((List.range (s.points lvl).length).map fun j =>
        match ((markNotGood s lvl i).points lvl)[j]? with
          | some p => schurAcc (alphaOptOf s lvl P) s.couplingWeight
              (alphaPnt (resPnt (mkResCtx env s lvl P aff) env.cfg.patternP p))
              (resJb (mkResCtx env s lvl P aff) env.cfg.patternP p (s.JbBuffer_new j))
          | none => 0) =
      ((List.range (s.points lvl).length).map fun j =>
        match (s.points lvl)[j]? with
          | some p => schurAcc (alphaOptOf s lvl P) s.couplingWeight
              (alphaPnt (resPnt (mkResCtx env s lvl P aff) env.cfg.patternP p))
              (resJb (mkResCtx env s lvl P aff) env.cfg.patternP p (s.JbBuffer_new j))
          | none => 0) := by
    apply List.map_congr_left
    intro j _
    rw [hpts]
    by_cases hj : i = j
    · subst hj
      simp only [List.getElem?_set, hi, ↓reduceIte, hp]
      rw [schurAcc_rejected _ _ _ _ _ _ hrej, schurAcc_rejected _ _ _ _ _ _ hrej']
    · rw [List.getElem?_set_ne hj]
  obtain ⟨a1, a2, a3, a4⟩ := calcResAndGS_acc env s lvl P aff
  obtain ⟨b1, b2, b3, b4⟩ := calcResAndGS_acc env (markNotGood s lvl i) lvl P aff
  rw [hc, ha, hcw, hjb, hlen] at b3 b4
  rw [hc, ha, CoarseInitializer.numPoints, hlen] at b1 b2
  rw [hsum1] at b1 b2
  rw [hsum2] at b3 b4
  exact ⟨h1, h2, h3, a1.trans b1.symm, a2.trans b2.symm, a3.trans b3.symm, a4.trans b4.symm⟩

theorem examplePnt1_outside :
    ∀ d ∈ exampleEnv.cfg.patternP,
      (project (mkResCtx exampleEnv exampleState 1 farPose ⟨0, 0⟩) examplePnt1 d).outsideImage
        (mkResCtx exampleEnv exampleState 1 farPose ⟨0, 0⟩) := by
  intro d hd
  simp only [exampleEnv, exampleCfg, List.mem_cons, List.mem_singleton, List.not_mem_nil,
    or_false] at hd
  rcases hd with rfl | rfl | rfl | rfl | rfl | rfl | rfl | rfl <;>
  · right; right; left
    simp [project, mkResCtx, exampleState, farPose, examplePnt1, examplePnt, seedPnt, blankPnt,
      Matrix.mulVec, Matrix.dotProduct, Fin.sum_univ_three, Matrix.one_apply]
    norm_num

/-- Witness of `outside_point_adds_nothing`: the point of level 1 of the example
object under a pose translated by 100 along `x`. -/
theorem outside_point_adds_nothing_witness :
    (exampleState.points 1)[0]? = some examplePnt1 ∧ examplePnt1.isGood = true ∧
    exampleEnv.cfg.patternP ≠ [] ∧
    (∀ d ∈ exampleEnv.cfg.patternP,
      (project (mkResCtx exampleEnv exampleState 1 farPose ⟨0, 0⟩) examplePnt1 d).outsideImage
        (mkResCtx exampleEnv exampleState 1 farPose ⟨0, 0⟩)) ∧
    (((calcResAndGS exampleEnv exampleState 1 farPose ⟨0, 0⟩).1.points 1)[0]?.map
      fun q => (q.isGood_new, q.energy_new)) = some (false, examplePnt1.energy) ∧
    (calcResAndGS exampleEnv exampleState 1 farPose ⟨0, 0⟩).2.H_out =
      (calcResAndGS exampleEnv (markNotGood exampleState 1 0) 1 farPose ⟨0, 0⟩).2.H_out :=
  have h := outside_point_adds_nothing exampleEnv exampleState 1 farPose ⟨0, 0⟩ 0 examplePnt1
    rfl rfl (by simp [exampleEnv, exampleCfg]) examplePnt1_outside
  ⟨rfl, rfl, by simp [exampleEnv, exampleCfg], examplePnt1_outside, h.1, h.2.2.2.1⟩

/-! ## No snap without translation -/

theorem calcResAndGS_alpha (env : Env) (s : CoarseInitializer) (lvl : Nat) (P : SE3)
    (aff : AffLight) :
    (calcResAndGS env s lvl P aff).2.res.2.1 =
      (if s.alphaW * (P.translationSquaredNorm * s.numPoints lvl) > s.alphaK * s.numPoints lvl
        then s.alphaK * s.numPoints lvl
        else s.alphaW * (P.translationSquaredNorm * s.numPoints lvl)) := by
  simp [calcResAndGS, Accumulator11.initialize, Accumulator11.finish]

theorem alpha_below_cap (env : Env) (s : CoarseInitializer) (lvl : Nat) (P : SE3)
    (aff : AffLight) (hK : s.alphaK = 5 / 2 * (5 / 2)) (hn : 1 ≤ (s.points lvl).length)
    (ht : P.t = 0) :
    (calcResAndGS env s lvl P aff).2.res.2.1 <
      (calcResAndGS env s lvl P aff).1.alphaK * (calcResAndGS env s lvl P aff).1.numPoints lvl := by
  have h1 : (calcResAndGS env s lvl P aff).1.alphaK = s.alphaK := rfl
  have h2 : (calcResAndGS env s lvl P aff).1.numPoints lvl = s.numPoints lvl :=
    (ctl_calcResAndGS env s lvl P aff).2.2.2.2.2.2.2 lvl
  have h3 : P.translationSquaredNorm = 0 := by simp [SE3.translationSquaredNorm, ht]
  have h4 : (1 : ℚ) ≤ s.numPoints lvl := by
    unfold CoarseInitializer.numPoints
    exact_mod_cast hn
  rw [calcResAndGS_alpha, h1, h2, h3, hK]
  have h5 : (0 : ℚ) < 5 / 2 * (5 / 2) * s.numPoints lvl := by positivity
  simp only [zero_mul, mul_zero]
  split_ifs <;> linarith

theorem noSnapInv_lmTrial (env : Env) (lvl : Nat) (hlvl : lvl < env.cfg.pyrLevelsUsed)
    (st : LMState) (h : NoSnapInv env st.s st.evaluated) :
    NoSnapInv env (lmTrial env lvl st).s (lmTrial env lvl st).evaluated := by
  obtain ⟨hK, hn, hI⟩ := h
  obtain ⟨-, -, -, cK, -, -, -, cL⟩ := ctl_lmTrial env lvl st
  refine ⟨cK.trans hK, fun l hl => (cL l).symm ▸ hn l hl, ?_⟩
  -- the state handed to `calcResAndGS`
  have dK : (doStep st.s lvl st.lambda (solveInc env st lvl)).alphaK = 5 / 2 * (5 / 2) := hK
  have dn : 1 ≤ ((doStep st.s lvl st.lambda (solveInc env st lvl)).points lvl).length := by
    rw [(ctl_doStep st.s lvl st.lambda (solveInc env st lvl)).2.2.2.2.2.2.2 lvl]
    exact hn lvl hlvl
  have hev : (lmTrial env lvl st).evaluated = st.evaluated ++
      [⟨lvl, (runTrial env lvl st).refToNew_new, (runTrial env lvl st).out.res,
        (runTrial env lvl st).s.alphaK * (runTrial env lvl st).s.numPoints lvl⟩] := by
    unfold lmTrial
    simp only []
    split <;> rfl
  intro hz
  rw [hev] at hz ⊢
  have hzOld : ∀ e ∈ st.evaluated, e.pose.t = 0 :=
    fun e he => hz e (List.mem_append_left _ he)
  have hzNew : (runTrial env lvl st).refToNew_new.t = 0 :=
    hz _ (List.mem_append_right _ (List.mem_singleton_self _))
  obtain ⟨hsn, hcap⟩ := hI hzOld
  have hlt : (runTrial env lvl st).out.res.2.1 <
      (runTrial env lvl st).s.alphaK * (runTrial env lvl st).s.numPoints lvl :=
    alpha_below_cap env _ lvl _ _ dK dn hzNew
  have htr : (runTrial env lvl st).s.snapped = false := hsn
  constructor
  · unfold lmTrial
    simp only []
    split
    · unfold acceptTrial
      simp only [ne_of_lt hlt, ↓reduceIte]
      exact htr
    · exact htr
  · intro e he
    rcases List.mem_append.mp he with h | h
    · exact hcap e h
    · rw [List.mem_singleton.mp h]
      exact hlt

theorem noSnapInv_lmLoop (env : Env) (lvl : Nat) (hlvl : lvl < env.cfg.pyrLevelsUsed)
    (iteration : Nat) (st : LMState) (h : NoSnapInv env st.s st.evaluated) :
    NoSnapInv env (lmLoop env lvl iteration st).s (lmLoop env lvl iteration st).evaluated :=
  lmLoop_preserves env lvl (fun st' => NoSnapInv env st'.s st'.evaluated)
    (fun st' h' => noSnapInv_lmTrial env lvl hlvl st' h') _ iteration st le_rfl h

theorem noSnapInv_trackLevel (env : Env) (lvl : Nat) (hlvl : lvl < env.cfg.pyrLevelsUsed)
    (ts : TrackState)
    (h : NoSnapInv env ts.s ts.evaluated) :
    NoSnapInv env (trackLevel env lvl ts).s (trackLevel env lvl ts).evaluated := by
  obtain ⟨hK, hn, hI⟩ := h
  unfold trackLevel
  simp only []
  apply noSnapInv_lmLoop env lvl hlvl
  simp only []
  -- the state before the first `calcResAndGS` of the level
  have c0 : CtlStep ts.s (resetPoints env.cfg
      (if lvl < env.cfg.pyrLevelsUsed - 1 then propagateDown ts.s (lvl + 1) else ts.s) lvl) := by
    refine CtlStep.trans ?_ (ctl_resetPoints _ _ _)
    split
    · exact ctl_propagateDown _ _
    · exact CtlStep.refl _
  have s0 : (resetPoints env.cfg
      (if lvl < env.cfg.pyrLevelsUsed - 1 then propagateDown ts.s (lvl + 1) else ts.s) lvl).snapped
      = ts.s.snapped := by
    split <;> rfl
  obtain ⟨-, -, -, cK, -, -, -, cL⟩ := c0
  have c1 := ctl_calcResAndGS env (resetPoints env.cfg
      (if lvl < env.cfg.pyrLevelsUsed - 1 then propagateDown ts.s (lvl + 1) else ts.s) lvl) lvl
      ts.refToNew_current ts.refToNew_aff_current
  obtain ⟨-, -, -, dK, -, -, -, dL⟩ := c1
  refine ⟨dK.trans (cK.trans hK), fun l hl => ?_, ?_⟩
  · have := hn l hl
    have e1 := cL l
    have e2 := dL l
    simp only [applyStep]
    by_cases hl2 : l = lvl
    · subst hl2
      simp only [Function.update_same, List.length_map]
      omega
    · simp only [Function.update_noteq hl2]
      omega
  · intro hz
    have hzOld : ∀ e ∈ ts.evaluated, e.pose.t = 0 :=
      fun e he => hz e (List.mem_append_left _ he)
    have hzNew : ts.refToNew_current.t = 0 :=
      hz _ (List.mem_append_right _ (List.mem_singleton_self _))
    obtain ⟨hsn, hcap⟩ := hI hzOld
    refine ⟨s0.trans hsn, ?_⟩
    intro e he
    rcases List.mem_append.mp he with h | h
    · exact hcap e h
    · rw [List.mem_singleton.mp h]
      exact alpha_below_cap env _ lvl _ _ (cK.trans hK) ((cL lvl).symm ▸ hn lvl hlvl) hzNew

theorem noSnapInv_trackLevels (env : Env) (ts : TrackState)
    (h : NoSnapInv env ts.s ts.evaluated) :
    NoSnapInv env (trackLevels env env.cfg.pyrLevelsUsed ts).s
      (trackLevels env env.cfg.pyrLevelsUsed ts).evaluated :=
  trackLevels_preserves env (fun ts' => NoSnapInv env ts'.s ts'.evaluated) env.cfg.pyrLevelsUsed
    (fun lvl hl ts' h' => noSnapInv_trackLevel env lvl hl ts' h') ts h

theorem snapped_propagateUpLoop (n : Nat) (s : CoarseInitializer) :
    (forLoop n (fun i s => propagateUp s i) s).snapped = s.snapped :=
  forLoop_preserves (fun s' : CoarseInitializer => s'.snapped = s.snapped)
    (fun i s => propagateUp s i)
    (fun i s' h => (show (propagateUp s' i).snapped = s'.snapped from rfl).trans h) n s rfl

theorem trackFrameBody_evaluated (env : Env) (s : CoarseInitializer) (f : FrameHessian) :
    (trackFrameRun env s f).evaluated = (trackFrameBody env s f).evaluated := rfl

theorem noSnap_single (env : Env) (s : CoarseInitializer) (f : FrameHessian)
    (hs : s.snapped = false)
    (hn : ∀ l < env.cfg.pyrLevelsUsed, 1 ≤ (s.points l).length)
    (hz : ∀ e ∈ (trackFrameRun env s f).evaluated, e.pose.t = 0) :
    (∀ e ∈ (trackFrameRun env s f).evaluated, e.res.2.1 < e.cap) ∧
    (trackFrame env s f).1.snapped = false ∧ (trackFrame env s f).2 = false ∧
    (∀ l < env.cfg.pyrLevelsUsed, 1 ≤ ((trackFrame env s f).1.points l).length) := by
  have hlen : ∀ l, ((unsnappedReset env.cfg (enterFrame s f)).points l).length =
      (s.points l).length := (ctl_unsnappedReset env.cfg (enterFrame s f)).2.2.2.2.2.2.2
  have h0 : NoSnapInv env (unsnappedReset env.cfg (enterFrame s f)) [] := by
    refine ⟨?_, fun l hl => (hlen l).symm ▸ hn l hl, fun _ => ⟨?_, ?_⟩⟩
    · exact (ctl_unsnappedReset env.cfg (enterFrame s f)).2.2.2.1
    · have : (unsnappedReset env.cfg (enterFrame s f)).snapped = (enterFrame s f).snapped := by
        unfold unsnappedReset; split <;> rfl
      rw [this]; exact hs
    · intro e he; cases he
  have h1 := noSnapInv_trackLevels env
    { s := unsnappedReset env.cfg (enterFrame s f)
      refToNew_current := (unsnappedReset env.cfg (enterFrame s f)).thisToNext
      refToNew_aff_current :=
        if (unsnappedReset env.cfg (enterFrame s f)).firstFrame.ab_exposure > 0 ∧
            (unsnappedReset env.cfg (enterFrame s f)).newFrame.ab_exposure > 0 then
          ⟨env.logf ((unsnappedReset env.cfg (enterFrame s f)).newFrame.ab_exposure /
            (unsnappedReset env.cfg (enterFrame s f)).firstFrame.ab_exposure), 0⟩
        else (unsnappedReset env.cfg (enterFrame s f)).thisToNext_aff
      latestRes := (0, 0, 0), evaluated := [] } h0
  obtain ⟨-, -, hI⟩ := h1
  obtain ⟨hsn, hcap⟩ := hI hz
  have hbody : (trackFrameBody env s f).s.snapped = false := by
    unfold trackFrameBody
    simp only []
    rw [snapped_propagateUpLoop]
    exact hsn
  have hfin : (trackFrame env s f).1.snapped = false := hbody
  refine ⟨hcap, hfin, ?_, fun l hl => ?_⟩
  · show readyFlag (trackFrame env s f).1 = false
    rw [readyFlag, hfin]; rfl
  · have := (ctl_trackFrameBody env s f).2.2.2.2.2.2.2 l
    show 1 ≤ ((trackFrameBody env s f).s.points l).length
    rw [this]
    exact hn l hl

/-- C9: if `snapped` is false when the first of any number of successive
`trackFrame` calls is entered, every level in use has at least one point, and
every pose handed to `calcResAndGS` during the calls has zero translation,
then at every one of these `calcResAndGS` calls the returned alpha energy is
strictly below its cap `alphaK * numPoints[lvl]`, `snapped` is still false
after the last call, and every call returns false. -/
theorem no_snap_without_translation (env : Env) (fs : List FrameHessian) :
    ∀ (s : CoarseInitializer), s.snapped = false →
      (∀ l < env.cfg.pyrLevelsUsed, 1 ≤ (s.points l).length) →
      ZeroTranslationRuns env s fs →
      (∀ e ∈ (trackFrames env s fs).log, e.res.2.1 < e.cap) ∧
      (trackFrames env s fs).s.snapped = false ∧
      (∀ b ∈ (trackFrames env s fs).flags, b = false) ∧
      (trackFrames env s fs).flags.length = fs.length := by
  induction fs with
  | nil =>
    intro s hs _ _
    exact ⟨fun e he => absurd he (List.not_mem_nil e), hs,
      fun b hb => absurd hb (List.not_mem_nil b), rfl⟩
  | cons f fs ih =>
    intro s hs hn hz
    have hz1 : ∀ e ∈ (trackFrameRun env s f).evaluated, e.pose.t = 0 :=
      fun e he => hz e (List.mem_append_left _ he)
    have hz2 : ZeroTranslationRuns env (trackFrame env s f).1 fs :=
      fun e he => hz e (List.mem_append_right _ he)
    obtain ⟨a1, a2, a3, a4⟩ := noSnap_single env s f hs hn hz1
    obtain ⟨b1, b2, b3, b4⟩ := ih (trackFrame env s f).1 a2 a4 hz2
    refine ⟨?_, b2, ?_, ?_⟩
    · intro e he
      rcases List.mem_append.mp he with h | h
      · exact a1 e h
      · exact b1 e h
    · intro b hb
      rcases List.mem_cons.mp hb with h | h
      · rw [h]; exact a3
      · exact b3 b h
    · simp only [trackFrames, List.length_cons, b4]

theorem zeroPose_lmTrial (env : Env) (lvl : Nat)
    (hexp : ∀ v P, P.t = 0 → (SE3.mul (env.se3Exp v) P).t = 0) (st : LMState)
    (h : st.refToNew_current.t = 0 ∧ ∀ e ∈ st.evaluated, e.pose.t = 0) :
    (lmTrial env lvl st).refToNew_current.t = 0 ∧
      ∀ e ∈ (lmTrial env lvl st).evaluated, e.pose.t = 0 := by
  obtain ⟨h1, h2⟩ := h
  have hp : (runTrial env lvl st).refToNew_new.t = 0 := hexp _ _ h1
  have hlog : ∀ e ∈ st.evaluated ++
      [(⟨lvl, (runTrial env lvl st).refToNew_new, (runTrial env lvl st).out.res,
        (runTrial env lvl st).s.alphaK * (runTrial env lvl st).s.numPoints lvl⟩ : EvalLog)],
      e.pose.t = 0 := by
    intro e he
    rcases List.mem_append.mp he with h | h
    · exact h2 e h
    · rw [List.mem_singleton.mp h]; exact hp
  unfold lmTrial
  simp only []
  split
  · exact ⟨hp, hlog⟩
  · exact ⟨h1, hlog⟩

theorem zeroPose_trackLevel (env : Env) (lvl : Nat)
    (hexp : ∀ v P, P.t = 0 → (SE3.mul (env.se3Exp v) P).t = 0) (ts : TrackState)
    (h : ts.refToNew_current.t = 0 ∧ ∀ e ∈ ts.evaluated, e.pose.t = 0) :
    (trackLevel env lvl ts).refToNew_current.t = 0 ∧
      ∀ e ∈ (trackLevel env lvl ts).evaluated, e.pose.t = 0 := by
  obtain ⟨h1, h2⟩ := h
  unfold trackLevel
  simp only []
  refine lmLoop_preserves env lvl
    (fun st' => st'.refToNew_current.t = 0 ∧ ∀ e ∈ st'.evaluated, e.pose.t = 0)
    (fun st' h' => zeroPose_lmTrial env lvl hexp st' h') _ 0 _ le_rfl ⟨h1, ?_⟩
  intro e he
  rcases List.mem_append.mp he with h | h
  · exact h2 e h
  · rw [List.mem_singleton.mp h]; exact h1

theorem zeroPose_single (env : Env) (s : CoarseInitializer) (f : FrameHessian)
    (hexp : ∀ v P, P.t = 0 → (SE3.mul (env.se3Exp v) P).t = 0) (hs : s.snapped = false) :
    ∀ e ∈ (trackFrameRun env s f).evaluated, e.pose.t = 0 := by
  have h0 : (unsnappedReset env.cfg (enterFrame s f)).thisToNext.t = 0 := by
    have : (enterFrame s f).snapped = false := hs
    simp [unsnappedReset, this, SE3.setTranslationZero]
  exact (trackLevels_preserves env
    (fun ts' => ts'.refToNew_current.t = 0 ∧ ∀ e ∈ ts'.evaluated, e.pose.t = 0)
    env.cfg.pyrLevelsUsed (fun lvl _ ts' h' => zeroPose_trackLevel env lvl hexp ts' h')
    _ ⟨h0, fun e he => absurd he (List.not_mem_nil e)⟩).2

theorem zeroPose_runs (env : Env) (fs : List FrameHessian)
    (hexp : ∀ v P, P.t = 0 → (SE3.mul (env.se3Exp v) P).t = 0) :
    ∀ (s : CoarseInitializer), s.snapped = false →
      (∀ l < env.cfg.pyrLevelsUsed, 1 ≤ (s.points l).length) →
      ZeroTranslationRuns env s fs := by
  induction fs with
  | nil => intro s _ _ e he; exact absurd he (List.not_mem_nil e)
  | cons f fs ih =>
    intro s hs hn e he
    have hz1 := zeroPose_single env s f hexp hs
    obtain ⟨-, a2, -, a4⟩ := noSnap_single env s f hs hn hz1
    rcases List.mem_append.mp he with h | h
    · exact hz1 e h
    · exact ih (trackFrame env s f).1 a2 a4 e h

theorem exampleEnv_exp (v : Fin 6 → ℚ) (P : SE3) (h : P.t = 0) :
    (SE3.mul (exampleEnv.se3Exp v) P).t = 0 := by
  simp [SE3.mul, exampleEnv, SE3.identity, h]

theorem exampleState_levels : ∀ l < exampleEnv.cfg.pyrLevelsUsed, 1 ≤ (exampleState.points l).length := by
  intro l hl
  have hl2 : l < 2 := hl
  interval_cases l <;> simp [exampleState]

/-- Witness of `no_snap_without_translation`: three successive calls on the
example object, whose environment never produces a translation. -/
theorem no_snap_without_translation_witness :
    exampleState.snapped = false ∧
    (∀ l < exampleEnv.cfg.pyrLevelsUsed, 1 ≤ (exampleState.points l).length) ∧
    ZeroTranslationRuns exampleEnv exampleState [exampleFrame, exampleFrame, exampleFrame] ∧
    ((∀ e ∈ (trackFrames exampleEnv exampleState [exampleFrame, exampleFrame, exampleFrame]).log,
        e.res.2.1 < e.cap) ∧
      (trackFrames exampleEnv exampleState [exampleFrame, exampleFrame, exampleFrame]).s.snapped
        = false ∧
      (∀ b ∈ (trackFrames exampleEnv exampleState [exampleFrame, exampleFrame, exampleFrame]).flags,
        b = false) ∧
      (trackFrames exampleEnv exampleState [exampleFrame, exampleFrame, exampleFrame]).flags.length
        = [exampleFrame, exampleFrame, exampleFrame].length) :=
  ⟨rfl, exampleState_levels,
    zeroPose_runs exampleEnv _ exampleEnv_exp exampleState rfl exampleState_levels,
    no_snap_without_translation exampleEnv _ exampleState rfl exampleState_levels
      (zeroPose_runs exampleEnv _ exampleEnv_exp exampleState rfl exampleState_levels)⟩

/-! ## Range of the committed depth -/

theorem allOK_set (l : List Pnt) (i : Nat) (a : Pnt) (hl : ∀ p ∈ l, PntOK p) (ha : PntOK a) :
    ∀ p ∈ l.set i a, PntOK p := by
  intro p hp
  rcases List.mem_or_eq_of_mem_set hp with h | h
  · exact hl p h
  · rw [h]; exact ha

theorem getPnt_mem (l : List Pnt) (j : Int) (q : Pnt) (h : getPnt l j = some q) : q ∈ l := by
  unfold getPnt at h
  split at h
  · cases h
  · exact List.getElem?_mem h

theorem goodNeighbourIR_mem (l : List Pnt) (p : Pnt) (x : ℚ) (hx : x ∈ goodNeighbourIR l p) :
    ∃ q ∈ l, x = q.iR := by
  unfold goodNeighbourIR at hx
  rw [List.mem_filterMap] at hx
  obtain ⟨j, -, hj⟩ := hx
  split at hj
  · cases hj
  · split at hj
    · rename_i other hother
      split at hj
      · simp only [Option.some.injEq] at hj
        exact ⟨other, getPnt_mem l j other hother, hj.symm⟩
      · cases hj
    · cases hj

theorem sum_bounds (l : List ℚ) (lo hi : ℚ) (h : ∀ x ∈ l, lo ≤ x ∧ x ≤ hi) :
    lo * l.length ≤ l.sum ∧ l.sum ≤ hi * l.length := by
  induction l with
  | nil => simp
  | cons a l ih =>
    have ha := h a (List.mem_cons_self _ _)
    have ih' := ih (fun x hx => h x (List.mem_cons_of_mem _ hx))
    simp only [List.length_cons, List.sum_cons, Nat.cast_add, Nat.cast_one]
    constructor <;> nlinarith [ha.1, ha.2, ih'.1, ih'.2]

theorem avg_bounds (l : List ℚ) (lo hi : ℚ) (h : ∀ x ∈ l, lo ≤ x ∧ x ≤ hi)
    (hpos : (0 : ℚ) < l.length) : lo ≤ l.sum / l.length ∧ l.sum / l.length ≤ hi := by
  obtain ⟨h1, h2⟩ := sum_bounds l lo hi h
  exact ⟨(le_div_iff₀ hpos).mpr h1, (div_le_iff₀ hpos).mpr h2⟩

theorem allOK_resetPointsStep (n lvl i : Nat) (l : List Pnt) (hl : ∀ p ∈ l, PntOK p) :
    ∀ p ∈ resetPointsStep n lvl i l, PntOK p := by
  unfold resetPointsStep
  split
  · exact hl
  · rename_i p hp
    have hpOK := hl p (List.getElem?_mem hp)
    obtain ⟨a1, a2, a3, a4, a5, a6, a7, a8⟩ := hpOK
    have h1 : PntOK { p with energy := (0, 0), idepth_new := p.idepth } :=
      ⟨a1, a2, a3, a4, a1, a2, a7, a8⟩
    have hl1 := allOK_set l i _ hl h1
    simp only []
    split
    · split
      · rename_i hpos
        have hb := avg_bounds _ (1 / 1000) 50
            (fun x hx => by
              obtain ⟨q, hq, rfl⟩ := goodNeighbourIR_mem _ _ x hx
              exact ⟨(hl1 q hq).2.2.1, (hl1 q hq).2.2.2.1⟩)
            hpos
        exact allOK_set _ i _ hl1 ⟨hb.1, hb.2, hb.1, hb.2, hb.1, hb.2, a7, a8⟩
      · exact hl1
    · exact hl1

theorem allOK_forLoop (body : Nat → List Pnt → List Pnt)
    (h : ∀ i l, (∀ p ∈ l, PntOK p) → ∀ p ∈ body i l, PntOK p) (n : Nat) (l : List Pnt)
    (hl : ∀ p ∈ l, PntOK p) : ∀ p ∈ forLoop n body l, PntOK p :=
  forLoop_preserves (fun l' => ∀ p ∈ l', PntOK p) body h n l hl

theorem clampDepth_bounds (x : ℚ) :
    1 / 1000 ≤ (if (if x < 1 / 1000 then 1 / 1000 else x) > 50 then 50
      else (if x < 1 / 1000 then 1 / 1000 else x)) ∧
    (if (if x < 1 / 1000 then 1 / 1000 else x) > 50 then 50
      else (if x < 1 / 1000 then 1 / 1000 else x)) ≤ 50 := by
  split_ifs <;> constructor <;> norm_num at * <;> linarith

theorem PntOK_doStepPnt (Jb : Nat → Vec10f) (lambda : ℚ) (inc : Vec8f) (i : Nat) (p : Pnt)
    (hp : PntOK p) : PntOK (doStepPnt Jb lambda inc i p) := by
  obtain ⟨a1, a2, a3, a4, a5, a6, a7, a8⟩ := hp
  unfold doStepPnt
  split
  · exact ⟨a1, a2, a3, a4, a5, a6, a7, a8⟩
  · exact ⟨a1, a2, a3, a4, (clampDepth_bounds _).1, (clampDepth_bounds _).2, a7, a8⟩

theorem PntOK_applyStepPnt (p : Pnt) (hp : PntOK p) : PntOK (applyStepPnt p) := by
  obtain ⟨a1, a2, a3, a4, a5, a6, a7, a8⟩ := hp
  unfold applyStepPnt
  split
  · exact ⟨a3, a4, a3, a4, a3, a4, a7, a8⟩
  · exact ⟨a5, a6, a3, a4, a5, a6, a8, a8⟩

theorem allOK_optRegPts_unsnapped (rw : ℚ) (l : List Pnt)
    (hl : ∀ p ∈ l, 1 / 1000 ≤ p.idepth ∧ p.idepth ≤ 50 ∧ 1 / 1000 ≤ p.idepth_new ∧
      p.idepth_new ≤ 50 ∧ 0 ≤ p.lastHessian ∧ 0 ≤ p.lastHessian_new) :
    ∀ p ∈ optRegPts false rw l, PntOK p := by
  intro p hp
  simp only [optRegPts, Bool.not_false, ↓reduceIte, List.mem_map] at hp
  obtain ⟨q, hq, rfl⟩ := hp
  obtain ⟨a1, a2, a5, a6, a7, a8⟩ := hl q hq
  exact ⟨a1, a2, by norm_num, by norm_num, a5, a6, a7, a8⟩

theorem allOK_weaken (l : List Pnt) (hl : ∀ p ∈ l, PntOK p) :
    ∀ p ∈ l, 1 / 1000 ≤ p.idepth ∧ p.idepth ≤ 50 ∧ 1 / 1000 ≤ p.idepth_new ∧
      p.idepth_new ≤ 50 ∧ 0 ≤ p.lastHessian ∧ 0 ≤ p.lastHessian_new := by
  intro p hp
  obtain ⟨a1, a2, -, -, a5, a6, a7, a8⟩ := hl p hp
  exact ⟨a1, a2, a5, a6, a7, a8⟩

theorem PntOK_propagateDownPnt (ptss : List Pnt) (point : Pnt) (hs : ∀ p ∈ ptss, PntOK p)
    (hp : PntOK point) : PntOK (propagateDownPnt ptss point) := by
  obtain ⟨a1, a2, a3, a4, a5, a6, a7, a8⟩ := hp
  unfold propagateDownPnt
  split
  · exact ⟨a1, a2, a3, a4, a5, a6, a7, a8⟩
  · rename_i parent hparent
    obtain ⟨b1, b2, b3, b4, b5, b6, b7, b8⟩ := hs parent (getPnt_mem _ _ _ hparent)
    split
    · exact ⟨a1, a2, a3, a4, a5, a6, a7, a8⟩
    · rename_i hc
      simp only [Bool.or_eq_true, Bool.not_eq_true', decide_eq_true_eq, not_or, not_lt] at hc
      split
      · exact ⟨b3, b4, b3, b4, b3, b4, le_refl 0, a8⟩
      · have hden : 0 < point.lastHessian * 2 + parent.lastHessian := by linarith [hc.2]
        have hlo : 1 / 1000 ≤ (point.iR * point.lastHessian * 2 + parent.iR * parent.lastHessian) /
            (point.lastHessian * 2 + parent.lastHessian) := by
          rw [le_div_iff₀ hden]
          nlinarith [mul_nonneg (sub_nonneg.mpr a3) a7, mul_nonneg (sub_nonneg.mpr b3) b7]
        have hhi : (point.iR * point.lastHessian * 2 + parent.iR * parent.lastHessian) /
            (point.lastHessian * 2 + parent.lastHessian) ≤ 50 := by
          rw [div_le_iff₀ hden]
          nlinarith [mul_nonneg (sub_nonneg.mpr a4) a7, mul_nonneg (sub_nonneg.mpr b4) b7]
        exact ⟨hlo, hhi, hlo, hhi, hlo, hhi, a7, a8⟩

theorem allAcc_modifyPnt (l : List Pnt) (j : Int) (f : Pnt → Pnt) (hl : ∀ p ∈ l, PntAcc p)
    (hf : ∀ p, PntAcc p → PntAcc (f p)) : ∀ p ∈ modifyPnt l j f, PntAcc p := by
  unfold modifyPnt
  split
  · rename_i q hq
    intro p hp
    rcases List.mem_or_eq_of_mem_set hp with h | h
    · exact hl p h
    · rw [h]; exact hf q (hl q (getPnt_mem _ _ _ hq))
  · exact hl

theorem allAcc_accumStep (ptss : List Pnt) (hs : ∀ p ∈ ptss, PntOK p) (i : Nat) (l : List Pnt)
    (hl : ∀ p ∈ l, PntAcc p) : ∀ p ∈ accumStep ptss i l, PntAcc p := by
  unfold accumStep
  split
  · exact hl
  · rename_i point hpoint
    obtain ⟨a1, a2, a3, a4, a5, a6, a7, a8⟩ := hs point (List.getElem?_mem hpoint)
    split
    · exact hl
    · apply allAcc_modifyPnt _ _ _ hl
      intro p hp
      obtain ⟨b1, b2, b3, b4, b5, b6, b7, b8, b9⟩ := hp
      refine ⟨b1, b2, ?_, ?_, ?_, b6, b7, b8, b9⟩
      · show 0 ≤ p.iRSumNum + point.lastHessian
        linarith
      · show 1 / 1000 * (p.iRSumNum + point.lastHessian) ≤ p.iR + point.iR * point.lastHessian
        nlinarith [mul_nonneg (sub_nonneg.mpr a3) a7]
      · show p.iR + point.iR * point.lastHessian ≤ 50 * (p.iRSumNum + point.lastHessian)
        nlinarith [mul_nonneg (sub_nonneg.mpr a4) a7]

theorem allOK_propagateUpPts (ptss ptst : List Pnt) (hs : ∀ p ∈ ptss, PntOK p)
    (ht : ∀ p ∈ ptst, PntOK p) :
    ∀ p ∈ propagateUpPts ptss ptst, 1 / 1000 ≤ p.idepth ∧ p.idepth ≤ 50 ∧
      1 / 1000 ≤ p.idepth_new ∧ p.idepth_new ≤ 50 ∧ 0 ≤ p.lastHessian ∧ 0 ≤ p.lastHessian_new := by
  have h0 : ∀ p ∈ ptst.map clearAccum, PntAcc p := by
    intro p hp
    rw [List.mem_map] at hp
    obtain ⟨q, hq, rfl⟩ := hp
    obtain ⟨a1, a2, a3, a4, a5, a6, a7, a8⟩ := ht q hq
    exact ⟨a1, a2, le_refl _, by simp [clearAccum], by simp [clearAccum], a5, a6, a7, a8⟩
  have h1 : ∀ p ∈ forLoop ptss.length (accumStep ptss) (ptst.map clearAccum), PntAcc p :=
    forLoop_preserves (fun l' => ∀ p ∈ l', PntAcc p) (accumStep ptss)
      (fun i l hl => allAcc_accumStep ptss hs i l hl) _ _ h0
  intro p hp
  unfold propagateUpPts at hp
  rw [List.mem_map] at hp
  obtain ⟨q, hq, rfl⟩ := hp
  obtain ⟨b1, b2, b3, b4, b5, b6, b7, b8, b9⟩ := h1 q hq
  unfold normalizeParent
  split
  · rename_i hpos
    exact ⟨(le_div_iff₀ hpos).mpr b4, (div_le_iff₀ hpos).mpr b5, b6, b7, b8, b9⟩
  · exact ⟨b1, b2, b6, b7, b8, b9⟩

theorem patternStep_jb9 (c : ResCtx) (p : Pnt) (st : PatState) (d : Int × Int)
    (h : 0 ≤ st.jb 9) : 0 ≤ (patternStep c p st d).jb 9 := by
  unfold patternStep
  split
  · exact h
  · simp only []
    split
    · exact h
    · split
      · exact h
      · simp only [Pi.add_apply]
        have h9 : ∀ (a0 a1 a2 a3 a4 a5 a6 a7 a8 a9 : ℚ),
            (![a0, a1, a2, a3, a4, a5, a6, a7, a8, a9] : Fin 10 → ℚ) 9 = a9 := by
          intros; rfl
        rw [h9]
        exact add_nonneg h (mul_self_nonneg _)

theorem patternLoop_jb9 (c : ResCtx) (pat : List (Int × Int)) (p : Pnt) :
    0 ≤ (patternLoop c pat p).jb 9 := by
  unfold patternLoop
  have : ∀ (l : List (Int × Int)) (st : PatState), 0 ≤ st.jb 9 →
      0 ≤ (l.foldl (patternStep c p) st).jb 9 := by
    intro l
    induction l with
    | nil => intro st h; exact h
    | cons d l ih => intro st h; exact ih _ (patternStep_jb9 c p st d h)
  exact this pat _ (le_refl _)

theorem PntOK_trialPnt (c : ResCtx) (pat : List (Int × Int)) (p : Pnt) (old : Vec10f)
    (hp : PntOK p) : PntOK (trialPnt c pat p old) := by
  obtain ⟨a1, a2, a3, a4, a5, a6, a7, a8⟩ := hp
  have hj := patternLoop_jb9 c pat p
  unfold trialPnt schurPnt alphaPnt resPnt resJb
  split_ifs <;> first
    | exact ⟨a1, a2, a3, a4, a5, a6, a7, a8⟩
    | exact ⟨a1, a2, a3, a4, a5, a6, a7, hj⟩
    | simp_all

theorem allOK_update (f : Nat → List Pnt) (lvl : Nat) (l : List Pnt)
    (hf : ∀ k, ∀ p ∈ f k, PntOK p) (hl : ∀ p ∈ l, PntOK p) :
    ∀ k, ∀ p ∈ Function.update f lvl l k, PntOK p := by
  intro k p hp
  by_cases hk : k = lvl
  · subst hk
    rw [Function.update_same] at hp
    exact hl p hp
  · rw [Function.update_noteq hk] at hp
    exact hf k p hp

theorem rangeInv_optReg (s : CoarseInitializer) (lvl : Nat) (h : RangeInv s) :
    RangeInv (optReg s lvl) := by
  obtain ⟨hs, hp⟩ := h
  refine ⟨hs, allOK_update _ _ _ hp ?_⟩
  rw [hs]
  exact allOK_optRegPts_unsnapped _ _ (allOK_weaken _ (hp lvl))

theorem rangeInv_resetPoints (cfg : Settings) (s : CoarseInitializer) (lvl : Nat)
    (h : RangeInv s) : RangeInv (resetPoints cfg s lvl) := by
  obtain ⟨hs, hp⟩ := h
  exact ⟨hs, allOK_update _ _ _ hp
    (allOK_forLoop _ (allOK_resetPointsStep _ _) _ _ (hp lvl))⟩

theorem rangeInv_doStep (s : CoarseInitializer) (lvl : Nat) (lambda : ℚ) (inc : Vec8f)
    (h : RangeInv s) : RangeInv (doStep s lvl lambda inc) := by
  obtain ⟨hs, hp⟩ := h
  refine ⟨hs, allOK_update _ _ _ hp ?_⟩
  intro p hm
  rw [List.mem_mapIdx] at hm
  obtain ⟨i, hi, rfl⟩ := hm
  exact PntOK_doStepPnt _ _ _ _ _ (hp lvl _ (List.getElem_mem _))

theorem rangeInv_applyStep (s : CoarseInitializer) (lvl : Nat) (h : RangeInv s) :
    RangeInv (applyStep s lvl) := by
  obtain ⟨hs, hp⟩ := h
  refine ⟨hs, allOK_update _ _ _ hp ?_⟩
  intro p hm
  rw [List.mem_map] at hm
  obtain ⟨q, hq, rfl⟩ := hm
  exact PntOK_applyStepPnt q (hp lvl q hq)

theorem rangeInv_propagateUp (s : CoarseInitializer) (lvl : Nat) (h : RangeInv s) :
    RangeInv (propagateUp s lvl) := by
  obtain ⟨hs, hp⟩ := h
  refine ⟨hs, ?_⟩
  unfold propagateUp optReg
  simp only [Function.update_same, Function.update_idem, hs]
  exact allOK_update _ _ _ hp
    (allOK_optRegPts_unsnapped _ _ (allOK_propagateUpPts _ _ (hp lvl) (hp (lvl + 1))))

theorem rangeInv_propagateDown (s : CoarseInitializer) (lvl : Nat) (h : RangeInv s) :
    RangeInv (propagateDown s lvl) := by
  obtain ⟨hs, hp⟩ := h
  refine ⟨hs, ?_⟩
  unfold propagateDown optReg
  simp only [Function.update_same, Function.update_idem, hs]
  refine allOK_update _ _ _ hp (allOK_optRegPts_unsnapped _ _ (allOK_weaken _ ?_))
  intro p hm
  rw [List.mem_map] at hm
  obtain ⟨q, hq, rfl⟩ := hm
  exact PntOK_propagateDownPnt _ q (hp lvl) (hp (lvl - 1) q hq)

theorem rangeInv_calcResAndGS (env : Env) (s : CoarseInitializer) (lvl : Nat) (P : SE3)
    (aff : AffLight) (h : RangeInv s) : RangeInv (calcResAndGS env s lvl P aff).1 := by
  obtain ⟨hs, hp⟩ := h
  refine ⟨hs, ?_⟩
  intro k p hm
  by_cases hk : k = lvl
  · subst hk
    obtain ⟨j, hj⟩ := List.getElem?_of_mem hm
    rw [calcResAndGS_getElem?] at hj
    cases hq : (s.points k)[j]? with
    | none => rw [hq] at hj; cases hj
    | some q =>
      rw [hq] at hj
      simp only [Option.map_some', Option.some.injEq] at hj
      rw [← hj]
      exact PntOK_trialPnt _ _ q _ (hp k q (List.getElem?_mem hq))
  · rw [calcResAndGS_points_other _ _ _ _ _ _ hk] at hm
    exact hp k p hm

theorem rangeInv_run (env : Env) (s : CoarseInitializer) (op : PointOp)
    (hop : op.isSnap = false) (h : RangeInv s) : RangeInv (op.run env s) := by
  cases op with
  | resetPoints lvl => exact rangeInv_resetPoints _ _ _ h
  | doStep lvl lambda inc => exact rangeInv_doStep _ _ _ _ h
  | applyStep lvl => exact rangeInv_applyStep _ _ h
  | optReg lvl => exact rangeInv_optReg _ _ h
  | propagateUp lvl => exact rangeInv_propagateUp _ _ h
  | propagateDown lvl => exact rangeInv_propagateDown _ _ h
  | calcResAndGS lvl P aff => exact rangeInv_calcResAndGS _ _ _ _ _ h
  | snap => cases hop

theorem rangeInv_of_seeded (s : CoarseInitializer) (h : Seeded s) : RangeInv s := by
  obtain ⟨hs, hp⟩ := h
  refine ⟨hs, fun lvl p hm => ?_⟩
  obtain ⟨a1, a2, a3, a4, a5⟩ := hp lvl p hm
  rw [PntOK, a1, a2, a3, a4, a5]
  norm_num

/-- C1 (amended): starting from a freshly seeded point set (every point has
`idepth = iR = 1`, working depth 1 and zero confidence) and for every sequence
of the point-mutating operations of `trackFrame` (`resetPoints`, `doStep`,
`applyStep`, `optReg`, `propagateUp`, `propagateDown`, `calcResAndGS`) applied
while the object has not snapped, every point of every level, good or not, has
a committed `idepth` with `1e-3 <= idepth <= 50`. -/
theorem depth_in_range_unsnapped (env : Env) (ops : List PointOp) :
    ∀ (s : CoarseInitializer), Seeded s → (∀ op ∈ ops, op.isSnap = false) →
      DepthInRange (runOps env s ops) := by
  have key : ∀ (ops : List PointOp) (s : CoarseInitializer), RangeInv s →
      (∀ op ∈ ops, op.isSnap = false) → RangeInv (runOps env s ops) := by
    intro ops
    induction ops with
    | nil => intro s h _; exact h
    | cons op ops ih =>
      intro s h hops
      exact ih _ (rangeInv_run env s op (hops op (List.mem_cons_self _ _)) h)
        (fun o ho => hops o (List.mem_cons_of_mem _ ho))
  intro s hs hops lvl p hm
  obtain ⟨a1, a2, -⟩ := (key ops s (rangeInv_of_seeded s hs) hops).2 lvl p hm
  exact ⟨a1, a2⟩

theorem seeded_exampleState : Seeded exampleState := by
  refine ⟨rfl, fun lvl p hp => ?_⟩
  simp only [exampleState] at hp
  split at hp
  · simp only [List.mem_cons, List.mem_singleton, List.not_mem_nil, or_false] at hp
    rcases hp with rfl | rfl <;> simp [examplePnt, seedPnt]
  · split at hp
    · simp only [List.mem_singleton] at hp
      subst hp
      simp [examplePnt1, examplePnt, seedPnt]
    · cases hp

set_option maxRecDepth 8000 in
set_option maxHeartbeats 4000000 in
/-- C1 (counterexample): on the freshly seeded example object, the operations
`snapOps` (two frames in the order of `trackFrame`, with a pose turned away
from the scene and a snap) leave the point of level 1 with committed
`idepth = 0`: `calcResAndGS` marks it invalid, `propagateUp` clears its `iR`
and finds no weight to restore it, the snapped `optReg` skips it, and the next
`applyStep` commits `idepth = iR = 0`. -/
theorem depth_leaves_range :
    Seeded exampleState ∧
    ((runOps exampleEnv exampleState snapOps).points 1).map Pnt.idepth = [0] ∧
    ¬ DepthInRange (runOps exampleEnv exampleState snapOps) := by
  have h : ((runOps exampleEnv exampleState snapOps).points 1).map Pnt.idepth = [0] := by
    simp [runOps, snapOps, PointOp.run, resetPoints, forLoop, resetPointsStep, exampleState,
      exampleEnv, exampleCfg, examplePnt1, examplePnt, seedPnt, blankPnt, applyStep, applyStepPnt,
      calcResAndGS, resStep, patternLoop, patternStep, project, mkResCtx,
      turnedPose, farPose, Proj.inside, goodNeighbourIR, getPnt, schurStep, alphaPnt, propagateUp,
      propagateDown, propagateDownPnt, propagateUpPts, accumStep, clearAccum, normalizeParent,
      modifyPnt, optReg, optRegPts, optRegStep, doStep, doStepPnt, huberWeight,
      exampleFrame, Matrix.mulVec, Matrix.dotProduct, Fin.sum_univ_three, List.ofFn_succ]
  refine ⟨seeded_exampleState, h, fun hr => ?_⟩
  have hmem : ∀ x ∈ ((runOps exampleEnv exampleState snapOps).points 1).map Pnt.idepth,
      (1 : ℚ) / 1000 ≤ x := by
    intro x hx
    rw [List.mem_map] at hx
    obtain ⟨p, hp, rfl⟩ := hx
    exact (hr 1 p hp).1
  rw [h] at hmem
  have := hmem 0 (List.mem_singleton_self 0)
  norm_num at this

/-- Witness of `depth_in_range_unsnapped`: the example object under the
operations of `snapOps` without the snap. -/
theorem depth_in_range_unsnapped_witness :
    Seeded exampleState ∧ (∀ op ∈ noSnapOps, op.isSnap = false) ∧
      DepthInRange (runOps exampleEnv exampleState noSnapOps) :=
  have h : ∀ op ∈ noSnapOps, op.isSnap = false := by
    intro op hop
    simp only [noSnapOps, List.mem_filter, Bool.not_eq_true'] at hop
    exact hop.2
  ⟨seeded_exampleState, h, depth_in_range_unsnapped exampleEnv noSnapOps exampleState
    seeded_exampleState h⟩

/-! ## Propagation under a flat field -/

/-- C6 (counterexample): on the snapped example with the flat field `c = 2` on
both levels, whose level-0 points have confidence 0, `propagateUp(0)` followed
by `propagateDown(1)` leaves both points of level 0 with `idepth = iR = 0`. -/
theorem roundTrip_drifts :
    FlatLevel (flatState.points 0) 2 ∧
    ((propagateDown (propagateUp flatState 0) 1).points 0).map
      (fun p => (p.idepth, p.iR)) = [(0, 0), (0, 0)] := by
  constructor
  · intro p hp
    simp only [flatState, ↓reduceIte, List.mem_cons, List.mem_singleton, List.not_mem_nil,
      or_false] at hp
    rcases hp with rfl | rfl <;> simp [flatPnt]
  · have h1 : ¬ ((1 : ℚ) < 10⁻¹) := by norm_num
    simp [h1, propagateDown, propagateUp, propagateUpPts, propagateDownPnt, optReg, optRegPts,
      flatState, exampleState, flatPnt, examplePnt, seedPnt, blankPnt, forLoop, accumStep,
      clearAccum, normalizeParent, modifyPnt, getPnt, optRegStep, goodNeighbourIR, nthElement,
      List.ofFn_succ]

theorem nthElement_const (l : List ℚ) (c : ℚ) (n : Nat) (h : ∀ x ∈ l, x = c)
    (hn : n < l.length) : nthElement l n = c := by
  unfold nthElement
  have hlen : (l.insertionSort fun a b => a ≤ b).length = l.length := List.length_insertionSort _ _
  have hn2 : n < (l.insertionSort fun a b => a ≤ b).length := by omega
  rw [List.getD_eq_getElem?_getD, List.getElem?_eq_getElem hn2, Option.getD_some]
  have hmem := List.getElem_mem hn2
  exact h _ ((List.perm_insertionSort _ l).mem_iff.mp hmem)

theorem flat_optRegStep (rw c : ℚ) (i : Nat) (l : List Pnt) (hl : FlatLevel l c) :
    FlatLevel (optRegStep rw i l) c := by
  unfold optRegStep
  split
  · exact hl
  · rename_i point hpoint
    obtain ⟨a1, a2⟩ := hl point (List.getElem?_mem hpoint)
    split
    · exact hl
    · simp only []
      split
      · rename_i hnn
        intro p hp
        rcases List.mem_or_eq_of_mem_set hp with h | h
        · exact hl p h
        · rw [h]
          refine ⟨a1, ?_⟩
          have hc := nthElement_const (goodNeighbourIR l point) c
            ((goodNeighbourIR l point).length / 2)
            (fun x hx => by
              obtain ⟨q, hq, rfl⟩ := goodNeighbourIR_mem l point x hx
              exact (hl q hq).2)
            (Nat.div_lt_self (by omega) (by norm_num))
          show (1 - rw) * point.idepth + rw * nthElement _ _ = c
          rw [hc, a1]
          ring
      · exact hl

theorem flat_optRegPts_snapped (rw c : ℚ) (l : List Pnt) (hl : FlatLevel l c) :
    FlatLevel (optRegPts true rw l) c := by
  unfold optRegPts
  simp only [Bool.not_true, Bool.false_eq_true, ↓reduceIte]
  exact forLoop_preserves (fun l' => FlatLevel l' c) _ (fun i l' h => flat_optRegStep rw c i l' h)
    _ l hl

theorem flat_propagateDownPnt (ptss : List Pnt) (c : ℚ) (point : Pnt)
    (hs : ∀ q ∈ ptss, q.iR = c) (hp : point.idepth = c ∧ point.iR = c)
    (hl : 0 ≤ point.lastHessian) :
    (propagateDownPnt ptss point).idepth = c ∧ (propagateDownPnt ptss point).iR = c := by
  unfold propagateDownPnt
  split
  · exact hp
  · rename_i parent hparent
    have hq := hs parent (getPnt_mem _ _ _ hparent)
    split
    · exact hp
    · rename_i hc
      simp only [Bool.or_eq_true, Bool.not_eq_true', decide_eq_true_eq, not_or, not_lt] at hc
      split
      · exact ⟨hq, hq⟩
      · have hden : point.lastHessian * 2 + parent.lastHessian ≠ 0 := by
          have : 0 < point.lastHessian * 2 + parent.lastHessian := by linarith [hc.2]
          exact ne_of_gt this
        have hv : (point.iR * point.lastHessian * 2 + parent.iR * parent.lastHessian) /
            (point.lastHessian * 2 + parent.lastHessian) = c := by
          rw [hq, hp.2, div_eq_iff hden]
          ring
        exact ⟨hv, hv⟩

theorem getPnt_natCast (l : List Pnt) (j : Nat) : getPnt l (j : Int) = l[j]? := by
  unfold getPnt
  have : ¬ ((j : Int) < 0) := by omega
  simp [this]

theorem getPnt_some (l : List Pnt) (j : Int) (q : Pnt) (h : getPnt l j = some q) :
    0 ≤ j ∧ l[j.toNat]? = some q := by
  unfold getPnt at h
  split at h
  · cases h
  · exact ⟨by omega, h⟩

theorem accFlat_accumStep (ptss : List Pnt) (c : ℚ)
    (hs : ∀ p ∈ ptss, p.iR = c ∧ 0 ≤ p.lastHessian) (i : Nat) (l : List Pnt)
    (hl : ∀ q ∈ l, q.iR = c * q.iRSumNum ∧ 0 ≤ q.iRSumNum) :
    ∀ q ∈ accumStep ptss i l, q.iR = c * q.iRSumNum ∧ 0 ≤ q.iRSumNum := by
  unfold accumStep
  split
  · exact hl
  · rename_i point hpoint
    obtain ⟨a1, a2⟩ := hs point (List.getElem?_mem hpoint)
    split
    · exact hl
    · unfold modifyPnt
      split
      · rename_i q0 hq0
        obtain ⟨b1, b2⟩ := hl q0 (getPnt_mem _ _ _ hq0)
        intro q hq
        rcases List.mem_or_eq_of_mem_set hq with h | h
        · exact hl q h
        · rw [h]
          constructor
          · show q0.iR + point.iR * point.lastHessian = c * (q0.iRSumNum + point.lastHessian)
            rw [b1, a1]; ring
          · show 0 ≤ q0.iRSumNum + point.lastHessian
            linarith
      · exact hl

theorem weight_accumStep (ptss : List Pnt) (hs : ∀ p ∈ ptss, 0 ≤ p.lastHessian) (n : Nat)
    (l : List Pnt) (hl : ∀ q ∈ l, 0 ≤ q.iRSumNum)
    (hI : ∀ j : Nat, (∃ i < n, ∃ p, ptss[i]? = some p ∧ p.isGood = true ∧ 0 < p.lastHessian ∧
        p.parent = (j : Int)) → ∀ q, l[j]? = some q → 0 < q.iRSumNum) :
    ∀ j : Nat, (∃ i < n + 1, ∃ p, ptss[i]? = some p ∧ p.isGood = true ∧ 0 < p.lastHessian ∧
        p.parent = (j : Int)) → ∀ q, (accumStep ptss n l)[j]? = some q → 0 < q.iRSumNum := by
  intro j hw q hq
  obtain ⟨i, hi, p, hp, hg, hpos, hpar⟩ := hw
  unfold accumStep at hq
  split at hq
  · -- no point `n`
    rename_i hnone
    have hin : i < n := by
      rcases Nat.lt_succ_iff_lt_or_eq.mp hi with h | h
      · exact h
      · subst h; rw [hnone] at hp; cases hp
    exact hI j ⟨i, hin, p, hp, hg, hpos, hpar⟩ q hq
  · rename_i point hpoint
    split at hq
    · -- point `n` is not good
      rename_i hng
      have hin : i < n := by
        rcases Nat.lt_succ_iff_lt_or_eq.mp hi with h | h
        · exact h
        · subst h
          rw [hpoint] at hp
          cases hp
          simp [hg] at hng
      exact hI j ⟨i, hin, p, hp, hg, hpos, hpar⟩ q hq
    · have hpl : 0 ≤ point.lastHessian := hs point (List.getElem?_mem hpoint)
      unfold modifyPnt at hq
      split at hq
      · rename_i q0 hq0
        obtain ⟨hk0, hk⟩ := getPnt_some _ _ _ hq0
        by_cases hjk : point.parent.toNat = j
        · -- the parent of point `n` is `j`
          rw [hjk] at hk
          have hlen : j < l.length := by
            by_contra hc
            rw [List.getElem?_eq_none (Nat.le_of_not_lt hc)] at hk
            cases hk
          rw [hjk, List.getElem?_set, if_pos rfl, if_pos hlen] at hq
          cases hq
          show 0 < q0.iRSumNum + point.lastHessian
          rcases Nat.lt_succ_iff_lt_or_eq.mp hi with h | h
          · have := hI j ⟨i, h, p, hp, hg, hpos, hpar⟩ q0 hk
            linarith
          · subst h
            rw [hpoint] at hp
            cases hp
            have := hl q0 (List.getElem?_mem hk)
            linarith
        · rw [List.getElem?_set_ne hjk] at hq
          have hin : i < n := by
            rcases Nat.lt_succ_iff_lt_or_eq.mp hi with h | h
            · exact h
            · subst h
              rw [hpoint] at hp
              cases hp
              exfalso
              apply hjk
              rw [hpar]
              simp
          exact hI j ⟨i, hin, p, hp, hg, hpos, hpar⟩ q hq
      · rename_i hnone
        have hin : i < n := by
          rcases Nat.lt_succ_iff_lt_or_eq.mp hi with h | h
          · exact h
          · subst h
            rw [hpoint] at hp
            cases hp
            exfalso
            rw [hpar, getPnt_natCast, hq] at hnone
            cases hnone
        exact hI j ⟨i, hin, p, hp, hg, hpos, hpar⟩ q hq

theorem accum_loop (ptss : List Pnt) (c : ℚ) (hs : ∀ p ∈ ptss, p.iR = c ∧ 0 ≤ p.lastHessian)
    (l0 : List Pnt) (h0 : ∀ q ∈ l0, q.iR = c * q.iRSumNum ∧ 0 ≤ q.iRSumNum) (n : Nat) :
    (∀ q ∈ forLoop n (accumStep ptss) l0, q.iR = c * q.iRSumNum ∧ 0 ≤ q.iRSumNum) ∧
    (∀ j : Nat, (∃ i < n, ∃ p, ptss[i]? = some p ∧ p.isGood = true ∧ 0 < p.lastHessian ∧
        p.parent = (j : Int)) →
      ∀ q, (forLoop n (accumStep ptss) l0)[j]? = some q → 0 < q.iRSumNum) := by
  induction n with
  | zero =>
    refine ⟨h0, ?_⟩
    rintro j ⟨i, hi, -⟩
    exact absurd hi (Nat.not_lt_zero i)
  | succ n ih =>
    obtain ⟨ih1, ih2⟩ := ih
    exact ⟨accFlat_accumStep ptss c hs n _ ih1,
      weight_accumStep ptss (fun p hp => (hs p hp).2) n _ (fun q hq => (ih1 q hq).2) ih2⟩

theorem flat_propagateUpPts (ptss ptst : List Pnt) (c : ℚ)
    (hs : ∀ p ∈ ptss, p.iR = c ∧ 0 ≤ p.lastHessian) (hcov : ParentsCovered ptss ptst) :
    ∀ q ∈ propagateUpPts ptss ptst, q.idepth = c ∧ q.iR = c := by
  have h0 : ∀ q ∈ ptst.map clearAccum, q.iR = c * q.iRSumNum ∧ 0 ≤ q.iRSumNum := by
    intro q hq
    rw [List.mem_map] at hq
    obtain ⟨q0, -, rfl⟩ := hq
    simp [clearAccum]
  obtain ⟨h1, h2⟩ := accum_loop ptss c hs (ptst.map clearAccum) h0 ptss.length
  intro q hq
  unfold propagateUpPts at hq
  obtain ⟨j, hj⟩ := List.getElem?_of_mem hq
  rw [List.getElem?_map] at hj
  cases hL : (forLoop ptss.length (accumStep ptss) (ptst.map clearAccum))[j]? with
  | none => rw [hL] at hj; cases hj
  | some q1 =>
    rw [hL] at hj
    simp only [Option.map_some', Option.some.injEq] at hj
    have hjlen : j < ptst.length := by
      have hlen : (forLoop ptss.length (accumStep ptss) (ptst.map clearAccum)).length =
          ptst.length := by
        rw [length_forLoop_pts _ (length_accumStep ptss), List.length_map]
      by_contra hc
      rw [List.getElem?_eq_none (by omega)] at hL
      cases hL
    obtain ⟨p, hp, hg, hpos, hpar⟩ := hcov j hjlen
    obtain ⟨i, hi⟩ := List.getElem?_of_mem hp
    have hilen : i < ptss.length := by
      by_contra hc
      rw [List.getElem?_eq_none (Nat.le_of_not_lt hc)] at hi
      cases hi
    have hW := h2 j ⟨i, hilen, p, hi, hg, hpos, hpar⟩ q1 hL
    obtain ⟨e1, -⟩ := h1 q1 (List.getElem?_mem hL)
    rw [← hj]
    have hv : q1.iR / q1.iRSumNum = c := by
      rw [e1, mul_div_assoc, div_self (ne_of_gt hW), mul_one]
    simp only [normalizeParent, hW, ↓reduceIte]
    exact ⟨hv, hv⟩

theorem propagateDown_points (s : CoarseInitializer) (lvl : Nat) :
    (propagateDown s (lvl + 1)).points lvl =
      optRegPts s.snapped s.regWeight
        ((s.points lvl).map (propagateDownPnt (s.points (lvl + 1)))) := by
  have key : ∀ m, m - 1 = lvl → (propagateDown s m).points lvl =
      optRegPts s.snapped s.regWeight ((s.points lvl).map (propagateDownPnt (s.points m))) := by
    intro m hm
    subst hm
    unfold propagateDown optReg
    simp only [Function.update_same, Function.update_idem]
  exact key (lvl + 1) (Nat.add_sub_cancel lvl 1)

/-- C6 (amended): propagation round trip under a flat field.  For every level
`lvl` whose points all carry the same depth `c` (`idepth = iR = c`) and have
`lastHessian >= 0`, `propagateUp(lvl)` followed by `propagateDown(lvl + 1)`
leaves every point of level `lvl` with `idepth = iR = c`, provided that either
the optimizer has not snapped and `c = 1`, or it has snapped and every point of
level `lvl + 1` is the parent of at least one good point of level `lvl` with
positive `lastHessian`. -/
theorem roundTrip_flat (s : CoarseInitializer) (lvl : Nat) (c : ℚ)
    (hflat : FlatLevel (s.points lvl) c)
    (hlast : ∀ p ∈ s.points lvl, 0 ≤ p.lastHessian)
    (hcase : (s.snapped = false ∧ c = 1) ∨
      (s.snapped = true ∧ ParentsCovered (s.points lvl) (s.points (lvl + 1)))) :
    FlatLevel ((propagateDown (propagateUp s lvl) (lvl + 1)).points lvl) c := by
  have hne : lvl ≠ lvl + 1 := by omega
  -- the parents after `propagateUp`
  have hpar : ∀ q ∈ (propagateUp s lvl).points (lvl + 1), q.iR = c := by
    unfold propagateUp optReg
    simp only [Function.update_same, Function.update_idem]
    rcases hcase with ⟨hs, hc⟩ | ⟨hs, hcov⟩
    · rw [hs, hc]
      intro q hq
      simp only [optRegPts, Bool.not_false, ↓reduceIte, List.mem_map] at hq
      obtain ⟨q0, -, rfl⟩ := hq
      rfl
    · rw [hs]
      exact fun q hq => (flat_optRegPts_snapped _ c _
        (flat_propagateUpPts _ _ c (fun p hp => ⟨(hflat p hp).2, hlast p hp⟩) hcov) q hq).2
  have hchild : (propagateUp s lvl).points lvl = s.points lvl := by
    unfold propagateUp optReg
    simp only [Function.update_idem, Function.update_noteq hne]
  have hsn : (propagateUp s lvl).snapped = s.snapped := rfl
  -- the children after the loop of `propagateDown`
  have hmap : FlatLevel ((s.points lvl).map
      (propagateDownPnt ((propagateUp s lvl).points (lvl + 1)))) c := by
    intro p hp
    rw [List.mem_map] at hp
    obtain ⟨p0, hp0, rfl⟩ := hp
    exact flat_propagateDownPnt _ c p0 hpar (hflat p0 hp0) (hlast p0 hp0)
  rw [propagateDown_points, hchild, hsn]
  rcases hcase with ⟨hs, hc⟩ | ⟨hs, -⟩
  · rw [hs]
    intro p hp
    simp only [optRegPts, Bool.not_false, ↓reduceIte] at hp
    rw [List.mem_map] at hp
    obtain ⟨p0, hp0, rfl⟩ := hp
    exact ⟨(hmap p0 hp0).1, hc.symm⟩
  · rw [hs]
    exact flat_optRegPts_snapped _ c _ hmap

/-- Witness of `roundTrip_flat`: level 0 of the example object, which has not
snapped and carries the depth 1. -/
theorem roundTrip_flat_witness :
    FlatLevel (exampleState.points 0) 1 ∧
    (∀ p ∈ exampleState.points 0, 0 ≤ p.lastHessian) ∧
    ((exampleState.snapped = false ∧ (1 : ℚ) = 1) ∨
      (exampleState.snapped = true ∧
        ParentsCovered (exampleState.points 0) (exampleState.points (0 + 1)))) ∧
    FlatLevel ((propagateDown (propagateUp exampleState 0) (0 + 1)).points 0) 1 :=
  have h1 : FlatLevel (exampleState.points 0) 1 := fun p hp =>
    ⟨(seeded_exampleState.2 0 p hp).1, (seeded_exampleState.2 0 p hp).2.1⟩
  have h2 : ∀ p ∈ exampleState.points 0, 0 ≤ p.lastHessian := fun p hp =>
    le_of_eq (seeded_exampleState.2 0 p hp).2.2.2.1.symm
  ⟨h1, h2, Or.inl ⟨rfl, rfl⟩, roundTrip_flat exampleState 0 1 h1 h2 (Or.inl ⟨rfl, rfl⟩)⟩

/-! ## Coarse depth map of a dense field -/

theorem splatIndex_eq (wl : Int) (p : Pnt) : splatIndex wl p = roundX p + wl * roundY p := rfl

theorem foldl_splat (wl : Int) (pts : List Pnt) (buf : DepthBuf) (j : Int) :
    (pts.foldl (splatPnt wl) buf).idepth j = buf.idepth j +
        ((pts.filter fun p => p.isGood && decide (splatIndex wl p = j)).map Pnt.iR).sum ∧
    (pts.foldl (splatPnt wl) buf).weight j = buf.weight j +
        ((pts.filter fun p => p.isGood && decide (splatIndex wl p = j)).length : ℚ) ∧
    (pts.foldl (splatPnt wl) buf).pc = buf.pc := by
  induction pts generalizing buf with
  | nil => simp
  | cons p pts ih =>
    simp only [List.foldl_cons]
    obtain ⟨h1, h2, h3⟩ := ih (splatPnt wl buf p)
    rw [h1, h2, h3]
    by_cases hg : p.isGood = true
    · by_cases hj : splatIndex wl p = j
      · simp [splatPnt, hg, hj, List.filter_cons]
        constructor <;> ring
      · have hj' : ¬ (j = splatIndex wl p) := fun h => hj h.symm
        simp [splatPnt, hg, hj, List.filter_cons, Function.update_noteq hj']
    · simp [splatPnt, hg, List.filter_cons]

theorem grid_index_inj (w x y x' y' : Int) (hx : 0 ≤ x) (hxw : x < w) (hx' : 0 ≤ x')
    (hxw' : x' < w) (h : x + w * y = x' + w * y') : x = x' ∧ y = y' := by
  have hw : 0 < w := by omega
  have e1 : (x + w * y) % w = x := by
    rw [Int.add_mul_emod_self_left, Int.emod_eq_of_lt hx hxw]
  have e2 : (x' + w * y') % w = x' := by
    rw [Int.add_mul_emod_self_left, Int.emod_eq_of_lt hx' hxw']
  have hxx : x = x' := by rw [← e1, ← e2, h]
  refine ⟨hxx, ?_⟩
  subst hxx
  have : w * y = w * y' := by omega
  exact Int.eq_of_mul_eq_mul_left (ne_of_gt hw) this

theorem filter_index_eq (pts : List Pnt) (w h : Int) (x y : Int) (hx : 0 ≤ x) (hxw : x < w)
    (hin : ∀ p ∈ pts, p.isGood = true →
      0 ≤ roundX p ∧ roundX p < w ∧ 0 ≤ roundY p ∧ roundY p < h) :
    (pts.filter fun p => p.isGood && decide (splatIndex w p = x + w * y)) =
      pts.filter (fun p => p.isGood && decide (roundX p = x) && decide (roundY p = y)) := by
  apply List.filter_congr
  intro p hp
  by_cases hg : p.isGood = true
  · obtain ⟨a1, a2, -, -⟩ := hin p hp hg
    simp only [hg, Bool.true_and, splatIndex_eq]
    by_cases hxy : roundX p = x ∧ roundY p = y
    · simp [hxy.1, hxy.2]
    · have : ¬ (roundX p + w * roundY p = x + w * y) := by
        intro he
        exact hxy (grid_index_inj w _ _ _ _ a1 a2 hx hxw he)
      rw [not_and_or] at hxy
      rcases hxy with h1 | h1 <;> simp [this, h1]
  · simp [hg]

theorem getBuf_setBuf_same (s : CoarseInitializer) (lvl : Nat) (buf : DepthBuf) :
    getBuf (setBuf s lvl buf) lvl = buf := by
  simp [getBuf, setBuf]

theorem getBuf_setBuf_other (s : CoarseInitializer) (lvl k : Nat) (buf : DepthBuf)
    (h : k ≠ lvl) : getBuf (setBuf s lvl buf) k = getBuf s k := by
  simp [getBuf, setBuf, Function.update_noteq h]

/-- The fields of the object `makeCoarseDepth` only reads. -/
theorem static_forLoop (body : Nat → CoarseInitializer → CoarseInitializer)
    (h : ∀ k s, (body k s).points = s.points ∧ (body k s).w_ = s.w_ ∧ (body k s).h_ = s.h_ ∧
      (body k s).firstFrame = s.firstFrame) (n : Nat) (s : CoarseInitializer) :
    (forLoop n body s).points = s.points ∧ (forLoop n body s).w_ = s.w_ ∧
      (forLoop n body s).h_ = s.h_ ∧ (forLoop n body s).firstFrame = s.firstFrame := by
  induction n with
  | zero => exact ⟨rfl, rfl, rfl, rfl⟩
  | succ n ih =>
    obtain ⟨a1, a2, a3, a4⟩ := ih
    obtain ⟨b1, b2, b3, b4⟩ := h n (forLoop n body s)
    exact ⟨b1.trans a1, b2.trans a2, b3.trans a3, b4.trans a4⟩

theorem getBuf0_forLoop (body : Nat → CoarseInitializer → CoarseInitializer)
    (h : ∀ k s, 1 ≤ k → getBuf (body k s) 0 = getBuf s 0) (n : Nat) (s : CoarseInitializer) :
    getBuf (forLoop (n + 1) body s) 0 = getBuf (body 0 s) 0 := by
  induction n with
  | zero => rfl
  | succ n ih =>
    show getBuf (body (n + 1) (forLoop (n + 1) body s)) 0 = _
    rw [h (n + 1) _ (by omega), ih]

theorem getBuf0_forLoop_shift (body : Nat → CoarseInitializer → CoarseInitializer)
    (h : ∀ k s, getBuf (body k s) 0 = getBuf s 0) (n : Nat) (s : CoarseInitializer) :
    getBuf (forLoop n body s) 0 = getBuf s 0 := by
  induction n with
  | zero => rfl
  | succ n ih =>
    show getBuf (body n (forLoop n body s)) 0 = _
    rw [h, ih]

theorem static_splatLevel (k : Nat) (s : CoarseInitializer) :
    (splatLevel k s).points = s.points ∧ (splatLevel k s).w_ = s.w_ ∧
      (splatLevel k s).h_ = s.h_ ∧ (splatLevel k s).firstFrame = s.firstFrame :=
  ⟨rfl, rfl, rfl, rfl⟩

theorem static_dilateLevel (offs : Int → List Int) (k : Nat) (s : CoarseInitializer) :
    (dilateLevel offs k s).points = s.points ∧ (dilateLevel offs k s).w_ = s.w_ ∧
      (dilateLevel offs k s).h_ = s.h_ ∧ (dilateLevel offs k s).firstFrame = s.firstFrame :=
  ⟨rfl, rfl, rfl, rfl⟩

theorem static_normalizeLvl (k : Nat) (s : CoarseInitializer) :
    (normalizeLvl k s).points = s.points ∧ (normalizeLvl k s).w_ = s.w_ ∧
      (normalizeLvl k s).h_ = s.h_ ∧ (normalizeLvl k s).firstFrame = s.firstFrame :=
  ⟨rfl, rfl, rfl, rfl⟩

theorem getBuf0_splatLevel (k : Nat) (s : CoarseInitializer) (h : 1 ≤ k) :
    getBuf (splatLevel k s) 0 = getBuf s 0 :=
  getBuf_setBuf_other _ _ _ _ (by omega)

theorem getBuf0_dilateLevel (offs : Int → List Int) (k : Nat) (s : CoarseInitializer)
    (h : 1 ≤ k) : getBuf (dilateLevel offs k s) 0 = getBuf s 0 := by
  have hk : (0 : Nat) ≠ k := by omega
  simp [getBuf, dilateLevel, setBuf, Function.update_noteq hk]

theorem getBuf0_normalizeLvl (k : Nat) (s : CoarseInitializer) (h : 1 ≤ k) :
    getBuf (normalizeLvl k s) 0 = getBuf s 0 :=
  getBuf_setBuf_other _ _ _ _ (by omega)

theorem grid_index_lt (w h x y : Int) (hx : 0 ≤ x) (hxw : x < w) (hy : 0 ≤ y) (hyh : y < h) :
    0 ≤ x + w * y ∧ x + w * y < w * h := by
  have hw : 0 < w := by omega
  have h1 : 0 ≤ w * y := mul_nonneg hw.le hy
  have h2 : w * (y + 1) ≤ w * h := mul_le_mul_of_nonneg_left (by omega) hw.le
  have h3 : w * (y + 1) = w * y + w := by ring
  constructor <;> omega

theorem grid_index_exists (w h j : Int) (hw : 0 ≤ w) (hj : 0 ≤ j) (hjw : j < w * h) :
    ∃ x y, 0 ≤ x ∧ x < w ∧ 0 ≤ y ∧ y < h ∧ j = x + w * y := by
  have hw' : 0 < w := by
    rcases eq_or_lt_of_le hw with h0 | h0
    · subst h0
      simp at hjw
      omega
    · exact h0
  refine ⟨j % w, j / w, Int.emod_nonneg _ hw'.ne', Int.emod_lt_of_pos _ hw',
    Int.ediv_nonneg hj hw, ?_, (Int.emod_add_ediv j w).symm⟩
  exact Int.ediv_lt_of_lt_mul hw' (by rwa [mul_comm] at hjw)

/-- Splatting a dense field into cleared buffers stores the depth of the one
point of a pixel in its cell, with weight 1. -/
theorem splat_dense_buf (pts : List Pnt) (w h : Int) (d : Int → Int → ℚ) (buf : DepthBuf)
    (hcov : CoversGrid pts w h d)
    (hbuf : ∀ j, 0 ≤ j → j < w * h → buf.idepth j = 0 ∧ buf.weight j = 0)
    (x y : Int) (hx : 0 ≤ x) (hxw : x < w) (hy : 0 ≤ y) (hyh : y < h) :
    (pts.foldl (splatPnt w) buf).idepth (x + w * y) = d x y ∧
      (pts.foldl (splatPnt w) buf).weight (x + w * y) = 1 := by
  obtain ⟨h1, h2, -⟩ := foldl_splat w pts buf (x + w * y)
  obtain ⟨b1, b2⟩ := grid_index_lt w h x y hx hxw hy hyh
  obtain ⟨z1, z2⟩ := hbuf _ b1 b2
  obtain ⟨-, p, hp, hpd⟩ := hcov.2 x y hx hxw hy hyh
  rw [h1, h2, filter_index_eq pts w h x y hx hxw hcov.1, hp, z1, z2]
  simp [hpd]

theorem clearLevel0_buf (s : CoarseInitializer) (j : Int) (h0 : 0 ≤ j)
    (h1 : j < s.w_ 0 * s.h_ 0) :
    (getBuf (clearLevel0 s) 0).idepth j = 0 ∧ (getBuf (clearLevel0 s) 0).weight j = 0 := by
  simp [getBuf, clearLevel0, h0, h1]

/-- A dilation pass changes nothing in buffers whose cells all have weight 1. -/
theorem dilatePass_dense (offs : List Int) (w h : Int) (bak : Int → ℚ) (buf : DepthBuf)
    (hw : 0 ≤ w) (hwt : ∀ j, 0 ≤ j → j < w * h → buf.weight j = 1) :
    (dilatePass offs w h bak buf).1 = buf := by
  unfold dilatePass
  simp only
  have key : ∀ n : Nat, n ≤ (w * h - w - w).toNat →
      forLoop n (fun k => dilateCell offs (memcpyBak w h bak buf.weight) (w + k)) buf = buf := by
    intro n
    induction n with
    | zero => intro _; rfl
    | succ n ih =>
      intro hn
      show dilateCell offs _ (w + (n : Int)) (forLoop n _ buf) = buf
      rw [ih (by omega)]
      have a1 : 0 ≤ w + (n : Int) := by omega
      have a2 : w + (n : Int) < w * h := by omega
      have hb : memcpyBak w h bak buf.weight (w + (n : Int)) = 1 := by
        simp [memcpyBak, a1, a2, hwt _ a1 a2]
      simp [dilateCell, hb]
  exact key _ (le_refl _)

theorem getBuf0_dilateLevel_zero (offs : Int → List Int) (s : CoarseInitializer) :
    getBuf (dilateLevel offs 0 s) 0 =
      (dilatePass (offs (s.w_ 0)) (s.w_ 0) (s.h_ 0) (s.weight_sums_bak_ 0) (getBuf s 0)).1 := by
  simp [dilateLevel, getBuf, setBuf]

/-- The normalization of a cell of weight 1 with a positive depth and a finite
reference intensity appends the pixel to the compact list and changes nothing
else. -/
theorem normalizeCell_dense (color0 : Int → Sample1) (w x y : Int) (buf : DepthBuf) (dv : ℚ)
    (hd : buf.idepth (x + y * w) = dv) (hpos : 0 < dv) (hwt : buf.weight (x + y * w) = 1)
    (hfin : (color0 (x + y * w)).finite = true) :
    normalizeCell color0 w x y buf =
      { buf with pc := buf.pc ++ [((x : ℚ), (y : ℚ), dv, (color0 (x + y * w)).val)] } := by
  subst hd
  have e1 : Function.update buf.idepth (x + y * w) (buf.idepth (x + y * w)) = buf.idepth :=
    Function.update_eq_self _ _
  have e2 : Function.update buf.weight (x + y * w) 1 = buf.weight := by
    rw [← hwt]
    exact Function.update_eq_self _ _
  simp [normalizeCell, hwt, hfin, hpos, e1, e2]

theorem normalizeRow_dense (color0 : Int → Sample1) (w h : Int) (d : Int → Int → ℚ) (y : Int)
    (hy : 0 ≤ y) (hyh : y < h) (buf : DepthBuf)
    (hD : ∀ x y, 0 ≤ x → x < w → 0 ≤ y → y < h →
      buf.idepth (x + y * w) = d x y ∧ buf.weight (x + y * w) = 1 ∧ 0 < d x y ∧
        (color0 (x + y * w)).finite = true)
    (n : Nat) (hn : n ≤ (w - 4).toNat) :
    forLoop n (fun kx => normalizeCell color0 w (2 + kx) y) buf =
      { buf with pc := buf.pc ++ (List.range n).map fun (kx : Nat) =>
          (((2 + kx : Int) : ℚ), (y : ℚ), d (2 + kx) y, (color0 ((2 + kx : Int) + y * w)).val) } := by
  induction n with
  | zero => simp [forLoop]
  | succ n ih =>
    show normalizeCell color0 w (2 + (n : Int)) y (forLoop n _ buf) = _
    rw [ih (by omega)]
    obtain ⟨a1, a2, a3, a4⟩ := hD (2 + (n : Int)) y (by omega) (by omega) hy hyh
    have key := fun pc => normalizeCell_dense color0 w (2 + (n : Int)) y
      ⟨buf.idepth, buf.weight, pc⟩ (d (2 + (n : Int)) y) a1 a3 a2 a4
    rw [key]
    simp [List.range_succ, List.append_assoc]

theorem normalizeRows_dense (color0 : Int → Sample1) (w h : Int) (d : Int → Int → ℚ)
    (buf : DepthBuf)
    (hD : ∀ x y, 0 ≤ x → x < w → 0 ≤ y → y < h →
      buf.idepth (x + y * w) = d x y ∧ buf.weight (x + y * w) = 1 ∧ 0 < d x y ∧
        (color0 (x + y * w)).finite = true)
    (m : Nat) (hm : m ≤ (h - 4).toNat) :
    forLoop m
        (fun ky => forLoop (w - 4).toNat (fun kx => normalizeCell color0 w (2 + kx) (2 + ky))) buf =
      { buf with pc := buf.pc ++ (List.range m).flatMap fun (ky : Nat) =>
          (List.range (w - 4).toNat).map fun (kx : Nat) =>
            (((2 + kx : Int) : ℚ), ((2 + ky : Int) : ℚ), d (2 + kx) (2 + ky),
              (color0 ((2 + kx : Int) + (2 + ky : Int) * w)).val) } := by
  induction m with
  | zero => simp [forLoop]
  | succ m ih =>
    show forLoop (w - 4).toNat (fun kx => normalizeCell color0 w (2 + kx) (2 + (m : Int)))
      (forLoop m _ buf) = _
    rw [ih (by omega)]
    have key := fun pc => normalizeRow_dense color0 w h d (2 + (m : Int)) (by omega) (by omega)
      ⟨buf.idepth, buf.weight, pc⟩ hD _ (le_refl _)
    rw [key]
    simp [List.range_succ, List.append_assoc]

/-- The normalization of a dense level leaves the buffers as they are and
lists the interior pixels. -/
theorem normalizeLevel_dense (color0 : Int → Sample1) (w h : Int) (d : Int → Int → ℚ)
    (buf : DepthBuf)
    (hD : ∀ x y, 0 ≤ x → x < w → 0 ≤ y → y < h →
      buf.idepth (x + y * w) = d x y ∧ buf.weight (x + y * w) = 1 ∧ 0 < d x y ∧
        (color0 (x + y * w)).finite = true) :
    normalizeLevel color0 w h buf = { buf with pc := interiorList w h d color0 } := by
  unfold normalizeLevel
  rw [normalizeRows_dense color0 w h d { buf with pc := [] } hD _ (le_refl _)]
  simp [interiorList]

/-- The level-0 buffers through the phases of `makeCoarseDepth` for `n` levels:
only the iterations for level 0 touch them. -/
theorem level0_phases (n : Nat) (s : CoarseInitializer) (hn : 1 ≤ n) :
    getBuf (forLoop n splatLevel (clearLevel0 s)) 0 =
      (s.points 0).foldl (splatPnt (s.w_ 0)) (getBuf (clearLevel0 s) 0) ∧
    getBuf (forLoop (n - 2) (fun k => dilateLevel axisOffsets (k + 2))
        (forLoop 2 (dilateLevel diagOffsets) (forLoop n splatLevel (clearLevel0 s)))) 0 =
      (dilatePass (diagOffsets (s.w_ 0)) (s.w_ 0) (s.h_ 0)
        ((forLoop n splatLevel (clearLevel0 s)).weight_sums_bak_ 0)
        (getBuf (forLoop n splatLevel (clearLevel0 s)) 0)).1 ∧
    getBuf (forLoop n normalizeLvl (forLoop (n - 2) (fun k => dilateLevel axisOffsets (k + 2))
        (forLoop 2 (dilateLevel diagOffsets) (forLoop n splatLevel (clearLevel0 s))))) 0 =
      normalizeLevel (s.firstFrame.color0 0) (s.w_ 0) (s.h_ 0)
        (getBuf (forLoop (n - 2) (fun k => dilateLevel axisOffsets (k + 2))
          (forLoop 2 (dilateLevel diagOffsets) (forLoop n splatLevel (clearLevel0 s)))) 0) := by
  obtain ⟨L, rfl⟩ : ∃ L, n = L + 1 := ⟨n - 1, by omega⟩
  have st1 := static_forLoop splatLevel static_splatLevel (L + 1) (clearLevel0 s)
  have st2 := static_forLoop (dilateLevel diagOffsets) (static_dilateLevel diagOffsets) 2
    (forLoop (L + 1) splatLevel (clearLevel0 s))
  have st3 := static_forLoop (fun k => dilateLevel axisOffsets (k + 2))
    (fun k s => static_dilateLevel axisOffsets (k + 2) s) (L + 1 - 2)
    (forLoop 2 (dilateLevel diagOffsets) (forLoop (L + 1) splatLevel (clearLevel0 s)))
  refine ⟨?_, ?_, ?_⟩
  · rw [getBuf0_forLoop splatLevel (fun k s h => getBuf0_splatLevel k s h)]
    exact getBuf_setBuf_same _ _ _
  · rw [getBuf0_forLoop_shift _ (fun k s => getBuf0_dilateLevel axisOffsets (k + 2) s (by omega)),
      getBuf0_forLoop (dilateLevel diagOffsets)
        (fun k s h => getBuf0_dilateLevel diagOffsets k s h),
      getBuf0_dilateLevel_zero, st1.2.1, st1.2.2.1]
    rfl
  · rw [getBuf0_forLoop normalizeLvl (fun k s h => getBuf0_normalizeLvl k s h)]
    show getBuf (setBuf _ 0 _) 0 = _
    rw [getBuf_setBuf_same, st3.2.1, st3.2.2.1, st3.2.2.2, st2.2.1, st2.2.2.1, st2.2.2.2,
      st1.2.1, st1.2.2.1, st1.2.2.2]
    rfl

theorem truncToInt_seed (n : Nat) : truncToInt (((n : Int) : ℚ) + 1 / 10 + 1 / 2) = n := by
  have h0 : (0 : ℚ) ≤ ((n : Int) : ℚ) + 1 / 10 + 1 / 2 := by
    have : (0 : ℚ) ≤ ((n : Int) : ℚ) := by exact_mod_cast Int.ofNat_nonneg n
    linarith
  unfold truncToInt
  rw [if_pos h0, Int.floor_eq_iff]
  constructor <;> linarith

theorem roundX_gridPnt (x y : Nat) : roundX (gridPnt x y) = x := truncToInt_seed x

theorem roundY_gridPnt (x y : Nat) : roundY (gridPnt x y) = y := truncToInt_seed y

theorem isGood_gridPnt (x y : Nat) : (gridPnt x y).isGood = true := rfl

theorem iR_gridPnt (x y : Nat) : (gridPnt x y).iR = 1 + x + 5 * y := rfl

theorem coversGrid_gridPoints : CoversGrid gridPoints 5 5 gridDepth := by
  constructor
  · intro p hp _
    simp only [gridPoints, List.flatMap_cons, List.flatMap_nil, List.map_cons, List.map_nil,
      List.append_nil, List.cons_append, List.nil_append, List.mem_cons, List.mem_singleton,
      List.not_mem_nil, or_false] at hp
    rcases hp with h | h | h | h | h | h | h | h | h | h | h | h | h | h | h | h | h | h | h |
      h | h | h | h | h | h <;>
    · subst h
      rw [roundX_gridPnt, roundY_gridPnt]
      simp
  · intro x y hx hxw hy hyh
    constructor
    · unfold gridDepth
      have h1 : (0 : ℚ) ≤ (x : ℚ) := by exact_mod_cast hx
      have h2 : (0 : ℚ) ≤ (y : ℚ) := by exact_mod_cast hy
      linarith
    · refine ⟨gridPnt x.toNat y.toNat, ?_, ?_⟩
      · interval_cases x <;> interval_cases y <;>
          simp [gridPoints, List.filter_cons, roundX_gridPnt, roundY_gridPnt, isGood_gridPnt]
      · rw [iR_gridPnt]
        unfold gridDepth
        have h1 : ((x.toNat : Nat) : ℚ) = (x : ℚ) := by
          have := Int.toNat_of_nonneg hx
          exact_mod_cast this
        have h2 : ((y.toNat : Nat) : ℚ) = (y : ℚ) := by
          have := Int.toNat_of_nonneg hy
          exact_mod_cast this
        rw [h1, h2]

/-- C7: materializer round trip at level 0.  If the points of level 0 form a
dense depth field `d` on the `w × h` grid of the level (every good point rounds
to a pixel of the grid, and every pixel `(x, y)` is the rounded position of
exactly one good point, which carries `iR = d x y > 0`), and the reference
intensities of the grid are finite, then after `makeCoarseDepth` the dense map
holds exactly `d x y` with weight 1 at every pixel, the dilation passes leave
the buffers of level 0 as the splatting loop wrote them, and the compact list
of level 0 consists of exactly the interior pixels (margin 2) in scan order,
each with its depth `d x y` and its reference intensity. -/
theorem makeCoarseDepth_dense_roundTrip (cfg : Settings) (s : CoarseInitializer)
    (d : Int → Int → ℚ) (hL : 1 ≤ cfg.pyrLevelsUsed) (hw : 0 ≤ s.w_ 0)
    (hcov : CoversGrid (s.points 0) (s.w_ 0) (s.h_ 0) d)
    (hfin : ∀ x y, 0 ≤ x → x < s.w_ 0 → 0 ≤ y → y < s.h_ 0 →
      (s.firstFrame.color0 0 (x + y * s.w_ 0)).finite = true) :
    (∀ x y, 0 ≤ x → x < s.w_ 0 → 0 ≤ y → y < s.h_ 0 →
      (makeCoarseDepth cfg s).idepth_ 0 (x + y * s.w_ 0) = d x y ∧
        (makeCoarseDepth cfg s).weight_sums_ 0 (x + y * s.w_ 0) = 1) ∧
    ((forLoop (cfg.pyrLevelsUsed - 2) (fun k => dilateLevel axisOffsets (k + 2))
        (forLoop 2 (dilateLevel diagOffsets)
          (forLoop cfg.pyrLevelsUsed splatLevel (clearLevel0 s)))).idepth_ 0 =
        (forLoop cfg.pyrLevelsUsed splatLevel (clearLevel0 s)).idepth_ 0 ∧
      (forLoop (cfg.pyrLevelsUsed - 2) (fun k => dilateLevel axisOffsets (k + 2))
        (forLoop 2 (dilateLevel diagOffsets)
          (forLoop cfg.pyrLevelsUsed splatLevel (clearLevel0 s)))).weight_sums_ 0 =
        (forLoop cfg.pyrLevelsUsed splatLevel (clearLevel0 s)).weight_sums_ 0) ∧
    (makeCoarseDepth cfg s).pc_ 0 =
      interiorList (s.w_ 0) (s.h_ 0) d (s.firstFrame.color0 0) := by
  obtain ⟨e1, e3, e4⟩ := level0_phases cfg.pyrLevelsUsed s hL
  have hB : ∀ x y, 0 ≤ x → x < s.w_ 0 → 0 ≤ y → y < s.h_ 0 →
      (getBuf (forLoop cfg.pyrLevelsUsed splatLevel (clearLevel0 s)) 0).idepth
          (x + s.w_ 0 * y) = d x y ∧
        (getBuf (forLoop cfg.pyrLevelsUsed splatLevel (clearLevel0 s)) 0).weight
          (x + s.w_ 0 * y) = 1 := by
    intro x y hx hxw hy hyh
    rw [e1]
    exact splat_dense_buf _ _ _ d _ hcov (clearLevel0_buf s) x y hx hxw hy hyh
  have hwt : ∀ j, 0 ≤ j → j < s.w_ 0 * s.h_ 0 →
      (getBuf (forLoop cfg.pyrLevelsUsed splatLevel (clearLevel0 s)) 0).weight j = 1 := by
    intro j h0 h1
    obtain ⟨x, y, hx, hxw, hy, hyh, rfl⟩ := grid_index_exists _ _ j hw h0 h1
    exact (hB x y hx hxw hy hyh).2
  have e3' := e3.trans (dilatePass_dense _ _ _ _ _ hw hwt)
  have hD : ∀ x y, 0 ≤ x → x < s.w_ 0 → 0 ≤ y → y < s.h_ 0 →
      (getBuf (forLoop cfg.pyrLevelsUsed splatLevel (clearLevel0 s)) 0).idepth
          (x + y * s.w_ 0) = d x y ∧
        (getBuf (forLoop cfg.pyrLevelsUsed splatLevel (clearLevel0 s)) 0).weight
          (x + y * s.w_ 0) = 1 ∧ 0 < d x y ∧
        (s.firstFrame.color0 0 (x + y * s.w_ 0)).finite = true := by
    intro x y hx hxw hy hyh
    rw [mul_comm y]
    refine ⟨(hB x y hx hxw hy hyh).1, (hB x y hx hxw hy hyh).2, (hcov.2 x y hx hxw hy hyh).1, ?_⟩
    rw [mul_comm]
    exact hfin x y hx hxw hy hyh
  have e4' : getBuf (makeCoarseDepth cfg s) 0 =
      { getBuf (forLoop cfg.pyrLevelsUsed splatLevel (clearLevel0 s)) 0 with
        pc := interiorList (s.w_ 0) (s.h_ 0) d (s.firstFrame.color0 0) } := by
    refine (e4.trans ?_).trans (normalizeLevel_dense _ _ _ d _ hD)
    rw [e3']
  refine ⟨fun x y hx hxw hy hyh => ⟨?_, ?_⟩,
    ⟨congrArg DepthBuf.idepth e3', congrArg DepthBuf.weight e3'⟩, congrArg DepthBuf.pc e4'⟩
  · exact (congrFun (congrArg DepthBuf.idepth e4') _).trans (hD x y hx hxw hy hyh).1
  · exact (congrFun (congrArg DepthBuf.weight e4') _).trans (hD x y hx hxw hy hyh).2.1

/-- Witness of `makeCoarseDepth_dense_roundTrip`: the 5×5 example object with
one point per pixel, whose only interior pixel is `(2, 2)` with depth 13. -/
theorem makeCoarseDepth_dense_roundTrip_witness :
    (1 ≤ exampleCfg.pyrLevelsUsed ∧ 0 ≤ gridState.w_ 0 ∧
      CoversGrid (gridState.points 0) (gridState.w_ 0) (gridState.h_ 0) gridDepth ∧
      ∀ x y, 0 ≤ x → x < gridState.w_ 0 → 0 ≤ y → y < gridState.h_ 0 →
        (gridState.firstFrame.color0 0 (x + y * gridState.w_ 0)).finite = true) ∧
    (makeCoarseDepth exampleCfg gridState).idepth_ 0 (2 + 2 * 5) = 13 ∧
    (makeCoarseDepth exampleCfg gridState).pc_ 0 = [(2, 2, 13, 100)] :=
  have h1 : 1 ≤ exampleCfg.pyrLevelsUsed := by decide
  have h2 : 0 ≤ gridState.w_ 0 := by decide
  have h3 : CoversGrid (gridState.points 0) (gridState.w_ 0) (gridState.h_ 0) gridDepth :=
    coversGrid_gridPoints
  have h4 : ∀ x y, 0 ≤ x → x < gridState.w_ 0 → 0 ≤ y → y < gridState.h_ 0 →
      (gridState.firstFrame.color0 0 (x + y * gridState.w_ 0)).finite = true :=
    fun _ _ _ _ _ _ => rfl
  have h := makeCoarseDepth_dense_roundTrip exampleCfg gridState gridDepth h1 h2 h3 h4
  ⟨⟨h1, h2, h3, h4⟩,
    ((h.1 2 2 (by decide) (by decide) (by decide) (by decide)).1).trans
      (by norm_num [gridDepth]),
    h.2.2.trans (by
      show interiorList 5 5 gridDepth (exampleFrame.color0 0) = _
      simp [interiorList, gridDepth, exampleFrame, List.range_succ]
      norm_num)⟩

/-! ## Neighbour graph and parent forest -/

theorem makeNN_numPoints (env : Env) (s : CoarseInitializer) (lvl : Nat) :
    (makeNN env s).numPoints lvl = s.numPoints lvl := by
  unfold makeNN CoarseInitializer.numPoints
  simp only []
  split_ifs <;> simp

theorem makeNN_mem (env : Env) (s : CoarseInitializer) (lvl : Nat)
    (hl : lvl < env.cfg.pyrLevelsUsed) (p : Pnt) (hp : p ∈ (makeNN env s).points lvl) :
    ∃ q ∈ s.points lvl, p = makeNNPnt env s.points lvl q := by
  unfold makeNN at hp
  simp only [hl, if_true, List.mem_map] at hp
  obtain ⟨q, hq, rfl⟩ := hp
  exact ⟨q, hq, rfl⟩

theorem makeNNPnt_neighbours (env : Env) (points : Nat → List Pnt) (lvl : Nat) (q : Pnt) :
    (makeNNPnt env points lvl q).neighbours = (env.knn10 (points lvl) (q.u, q.v)).1 := by
  unfold makeNNPnt
  simp only []
  split_ifs <;> rfl

theorem makeNNPnt_parent (env : Env) (points : Nat → List Pnt) (lvl : Nat) (q : Pnt) :
    (makeNNPnt env points lvl q).parent =
      if lvl < env.cfg.pyrLevelsUsed - 1 then
        (env.knn1 (points (lvl + 1)) (q.u * (1 / 2) - 1 / 4, q.v * (1 / 2) - 1 / 4)).1
      else -1 := by
  unfold makeNNPnt
  simp only []
  split_ifs <;> rfl

/-- The links `makeNN` stores for the points of the levels below
`pyrLevelsUsed`, when its assertions hold. -/
theorem makeNN_links (env : Env) (s : CoarseInitializer) (h : makeNNAsserts env s)
    (lvl : Nat) (hl : lvl < env.cfg.pyrLevelsUsed) (p : Pnt)
    (hp : p ∈ (makeNN env s).points lvl) :
    (∀ k, 0 ≤ p.neighbours k ∧ p.neighbours k < (makeNN env s).numPoints lvl) ∧
    (p.parent = -1 ↔ lvl = env.cfg.pyrLevelsUsed - 1) ∧
    (lvl < env.cfg.pyrLevelsUsed - 1 →
      0 ≤ p.parent ∧ p.parent < (makeNN env s).numPoints (lvl + 1)) := by
  obtain ⟨q, hq, rfl⟩ := makeNN_mem env s lvl hl p hp
  obtain ⟨h1, h2⟩ := h lvl hl q hq
  rw [makeNNPnt_neighbours, makeNNPnt_parent, makeNN_numPoints, makeNN_numPoints]
  refine ⟨h1, ?_, ?_⟩
  · by_cases hc : lvl < env.cfg.pyrLevelsUsed - 1
    · rw [if_pos hc]
      constructor
      · intro he
        have := (h2 hc).1
        omega
      · intro he
        omega
    · rw [if_neg hc]
      constructor
      · intro _
        omega
      · intro _
        rfl
  · intro hc
    rw [if_pos hc]
    exact h2 hc

theorem parentSteps_le (env : Env) (s : CoarseInitializer) (h : makeNNAsserts env s)
    (fuel : Nat) : ∀ (lvl : Nat) (i : Int), lvl < env.cfg.pyrLevelsUsed →
      parentSteps (makeNN env s).points fuel lvl i ≤ env.cfg.pyrLevelsUsed - 1 - lvl := by
  induction fuel with
  | zero => intro lvl i _; exact Nat.zero_le _
  | succ fuel ih =>
    intro lvl i hl
    unfold parentSteps
    cases hg : getPnt ((makeNN env s).points lvl) i with
    | none => exact Nat.zero_le _
    | some p =>
      obtain ⟨-, h2, -⟩ := makeNN_links env s h lvl hl p (getPnt_mem _ _ _ hg)
      simp only []
      by_cases hp : p.parent = -1
      · rw [if_pos hp]
        exact Nat.zero_le _
      · rw [if_neg hp]
        have hne : lvl ≠ env.cfg.pyrLevelsUsed - 1 := fun he => hp (h2.2 he)
        have := ih (lvl + 1) p.parent (by omega)
        omega

/-- C11: the neighbour graph and the parent forest after `makeNN`.  When the
assertions of `makeNN` hold (the neighbour searches return indices of the
arrays they search), then after `makeNN`, for every level `lvl` below
`pyrLevelsUsed` and every point of it: each of the ten neighbour indices lies
in `[0, numPoints[lvl])`; the parent index is the sentinel `-1` exactly when
`lvl` is the coarsest level `pyrLevelsUsed - 1`, and otherwise lies in
`[0, numPoints[lvl + 1])`.  Hence following parent links from any point of
level `lvl` stops after at most `pyrLevelsUsed - 1 - lvl` links, whatever number
of links is allowed.  `makeNN` leaves the number of points of every level as
it is. -/
theorem makeNN_graph (env : Env) (s : CoarseInitializer) (h : makeNNAsserts env s) :
    (∀ lvl, (makeNN env s).numPoints lvl = s.numPoints lvl) ∧
    (∀ lvl, lvl < env.cfg.pyrLevelsUsed → ∀ p ∈ (makeNN env s).points lvl,
      (∀ k, 0 ≤ p.neighbours k ∧ p.neighbours k < (makeNN env s).numPoints lvl) ∧
      (p.parent = -1 ↔ lvl = env.cfg.pyrLevelsUsed - 1) ∧
      (lvl < env.cfg.pyrLevelsUsed - 1 →
        0 ≤ p.parent ∧ p.parent < (makeNN env s).numPoints (lvl + 1))) ∧
    (∀ fuel lvl i, lvl < env.cfg.pyrLevelsUsed →
      parentSteps (makeNN env s).points fuel lvl i ≤ env.cfg.pyrLevelsUsed - 1 - lvl) :=
  ⟨makeNN_numPoints env s, fun lvl hl p hp => makeNN_links env s h lvl hl p hp,
    fun fuel lvl i hl => parentSteps_le env s h fuel lvl i hl⟩

theorem makeNNAsserts_example : makeNNAsserts exampleEnv exampleState := by
  intro lvl hl p _
  have hl2 : lvl < 2 := hl
  interval_cases lvl <;>
    simp [exampleEnv, exampleState, exampleCfg, CoarseInitializer.numPoints]

/-- Witness of `makeNN_graph`: the example object, whose two level-0 points
get the single point of level 1 as parent; the walk from a level-0 point
follows one link. -/
theorem makeNN_graph_witness :
    makeNNAsserts exampleEnv exampleState ∧
    ((∀ lvl, (makeNN exampleEnv exampleState).numPoints lvl = exampleState.numPoints lvl) ∧
    (∀ lvl, lvl < exampleEnv.cfg.pyrLevelsUsed → ∀ p ∈ (makeNN exampleEnv exampleState).points lvl,
      (∀ k, 0 ≤ p.neighbours k ∧
        p.neighbours k < (makeNN exampleEnv exampleState).numPoints lvl) ∧
      (p.parent = -1 ↔ lvl = exampleEnv.cfg.pyrLevelsUsed - 1) ∧
      (lvl < exampleEnv.cfg.pyrLevelsUsed - 1 →
        0 ≤ p.parent ∧ p.parent < (makeNN exampleEnv exampleState).numPoints (lvl + 1))) ∧
    (∀ fuel lvl i, lvl < exampleEnv.cfg.pyrLevelsUsed →
      parentSteps (makeNN exampleEnv exampleState).points fuel lvl i ≤
        exampleEnv.cfg.pyrLevelsUsed - 1 - lvl)) ∧
    parentSteps (makeNN exampleEnv exampleState).points 5 0 0 = 1 :=
  ⟨makeNNAsserts_example, makeNN_graph exampleEnv exampleState makeNNAsserts_example, by
    simp [parentSteps, makeNN, makeNNPnt, getPnt, exampleEnv, exampleState, exampleCfg]⟩

/-! ## The depth step of `doStep` -/

theorem clampStep_eq (step m : ℚ) :
    (if (if step > m then m else step) < -m then -m else (if step > m then m else step)) =
      clampTo step (-m) m := by
  unfold clampTo
  by_cases h1 : step > m
  · rw [if_pos h1, min_eq_right (le_of_lt h1)]
    by_cases h2 : m < -m
    · rw [if_pos h2, max_eq_left (le_of_lt h2)]
    · rw [if_neg h2, max_eq_right (le_of_not_lt h2)]
  · rw [if_neg h1, min_eq_left (le_of_not_lt h1)]
    by_cases h2 : step < -m
    · rw [if_pos h2, max_eq_left (le_of_lt h2)]
    · rw [if_neg h2, max_eq_right (le_of_not_lt h2)]

theorem clampDepth_eq (x : ℚ) :
    (if (if x < 1 / 1000 then 1 / 1000 else x) > 50 then 50
      else (if x < 1 / 1000 then 1 / 1000 else x)) = clampTo x (1 / 1000) 50 := by
  unfold clampTo
  by_cases h1 : x < 1 / 1000
  · rw [if_pos h1, if_neg (by norm_num), min_eq_left (by linarith), max_eq_left (le_of_lt h1)]
  · rw [if_neg h1]
    by_cases h2 : x > 50
    · rw [if_pos h2, min_eq_right (le_of_lt h2), max_eq_right (by norm_num)]
    · rw [if_neg h2, min_eq_left (le_of_not_lt h2), max_eq_right (le_of_not_lt h1)]

theorem stepBound_eq (p : Pnt) :
    (if 1 / 4 * p.maxstep > 10 ^ 10 then (10 : ℚ) ^ 10 else 1 / 4 * p.maxstep) = stepBound p := by
  unfold stepBound
  by_cases h : 1 / 4 * p.maxstep > 10 ^ 10
  · rw [if_pos h, min_eq_right (le_of_lt h)]
  · rw [if_neg h, min_eq_left (le_of_not_lt h)]

/-- The point `doStep` stores for a good point. -/
theorem doStepPnt_good (Jb : Nat → Vec10f) (lambda : ℚ) (inc : Vec8f) (i : Nat) (p : Pnt)
    (hg : p.isGood = true) :
    doStepPnt Jb lambda inc i p =
      { p with
        idepth_new :=
          clampTo (p.idepth + clampTo (rawStep Jb lambda inc i) (-stepBound p) (stepBound p))
            (1 / 1000) 50 } := by
  unfold doStepPnt
  simp only [hg, Bool.not_true, Bool.false_eq_true, if_false]
  rw [stepBound_eq, clampStep_eq, clampDepth_eq]
  rfl

theorem clampTo_bounds (x lo hi : ℚ) (h : lo ≤ hi) : lo ≤ clampTo x lo hi ∧ clampTo x lo hi ≤ hi :=
  ⟨le_max_left _ _, max_le h (min_le_right _ _)⟩

theorem clampTo_self (x lo hi : ℚ) (h1 : lo ≤ x) (h2 : x ≤ hi) : clampTo x lo hi = x := by
  unfold clampTo
  rw [min_eq_left h2, max_eq_right h1]

/-- Clamping to an interval that contains `a` does not move a value away from `a`. -/
theorem clampTo_dist (x a lo hi : ℚ) (h1 : lo ≤ a) (h2 : a ≤ hi) :
    |clampTo x lo hi - a| ≤ |x - a| := by
  unfold clampTo
  rcases le_total x hi with hx | hx
  · rw [min_eq_left hx]
    rcases le_total lo x with hl | hl
    · rw [max_eq_right hl]
    · rw [max_eq_left hl, abs_le]
      constructor
      · have := neg_abs_le (x - a)
        linarith
      · have := le_abs_self (x - a)
        have := abs_nonneg (x - a)
        linarith
  · rw [min_eq_right hx, max_eq_right (le_trans h1 h2), abs_le]
    constructor
    · have := abs_nonneg (x - a)
      linarith
    · have := le_abs_self (x - a)
      linarith

/-- C12: the depth proposal of `doStep`.  For point `i` of level `lvl`,
`doStep` changes at most the working depth `idepth_new` (so no committed depth
changes).  A point that is not good keeps its `idepth_new`.  A good point gets
`idepth_new = clamp(idepth + clamp(step, -m, m), 1e-3, 50)` with
`m = min(0.25 * maxstep, 1e10)` and
`step = -(JbBuffer[i][8] + JbBuffer[i][0..7] . inc) * JbBuffer[i][9] / (1 + lambda)`;
so `1e-3 <= idepth_new <= 50`, and when `maxstep >= 0` and the committed
`idepth` lies in `[1e-3, 50]` then `|idepth_new - idepth| <= 0.25 * maxstep`.
The points of the other levels, and the number of points of the level, are
unchanged. -/
theorem doStep_proposal (s : CoarseInitializer) (lvl : Nat) (lambda : ℚ) (inc : Vec8f)
    (i : Nat) (p : Pnt) (hp : (s.points lvl)[i]? = some p) :
    (∀ k, k ≠ lvl → (doStep s lvl lambda inc).points k = s.points k) ∧
    ((doStep s lvl lambda inc).points lvl).length = (s.points lvl).length ∧
    ∃ p', ((doStep s lvl lambda inc).points lvl)[i]? = some p' ∧
      p' = { p with idepth_new := p'.idepth_new } ∧
      (p.isGood = false → p' = p) ∧
      (p.isGood = true →
        p'.idepth_new =
          clampTo (p.idepth + clampTo (rawStep s.JbBuffer lambda inc i) (-stepBound p)
            (stepBound p)) (1 / 1000) 50 ∧
        1 / 1000 ≤ p'.idepth_new ∧ p'.idepth_new ≤ 50 ∧
        (0 ≤ p.maxstep → 1 / 1000 ≤ p.idepth → p.idepth ≤ 50 →
          |p'.idepth_new - p.idepth| ≤ 1 / 4 * p.maxstep)) := by
  refine ⟨fun k hk => ?_, ?_, doStepPnt s.JbBuffer lambda inc i p, ?_, ?_, ?_, ?_⟩
  · simp [doStep, Function.update_noteq hk]
  · simp [doStep]
  · simp [doStep, List.getElem?_mapIdx, hp]
  · unfold doStepPnt
    split_ifs <;> rfl
  · intro hg
    simp [doStepPnt, hg]
  · intro hg
    rw [doStepPnt_good _ _ _ _ _ hg]
    simp only []
    refine ⟨trivial, (clampTo_bounds _ _ _ (by norm_num)).1,
      (clampTo_bounds _ _ _ (by norm_num)).2, fun hm h1 h2 => ?_⟩
    have hb : 0 ≤ stepBound p := le_min (by linarith) (by norm_num)
    have hb2 : stepBound p ≤ 1 / 4 * p.maxstep := min_le_left _ _
    have hc := clampTo_bounds (rawStep s.JbBuffer lambda inc i) (-stepBound p) (stepBound p)
      (by linarith)
    refine le_trans (clampTo_dist _ _ _ _ h1 h2) ?_
    rw [add_sub_cancel_left, abs_le]
    constructor <;> linarith [hc.1, hc.2]

theorem clampTo_example : clampTo (1 + clampTo 0 (-0) 0) (1 / 1000) 50 = 1 := by
  unfold clampTo
  norm_num

/-- Witness of `doStep_proposal`: the first point of level 0 of the example
object, which is good and has `maxstep = 0`; its proposal is its committed
depth 1. -/
theorem doStep_proposal_witness :
    (exampleState.points 0)[0]? =
      some (examplePnt 8 8 ![0, 1, -1, -1, -1, -1, -1, -1, -1, -1] 0) ∧
    ∃ p', ((doStep exampleState 0 (1 / 10) 0).points 0)[0]? = some p' ∧
      p'.idepth_new = 1 ∧ p'.idepth = 1 ∧ p'.isGood = true := by
  have h : (exampleState.points 0)[0]? =
      some (examplePnt 8 8 ![0, 1, -1, -1, -1, -1, -1, -1, -1, -1] 0) := rfl
  obtain ⟨-, -, p', e1, e2, -, e4⟩ := doStep_proposal exampleState 0 (1 / 10) 0 0 _ h
  refine ⟨h, p', e1, ?_, ?_, ?_⟩
  · rw [(e4 rfl).1]
    have r0 : rawStep exampleState.JbBuffer (1 / 10) 0 0 = 0 := by
      have : exampleState.JbBuffer 0 = 0 := rfl
      simp [rawStep, this]
    have b0 : stepBound (examplePnt 8 8 ![0, 1, -1, -1, -1, -1, -1, -1, -1, -1] 0) = 0 := by
      have : (examplePnt 8 8 ![0, 1, -1, -1, -1, -1, -1, -1, -1, -1] 0).maxstep = 0 := rfl
      simp [stepBound, this]
    have i1 : (examplePnt 8 8 ![0, 1, -1, -1, -1, -1, -1, -1, -1, -1] 0).idepth = 1 := rfl
    rw [r0, b0, i1]
    exact clampTo_example
  · rw [e2]
    rfl
  · rw [e2]
    rfl

/-! ## The inner loop: damping, trial count and snapping -/

theorem trackLevel_eq_lmLoop (env : Env) (lvl : Nat) (ts : TrackState) :
    trackLevel env lvl ts =
      { s := (lmLoop env lvl 0 (lmInit env lvl ts)).s
        refToNew_current := (lmLoop env lvl 0 (lmInit env lvl ts)).refToNew_current
        refToNew_aff_current := (lmLoop env lvl 0 (lmInit env lvl ts)).refToNew_aff_current
        latestRes := (lmLoop env lvl 0 (lmInit env lvl ts)).resOld
        evaluated := (lmLoop env lvl 0 (lmInit env lvl ts)).evaluated } := rfl

theorem lmTrial_accept (env : Env) (lvl : Nat) (st : LMState)
    (h : (runTrial env lvl st).accept st = true) :
    lmTrial env lvl st = acceptTrial lvl st (runTrial env lvl st) := by
  unfold lmTrial
  simp only [h, if_true]

theorem lmTrial_reject (env : Env) (lvl : Nat) (st : LMState)
    (h : (runTrial env lvl st).accept st = false) :
    lmTrial env lvl st = rejectTrial lvl st (runTrial env lvl st) := by
  unfold lmTrial
  simp only [h, Bool.false_eq_true, if_false]

theorem lambda_accept (lvl : Nat) (st : LMState) (tr : Trial) :
    (acceptTrial lvl st tr).lambda = max (st.lambda / 2) (1 / 10000) ∧
      (acceptTrial lvl st tr).fails = 0 := by
  refine ⟨?_, rfl⟩
  show (if st.lambda * (1 / 2) < 1 / 10000 then (1 / 10000 : ℚ) else st.lambda * (1 / 2)) = _
  have e : st.lambda * (1 / 2) = st.lambda / 2 := by ring
  rw [e]
  by_cases h : st.lambda / 2 < 1 / 10000
  · rw [if_pos h, max_eq_right (le_of_lt h)]
  · rw [if_neg h, max_eq_left (le_of_not_lt h)]

theorem lambda_reject (lvl : Nat) (st : LMState) (tr : Trial) :
    (rejectTrial lvl st tr).lambda = min (4 * st.lambda) 10000 ∧
      (rejectTrial lvl st tr).fails = st.fails + 1 := by
  refine ⟨?_, rfl⟩
  show (if st.lambda * 4 > 10000 then (10000 : ℚ) else st.lambda * 4) = _
  have e : st.lambda * 4 = 4 * st.lambda := by ring
  rw [e]
  by_cases h : 4 * st.lambda > 10000
  · rw [if_pos h, min_eq_right (le_of_lt h)]
  · rw [if_neg h, min_eq_left (le_of_not_lt h)]

theorem lambda_range_lmTrial (env : Env) (lvl : Nat) (st : LMState)
    (h : 1 / 10000 ≤ st.lambda ∧ st.lambda ≤ 10000) :
    1 / 10000 ≤ (lmTrial env lvl st).lambda ∧ (lmTrial env lvl st).lambda ≤ 10000 := by
  cases ha : (runTrial env lvl st).accept st with
  | true =>
    rw [lmTrial_accept env lvl st ha, (lambda_accept lvl st _).1]
    refine ⟨le_max_right _ _, max_le ?_ (by norm_num)⟩
    linarith [h.2]
  | false =>
    rw [lmTrial_reject env lvl st ha, (lambda_reject lvl st _).1]
    refine ⟨le_min ?_ (by norm_num), min_le_right _ _⟩
    linarith [h.1]

theorem lambda_range_iterate (env : Env) (lvl : Nat) (st : LMState)
    (h : 1 / 10000 ≤ st.lambda ∧ st.lambda ≤ 10000) (n : Nat) :
    1 / 10000 ≤ ((lmTrial env lvl)^[n] st).lambda ∧ ((lmTrial env lvl)^[n] st).lambda ≤ 10000 := by
  induction n with
  | zero => exact h
  | succ n ih =>
    rw [Function.iterate_succ_apply']
    exact lambda_range_lmTrial env lvl _ ih

/-- C13: the damping schedule of the inner loop.  In every level the inner
loop is entered with `lambda = 0.1` and the fail counter 0.  An accepted trial
sets `lambda` to `max(lambda / 2, 1e-4)` and resets the fail counter to 0; a
rejected trial sets `lambda` to `min(4 * lambda, 1e4)` and increments the fail
counter by one.  Hence `lambda` lies in `[1e-4, 1e4]` after every number of
trials, and in the state the loop ends with. -/
theorem lambda_schedule (env : Env) (lvl : Nat) (ts : TrackState) :
    (lmInit env lvl ts).lambda = 1 / 10 ∧ (lmInit env lvl ts).fails = 0 ∧
    (∀ st : LMState, (runTrial env lvl st).accept st = true →
      (lmTrial env lvl st).lambda = max (st.lambda / 2) (1 / 10000) ∧
        (lmTrial env lvl st).fails = 0) ∧
    (∀ st : LMState, (runTrial env lvl st).accept st = false →
      (lmTrial env lvl st).lambda = min (4 * st.lambda) 10000 ∧
        (lmTrial env lvl st).fails = st.fails + 1) ∧
    (∀ n : Nat, 1 / 10000 ≤ ((lmTrial env lvl)^[n] (lmInit env lvl ts)).lambda ∧
      ((lmTrial env lvl)^[n] (lmInit env lvl ts)).lambda ≤ 10000) ∧
    1 / 10000 ≤ (lmLoop env lvl 0 (lmInit env lvl ts)).lambda ∧
    (lmLoop env lvl 0 (lmInit env lvl ts)).lambda ≤ 10000 := by
  have h0 : 1 / 10000 ≤ (lmInit env lvl ts).lambda ∧ (lmInit env lvl ts).lambda ≤ 10000 := by
    show (1 / 10000 : ℚ) ≤ 1 / 10 ∧ (1 / 10 : ℚ) ≤ 10000
    constructor <;> norm_num
  refine ⟨rfl, rfl, fun st ha => ?_, fun st ha => ?_, fun n => ?_, ?_⟩
  · rw [lmTrial_accept env lvl st ha]
    exact lambda_accept lvl st _
  · rw [lmTrial_reject env lvl st ha]
    exact lambda_reject lvl st _
  · exact lambda_range_iterate env lvl _ h0 n
  · exact lmLoop_preserves env lvl (fun st => 1 / 10000 ≤ st.lambda ∧ st.lambda ≤ 10000)
      (fun st h => lambda_range_lmTrial env lvl st h) _ 0 _ le_rfl h0


theorem lmTrials_quit (env : Env) (lvl it : Nat) (st : LMState)
    (h : quitOpt env lvl it (solveInc env st lvl) (lmTrial env lvl st) = true) :
    lmTrials env lvl it st = 1 := by
  rw [lmTrials]
  simp only [h, ↓reduceDIte]

theorem lmTrials_cont (env : Env) (lvl it : Nat) (st : LMState)
    (h : ¬ quitOpt env lvl it (solveInc env st lvl) (lmTrial env lvl st) = true) :
    lmTrials env lvl it st = 1 + lmTrials env lvl (it + 1) (lmTrial env lvl st) := by
  rw [lmTrials]
  simp only [h, Bool.false_eq_true, ↓reduceDIte]

theorem lmLoop_quit (env : Env) (lvl it : Nat) (st : LMState)
    (h : quitOpt env lvl it (solveInc env st lvl) (lmTrial env lvl st) = true) :
    lmLoop env lvl it st = lmTrial env lvl st := by
  rw [lmLoop]
  simp only [h, ↓reduceDIte]

theorem lmLoop_cont (env : Env) (lvl it : Nat) (st : LMState)
    (h : ¬ quitOpt env lvl it (solveInc env st lvl) (lmTrial env lvl st) = true) :
    lmLoop env lvl it st = lmLoop env lvl (it + 1) (lmTrial env lvl st) := by
  rw [lmLoop]
  simp only [h, Bool.false_eq_true, ↓reduceDIte]

theorem quitOpt_iff (env : Env) (lvl it : Nat) (inc : Vec8f) (st : LMState) :
    quitOpt env lvl it inc st = true ↔
      (¬ incNorm env inc > 1 / 10000 ∨ it ≥ maxIterationsAt lvl ∨ st.fails ≥ 2) := by
  simp only [quitOpt, Bool.or_eq_true, Bool.not_eq_true', decide_eq_false_iff_not,
    decide_eq_true_eq, or_assoc]

/-- The inner loop as a number of trials: it returns the state after
`lmTrials` trials, runs at least one trial and at most one more than the
iterations left to the cap, and the quit test holds after the last trial and
after no earlier one. -/
theorem lmLoop_trials (env : Env) (lvl : Nat) :
    ∀ (n it : Nat) (st : LMState), maxIterationsAt lvl - it ≤ n →
      lmLoop env lvl it st = (lmTrial env lvl)^[lmTrials env lvl it st] st ∧
      1 ≤ lmTrials env lvl it st ∧ lmTrials env lvl it st ≤ n + 1 ∧
      ∀ k, k < lmTrials env lvl it st →
        (quitOpt env lvl (it + k) (solveInc env ((lmTrial env lvl)^[k] st) lvl)
            ((lmTrial env lvl)^[k + 1] st) = true ↔ k + 1 = lmTrials env lvl it st) := by
  intro n
  induction n with
  | zero =>
    intro it st hn
    have hq : quitOpt env lvl it (solveInc env st lvl) (lmTrial env lvl st) = true := by
      rw [quitOpt_iff]
      right; left; omega
    rw [lmLoop_quit env lvl it st hq, lmTrials_quit env lvl it st hq]
    refine ⟨rfl, le_refl _, le_refl _, fun k hk => ?_⟩
    have hk0 : k = 0 := by omega
    subst hk0
    simp only [Nat.add_zero, Function.iterate_zero, id_eq, Function.iterate_one, Nat.zero_add,
      iff_true]
    exact hq
  | succ n ih =>
    intro it st hn
    by_cases hq : quitOpt env lvl it (solveInc env st lvl) (lmTrial env lvl st) = true
    · rw [lmLoop_quit env lvl it st hq, lmTrials_quit env lvl it st hq]
      refine ⟨rfl, le_refl _, by omega, fun k hk => ?_⟩
      have hk0 : k = 0 := by omega
      subst hk0
      simp only [Nat.add_zero, Function.iterate_zero, id_eq, Function.iterate_one, Nat.zero_add,
        iff_true]
      exact hq
    · obtain ⟨e1, e2, e3, e4⟩ := ih (it + 1) (lmTrial env lvl st) (by omega)
      rw [lmLoop_cont env lvl it st hq, lmTrials_cont env lvl it st hq, e1]
      refine ⟨?_, by omega, by omega, fun k hk => ?_⟩
      · rw [Nat.add_comm 1, Function.iterate_succ_apply]
      · cases k with
        | zero =>
          simp only [Nat.add_zero, Function.iterate_zero, id_eq, Function.iterate_one,
            Nat.zero_add]
          constructor
          · intro h
            exact absurd h hq
          · intro h
            omega
        | succ j =>
          have := e4 j (by omega)
          rw [Function.iterate_succ_apply, Function.iterate_succ_apply,
            show it + (j + 1) = it + 1 + j by omega, this]
          omega

/-- C14 (amended): termination and trial count of the inner loop.  For every
level and every state the loop is entered with, the inner loop of `trackFrame`
terminates: its result is the state after `lmTrials` trials, where
`1 <= lmTrials <= maxIterations[lvl] + 1`.  After each trial the loop tests
whether the increment norm is not greater than `1e-4`, or the index of the
trial (counted from 0) has reached `maxIterations[lvl]`, or the fail counter
(the number of consecutive rejected trials) is at least 2; the last trial is
the first one after which this test holds.  The caps are 5, 5, 10, 30, 50 for
the levels 0 to 4. -/
theorem inner_loop_trials (env : Env) (lvl : Nat) (st : LMState) :
    lmLoop env lvl 0 st = (lmTrial env lvl)^[lmTrials env lvl 0 st] st ∧
    1 ≤ lmTrials env lvl 0 st ∧ lmTrials env lvl 0 st ≤ maxIterationsAt lvl + 1 ∧
    (∀ k, k < lmTrials env lvl 0 st →
      (quitOpt env lvl k (solveInc env ((lmTrial env lvl)^[k] st) lvl)
          ((lmTrial env lvl)^[k + 1] st) = true ↔ k + 1 = lmTrials env lvl 0 st)) ∧
    (∀ (it : Nat) (inc : Vec8f) (st1 : LMState), quitOpt env lvl it inc st1 = true ↔
      (¬ incNorm env inc > 1 / 10000 ∨ it ≥ maxIterationsAt lvl ∨ st1.fails ≥ 2)) ∧
    maxIterationsAt 0 = 5 ∧ maxIterationsAt 1 = 5 ∧ maxIterationsAt 2 = 10 ∧
    maxIterationsAt 3 = 30 ∧ maxIterationsAt 4 = 50 := by
  obtain ⟨e1, e2, e3, e4⟩ := lmLoop_trials env lvl (maxIterationsAt lvl) 0 st (by omega)
  refine ⟨e1, e2, e3, fun k hk => ?_, quitOpt_iff env lvl, rfl, rfl, rfl, rfl, rfl⟩
  have := e4 k hk
  rwa [Nat.zero_add] at this


theorem runTrial_snapped (env : Env) (lvl : Nat) (st : LMState) :
    (runTrial env lvl st).s.snapped = st.s.snapped := rfl

theorem runTrial_cap (env : Env) (lvl : Nat) (st : LMState) :
    (runTrial env lvl st).s.alphaK * (runTrial env lvl st).s.numPoints lvl =
      st.s.alphaK * st.s.numPoints lvl := by
  have h := ctl_runTrial env lvl st
  unfold CoarseInitializer.numPoints
  rw [h.2.2.2.1, h.2.2.2.2.2.2.2 lvl]

theorem acceptTrial_snapped (lvl : Nat) (st : LMState) (tr : Trial) :
    (acceptTrial lvl st tr).s.snapped =
      (tr.s.snapped || decide (tr.out.res.2.1 = tr.s.alphaK * tr.s.numPoints lvl)) := by
  show (optReg (applyStep (if tr.out.res.2.1 = tr.s.alphaK * tr.s.numPoints lvl then
    { tr.s with snapped := true } else tr.s) lvl) lvl).snapped = _
  by_cases h : tr.out.res.2.1 = tr.s.alphaK * tr.s.numPoints lvl
  · rw [if_pos h]
    simp only [h, decide_True, Bool.or_true]
    rfl
  · rw [if_neg h]
    simp only [h, decide_False, Bool.or_false]
    rfl

/-- The flag `snapped` after one pass through the body of the inner loop. -/
theorem lmTrial_snapped (env : Env) (lvl : Nat) (st : LMState) :
    (lmTrial env lvl st).s.snapped =
      (st.s.snapped || ((runTrial env lvl st).accept st &&
        decide ((runTrial env lvl st).out.res.2.1 = st.s.alphaK * st.s.numPoints lvl))) := by
  cases ha : (runTrial env lvl st).accept st with
  | true =>
    rw [lmTrial_accept env lvl st ha, acceptTrial_snapped, runTrial_snapped, runTrial_cap]
    simp
  | false =>
    rw [lmTrial_reject env lvl st ha]
    simp only [Bool.false_and, Bool.or_false]
    rfl

theorem lmInit_snapped (env : Env) (lvl : Nat) (ts : TrackState) :
    (lmInit env lvl ts).s.snapped = ts.s.snapped := by
  show (applyStep (calcResAndGS env (resetPoints env.cfg
    (if lvl < env.cfg.pyrLevelsUsed - 1 then propagateDown ts.s (lvl + 1) else ts.s) lvl) lvl
    ts.refToNew_current ts.refToNew_aff_current).1 lvl).snapped = _
  split_ifs <;> rfl

/-- C15: when `trackFrame` sets `snapped`.  One pass through the body of the
inner loop leaves `snapped` true exactly when it was true before or the trial
is accepted and the alpha energy `calcResAndGS` returned for it equals the cap
`alphaK * numPoints[lvl]`.  So a rejected trial never changes `snapped`, an
accepted trial whose alpha energy differs from the cap (it is then below the
cap) leaves `snapped` as it was, and an accepted trial at the cap sets it.  The
first half of the body (`doStep`, `calcResAndGS`, `calcEC`) and the statements
before the inner loop of a level leave `snapped` as it is. -/
theorem snapped_iff_accepted_at_cap (env : Env) (lvl : Nat) (st : LMState) (ts : TrackState) :
    ((lmTrial env lvl st).s.snapped = true ↔
      (st.s.snapped = true ∨ ((runTrial env lvl st).accept st = true ∧
        (runTrial env lvl st).out.res.2.1 = st.s.alphaK * st.s.numPoints lvl))) ∧
    ((runTrial env lvl st).accept st = false →
      (lmTrial env lvl st).s.snapped = st.s.snapped) ∧
    ((runTrial env lvl st).accept st = true →
      (runTrial env lvl st).out.res.2.1 ≠ st.s.alphaK * st.s.numPoints lvl →
      (lmTrial env lvl st).s.snapped = st.s.snapped) ∧
    ((runTrial env lvl st).accept st = true →
      (runTrial env lvl st).out.res.2.1 = st.s.alphaK * st.s.numPoints lvl →
      (lmTrial env lvl st).s.snapped = true) ∧
    (runTrial env lvl st).out.res.2.1 ≤ st.s.alphaK * st.s.numPoints lvl ∧
    (runTrial env lvl st).s.snapped = st.s.snapped ∧
    (lmInit env lvl ts).s.snapped = ts.s.snapped := by
  have h := lmTrial_snapped env lvl st
  refine ⟨?_, ?_, ?_, ?_, ?_, rfl, lmInit_snapped env lvl ts⟩
  · rw [h]
    simp
  · intro ha
    rw [h, ha]
    simp
  · intro ha hne
    rw [h, ha]
    simp [hne]
  · intro ha he
    rw [h, ha]
    simp [he]
  · rw [← runTrial_cap env lvl st]
    show (calcResAndGS env _ lvl _ _).2.res.2.1 ≤ _
    rw [calcResAndGS_alpha]
    have e : (doStep st.s lvl st.lambda (solveInc env st lvl)).numPoints lvl
        = (runTrial env lvl st).s.numPoints lvl :=
      ((ctl_calcResAndGS env _ lvl _ _).2.2.2.2.2.2.2 lvl).symm
    have e2 : (doStep st.s lvl st.lambda (solveInc env st lvl)).alphaK
        = (runTrial env lvl st).s.alphaK := rfl
    rw [e, e2]
    split_ifs with hc
    · exact le_refl _
    · exact le_of_not_lt hc


/-! ### The rational square root and translations -/

theorem ratSqrt_mul_self (q : ℚ) (hq : 0 ≤ q) : ratSqrt (q * q) = q := by
  unfold ratSqrt
  rw [Rat.mul_self_num, Rat.mul_self_den]
  have hn : 0 ≤ q.num := Rat.num_nonneg.mpr hq
  obtain ⟨n, hn'⟩ := Int.eq_ofNat_of_zero_le hn
  rw [hn']
  have e : ((n : Int) * (n : Int)).toNat = n * n := by
    rw [← Int.natCast_mul, Int.toNat_natCast]
  rw [e, Nat.sqrt_eq, Nat.sqrt_eq]
  have h2 : (q.num : ℚ) = (n : ℚ) := by
    rw [hn']
    simp
  calc (n : ℚ) / (q.den : ℚ) = (q.num : ℚ) / (q.den : ℚ) := by rw [h2]
    _ = q := Rat.num_div_den q

theorem sqNorm_x (x : ℚ) : (⟨1, ![x, 0, 0]⟩ : SE3).translationSquaredNorm = x * x := by
  simp [SE3.translationSquaredNorm]

/-! ## The alpha energy -/

theorem patternLoop_deepPnt :
    (patternLoop (mkResCtx exampleEnv deepState 0 SE3.identity ⟨0, 0⟩)
      exampleEnv.cfg.patternP deepPnt).isGood = true ∧
    (patternLoop (mkResCtx exampleEnv deepState 0 SE3.identity ⟨0, 0⟩)
      exampleEnv.cfg.patternP deepPnt).energy = 0 := by
  norm_num [patternLoop, patternStep, project, Proj.inside, mkResCtx, exampleEnv, exampleCfg,
    deepState, deepPnt, examplePnt, seedPnt, blankPnt, exampleState, exampleFrame, huberWeight,
    SE3.identity, Matrix.mulVec, Matrix.dotProduct, Fin.sum_univ_succ, Matrix.of_apply]

theorem calcResAndGS_single (env : Env) (s : CoarseInitializer) (lvl : Nat) (P : SE3)
    (aff : AffLight) (p : Pnt) (h : s.points lvl = [p]) :
    (calcResAndGS env s lvl P aff).1.points lvl =
      [trialPnt (mkResCtx env s lvl P aff) env.cfg.patternP p (s.JbBuffer_new 0)] := by
  apply List.ext_getElem?
  intro j
  rw [calcResAndGS_getElem?, h]
  cases j with
  | zero => simp
  | succ j => simp

theorem resAccepted_deepPnt :
    resAccepted (mkResCtx exampleEnv deepState 0 SE3.identity ⟨0, 0⟩)
      exampleEnv.cfg.patternP deepPnt = true := by
  unfold resAccepted
  rw [patternLoop_deepPnt.1, patternLoop_deepPnt.2]
  have h1 : deepPnt.isGood = true := rfl
  have h2 : deepPnt.outlierTH = ((8 : ℕ) : ℚ) * 144 := rfl
  rw [h1, h2]
  norm_num

/-- The alpha energy before capping, as the code computes it, has no depth
term: it is `alphaW * ‖t‖² * N` for every input. -/
theorem alphaEnergyRaw_eq (s : CoarseInitializer) (lvl : Nat) (P : SE3) :
    alphaEnergyRaw s lvl P = s.alphaW * (P.translationSquaredNorm * s.numPoints lvl) := by
  simp [alphaEnergyRaw, Accumulator11.initialize, Accumulator11.finish]

/-- C16 (the code at a failing input): on the example object with the single
point `deepPnt` (good, working depth 2) at the identity pose, the point is good
in the trial, so the alpha energy before capping is
`alphaW * ((2 - 1)² + 0) = 22500` as the specification states it; it exceeds
the cap `alphaK * N = 25/4`, so the capped energy would be `25/4`.  The code
computes `0` before capping, and `calcResAndGS` returns the alpha energy `0`. -/
theorem alphaEnergy_misses_depth_prior :
    ((calcResAndGS exampleEnv deepState 0 SE3.identity ⟨0, 0⟩).1.points 0).map
        (fun p => (p.isGood_new, p.idepth_new)) = [(true, 2)] ∧
    alphaEnergySpec deepState.alphaW
        ((calcResAndGS exampleEnv deepState 0 SE3.identity ⟨0, 0⟩).1.points 0) SE3.identity
      = 22500 ∧
    deepState.alphaK * deepState.numPoints 0 = 25 / 4 ∧
    alphaEnergyRaw deepState 0 SE3.identity = 0 ∧
    (calcResAndGS exampleEnv deepState 0 SE3.identity ⟨0, 0⟩).2.res.2.1 = 0 := by
  have hp : deepState.points 0 = [deepPnt] := rfl
  have hpts := calcResAndGS_single exampleEnv deepState 0 SE3.identity ⟨0, 0⟩ deepPnt hp
  have hg := trialPnt_isGood_new (mkResCtx exampleEnv deepState 0 SE3.identity ⟨0, 0⟩)
    exampleEnv.cfg.patternP deepPnt (deepState.JbBuffer_new 0)
  rw [resAccepted_deepPnt] at hg
  have hi := trialPnt_idepth_new (mkResCtx exampleEnv deepState 0 SE3.identity ⟨0, 0⟩)
    exampleEnv.cfg.patternP deepPnt (deepState.JbBuffer_new 0)
  have hi2 : deepPnt.idepth_new = 2 := rfl
  rw [hi2] at hi
  have ht : SE3.identity.translationSquaredNorm = 0 := by
    simp [SE3.translationSquaredNorm, SE3.identity]
  have hW : deepState.alphaW = 22500 := by
    show (150 * 150 : ℚ) = 22500
    norm_num
  have hK : deepState.alphaK = 25 / 4 := by
    show (5 / 2 * (5 / 2) : ℚ) = 25 / 4
    norm_num
  have hN : (deepState.numPoints 0 : ℚ) = 1 := by
    unfold CoarseInitializer.numPoints
    rw [hp]
    simp
  refine ⟨?_, ?_, ?_, ?_, ?_⟩
  · rw [hpts]
    simp [hg, hi]
  · rw [hpts]
    simp [alphaEnergySpec, hg, hi, ht, hW]
    norm_num
  · rw [hK, hN]
    norm_num
  · rw [alphaEnergyRaw_eq, ht]
    simp
  · rw [calcResAndGS_alpha, ht, hN, hK, hW]
    norm_num


theorem calcResAndGS_JbBuffer_new (env : Env) (s : CoarseInitializer) (lvl : Nat) (P : SE3)
    (aff : AffLight) (j : Nat) (p : Pnt) (hp : (s.points lvl)[j]? = some p) :
    (calcResAndGS env s lvl P aff).1.JbBuffer_new j =
      schurJbOf (alphaOptOf s lvl P) s.couplingWeight
        (alphaPnt (resPnt (mkResCtx env s lvl P aff) env.cfg.patternP p))
        (resJb (mkResCtx env s lvl P aff) env.cfg.patternP p (s.JbBuffer_new j)) := by
  have hj : j < (s.points lvl).length := by
    by_contra hc
    rw [List.getElem?_eq_none (Nat.le_of_not_lt hc)] at hp
    cases hp
  unfold calcResAndGS alphaOptOf
  simp only [CoarseInitializer.numPoints]
  rw [resLoop_eq _ _ _ _ _ _ _ le_rfl]
  simp only []
  rw [schurLoop_eq _ _ _ _ _ _ (by simp)]
  have hpj : (s.points lvl)[j] = p := by
    rw [List.getElem?_eq_getElem hj] at hp
    exact Option.some.inj hp
  simp [hj, hp, hpj]

theorem alpha_return (env : Env) (s : CoarseInitializer) (lvl : Nat) (P : SE3)
    (aff : AffLight) :
    (calcResAndGS env s lvl P aff).2.res.2.1 =
      min (alphaEnergyRaw s lvl P) (s.alphaK * s.numPoints lvl) := by
  rw [calcResAndGS_alpha, alphaEnergyRaw_eq]
  split_ifs with h
  · rw [min_eq_right (le_of_lt h)]
  · rw [min_eq_left (le_of_not_lt h)]

theorem alphaOptOf_eq (s : CoarseInitializer) (lvl : Nat) (P : SE3) :
    alphaOptOf s lvl P =
      if alphaEnergyRaw s lvl P > s.alphaK * s.numPoints lvl then 0 else s.alphaW := rfl

theorem schurJb_entries (a cw : ℚ) (q : Pnt) (jb : Vec10f) :
    schurJb a cw q jb 8 =
      jb 8 + a * (q.idepth_new - 1) + (if a = 0 then cw * (q.idepth_new - q.iR) else 0) ∧
    schurJb a cw q jb 9 = 1 / (1 + (jb 9 + a + (if a = 0 then cw else 0))) ∧
    ∀ k : Fin 10, k ≠ 8 → k ≠ 9 → schurJb a cw q jb k = jb k := by
  unfold schurJb
  refine ⟨?_, ?_, fun k h8 h9 => ?_⟩
  · rw [Function.update_noteq (by decide), Function.update_same]
    split_ifs <;> simp
  · rw [Function.update_same]
    split_ifs <;> simp
  · rw [Function.update_noteq h9, Function.update_noteq h8]

/-- C17: the cap of the alpha energy and the coupling term.  `calcResAndGS`
returns the alpha energy `min(E, alphaK * N)`, where `E` is the alpha energy
before capping as the code computes it, so the returned energy never exceeds
the cap `alphaK * N`.  The prior weight `alphaOpt` is 0 when `E` is strictly
greater than the cap and `alphaW` otherwise (so, for `alphaW ≠ 0`, it is 0
exactly when `E` exceeds the cap).  For point `j` of the level: when the point
is not good in the trial its scratch `JbBuffer_new[j]` is what the residual loop
left; when it is good, entry 8 gets `alphaOpt * (idepth_new - 1)` added and,
exactly when `alphaOpt = 0`, the coupling term
`couplingWeight * (idepth_new - iR)` as well; entry 9 becomes
`1 / (1 + JbBuffer_new[j][9] + alphaOpt (+ couplingWeight when alphaOpt = 0))`,
and the entries 0 to 7 are unchanged. -/
theorem alpha_cap_and_coupling (env : Env) (s : CoarseInitializer) (lvl : Nat) (P : SE3)
    (aff : AffLight) (j : Nat) (p : Pnt) (hp : (s.points lvl)[j]? = some p) :
    (calcResAndGS env s lvl P aff).2.res.2.1 =
      min (alphaEnergyRaw s lvl P) (s.alphaK * s.numPoints lvl) ∧
    (calcResAndGS env s lvl P aff).2.res.2.1 ≤ s.alphaK * s.numPoints lvl ∧
    alphaOptOf s lvl P =
      (if alphaEnergyRaw s lvl P > s.alphaK * s.numPoints lvl then 0 else s.alphaW) ∧
    (s.alphaW ≠ 0 →
      (alphaOptOf s lvl P = 0 ↔ alphaEnergyRaw s lvl P > s.alphaK * s.numPoints lvl)) ∧
    (resAccepted (mkResCtx env s lvl P aff) env.cfg.patternP p = false →
      (calcResAndGS env s lvl P aff).1.JbBuffer_new j =
        resJb (mkResCtx env s lvl P aff) env.cfg.patternP p (s.JbBuffer_new j)) ∧
    (resAccepted (mkResCtx env s lvl P aff) env.cfg.patternP p = true →
      (calcResAndGS env s lvl P aff).1.JbBuffer_new j 8 =
        (patternLoop (mkResCtx env s lvl P aff) env.cfg.patternP p).jb 8 +
          alphaOptOf s lvl P * (p.idepth_new - 1) +
          (if alphaOptOf s lvl P = 0 then s.couplingWeight * (p.idepth_new - p.iR) else 0) ∧
      (calcResAndGS env s lvl P aff).1.JbBuffer_new j 9 =
        1 / (1 + ((patternLoop (mkResCtx env s lvl P aff) env.cfg.patternP p).jb 9 +
          alphaOptOf s lvl P + (if alphaOptOf s lvl P = 0 then s.couplingWeight else 0))) ∧
      ∀ k : Fin 10, k ≠ 8 → k ≠ 9 →
        (calcResAndGS env s lvl P aff).1.JbBuffer_new j k =
          (patternLoop (mkResCtx env s lvl P aff) env.cfg.patternP p).jb k) := by
  have hjb := calcResAndGS_JbBuffer_new env s lvl P aff j p hp
  have hq : (alphaPnt (resPnt (mkResCtx env s lvl P aff) env.cfg.patternP p)).isGood_new =
      resAccepted (mkResCtx env s lvl P aff) env.cfg.patternP p :=
    trialPnt_isGood_new _ _ p (s.JbBuffer_new j) ▸ (by
      unfold trialPnt schurPnt
      split_ifs <;> rfl)
  refine ⟨alpha_return env s lvl P aff, ?_, alphaOptOf_eq s lvl P, fun hW => ?_, fun ha => ?_,
    fun ha => ?_⟩
  · rw [alpha_return]
    exact min_le_right _ _
  · rw [alphaOptOf_eq]
    split_ifs with h
    · simp [h]
    · simp [h, hW]
  · rw [hjb]
    unfold schurJbOf
    rw [hq, ha]
    rfl
  · have hg : p.isGood = true := resAccepted_isGood _ _ _ ha
    have hres : resJb (mkResCtx env s lvl P aff) env.cfg.patternP p (s.JbBuffer_new j) =
        (patternLoop (mkResCtx env s lvl P aff) env.cfg.patternP p).jb := by
      simp [resJb, hg]
    have hq1 : (alphaPnt (resPnt (mkResCtx env s lvl P aff) env.cfg.patternP p)).idepth_new =
        p.idepth_new := by
      unfold alphaPnt resPnt
      split_ifs <;> rfl
    have hq2 : (alphaPnt (resPnt (mkResCtx env s lvl P aff) env.cfg.patternP p)).iR = p.iR := by
      unfold alphaPnt resPnt
      split_ifs <;> rfl
    have e : (calcResAndGS env s lvl P aff).1.JbBuffer_new j =
        schurJb (alphaOptOf s lvl P) s.couplingWeight
          (alphaPnt (resPnt (mkResCtx env s lvl P aff) env.cfg.patternP p))
          (patternLoop (mkResCtx env s lvl P aff) env.cfg.patternP p).jb := by
      rw [hjb]
      unfold schurJbOf
      rw [hq, ha, hres]
      rfl
    have h3 := schurJb_entries (alphaOptOf s lvl P) s.couplingWeight
      (alphaPnt (resPnt (mkResCtx env s lvl P aff) env.cfg.patternP p))
      (patternLoop (mkResCtx env s lvl P aff) env.cfg.patternP p).jb
    rw [hq1, hq2] at h3
    rw [e]
    exact h3

/-- Witness of `alpha_cap_and_coupling`: the point of `deepState` at the pose
`farPose`, whose translation of 100 puts the alpha energy above the cap: the
returned energy is the cap `25/4` and the prior weight is 0. -/
theorem alpha_cap_and_coupling_witness :
    (deepState.points 0)[0]? = some deepPnt ∧
    (calcResAndGS exampleEnv deepState 0 farPose ⟨0, 0⟩).2.res.2.1 = 25 / 4 ∧
    alphaOptOf deepState 0 farPose = 0 := by
  have h := alpha_cap_and_coupling exampleEnv deepState 0 farPose ⟨0, 0⟩ 0 deepPnt rfl
  have ht : farPose.translationSquaredNorm = 10000 := by
    simp [SE3.translationSquaredNorm, farPose]
    norm_num
  have hW : deepState.alphaW = 22500 := by
    show (150 * 150 : ℚ) = 22500
    norm_num
  have hK : deepState.alphaK = 25 / 4 := by
    show (5 / 2 * (5 / 2) : ℚ) = 25 / 4
    norm_num
  have hN : (deepState.numPoints 0 : ℚ) = 1 := by
    have : deepState.numPoints 0 = 1 := rfl
    rw [this]
    norm_num
  have hraw : alphaEnergyRaw deepState 0 farPose = 225000000 := by
    rw [alphaEnergyRaw_eq, ht, hW, hN]
    norm_num
  refine ⟨rfl, ?_, ?_⟩
  · rw [h.1, hraw, hK, hN]
    norm_num
  · rw [h.2.2.1, hraw, hK, hN]
    norm_num

/-! ## The regularizer, point by point -/

theorem optRegStep_getElem?_ne (rw : ℚ) (i k : Nat) (l : List Pnt) (h : k ≠ i) :
    (optRegStep rw i l)[k]? = l[k]? := by
  unfold optRegStep
  split
  · rfl
  · split
    · rfl
    · simp only []
      split
      · rw [List.getElem?_set_ne (Ne.symm h)]
      · rfl

theorem optRegLoop_ge (rw : ℚ) (l : List Pnt) (n k : Nat) (h : n ≤ k) :
    (forLoop n (optRegStep rw) l)[k]? = l[k]? := by
  induction n with
  | zero => rfl
  | succ n ih =>
    show (optRegStep rw n (forLoop n (optRegStep rw) l))[k]? = _
    rw [optRegStep_getElem?_ne rw n k _ (by omega), ih (by omega)]

theorem optRegLoop_lt (rw : ℚ) (l : List Pnt) (n k : Nat) (h : k < n) :
    (forLoop n (optRegStep rw) l)[k]? = (forLoop (k + 1) (optRegStep rw) l)[k]? := by
  induction n with
  | zero => omega
  | succ n ih =>
    by_cases hk : k = n
    · subst hk
      rfl
    · show (optRegStep rw n (forLoop n (optRegStep rw) l))[k]? = _
      rw [optRegStep_getElem?_ne rw n k _ hk, ih (by omega)]

/-- What iteration `i` of the main loop of `optReg` stores at index `i`. -/
theorem optRegStep_self (rw : ℚ) (i : Nat) (l : List Pnt) (p : Pnt) (h : l[i]? = some p) :
    (optRegStep rw i l)[i]? =
      some (if p.isGood = true ∧ 3 ≤ (goodNeighbourIR l p).length then
        { p with iR := (1 - rw) * p.idepth +
            rw * nthElement (goodNeighbourIR l p) ((goodNeighbourIR l p).length / 2) }
        else p) := by
  have hi : i < l.length := by
    by_contra hc
    rw [List.getElem?_eq_none (Nat.le_of_not_lt hc)] at h
    cases h
  unfold optRegStep
  rw [h]
  simp only []
  by_cases hg : p.isGood = true
  · by_cases hn : (goodNeighbourIR l p).length > 2
    · have hn3 : 3 ≤ (goodNeighbourIR l p).length := hn
      simp [hg, hn, hn3, List.getElem?_set, hi]
    · have hn3 : ¬ 3 ≤ (goodNeighbourIR l p).length := hn
      simp [hg, hn, hn3, h]
  · simp [hg, h]

/-- C18: `optReg` when snapped.  The main loop handles the points in index
order, in place.  For point `i` of the level, with `nb` the `iR` values of its
good same-level neighbours as they stand when the loop reaches `i` (the points
before `i` already updated, the points from `i` on as on entry) and
`n = |nb|`: a good point with `n >= 3` gets
`iR = (1 - regWeight) * idepth + regWeight * m`, where `m` is the element of
rank `floor(n / 2)` of `nb` in ascending order (the upper median for even `n`,
no averaging); a point that is not good, and a good point with `n < 3`, keeps
its `iR`.  No other field of a point changes (so no `idepth` and no validity
flag), the number of points is unchanged, and the other levels and members are
untouched. -/
theorem optReg_snapped_median (s : CoarseInitializer) (lvl : Nat) (hs : s.snapped = true)
    (i : Nat) (p : Pnt) (hp : (s.points lvl)[i]? = some p) :
    optReg s lvl = { s with points := Function.update s.points lvl ((optReg s lvl).points lvl) } ∧
    ((optReg s lvl).points lvl).length = (s.points lvl).length ∧
    (∀ k, (forLoop i (optRegStep s.regWeight) (s.points lvl))[k]? =
      if k < i then ((optReg s lvl).points lvl)[k]? else (s.points lvl)[k]?) ∧
    ∃ p', ((optReg s lvl).points lvl)[i]? = some p' ∧
      p' = { p with iR := p'.iR } ∧
      (p.isGood = true →
        3 ≤ (goodNeighbourIR (forLoop i (optRegStep s.regWeight) (s.points lvl)) p).length →
        p'.iR = (1 - s.regWeight) * p.idepth + s.regWeight *
          nthElement (goodNeighbourIR (forLoop i (optRegStep s.regWeight) (s.points lvl)) p)
            ((goodNeighbourIR (forLoop i (optRegStep s.regWeight) (s.points lvl)) p).length / 2)) ∧
      (p.isGood = false → p' = p) ∧
      ((goodNeighbourIR (forLoop i (optRegStep s.regWeight) (s.points lvl)) p).length < 3 →
        p' = p) := by
  have hi : i < (s.points lvl).length := by
    by_contra hc
    rw [List.getElem?_eq_none (Nat.le_of_not_lt hc)] at hp
    cases hp
  have hpts : (optReg s lvl).points lvl =
      forLoop (s.points lvl).length (optRegStep s.regWeight) (s.points lvl) := by
    simp [optReg, optRegPts, hs]
  have hpre : (forLoop i (optRegStep s.regWeight) (s.points lvl))[i]? = some p := by
    rw [optRegLoop_ge _ _ _ _ le_rfl, hp]
  have hfin : ((optReg s lvl).points lvl)[i]? =
      (optRegStep s.regWeight i (forLoop i (optRegStep s.regWeight) (s.points lvl)))[i]? := by
    rw [hpts, optRegLoop_lt _ _ _ _ hi]
    rfl
  rw [optRegStep_self _ _ _ _ hpre] at hfin
  refine ⟨?_, ?_, fun k => ?_, _, hfin, ?_, fun hg hn => ?_, fun hg => ?_, fun hn => ?_⟩
  · unfold optReg
    simp
  · rw [hpts]
    exact length_forLoop_pts _ (fun j l => length_optRegStep _ j l) _ _
  · by_cases hk : k < i
    · rw [if_pos hk, hpts, optRegLoop_lt _ _ _ _ (by omega : k < (s.points lvl).length),
        optRegLoop_lt _ _ _ _ hk]
    · rw [if_neg hk, optRegLoop_ge _ _ _ _ (by omega)]
  · split_ifs <;> rfl
  · rw [if_pos ⟨hg, hn⟩]
  · rw [if_neg (by simp [hg])]
  · rw [if_neg (by omega)]

theorem regState_neighbours_at_2 :
    goodNeighbourIR (forLoop 2 (optRegStep regState.regWeight) (regState.points 0))
      (regPnt 3 ![2, 1, 0, -1, -1, -1, -1, -1, -1, -1]) = [3, 9 / 5, 9 / 5] := by
  simp [regState, exampleState, forLoop, optRegStep, goodNeighbourIR, getPnt, nthElement, regPnt,
    seedPnt, blankPnt, List.ofFn_succ]
  norm_num

/-- Witness of `optReg_snapped_median`: the third point of `regState`, whose
neighbours are the points 2, 1, 0.  When the loop reaches it the first two
points have been updated to `iR = 9/5`, so `nb = [3, 9/5, 9/5]`, the element of
rank 1 is `9/5` and the point gets `iR = 1/5 * 1 + 4/5 * 9/5 = 41/25`. -/
theorem optReg_snapped_median_witness :
    regState.snapped = true ∧
    (regState.points 0)[2]? = some (regPnt 3 ![2, 1, 0, -1, -1, -1, -1, -1, -1, -1]) ∧
    ∃ p', ((optReg regState 0).points 0)[2]? = some p' ∧ p'.iR = 41 / 25 ∧ p'.idepth = 1 ∧
      p'.isGood = true := by
  obtain ⟨-, -, -, p', e1, e2, e3, -, -⟩ :=
    optReg_snapped_median regState 0 rfl 2 (regPnt 3 ![2, 1, 0, -1, -1, -1, -1, -1, -1, -1]) rfl
  refine ⟨rfl, rfl, p', e1, ?_, ?_, ?_⟩
  · rw [e3 rfl (by rw [regState_neighbours_at_2]; decide), regState_neighbours_at_2]
    have hw : regState.regWeight = 4 / 5 := rfl
    have hd : (regPnt 3 ![2, 1, 0, -1, -1, -1, -1, -1, -1, -1]).idepth = 1 := rfl
    rw [hw, hd]
    simp [nthElement]
    norm_num
  · rw [e2]
    rfl
  · rw [e2]
    rfl


/-- C19: `optReg` before the snap.  When the optimizer has not snapped,
`optReg(lvl)` sets `iR = 1` for every point of the level, good or not, and
changes nothing else: no other field of a point, no other level and no other
member of the object. -/
theorem optReg_unsnapped (s : CoarseInitializer) (lvl : Nat) (hs : s.snapped = false) :
    optReg s lvl =
      { s with
        points := Function.update s.points lvl
          ((s.points lvl).map fun p => { p with iR := 1 }) } ∧
    (∀ p ∈ (optReg s lvl).points lvl, p.iR = 1) ∧
    ((optReg s lvl).points lvl).length = (s.points lvl).length ∧
    ∀ k, k ≠ lvl → (optReg s lvl).points k = s.points k := by
  have h : optReg s lvl =
      { s with
        points := Function.update s.points lvl
          ((s.points lvl).map fun p => { p with iR := 1 }) } := by
    simp [optReg, optRegPts, hs]
  refine ⟨h, ?_, ?_, fun k hk => ?_⟩
  · intro p hp
    rw [h] at hp
    simp only [Function.update_same, List.mem_map] at hp
    obtain ⟨q, -, rfl⟩ := hp
    rfl
  · rw [h]
    simp
  · rw [h]
    simp [Function.update_noteq hk]

/-- Witness of `optReg_unsnapped`: level 0 of the example object, which has not
snapped, after its points got other regularized depths. -/
theorem optReg_unsnapped_witness :
    ({ regState with snapped := false } : CoarseInitializer).snapped = false ∧
    ((optReg { regState with snapped := false } 0).points 0).map Pnt.iR = [1, 1, 1] ∧
    (regState.points 0).map Pnt.iR = [1, 2, 3] := by
  have h := (optReg_unsnapped { regState with snapped := false } 0 rfl).1
  refine ⟨rfl, ?_, ?_⟩
  · rw [h]
    simp [regState]
  · simp [regState, regPnt]

/-! ## The accumulation of `propagateUp` in closed form -/

theorem childrenOf_append (l1 l2 : List Pnt) (j : Nat) :
    childrenOf (l1 ++ l2) j = childrenOf l1 j ++ childrenOf l2 j := by
  simp [childrenOf]

theorem modifyPnt_getElem? (l : List Pnt) (i : Int) (f : Pnt → Pnt) (j : Nat) :
    (modifyPnt l i f)[j]? = if i = (j : Int) then (l[j]?).map f else l[j]? := by
  unfold modifyPnt
  cases hg : getPnt l i with
  | none =>
    simp only []
    split_ifs with h
    · subst h
      rw [getPnt_natCast] at hg
      rw [hg]
      rfl
    · rfl
  | some p =>
    obtain ⟨h0, h1⟩ := getPnt_some l i p hg
    simp only []
    split_ifs with h
    · subst h
      simp only [Int.toNat_natCast] at h1 ⊢
      have hj : j < l.length := by
        by_contra hc
        rw [List.getElem?_eq_none (Nat.le_of_not_lt hc)] at h1
        cases h1
      rw [h1]
      simp [List.getElem?_set, hj]
    · have hne : i.toNat ≠ j := by
        intro he
        apply h
        rw [← he]
        exact (Int.toNat_of_nonneg h0).symm
      rw [List.getElem?_set_ne hne]

theorem accumStep_getElem? (ptss l : List Pnt) (n j : Nat) (pt : Pnt) (h : ptss[n]? = some pt) :
    (accumStep ptss n l)[j]? =
      if pt.isGood = true ∧ pt.parent = (j : Int) then
        (l[j]?).map fun parent =>
          { parent with
            iR := parent.iR + pt.iR * pt.lastHessian
            iRSumNum := parent.iRSumNum + pt.lastHessian }
      else l[j]? := by
  unfold accumStep
  rw [h]
  simp only []
  by_cases hg : pt.isGood = true
  · simp only [hg, Bool.not_true, Bool.false_eq_true, if_false, true_and]
    rw [modifyPnt_getElem?]
  · simp [hg]

theorem childrenOf_single (p : Pnt) (j : Nat) :
    childrenOf [p] j = if p.isGood = true ∧ p.parent = (j : Int) then [p] else [] := by
  unfold childrenOf
  by_cases hg : p.isGood = true
  · by_cases hp : p.parent = (j : Int)
    · simp [List.filter_cons, hg, hp]
    · simp [List.filter_cons, hg, hp]
  · simp [List.filter_cons, hg]

theorem accDepth_snoc (l : List Pnt) (p : Pnt) (j : Nat) :
    accDepth (l ++ [p]) j =
      accDepth l j + (if p.isGood = true ∧ p.parent = (j : Int) then p.iR * p.lastHessian else 0) := by
  unfold accDepth
  rw [childrenOf_append, childrenOf_single, List.map_append, List.sum_append]
  split_ifs <;> simp

theorem accWeight_snoc (l : List Pnt) (p : Pnt) (j : Nat) :
    accWeight (l ++ [p]) j =
      accWeight l j + (if p.isGood = true ∧ p.parent = (j : Int) then p.lastHessian else 0) := by
  unfold accWeight
  rw [childrenOf_append, childrenOf_single, List.map_append, List.sum_append]
  split_ifs <;> simp

/-- The accumulators of parent `j` after the first `n` iterations of the second
loop of `propagateUp`. -/
theorem accum_closed (ptss : List Pnt) (l0 : List Pnt) (j : Nat) (q0 : Pnt)
    (h0 : l0[j]? = some q0) (n : Nat) (hn : n ≤ ptss.length) :
    (forLoop n (accumStep ptss) l0)[j]? =
      some { q0 with
        iR := q0.iR + accDepth (ptss.take n) j
        iRSumNum := q0.iRSumNum + accWeight (ptss.take n) j } := by
  induction n with
  | zero => simp [forLoop, accDepth, accWeight, childrenOf, h0]
  | succ n ih =>
    have hlt : n < ptss.length := hn
    have h2 : ptss.take (n + 1) = ptss.take n ++ [ptss[n]] := by
      rw [List.take_succ, List.getElem?_eq_getElem hlt]
      rfl
    show (accumStep ptss n (forLoop n (accumStep ptss) l0))[j]? = _
    rw [accumStep_getElem? ptss _ n j ptss[n] (List.getElem?_eq_getElem hlt), ih (le_of_lt hlt),
      h2, accDepth_snoc, accWeight_snoc]
    by_cases hc : ptss[n].isGood = true ∧ ptss[n].parent = (j : Int)
    · simp only [if_pos hc, Option.map_some', add_assoc]
    · simp only [if_neg hc, add_zero]

/-- C20: the accumulation of `propagateUp(lvl)` before its closing `optReg`
call.  For point `j` of level `lvl + 1`, with `W` the sum of `lastHessian` and
`D` the sum of `iR * lastHessian` over the good points of level `lvl` whose
parent is `j`: when `W > 0` the point gets `idepth = iR = D / W` and is marked
good; when `W <= 0` it keeps its `idepth` and its validity flag.  In both cases
only `idepth`, `iR`, `isGood` and the accumulator `iRSumNum` (which ends as
`W`) can change.  Points of level `lvl` that are not good contribute nothing:
`W` and `D` are the same for the level with those points removed.
`propagateUp` is this update of level `lvl + 1` followed by `optReg(lvl + 1)`. -/
theorem propagateUp_weighted_mean (ptss ptst : List Pnt) (j : Nat) (q0 : Pnt)
    (h0 : ptst[j]? = some q0) :
    (∃ q, (propagateUpPts ptss ptst)[j]? = some q ∧
      q = { q0 with idepth := q.idepth, iR := q.iR, isGood := q.isGood, iRSumNum := q.iRSumNum } ∧
      q.iRSumNum = accWeight ptss j ∧
      (0 < accWeight ptss j →
        q.idepth = accDepth ptss j / accWeight ptss j ∧
        q.iR = accDepth ptss j / accWeight ptss j ∧ q.isGood = true) ∧
      (accWeight ptss j ≤ 0 → q.idepth = q0.idepth ∧ q.isGood = q0.isGood)) ∧
    accWeight (ptss.filter fun p => p.isGood) j = accWeight ptss j ∧
    accDepth (ptss.filter fun p => p.isGood) j = accDepth ptss j ∧
    ∀ (s : CoarseInitializer) (lvl : Nat), propagateUp s lvl =
      optReg { s with
        points := Function.update s.points (lvl + 1)
          (propagateUpPts (s.points lvl) (s.points (lvl + 1))) } (lvl + 1) := by
  have hc : ((ptst.map clearAccum))[j]? = some (clearAccum q0) := by
    rw [List.getElem?_map, h0]
    rfl
  have hl := accum_closed ptss (ptst.map clearAccum) j (clearAccum q0) hc ptss.length le_rfl
  rw [List.take_length] at hl
  have hq : (propagateUpPts ptss ptst)[j]? = some (normalizeParent
      { clearAccum q0 with
        iR := (clearAccum q0).iR + accDepth ptss j
        iRSumNum := (clearAccum q0).iRSumNum + accWeight ptss j }) := by
    unfold propagateUpPts
    rw [List.getElem?_map, hl]
    rfl
  refine ⟨⟨_, hq, ?_, ?_, fun hw => ?_, fun hw => ?_⟩, ?_, ?_, fun s lvl => rfl⟩
  · unfold normalizeParent clearAccum
    split_ifs <;> rfl
  · unfold normalizeParent clearAccum
    simp only [zero_add]
    split_ifs <;> rfl
  · unfold normalizeParent clearAccum
    simp only [zero_add, hw, if_true]
    exact ⟨trivial, trivial, trivial⟩
  · unfold normalizeParent clearAccum
    simp only [zero_add, not_lt.mpr hw, if_false]
    exact ⟨trivial, trivial⟩
  · simp [accWeight, childrenOf, List.filter_filter]
    congr 2
    apply List.filter_congr
    intro p _
    cases p.isGood <;> simp
  · simp [accDepth, childrenOf, List.filter_filter]
    congr 2
    apply List.filter_congr
    intro p _
    cases p.isGood <;> simp

/-- Witness of `propagateUp_weighted_mean`: a parent with two good children
(`iR = 1` with weight 1, `iR = 5` with weight 3) and a child that is not good
gets `idepth = iR = (1 * 1 + 5 * 3) / (1 + 3) = 4` and is marked good. -/
theorem propagateUp_weighted_mean_witness :
    ([blankPnt] : List Pnt)[0]? = some blankPnt ∧
    accWeight weighedChildren 0 = 4 ∧ accDepth weighedChildren 0 = 16 ∧
    ∃ q, (propagateUpPts weighedChildren [blankPnt])[0]? = some q ∧
      q.idepth = 4 ∧ q.iR = 4 ∧ q.isGood = true := by
  have hW : accWeight weighedChildren 0 = 4 := by
    simp [accWeight, childrenOf, weighedChildren, flatPnt, examplePnt, seedPnt]
    norm_num
  have hD : accDepth weighedChildren 0 = 16 := by
    simp [accDepth, childrenOf, weighedChildren, flatPnt, examplePnt, seedPnt]
    norm_num
  obtain ⟨⟨q, e1, -, -, e3, -⟩, -⟩ :=
    propagateUp_weighted_mean weighedChildren [blankPnt] 0 blankPnt rfl
  have e4 := e3 (by rw [hW]; norm_num)
  rw [hW, hD] at e4
  refine ⟨rfl, hW, hD, q, e1, ?_, ?_, e4.2.2⟩
  · rw [e4.1]
    norm_num
  · rw [e4.2.1]
    norm_num

/-! ## `propagateDown`, point by point -/

/-- The blend branch of `propagateDownPnt`: a good point below a good,
confident parent gets the blended depth in its three depth fields. -/
theorem propagateDownPnt_blend (ptss : List Pnt) (c p : Pnt)
    (h : getPnt ptss c.parent = some p) (hg : p.isGood = true) (hl : ¬ p.lastHessian < 1 / 10)
    (hc : c.isGood = true) :
    propagateDownPnt ptss c =
      { c with iR := blendIR c p, idepth := blendIR c p, idepth_new := blendIR c p } := by
  have e : (1 / 10 : ℚ) = 10⁻¹ := by norm_num
  unfold propagateDownPnt
  rw [h]
  rw [e] at hl
  simp [hg, hl, hc, blendIR]

/-- C21: `propagateDown(lvl)` before its closing `optReg` call, for a point `c`
of level `lvl - 1` whose parent link is the point `p` of level `lvl`.  If `p`
is not good or `p.lastHessian < 0.1`, `c` is unchanged.  Otherwise, if `c` is
not good, `c` becomes good with `iR = idepth = idepth_new = p.iR` and
`lastHessian = 0`.  Otherwise `iR = idepth = idepth_new` become
`(c.iR * c.lastHessian * 2 + p.iR * p.lastHessian) / (c.lastHessian * 2 + p.lastHessian)`
and nothing else of `c` changes, in particular not `c.lastHessian`.
`propagateDown` applies this to every point of level `lvl - 1` and then calls
`optReg(lvl - 1)`. -/
theorem propagateDown_point (ptss : List Pnt) (c p : Pnt) (h : getPnt ptss c.parent = some p) :
    ((p.isGood = false ∨ p.lastHessian < 1 / 10) → propagateDownPnt ptss c = c) ∧
    (p.isGood = true → ¬ p.lastHessian < 1 / 10 → c.isGood = false →
      propagateDownPnt ptss c =
        { c with
          iR := p.iR, idepth := p.iR, idepth_new := p.iR
          isGood := true, lastHessian := 0 }) ∧
    (p.isGood = true → ¬ p.lastHessian < 1 / 10 → c.isGood = true →
      propagateDownPnt ptss c =
        { c with iR := blendIR c p, idepth := blendIR c p, idepth_new := blendIR c p }) ∧
    ∀ (s : CoarseInitializer) (srcLvl : Nat), propagateDown s srcLvl =
      optReg { s with
        points := Function.update s.points (srcLvl - 1)
          ((s.points (srcLvl - 1)).map (propagateDownPnt (s.points srcLvl))) } (srcLvl - 1) := by
  have e : (1 / 10 : ℚ) = 10⁻¹ := by norm_num
  refine ⟨fun hb => ?_, fun hg hl hc => ?_, fun hg hl hc => ?_, fun s srcLvl => rfl⟩
  · unfold propagateDownPnt
    rw [h]
    rcases hb with hb | hb
    · simp [hb]
    · rw [e] at hb
      simp [hb]
  · unfold propagateDownPnt
    rw [h]
    rw [e] at hl
    simp [hg, hl, hc]
  · exact propagateDownPnt_blend ptss c p h hg hl hc

/-- Witness of `propagateDown_point`: the child `blendChild` (depth 2,
confidence 1/2) of the good parent of `blendParents` (depth 4, confidence 1)
gets the depth `(2 * 1/2 * 2 + 4 * 1) / (1/2 * 2 + 1) = 3`. -/
theorem propagateDown_point_witness :
    getPnt blendParents blendChild.parent = some { flatPnt 1 (fun _ => -1) (-1) with iR := 4 } ∧
    (propagateDownPnt blendParents blendChild).iR = 3 ∧
    (propagateDownPnt blendParents blendChild).idepth = 3 ∧
    (propagateDownPnt blendParents blendChild).lastHessian = 1 / 2 := by
  have h : getPnt blendParents blendChild.parent =
      some { flatPnt 1 (fun _ => -1) (-1) with iR := 4 } := rfl
  have h3 := (propagateDown_point blendParents blendChild _ h).2.2.1 rfl
    (by show ¬ ((1 : ℚ) < 1 / 10); norm_num) rfl
  have hb : blendIR blendChild { flatPnt 1 (fun _ => -1) (-1) with iR := 4 } = 3 := by
    simp [blendIR, blendChild, flatPnt]
    norm_num
  rw [h3]
  exact ⟨h, hb, hb, rfl⟩

/-- C27: the blend of `propagateDown` is well defined.  Where the division is
executed (the parent of the point is good with `lastHessian >= 0.1` and the
point itself is good) and the `lastHessian` of the point is non-negative, the
divisor `c.lastHessian * 2 + p.lastHessian` is at least `0.1`, so it is not
zero, and the blended value, which the point gets as `iR`, lies between the
`iR` of the point and the `iR` of its parent, inclusive. -/
theorem blend_divisor_and_range (ptss : List Pnt) (c p : Pnt)
    (h : getPnt ptss c.parent = some p) (hg : p.isGood = true) (hl : ¬ p.lastHessian < 1 / 10)
    (hc : c.isGood = true) (h0 : 0 ≤ c.lastHessian) :
    1 / 10 ≤ c.lastHessian * 2 + p.lastHessian ∧
    c.lastHessian * 2 + p.lastHessian ≠ 0 ∧
    (propagateDownPnt ptss c).iR = blendIR c p ∧
    min c.iR p.iR ≤ blendIR c p ∧ blendIR c p ≤ max c.iR p.iR := by
  have hp : 1 / 10 ≤ p.lastHessian := le_of_not_lt hl
  have hd : 1 / 10 ≤ c.lastHessian * 2 + p.lastHessian := by linarith
  have hpos : 0 < c.lastHessian * 2 + p.lastHessian := by linarith
  have h3 := propagateDownPnt_blend ptss c p h hg hl hc
  refine ⟨hd, ne_of_gt hpos, by rw [h3], ?_, ?_⟩
  · unfold blendIR
    rw [le_div_iff₀ hpos]
    have a1 : min c.iR p.iR ≤ c.iR := min_le_left _ _
    have a2 : min c.iR p.iR ≤ p.iR := min_le_right _ _
    have b1 : min c.iR p.iR * (c.lastHessian * 2) ≤ c.iR * (c.lastHessian * 2) :=
      mul_le_mul_of_nonneg_right a1 (by linarith)
    have b2 : min c.iR p.iR * p.lastHessian ≤ p.iR * p.lastHessian :=
      mul_le_mul_of_nonneg_right a2 (by linarith)
    linarith
  · unfold blendIR
    rw [div_le_iff₀ hpos]
    have a1 : c.iR ≤ max c.iR p.iR := le_max_left _ _
    have a2 : p.iR ≤ max c.iR p.iR := le_max_right _ _
    have b1 : c.iR * (c.lastHessian * 2) ≤ max c.iR p.iR * (c.lastHessian * 2) :=
      mul_le_mul_of_nonneg_right a1 (by linarith)
    have b2 : p.iR * p.lastHessian ≤ max c.iR p.iR * p.lastHessian :=
      mul_le_mul_of_nonneg_right a2 (by linarith)
    linarith

/-- Witness of `blend_divisor_and_range`: `blendChild` and its parent, with the
divisor `1/2 * 2 + 1 = 2` and the blend 3 between the depths 2 and 4. -/
theorem blend_divisor_and_range_witness :
    getPnt blendParents blendChild.parent = some { flatPnt 1 (fun _ => -1) (-1) with iR := 4 } ∧
    (0 : ℚ) ≤ blendChild.lastHessian ∧
    1 / 10 ≤ blendChild.lastHessian * 2 +
      ({ flatPnt 1 (fun _ => -1) (-1) with iR := 4 } : Pnt).lastHessian ∧
    min blendChild.iR 4 ≤ blendIR blendChild { flatPnt 1 (fun _ => -1) (-1) with iR := 4 } := by
  have h : getPnt blendParents blendChild.parent =
      some { flatPnt 1 (fun _ => -1) (-1) with iR := 4 } := rfl
  have h0 : (0 : ℚ) ≤ blendChild.lastHessian := by
    show (0 : ℚ) ≤ 1 / 2
    norm_num
  have hw := blend_divisor_and_range blendParents blendChild _ h rfl
    (by show ¬ ((1 : ℚ) < 1 / 10); norm_num) rfl h0
  exact ⟨h, h0, hw.1, hw.2.2.2.1⟩

/-! ## The robust energy of a sample -/

theorem patternStep_energy (c : ResCtx) (p : Pnt) (st : PatState) (d : Int × Int)
    (hg : st.isGood = true) (hin : (project c p d).inside c)
    (hf1 : (c.colorRef (p.u + d.1) (p.v + d.2)).finite = true)
    (hf2 : (c.colorNew (project c p d).Ku (project c p d).Kv).finite = true) :
    (patternStep c p st d).energy = st.energy + huberEnergy c.huberTH
      ((c.colorNew (project c p d).Ku (project c p d).Kv).val 0 -
        c.r2new_aff.1 * (c.colorRef (p.u + d.1) (p.v + d.2)).val - c.r2new_aff.2) := by
  unfold patternStep
  simp [hg, hin, hf1, hf2, huberEnergy]

theorem huberEnergy_small (th r : ℚ) (h : |r| < th) : huberEnergy th r = r ^ 2 := by
  unfold huberEnergy huberWeight
  rw [if_pos h]
  ring

theorem huberEnergy_large (th r : ℚ) (hth : 0 < th) (h : th ≤ |r|) :
    huberEnergy th r = th * (2 * |r| - th) := by
  unfold huberEnergy huberWeight
  rw [if_neg (not_lt.mpr h)]
  have hr : 0 < |r| := lt_of_lt_of_le hth h
  have hsq : r * r = |r| * |r| := (abs_mul_abs_self r).symm
  have e : th / |r| * r * r * (2 - th / |r|) = th / |r| * (r * r) * (2 - th / |r|) := by ring
  rw [e, hsq]
  generalize |r| = a at hr
  have ha : a ≠ 0 := ne_of_gt hr
  field_simp
  ring

/-- C24: the robust energy of a sample.  For a residual `r` and a threshold
`th > 0`, the energy `calcResAndGS` accumulates for a sample is
`w * r² * (2 - w)` with `w = 1` when `|r| < th` and `w = th / |r|` otherwise.
It equals `r²` when `|r| < th` and `th * (2 |r| - th)` when `|r| >= th`, it is
non-negative, it never exceeds `r²`, and it is non-decreasing in `|r|`.  The
loop over the sampling pattern adds this energy, with the threshold
`setting_huberTH`, for every sample that passes the bound and finiteness tests. -/
theorem huberEnergy_properties (th r : ℚ) (hth : 0 < th) :
    huberEnergy th r = huberWeight th r * r ^ 2 * (2 - huberWeight th r) ∧
    huberWeight th r = (if |r| < th then 1 else th / |r|) ∧
    (|r| < th → huberEnergy th r = r ^ 2) ∧
    (th ≤ |r| → huberEnergy th r = th * (2 * |r| - th)) ∧
    0 ≤ huberEnergy th r ∧ huberEnergy th r ≤ r ^ 2 ∧
    (∀ r' : ℚ, |r| ≤ |r'| → huberEnergy th r ≤ huberEnergy th r') ∧
    ∀ (c : ResCtx) (p : Pnt) (st : PatState) (d : Int × Int), st.isGood = true →
      (project c p d).inside c → (c.colorRef (p.u + d.1) (p.v + d.2)).finite = true →
      (c.colorNew (project c p d).Ku (project c p d).Kv).finite = true →
      (patternStep c p st d).energy = st.energy + huberEnergy c.huberTH
        ((c.colorNew (project c p d).Ku (project c p d).Kv).val 0 -
          c.r2new_aff.1 * (c.colorRef (p.u + d.1) (p.v + d.2)).val - c.r2new_aff.2) := by
  have hsq : ∀ x : ℚ, x ^ 2 = |x| ^ 2 := fun x => (sq_abs x).symm
  refine ⟨by unfold huberEnergy; ring, rfl, huberEnergy_small th r,
    huberEnergy_large th r hth, ?_, ?_, fun r' hr' => ?_,
    fun c p st d hg hin hf1 hf2 => patternStep_energy c p st d hg hin hf1 hf2⟩
  · rcases lt_or_le |r| th with h | h
    · rw [huberEnergy_small th r h]
      exact sq_nonneg r
    · rw [huberEnergy_large th r hth h]
      have : 0 ≤ 2 * |r| - th := by linarith
      exact mul_nonneg hth.le this
  · rcases lt_or_le |r| th with h | h
    · rw [huberEnergy_small th r h]
    · rw [huberEnergy_large th r hth h, hsq r]
      nlinarith [sq_nonneg (|r| - th)]
  · have h0 : 0 ≤ |r| := abs_nonneg r
    rcases lt_or_le |r| th with h | h
    · rw [huberEnergy_small th r h]
      rcases lt_or_le |r'| th with h' | h'
      · rw [huberEnergy_small th r' h', hsq r, hsq r']
        exact pow_le_pow_left₀ h0 hr' 2
      · rw [huberEnergy_large th r' hth h', hsq r]
        nlinarith
    · have h' : th ≤ |r'| := le_trans h hr'
      rw [huberEnergy_large th r hth h, huberEnergy_large th r' hth h']
      nlinarith

/-- Witness of `huberEnergy_properties`: the threshold 9 of the reference
configuration, with the residual 3 below it (energy 9) and the residual 18
above it (energy `9 * (36 - 9) = 243 <= 324`). -/
theorem huberEnergy_properties_witness :
    (0 : ℚ) < 9 ∧ huberEnergy 9 3 = 9 ∧ huberEnergy 9 18 = 243 ∧
    huberEnergy 9 3 ≤ huberEnergy 9 18 := by
  have h3 := huberEnergy_properties 9 3 (by norm_num)
  have h18 := huberEnergy_properties 9 18 (by norm_num)
  have a3 : |(3 : ℚ)| = 3 := abs_of_nonneg (by norm_num)
  have a18 : |(18 : ℚ)| = 18 := abs_of_nonneg (by norm_num)
  refine ⟨by norm_num, ?_, ?_, h3.2.2.2.2.2.2.1 18 (by rw [a3, a18]; norm_num)⟩
  · rw [h3.2.2.1 (by rw [a3]; norm_num)]
    norm_num
  · rw [h18.2.2.2.1 (by rw [a18]; norm_num), a18]
    norm_num

/-! ## The regularization energy -/

/-- C26: `calcEC(lvl)`.  When the optimizer has not snapped it returns
`(0, 0, numPoints[lvl])`.  When it has snapped it returns `couplingWeight`
times the sum of `(idepth - iR)²` (the old energy) and `couplingWeight` times
the sum of `(idepth_new - iR)²` (the new energy), both over the points of the
level with `isGood_new` true, and the number of those points.  `calcEC` only
reads the object: the state a trial continues with after `calcEC` is the state
`calcResAndGS` left. -/
theorem calcEC_spec (s : CoarseInitializer) (lvl : Nat) :
    (s.snapped = false → calcEC s lvl = (0, 0, (s.numPoints lvl : ℚ))) ∧
    (s.snapped = true → calcEC s lvl =
      (s.couplingWeight *
          (((s.points lvl).filter fun p => p.isGood_new).map fun p => (p.idepth - p.iR) ^ 2).sum,
        s.couplingWeight *
          (((s.points lvl).filter fun p => p.isGood_new).map fun p =>
            (p.idepth_new - p.iR) ^ 2).sum,
        ((((s.points lvl).filter fun p => p.isGood_new).length : ℕ) : ℚ))) ∧
    ∀ (env : Env) (st : LMState),
      (runTrial env lvl st).s =
        (calcResAndGS env (doStep st.s lvl st.lambda (solveInc env st lvl)) lvl
          (trialPose env st (solveInc env st lvl)) (trialAff st (solveInc env st lvl))).1 ∧
      (runTrial env lvl st).regEnergy = calcEC (runTrial env lvl st).s lvl := by
  refine ⟨fun h => ?_, fun h => ?_, fun env st => ⟨rfl, rfl⟩⟩
  · simp [calcEC, h]
  · simp [calcEC, h, sq]

/-! ## Removing an element from a vector (`FullSystem.h`) -/

theorem shiftStep_eq {α : Type} (i j : Nat) (w : List α) (x : α) (h : w[i + 1 + j]? = some x) :
    shiftStep i j w = w.set (i + j) x := by
  unfold shiftStep
  rw [h]

theorem shiftLoop_spec {α : Type} (v : List α) (i : Nat) :
    ∀ n, i + 1 + n ≤ v.length →
      (forLoop n (shiftStep i) v).length = v.length ∧
      ∀ k, (forLoop n (shiftStep i) v)[k]? =
        if i ≤ k ∧ k < i + n then v[k + 1]? else v[k]? := by
  intro n
  induction n with
  | zero =>
    intro _
    refine ⟨rfl, fun k => ?_⟩
    have : ¬ (i ≤ k ∧ k < i + 0) := by omega
    rw [if_neg this]
    rfl
  | succ n ih =>
    intro hn
    obtain ⟨hlen, hget⟩ := ih (by omega)
    have hlt : i + 1 + n < v.length := by omega
    have hx : (forLoop n (shiftStep i) v)[i + 1 + n]? = some v[i + 1 + n] := by
      rw [hget, if_neg (by omega), List.getElem?_eq_getElem hlt]
    have hstep : forLoop (n + 1) (shiftStep i) v =
        (forLoop n (shiftStep i) v).set (i + n) v[i + 1 + n] :=
      shiftStep_eq i n _ _ hx
    rw [hstep]
    refine ⟨by rw [List.length_set, hlen], fun k => ?_⟩
    by_cases hk : k = i + n
    · subst hk
      rw [List.getElem?_set_self (by rw [hlen]; omega), if_pos (by omega),
        show i + n + 1 = i + 1 + n by omega, List.getElem?_eq_getElem hlt]
    · rw [List.getElem?_set_ne (Ne.symm hk), hget]
      by_cases h1 : i ≤ k ∧ k < i + n
      · rw [if_pos h1, if_pos (by omega)]
      · rw [if_neg h1, if_neg (by omega)]

theorem getElem?_dropLast {α : Type} (l : List α) (k : Nat) :
    l.dropLast[k]? = if k < l.length - 1 then l[k]? else none := by
  rw [List.dropLast_eq_take, List.getElem?_take]

theorem deleteOutOrder_eq {α : Type} (v : List α) (i : Nat) (hi : i < v.length) :
    deleteOutOrder v i = v.eraseIdx i := by
  obtain ⟨hlen, hget⟩ := shiftLoop_spec v i (v.length - (i + 1)) (by omega)
  apply List.ext_getElem?
  intro k
  unfold deleteOutOrder
  rw [getElem?_dropLast, hlen, hget, List.getElem?_eraseIdx]
  by_cases hk : k < v.length - 1
  · rw [if_pos hk]
    by_cases h1 : k < i
    · rw [if_pos h1, if_neg (by omega)]
    · rw [if_neg h1, if_pos (by omega)]
  · rw [if_neg hk]
    by_cases h1 : k < i
    · omega
    · rw [if_neg h1, List.getElem?_eq_none (by omega)]

theorem deleteOut_getElem? {α : Type} (v : List α) (i : Nat) (hi : i < v.length) (k : Nat) :
    (deleteOut v i)[k]? =
      if k < v.length - 1 then (if k = i then v.getLast? else v[k]?) else none := by
  unfold deleteOut
  cases hb : v.getLast? with
  | none =>
    rw [List.getLast?_eq_none_iff] at hb
    subst hb
    simp at hi
  | some b =>
    simp only []
    rw [getElem?_dropLast, List.length_set]
    by_cases hk : k < v.length - 1
    · rw [if_pos hk, if_pos hk]
      by_cases h1 : k = i
      · subst h1
        rw [if_pos rfl, List.getElem?_set_self hi]
      · rw [if_neg h1, List.getElem?_set_ne (Ne.symm h1)]
    · rw [if_neg hk, if_neg hk]

/-- C30: `deleteOutOrder` and `deleteOut`.  For a vector `v` and an index
`i < size(v)`: `deleteOutOrder(v, i)` leaves the original sequence with the
element at position `i` removed and the order of the other elements
preserved, so the length decreases by one.  `deleteOut(v, i)` leaves a vector
of length `size(v) - 1` which holds the former last element at position `i`
(when `i` is not the last position) and the original element at every other
position; its elements are the original ones other than position `i`, up to
order. -/
theorem deleteOut_and_deleteOutOrder {α : Type} (v : List α) (i : Nat) (hi : i < v.length) :
    deleteOutOrder v i = v.take i ++ v.drop (i + 1) ∧
    (deleteOutOrder v i).length = v.length - 1 ∧
    (deleteOut v i).length = v.length - 1 ∧
    (∀ k, k < v.length - 1 →
      (deleteOut v i)[k]? = if k = i then v.getLast? else v[k]?) ∧
    (deleteOut v i).Perm (v.take i ++ v.drop (i + 1)) := by
  have he : v.eraseIdx i = v.take i ++ v.drop (i + 1) := List.eraseIdx_eq_take_drop_succ v i
  have hlen : (deleteOut v i).length = v.length - 1 := by
    unfold deleteOut
    cases hb : v.getLast? with
    | none =>
      rw [List.getLast?_eq_none_iff] at hb
      subst hb
      simp at hi
    | some b => simp
  refine ⟨by rw [deleteOutOrder_eq v i hi, he], ?_, hlen, fun k hk => ?_, ?_⟩
  · rw [deleteOutOrder_eq v i hi, List.length_eraseIdx, if_pos hi]
  · rw [deleteOut_getElem? v i hi k, if_pos hk]
  · rw [← he]
    by_cases hlast : i = v.length - 1
    · -- removing the last element: both are `dropLast`
      have : deleteOut v i = v.eraseIdx i := by
        apply List.ext_getElem?
        intro k
        rw [deleteOut_getElem? v i hi, List.getElem?_eraseIdx]
        by_cases hk : k < v.length - 1
        · rw [if_pos hk, if_neg (by omega), if_pos (by omega)]
        · rw [if_neg hk, if_neg (by omega), List.getElem?_eq_none (by omega)]
      rw [this]
    · -- the last element moves into position `i`
      have hb : v.getLast? = v[v.length - 1]? := List.getLast?_eq_getElem? v
      have h1 : deleteOut v i = (v.eraseIdx i).dropLast.take i ++
          v[v.length - 1] :: (v.eraseIdx i).dropLast.drop i := by
        apply List.ext_getElem?
        intro k
        rw [deleteOut_getElem? v i hi, hb]
        by_cases hk : k < i
        · rw [List.getElem?_append_left (by simp [List.length_eraseIdx, hi]; omega),
            List.getElem?_take, if_pos hk, getElem?_dropLast, List.length_eraseIdx, if_pos hi,
            List.getElem?_eraseIdx, if_pos hk, if_pos (by omega), if_neg (by omega),
            if_pos (by omega)]
        · have hl : ((v.eraseIdx i).dropLast.take i).length = i := by
            simp [List.length_eraseIdx, hi]
            omega
          rw [List.getElem?_append_right (by rw [hl]; omega), hl]
          by_cases hki : k = i
          · subst hki
            have hk3 : k < v.length - 1 := by omega
            simp [hk3]
          · obtain ⟨m, hm⟩ : ∃ m, k - i = m + 1 := ⟨k - i - 1, by omega⟩
            have hidx : i + m = k - 1 := by omega
            have hnlt : ¬ k - 1 < i := by omega
            have hsucc : k - 1 + 1 = k := by omega
            rw [hm, List.getElem?_cons_succ, List.getElem?_drop, hidx, getElem?_dropLast,
              List.length_eraseIdx, if_pos hi, List.getElem?_eraseIdx, if_neg hnlt, hsucc,
              if_neg hki]
            by_cases hk2 : k < v.length - 1
            · rw [if_pos hk2, if_pos (by omega)]
            · rw [if_neg hk2, if_neg (by omega)]
      have h2 : v.eraseIdx i = (v.eraseIdx i).dropLast.take i ++
          ((v.eraseIdx i).dropLast.drop i ++ [v[v.length - 1]]) := by
        rw [← List.append_assoc, List.take_append_drop]
        have hne : v.eraseIdx i ≠ [] := by
          intro hnil
          have := congrArg List.length hnil
          rw [List.length_eraseIdx, if_pos hi] at this
          simp at this
          omega
        have hlast2 : (v.eraseIdx i).getLast hne = v[v.length - 1] := by
          rw [List.getLast_eq_getElem]
          have hidx : (v.eraseIdx i).length - 1 = v.length - 2 := by
            rw [List.length_eraseIdx, if_pos hi]
            omega
          have : (v.eraseIdx i)[(v.eraseIdx i).length - 1]? = v[v.length - 1]? := by
            rw [List.getElem?_eraseIdx, hidx, if_neg (by omega),
              show v.length - 2 + 1 = v.length - 1 by omega]
          rw [List.getElem?_eq_getElem (by rw [List.length_eraseIdx, if_pos hi]; omega),
            List.getElem?_eq_getElem (by omega)] at this
          exact Option.some.inj this
        rw [← hlast2]
        exact (List.dropLast_append_getLast hne).symm
      rw [h1]
      conv_rhs => rw [h2]
      exact List.Perm.append_left _ (List.perm_append_singleton _ _).symm

/-- Witness of `deleteOut_and_deleteOutOrder`: removing position 1 of
`[10, 20, 30, 40]`. -/
theorem deleteOut_and_deleteOutOrder_witness :
    1 < [10, 20, 30, 40].length ∧
    deleteOutOrder [10, 20, 30, 40] 1 = [10, 30, 40] ∧
    deleteOut [10, 20, 30, 40] 1 = [10, 40, 30] :=
  ⟨by decide, (deleteOut_and_deleteOutOrder [10, 20, 30, 40] 1 (by decide)).1, by decide⟩

/-! ## The Schur factor of a point -/

theorem patternStep_good (c : ResCtx) (p : Pnt) (st : PatState) (d : Int × Int)
    (h : (patternStep c p st d).isGood = true) : st.isGood = true := by
  by_contra hb
  have hb2 : st.isGood = false := by simpa using hb
  have : patternStep c p st d = st := by simp [patternStep, hb2]
  rw [this, hb2] at h
  cases h

theorem patternStep_jb9_eq (c : ResCtx) (p : Pnt) (st : PatState) (d : Int × Int)
    (h : (patternStep c p st d).isGood = true) :
    (patternStep c p st d).jb 9 = st.jb 9 + sampleDd c p d ^ 2 := by
  have hg := patternStep_good c p st d h
  unfold patternStep at h ⊢
  rw [hg] at h ⊢
  simp only [Bool.not_true, Bool.false_eq_true, if_false] at h ⊢
  split at h
  · cases h
  · rename_i hin
    rw [if_neg hin] 
    split at h
    · cases h
    · rename_i hf
      rw [if_neg hf]
      simp only [Pi.add_apply]
      have h9 : ∀ (a0 a1 a2 a3 a4 a5 a6 a7 a8 a9 : ℚ),
          (![a0, a1, a2, a3, a4, a5, a6, a7, a8, a9] : Fin 10 → ℚ) 9 = a9 := by
        intros; rfl
      rw [h9, sq]
      rfl

theorem foldl_patternStep_jb9 (c : ResCtx) (p : Pnt) (pat : List (Int × Int)) :
    ∀ st : PatState, (pat.foldl (patternStep c p) st).isGood = true →
      (pat.foldl (patternStep c p) st).jb 9 =
        st.jb 9 + (pat.map fun d => sampleDd c p d ^ 2).sum := by
  induction pat with
  | nil => intro st _; simp
  | cons d pat ih =>
    intro st h
    simp only [List.foldl_cons] at h ⊢
    have hs : (patternStep c p st d).isGood = true := by
      by_contra hb
      have hb2 : (patternStep c p st d).isGood = false := by simpa using hb
      rw [foldl_patternStep_bad c p pat _ hb2, hb2] at h
      cases h
    rw [ih _ h, patternStep_jb9_eq c p st d hs, List.map_cons, List.sum_cons]
    ring

theorem patternLoop_jb9_eq (c : ResCtx) (pat : List (Int × Int)) (p : Pnt)
    (h : (patternLoop c pat p).isGood = true) :
    (patternLoop c pat p).jb 9 = (pat.map fun d => sampleDd c p d ^ 2).sum := by
  unfold patternLoop at h ⊢
  rw [foldl_patternStep_jb9 c p pat _ h]
  simp

theorem resAccepted_loop (c : ResCtx) (pat : List (Int × Int)) (p : Pnt)
    (h : resAccepted c pat p = true) : (patternLoop c pat p).isGood = true := by
  unfold resAccepted at h
  simp only [Bool.and_eq_true, Bool.not_eq_true', Bool.or_eq_false_iff, Bool.not_eq_false'] at h
  exact h.2.1

theorem trialPnt_lastHessian_new (c : ResCtx) (pat : List (Int × Int)) (p : Pnt) (old : Vec10f)
    (h : resAccepted c pat p = true) :
    (trialPnt c pat p old).lastHessian_new = (patternLoop c pat p).jb 9 := by
  have hg := resAccepted_isGood c pat p h
  simp [trialPnt, schurPnt, alphaPnt, resPnt, resJb, hg, h]

theorem alphaOptOf_cases (s : CoarseInitializer) (lvl : Nat) (P : SE3) :
    alphaOptOf s lvl P = 0 ∨ alphaOptOf s lvl P = s.alphaW := by
  unfold alphaOptOf
  split_ifs
  · exact Or.inl rfl
  · exact Or.inr rfl

/-- C29: the Schur factor of a point.  After `calcResAndGS`, with the constants
`trackFrame` sets (`alphaW = 150²`, `couplingWeight = 1`), a point with
`isGood_new` true has `lastHessian_new >= 0`: it is the sum, over the samples
of the pattern, of the squares of the depth derivatives `dd`.  Its stored
factor `JbBuffer_new[i][9]` is
`1 / (1 + lastHessian_new + alphaOpt + (couplingWeight if alphaOpt = 0))`, the
divisor is at least 2, so it is not zero, and `0 < JbBuffer_new[i][9] <= 1/2`. -/
theorem schur_factor_bounds (env : Env) (s : CoarseInitializer) (lvl : Nat) (P : SE3)
    (aff : AffLight) (j : Nat) (q : Pnt)
    (hW : s.alphaW = 150 * 150) (hc : s.couplingWeight = 1)
    (hq : ((calcResAndGS env s lvl P aff).1.points lvl)[j]? = some q)
    (hg : q.isGood_new = true) :
    0 ≤ q.lastHessian_new ∧
    (∃ p, (s.points lvl)[j]? = some p ∧
      q.lastHessian_new =
        (env.cfg.patternP.map fun d => sampleDd (mkResCtx env s lvl P aff) p d ^ 2).sum) ∧
    (calcResAndGS env s lvl P aff).1.JbBuffer_new j 9 =
      1 / (1 + q.lastHessian_new + alphaOptOf s lvl P +
        (if alphaOptOf s lvl P = 0 then s.couplingWeight else 0)) ∧
    2 ≤ 1 + q.lastHessian_new + alphaOptOf s lvl P +
        (if alphaOptOf s lvl P = 0 then s.couplingWeight else 0) ∧
    0 < (calcResAndGS env s lvl P aff).1.JbBuffer_new j 9 ∧
    (calcResAndGS env s lvl P aff).1.JbBuffer_new j 9 ≤ 1 / 2 := by
  rw [calcResAndGS_getElem?] at hq
  cases hp : (s.points lvl)[j]? with
  | none => rw [hp] at hq; cases hq
  | some p =>
    rw [hp] at hq
    have hq2 : trialPnt (mkResCtx env s lvl P aff) env.cfg.patternP p (s.JbBuffer_new j) = q :=
      Option.some.inj hq
    have hacc : resAccepted (mkResCtx env s lvl P aff) env.cfg.patternP p = true := by
      rw [← trialPnt_isGood_new _ _ _ (s.JbBuffer_new j), hq2]
      exact hg
    have hpg := resAccepted_isGood _ _ _ hacc
    have hlh : q.lastHessian_new =
        (patternLoop (mkResCtx env s lvl P aff) env.cfg.patternP p).jb 9 := by
      rw [← hq2]
      exact trialPnt_lastHessian_new _ _ _ _ hacc
    have h0 : 0 ≤ q.lastHessian_new := by
      rw [hlh]
      exact patternLoop_jb9 _ _ _
    have hjb : (calcResAndGS env s lvl P aff).1.JbBuffer_new j 9 =
        1 / (1 + q.lastHessian_new + alphaOptOf s lvl P +
          (if alphaOptOf s lvl P = 0 then s.couplingWeight else 0)) := by
      rw [calcResAndGS_JbBuffer_new env s lvl P aff j p hp]
      have hn : (alphaPnt (resPnt (mkResCtx env s lvl P aff) env.cfg.patternP p)).isGood_new
          = true := by
        simp [alphaPnt, resPnt, hpg, hacc]
      unfold schurJbOf
      rw [hn]
      simp only [Bool.not_true, Bool.false_eq_true, if_false]
      rw [(schurJb_entries _ _ _ _).2.1, hlh]
      have hr : resJb (mkResCtx env s lvl P aff) env.cfg.patternP p (s.JbBuffer_new j) =
          (patternLoop (mkResCtx env s lvl P aff) env.cfg.patternP p).jb := by
        simp [resJb, hpg]
      rw [hr]
      congr 1
      ring
    have hd : 2 ≤ 1 + q.lastHessian_new + alphaOptOf s lvl P +
        (if alphaOptOf s lvl P = 0 then s.couplingWeight else 0) := by
      rcases alphaOptOf_cases s lvl P with ha | ha
      · rw [ha, if_pos rfl, hc]
        linarith
      · rw [ha, hW]
        split_ifs <;> linarith
    have hpos : (0 : ℚ) < 1 + q.lastHessian_new + alphaOptOf s lvl P +
        (if alphaOptOf s lvl P = 0 then s.couplingWeight else 0) := by linarith
    refine ⟨h0, ⟨p, rfl, ?_⟩, hjb, hd, ?_, ?_⟩
    · rw [hlh]
      exact patternLoop_jb9_eq _ _ _ (resAccepted_loop _ _ _ hacc)
    · rw [hjb]
      exact one_div_pos.mpr hpos
    · rw [hjb]
      exact one_div_le_one_div_of_le (by norm_num) hd

/-- Witness of `schur_factor_bounds`: the single point of `deepState`, which
the trial at the identity pose accepts. -/
theorem schur_factor_bounds_witness :
    deepState.alphaW = 150 * 150 ∧ deepState.couplingWeight = 1 ∧
    ((calcResAndGS exampleEnv deepState 0 SE3.identity ⟨0, 0⟩).1.points 0)[0]? =
      some (trialPnt (mkResCtx exampleEnv deepState 0 SE3.identity ⟨0, 0⟩)
        exampleEnv.cfg.patternP deepPnt (deepState.JbBuffer_new 0)) ∧
    (trialPnt (mkResCtx exampleEnv deepState 0 SE3.identity ⟨0, 0⟩)
        exampleEnv.cfg.patternP deepPnt (deepState.JbBuffer_new 0)).isGood_new = true ∧
    0 < (calcResAndGS exampleEnv deepState 0 SE3.identity ⟨0, 0⟩).1.JbBuffer_new 0 9 ∧
    (calcResAndGS exampleEnv deepState 0 SE3.identity ⟨0, 0⟩).1.JbBuffer_new 0 9 ≤ 1 / 2 := by
  have hq : ((calcResAndGS exampleEnv deepState 0 SE3.identity ⟨0, 0⟩).1.points 0)[0]? =
      some (trialPnt (mkResCtx exampleEnv deepState 0 SE3.identity ⟨0, 0⟩)
        exampleEnv.cfg.patternP deepPnt (deepState.JbBuffer_new 0)) := by
    rw [calcResAndGS_getElem?]
    rfl
  have hg : (trialPnt (mkResCtx exampleEnv deepState 0 SE3.identity ⟨0, 0⟩)
      exampleEnv.cfg.patternP deepPnt (deepState.JbBuffer_new 0)).isGood_new = true := by
    rw [trialPnt_isGood_new]
    exact resAccepted_deepPnt
  have hw := schur_factor_bounds exampleEnv deepState 0 SE3.identity ⟨0, 0⟩ 0 _ rfl rfl hq hg
  exact ⟨rfl, rfl, hq, hg, hw.2.2.2.2.1, hw.2.2.2.2.2⟩

/-! ## Samples that leave the image -/

theorem not_inside_iff (c : ResCtx) (pr : Proj) :
    ¬ pr.inside c ↔
      (pr.Ku ≤ 1 ∨ pr.Kv ≤ 1 ∨ pr.Ku ≥ c.wl - 2 ∨ pr.Kv ≥ c.hl - 2 ∨ pr.new_idepth ≤ 0) := by
  unfold Proj.inside
  constructor
  · intro h
    by_contra hc
    push_neg at hc
    exact h ⟨hc.1, hc.2.1, hc.2.2.1, hc.2.2.2.1, hc.2.2.2.2⟩
  · rintro h ⟨h1, h2, h3, h4, h5⟩
    rcases h with h | h | h | h | h <;> linarith

theorem patternStep_not_inside (c : ResCtx) (p : Pnt) (st : PatState) (d : Int × Int)
    (h : ¬ (project c p d).inside c) : patternStep c p st d = { st with isGood := false } := by
  unfold patternStep
  by_cases hg : st.isGood = true
  · simp [hg, h]
  · have hb : st.isGood = false := by simpa using hg
    simp only [hb, Bool.not_false, if_true]
    cases st
    simp only at hb
    rw [hb]

theorem patternLoop_stops (c : ResCtx) (p : Pnt) (pre post : List (Int × Int)) (d : Int × Int)
    (h : ¬ (project c p d).inside c) :
    patternLoop c (pre ++ d :: post) p = { patternLoop c pre p with isGood := false } := by
  unfold patternLoop
  rw [List.foldl_append, List.foldl_cons, patternStep_not_inside c p _ d h]
  exact foldl_patternStep_bad c p post _ rfl

theorem patternLoop_edgePnt :
    (patternLoop (mkResCtx exampleEnv edgeState 0 SE3.identity ⟨0, 0⟩)
      exampleEnv.cfg.patternP edgePnt).isGood = true ∧
    (patternLoop (mkResCtx exampleEnv edgeState 0 SE3.identity ⟨0, 0⟩)
      exampleEnv.cfg.patternP edgePnt).energy = 0 := by
  norm_num [patternLoop, patternStep, project, Proj.inside, mkResCtx, exampleEnv, exampleCfg,
    edgeState, edgePnt, examplePnt, seedPnt, blankPnt, exampleState, exampleFrame, huberWeight,
    SE3.identity, Matrix.mulVec, Matrix.dotProduct, Fin.sum_univ_succ, Matrix.of_apply]

theorem resAccepted_edgePnt :
    resAccepted (mkResCtx exampleEnv edgeState 0 SE3.identity ⟨0, 0⟩)
      exampleEnv.cfg.patternP edgePnt = true := by
  unfold resAccepted
  rw [patternLoop_edgePnt.1, patternLoop_edgePnt.2]
  have h1 : edgePnt.isGood = true := rfl
  have h2 : edgePnt.outlierTH = ((8 : ℕ) : ℚ) * 144 := rfl
  rw [h1, h2]
  norm_num

/-- C23, amended: a sample that leaves the image invalidates the point for the
trial.  In `calcResAndGS`, if a sample of a point projects to a pixel
`(Ku, Kv)` with `Ku <= 1`, `Kv <= 1`, `Ku >= w - 2` or `Kv >= h - 2`, or has
projected inverse depth `<= 0` (this is exactly when the bound test of the
code fails), the point has `isGood_new = false` after the call, and sampling
stops at that sample: the loop over the pattern leaves the energy, the
Jacobian entry and `maxstep` it had before that sample.  The margin is one
pixel on the low side and two on the high side. -/
theorem sample_outside_invalidates (env : Env) (s : CoarseInitializer) (lvl : Nat) (P : SE3)
    (aff : AffLight) (j : Nat) (p : Pnt) (pre post : List (Int × Int)) (d : Int × Int)
    (hp : (s.points lvl)[j]? = some p) (hpat : env.cfg.patternP = pre ++ d :: post)
    (hout : (project (mkResCtx env s lvl P aff) p d).Ku ≤ 1 ∨
      (project (mkResCtx env s lvl P aff) p d).Kv ≤ 1 ∨
      (project (mkResCtx env s lvl P aff) p d).Ku ≥ (s.w_ lvl : ℚ) - 2 ∨
      (project (mkResCtx env s lvl P aff) p d).Kv ≥ (s.h_ lvl : ℚ) - 2 ∨
      (project (mkResCtx env s lvl P aff) p d).new_idepth ≤ 0) :
    (¬ (project (mkResCtx env s lvl P aff) p d).inside (mkResCtx env s lvl P aff)) ∧
    (∃ q, ((calcResAndGS env s lvl P aff).1.points lvl)[j]? = some q ∧ q.isGood_new = false) ∧
    patternLoop (mkResCtx env s lvl P aff) env.cfg.patternP p =
      { patternLoop (mkResCtx env s lvl P aff) pre p with isGood := false } := by
  have hn : ¬ (project (mkResCtx env s lvl P aff) p d).inside (mkResCtx env s lvl P aff) :=
    (not_inside_iff _ _).mpr hout
  have hl := patternLoop_stops (mkResCtx env s lvl P aff) p pre post d hn
  refine ⟨hn, ⟨trialPnt (mkResCtx env s lvl P aff) env.cfg.patternP p (s.JbBuffer_new j),
    ?_, ?_⟩, ?_⟩
  · rw [calcResAndGS_getElem?, hp]
    rfl
  · rw [trialPnt_isGood_new]
    unfold resAccepted
    rw [hpat, hl]
    simp
  · rw [hpat, hl]

/-- Witness of `sample_outside_invalidates`: the point of `deepState` under a
pose that moves it far to the right, so that its first sample has
`Ku >= w - 2 = 30`. -/
theorem sample_outside_invalidates_witness :
    (deepState.points 0)[0]? = some deepPnt ∧
    exampleEnv.cfg.patternP = [] ++ (0, -2) :: [(-1, -1), (1, -1), (-2, 0), (0, 0), (2, 0),
      (-1, 1), (0, 2)] ∧
    (project (mkResCtx exampleEnv deepState 0 farPose ⟨0, 0⟩) deepPnt (0, -2)).Ku ≥
      (deepState.w_ 0 : ℚ) - 2 ∧
    ∃ q, ((calcResAndGS exampleEnv deepState 0 farPose ⟨0, 0⟩).1.points 0)[0]? = some q ∧
      q.isGood_new = false := by
  have hK : (project (mkResCtx exampleEnv deepState 0 farPose ⟨0, 0⟩) deepPnt (0, -2)).Ku ≥
      (deepState.w_ 0 : ℚ) - 2 := by
    norm_num [project, mkResCtx, exampleEnv, exampleCfg, deepState, deepPnt, examplePnt, seedPnt,
      blankPnt, exampleState, farPose, SE3.identity, Matrix.mulVec, Matrix.dotProduct,
      Fin.sum_univ_succ, Matrix.of_apply]
  exact ⟨rfl, rfl, hK,
    (sample_outside_invalidates exampleEnv deepState 0 farPose ⟨0, 0⟩ 0 deepPnt [] _ (0, -2)
      rfl rfl (Or.inr (Or.inr (Or.inl hK)))).2.1⟩

/-- Counterexample to C23 as the specification states it: the point `edgePnt`
at `u = 3.1`, evaluated at the identity pose, has the sample with offset
`(-2, 0)` at `Ku = 1.1 < 2`, inside the two-pixel margin the specification
describes, and yet the bound test passes for all its samples and the point is
good in the trial. -/
theorem margin_not_two_pixels :
    (edgeState.points 0)[0]? = some edgePnt ∧ edgePnt.isGood = true ∧
    (-2, 0) ∈ exampleEnv.cfg.patternP ∧
    (project (mkResCtx exampleEnv edgeState 0 SE3.identity ⟨0, 0⟩) edgePnt (-2, 0)).Ku = 11 / 10 ∧
    (project (mkResCtx exampleEnv edgeState 0 SE3.identity ⟨0, 0⟩) edgePnt (-2, 0)).Ku < 2 ∧
    ((calcResAndGS exampleEnv edgeState 0 SE3.identity ⟨0, 0⟩).1.points 0)[0]? =
      some (trialPnt (mkResCtx exampleEnv edgeState 0 SE3.identity ⟨0, 0⟩)
        exampleEnv.cfg.patternP edgePnt (edgeState.JbBuffer_new 0)) ∧
    (trialPnt (mkResCtx exampleEnv edgeState 0 SE3.identity ⟨0, 0⟩)
      exampleEnv.cfg.patternP edgePnt (edgeState.JbBuffer_new 0)).isGood_new = true := by
  have hK : (project (mkResCtx exampleEnv edgeState 0 SE3.identity ⟨0, 0⟩) edgePnt (-2, 0)).Ku
      = 11 / 10 := by
    norm_num [project, mkResCtx, exampleEnv, exampleCfg, edgeState, edgePnt, examplePnt, seedPnt,
      blankPnt, exampleState, SE3.identity, Matrix.mulVec, Matrix.dotProduct,
      Fin.sum_univ_succ, Matrix.of_apply]
  refine ⟨rfl, rfl, by decide, hK, by rw [hK]; norm_num, ?_, ?_⟩
  · rw [calcResAndGS_getElem?]
    rfl
  · rw [trialPnt_isGood_new]
    exact resAccepted_edgePnt

/-! ## The frame counter and the snap marker across calls -/

theorem trackFrames_snoc (env : Env) (fs : List FrameHessian) (f : FrameHessian) :
    ∀ s : CoarseInitializer,
      (trackFrames env s (fs ++ [f])).s = (trackFrame env (trackFrames env s fs).s f).1 := by
  induction fs with
  | nil => intro s; rfl
  | cons g fs ih =>
    intro s
    simp only [List.cons_append, trackFrames]
    exact ih _

theorem framesState_succ (env : Env) (s : CoarseInitializer) (fs : List FrameHessian) (k : Nat)
    (hk : k < fs.length) :
    framesState env s fs (k + 1) = (trackFrame env (framesState env s fs k) (fs.get ⟨k, hk⟩)).1 := by
  unfold framesState
  rw [List.take_succ, List.getElem?_eq_getElem hk]
  exact trackFrames_snoc env _ _ _

theorem trackFrame_marker (env : Env) (s : CoarseInitializer) (f : FrameHessian) :
    ((trackFrame env s f).1.snapped = false → (trackFrame env s f).1.snappedAt = 0) ∧
    ((trackFrame env s f).1.snapped = true → s.snappedAt = 0 →
      (trackFrame env s f).1.snappedAt = s.frameID + 1) := by
  obtain ⟨h1, h2, -, -⟩ := ctl_trackFrameBody env s f
  have e1 : (enterFrame s f).frameID = s.frameID := rfl
  have e2 : (enterFrame s f).snappedAt = s.snappedAt := rfl
  rw [e1] at h1; rw [e2] at h2
  have e3 : (trackFrame env s f).1.snapped = (trackFrameBody env s f).s.snapped := rfl
  refine ⟨fun hs => ?_, fun hs h0 => ?_⟩
  · rw [e3] at hs
    simp [trackFrame, trackFrameRun, finishFrame, hs]
  · rw [e3] at hs
    simp [trackFrame, trackFrameRun, finishFrame, hs, h1, h2, h0]

theorem framesState_frameID (env : Env) (s : CoarseInitializer) (fs : List FrameHessian) :
    ∀ k, k ≤ fs.length → (framesState env s fs k).frameID = k := by
  intro k
  induction k with
  | zero => intro _; rfl
  | succ k ih =>
    intro hk
    rw [framesState_succ env s fs k hk, (trackFrame_counters env _ _).1, ih (by omega)]
    push_cast
    rfl

theorem framesState_snapped_mono (env : Env) (s : CoarseInitializer) (fs : List FrameHessian)
    (k : Nat) (hs : (framesState env s fs k).snapped = true) :
    ∀ m, k ≤ m → (framesState env s fs m).snapped = true := by
  intro m hm
  induction m, hm using Nat.le_induction with
  | base => exact hs
  | succ m _ ih =>
    by_cases hlt : m < fs.length
    · rw [framesState_succ env s fs m hlt]
      exact (trackFrame_counters env _ _).2.1 ih
    · have e : framesState env s fs (m + 1) = framesState env s fs m := by
        unfold framesState
        rw [List.take_of_length_le (by omega), List.take_of_length_le (by omega)]
      rw [e]
      exact ih

theorem framesState_unsnapped_marker (env : Env) (s : CoarseInitializer)
    (fs : List FrameHessian) :
    ∀ k, k ≤ fs.length → (framesState env s fs k).snapped = false →
      (framesState env s fs k).snappedAt = 0 := by
  intro k hk hs
  cases k with
  | zero => rfl
  | succ k =>
    rw [framesState_succ env s fs k hk] at hs ⊢
    exact (trackFrame_marker env _ _).1 hs

/-- C28: the frame counter and the snap marker across the calls of `trackFrame`
that follow `setFirst`.  With `framesState k` the object after `k` calls:
`frameID` is `k`, so it grows by one per call; `snapped`, once true, is true
after every later call; `snappedAt` is 0 after every call that ends not
snapped; and if call `k` is the first that ends snapped, `snappedAt` is the
positive `frameID = k` of that call after it and after every later call. -/
theorem counters_across_frames (env : Env) (s : CoarseInitializer) (fs : List FrameHessian) :
    (framesState env s fs 0 = setFirstTail s ∧ (setFirstTail s).frameID = 0 ∧
      (setFirstTail s).snappedAt = 0 ∧ (setFirstTail s).snapped = false) ∧
    (∀ k (hk : k < fs.length), framesState env s fs (k + 1) =
      (trackFrame env (framesState env s fs k) (fs.get ⟨k, hk⟩)).1) ∧
    (∀ k, k ≤ fs.length → (framesState env s fs k).frameID = k) ∧
    (∀ k m, k ≤ m → (framesState env s fs k).snapped = true →
      (framesState env s fs m).snapped = true) ∧
    (∀ k, k ≤ fs.length → (framesState env s fs k).snapped = false →
      (framesState env s fs k).snappedAt = 0) ∧
    (∀ k, k < fs.length → (framesState env s fs k).snapped = false →
      (framesState env s fs (k + 1)).snapped = true →
      ∀ m, k + 1 ≤ m → m ≤ fs.length →
        (framesState env s fs m).snappedAt = k + 1 ∧
        (framesState env s fs m).snappedAt = (framesState env s fs (k + 1)).frameID ∧
        0 < (framesState env s fs m).snappedAt) := by
  refine ⟨⟨rfl, rfl, rfl, rfl⟩, framesState_succ env s fs, framesState_frameID env s fs,
    fun k m hkm hs => framesState_snapped_mono env s fs k hs m hkm,
    framesState_unsnapped_marker env s fs, ?_⟩
  intro k hk hu hsn m hm hml
  have hfirst : (framesState env s fs (k + 1)).snappedAt = k + 1 := by
    have h0 := framesState_unsnapped_marker env s fs k (by omega) hu
    have hst := hsn
    rw [framesState_succ env s fs k hk] at hst ⊢
    rw [(trackFrame_marker env _ _).2 hst h0, framesState_frameID env s fs k (by omega)]
  have hall : (framesState env s fs m).snappedAt = k + 1 := by
    induction m, hm using Nat.le_induction with
    | base => exact hfirst
    | succ m hkm ih =>
      have hmlt : m < fs.length := by omega
      have hsm := framesState_snapped_mono env s fs (k + 1) hsn m hkm
      have ihm := ih (by omega)
      rw [framesState_succ env s fs m hmlt,
        (trackFrame_counters env _ _).2.2 hsm (by rw [ihm]; omega), ihm]
  refine ⟨hall, ?_, by rw [hall]; omega⟩
  rw [hall, framesState_frameID env s fs (k + 1) (by omega)]
  push_cast
  rfl

/-! ## The swaps of the Jacobian buffers -/

theorem runOps_append (env : Env) (s : CoarseInitializer) (a b : List PointOp) :
    runOps env s (a ++ b) = runOps env (runOps env s a) b := by
  unfold runOps
  rw [List.foldl_append]

theorem runOps_trialOps (env : Env) (lvl : Nat) (st : LMState) :
    runOps env st.s (trialOps env lvl st) = (lmTrial env lvl st).s := by
  unfold trialOps lmTrial
  by_cases ha : (runTrial env lvl st).accept st = true
  · simp only [ha, if_true]
    by_cases hs : (runTrial env lvl st).out.res.2.1 =
        (runTrial env lvl st).s.alphaK * (runTrial env lvl st).s.numPoints lvl
    · simp only [hs, if_true]
      unfold acceptTrial
      simp only [hs, if_true]
      rfl
    · simp only [hs, if_false]
      unfold acceptTrial
      simp only [hs, if_false]
      rfl
  · have hb : (runTrial env lvl st).accept st = false := by simpa using ha
    simp only [hb, Bool.false_eq_true, if_false]
    rfl

theorem runOps_iterate (env : Env) (lvl : Nat) (st : LMState) (n : Nat) :
    runOps env st.s ((List.range n).flatMap fun k =>
      trialOps env lvl ((lmTrial env lvl)^[k] st)) = ((lmTrial env lvl)^[n] st).s := by
  induction n with
  | zero => rfl
  | succ n ih =>
    rw [List.range_succ, List.flatMap_append, runOps_append, ih]
    simp only [List.flatMap_cons, List.flatMap_nil, List.append_nil]
    rw [runOps_trialOps, Function.iterate_succ_apply']

theorem runOps_lmOps (env : Env) (lvl : Nat) (st : LMState) :
    runOps env st.s (lmOps env lvl st) = (lmLoop env lvl 0 st).s := by
  unfold lmOps
  rw [runOps_iterate, (lmLoop_trials env lvl (maxIterationsAt lvl) 0 st (by omega)).1]

theorem runOps_levelOps (env : Env) (lvl : Nat) (ts : TrackState) :
    runOps env ts.s (levelOps env lvl ts) = (trackLevel env lvl ts).s := by
  unfold levelOps
  rw [runOps_append, trackLevel_eq_lmLoop]
  have h : runOps env ts.s
      ((if lvl < env.cfg.pyrLevelsUsed - 1 then [PointOp.propagateDown (lvl + 1)] else []) ++
        [PointOp.resetPoints lvl,
         PointOp.calcResAndGS lvl ts.refToNew_current ts.refToNew_aff_current,
         PointOp.applyStep lvl]) = (lmInit env lvl ts).s := by
    unfold lmInit
    by_cases hl : lvl < env.cfg.pyrLevelsUsed - 1
    · simp only [hl, if_true]
      rfl
    · simp only [hl, if_false]
      rfl
  rw [h]
  exact runOps_lmOps env lvl _

theorem countP_trialOps (env : Env) (lvl : Nat) (st : LMState) :
    (trialOps env lvl st).countP PointOp.isApplyStep =
      if (runTrial env lvl st).accept st then 1 else 0 := by
  unfold trialOps
  by_cases ha : (runTrial env lvl st).accept st = true
  · simp only [ha, if_true]
    split_ifs <;> rfl
  · have hb : (runTrial env lvl st).accept st = false := by simpa using ha
    simp only [hb, Bool.false_eq_true, if_false]
    rfl

theorem countP_iterate (env : Env) (lvl : Nat) (st : LMState) (n : Nat) :
    ((List.range n).flatMap fun k =>
      trialOps env lvl ((lmTrial env lvl)^[k] st)).countP PointOp.isApplyStep =
      (List.range n).countP (trialAccepted env lvl st) := by
  induction n with
  | zero => rfl
  | succ n ih =>
    rw [List.range_succ, List.flatMap_append, List.countP_append, List.countP_append, ih]
    simp only [List.flatMap_cons, List.flatMap_nil, List.append_nil]
    rw [countP_trialOps]
    unfold trialAccepted
    by_cases ha : (runTrial env lvl ((lmTrial env lvl)^[n] st)).accept
        ((lmTrial env lvl)^[n] st) = true
    · simp [ha]
    · have hb : (runTrial env lvl ((lmTrial env lvl)^[n] st)).accept
          ((lmTrial env lvl)^[n] st) = false := by simpa using ha
      simp [hb]

theorem countP_levelOps (env : Env) (lvl : Nat) (ts : TrackState) :
    (levelOps env lvl ts).countP PointOp.isApplyStep =
      lmAccepts env lvl (lmInit env lvl ts) + 1 := by
  unfold levelOps lmAccepts lmOps
  rw [List.countP_append, countP_iterate, List.countP_append]
  have h1 : (if lvl < env.cfg.pyrLevelsUsed - 1 then [PointOp.propagateDown (lvl + 1)]
      else []).countP PointOp.isApplyStep = 0 := by
    split_ifs <;> rfl
  have h2 : [PointOp.resetPoints lvl,
      PointOp.calcResAndGS lvl ts.refToNew_current ts.refToNew_aff_current,
      PointOp.applyStep lvl].countP PointOp.isApplyStep = 1 := rfl
  rw [h1, h2]
  omega

theorem PointOp_run_JbBuffer (env : Env) (s : CoarseInitializer) (op : PointOp) :
    (op.isApplyStep = true →
      (op.run env s).JbBuffer = s.JbBuffer_new ∧ (op.run env s).JbBuffer_new = s.JbBuffer) ∧
    (op.isApplyStep = false → (op.run env s).JbBuffer = s.JbBuffer) := by
  constructor
  · intro h
    cases op <;> first | exact ⟨rfl, rfl⟩ | cases h
  · intro h
    cases op <;> first | rfl | cases h

theorem lmTrial_JbBuffer (env : Env) (lvl : Nat) (st : LMState) :
    ((runTrial env lvl st).accept st = false →
      (lmTrial env lvl st).s.JbBuffer = st.s.JbBuffer) ∧
    ((runTrial env lvl st).accept st = true →
      (lmTrial env lvl st).s.JbBuffer = (runTrial env lvl st).s.JbBuffer_new ∧
      (lmTrial env lvl st).s.JbBuffer_new = st.s.JbBuffer) := by
  constructor
  · intro h
    rw [lmTrial_reject env lvl st h]
    rfl
  · intro h
    rw [lmTrial_accept env lvl st h]
    unfold acceptTrial
    simp only []
    split_ifs
    · exact ⟨rfl, rfl⟩
    · exact ⟨rfl, rfl⟩

theorem lmInit_JbBuffer (env : Env) (lvl : Nat) (ts : TrackState) :
    (lmInit env lvl ts).s.JbBuffer_new = ts.s.JbBuffer := by
  unfold lmInit
  simp only []
  split_ifs
  · rfl
  · rfl

/-- C25, amended: the swaps of the two Jacobian buffers while a level is
processed.  `levelOps` lists the operations the body of the loop over the
levels performs on the object, and running them gives the object the body
leaves.  The buffers are swapped by `applyStep` and by no other operation;
`applyStep` is called once when the level is entered, after the first
`calcResAndGS`, and once per accepted trial, so the number of swaps is the
number of accepted trials plus one.  A rejected trial leaves `JbBuffer` as it
was, an accepted trial makes the buffer `calcResAndGS` filled the current one
and the former current one the working one, and on entering the level the
former current buffer becomes the working one. -/
theorem buffer_swaps_per_level (env : Env) (lvl : Nat) (ts : TrackState) :
    runOps env ts.s (levelOps env lvl ts) = (trackLevel env lvl ts).s ∧
    (levelOps env lvl ts).countP PointOp.isApplyStep =
      lmAccepts env lvl (lmInit env lvl ts) + 1 ∧
    (∀ (op : PointOp) (s : CoarseInitializer),
      (op.isApplyStep = true →
        (op.run env s).JbBuffer = s.JbBuffer_new ∧ (op.run env s).JbBuffer_new = s.JbBuffer) ∧
      (op.isApplyStep = false → (op.run env s).JbBuffer = s.JbBuffer)) ∧
    (∀ st : LMState,
      ((runTrial env lvl st).accept st = false →
        (lmTrial env lvl st).s.JbBuffer = st.s.JbBuffer) ∧
      ((runTrial env lvl st).accept st = true →
        (lmTrial env lvl st).s.JbBuffer = (runTrial env lvl st).s.JbBuffer_new ∧
        (lmTrial env lvl st).s.JbBuffer_new = st.s.JbBuffer)) ∧
    (lmInit env lvl ts).s.JbBuffer_new = ts.s.JbBuffer :=
  ⟨runOps_levelOps env lvl ts, countP_levelOps env lvl ts,
    fun op s => PointOp_run_JbBuffer env s op, lmTrial_JbBuffer env lvl, lmInit_JbBuffer env lvl ts⟩

/-! ## The dilation passes of the coarse depth maps -/

theorem dilateHit_length_pos (offs : List Int) (bak1 : Int → ℚ) (j : Int) :
    ((dilateHit offs bak1 j).length : ℚ) > 0 ↔ dilateHit offs bak1 j ≠ [] := by
  rw [gt_iff_lt, Nat.cast_pos, List.length_pos]

theorem dilateCell_eq (offs : List Int) (bak1 : Int → ℚ) (i : Int) (buf : DepthBuf) :
    dilateCell offs bak1 i buf =
      if bak1 i ≤ 0 ∧ dilateHit offs bak1 i ≠ [] then
        { buf with
          idepth := Function.update buf.idepth i
            (((dilateHit offs bak1 i).map fun o => buf.idepth (i + o)).sum /
              (dilateHit offs bak1 i).length)
          weight := Function.update buf.weight i
            (((dilateHit offs bak1 i).map fun o => bak1 (i + o)).sum /
              (dilateHit offs bak1 i).length) }
      else buf := by
  unfold dilateCell
  by_cases h1 : bak1 i ≤ 0
  · by_cases h2 : dilateHit offs bak1 i ≠ []
    · have h3 := (dilateHit_length_pos offs bak1 i).mpr h2
      have hc : bak1 i ≤ 0 ∧ dilateHit offs bak1 i ≠ [] := ⟨h1, h2⟩
      rw [if_pos h1, if_pos hc]
      exact if_pos h3
    · have h3 : ¬ ((dilateHit offs bak1 i).length : ℚ) > 0 :=
        fun h => h2 ((dilateHit_length_pos offs bak1 i).mp h)
      have hc : ¬ (bak1 i ≤ 0 ∧ dilateHit offs bak1 i ≠ []) := fun h => h2 h.2
      rw [if_pos h1, if_neg hc]
      exact if_neg h3
  · have hc : ¬ (bak1 i ≤ 0 ∧ dilateHit offs bak1 i ≠ []) := fun h => h1 h.1
    rw [if_neg h1, if_neg hc]

/-- The cells of a level after the first `n` iterations of a dilation pass.  A
neighbour that is read has a positive weight in the copy and is therefore
never written, so the values read are those from before the pass. -/
theorem dilateLoop_closed (offs : List Int) (wl : Int) (bak1 : Int → ℚ) (buf : DepthBuf) :
    ∀ n : Nat,
      (forLoop n (fun k => dilateCell offs bak1 (wl + k)) buf).pc = buf.pc ∧
      ∀ j : Int,
        (forLoop n (fun k => dilateCell offs bak1 (wl + k)) buf).idepth j =
          (if wl ≤ j ∧ j < wl + n ∧ bak1 j ≤ 0 ∧ dilateHit offs bak1 j ≠ [] then
            ((dilateHit offs bak1 j).map fun o => buf.idepth (j + o)).sum /
              (dilateHit offs bak1 j).length
          else buf.idepth j) ∧
        (forLoop n (fun k => dilateCell offs bak1 (wl + k)) buf).weight j =
          (if wl ≤ j ∧ j < wl + n ∧ bak1 j ≤ 0 ∧ dilateHit offs bak1 j ≠ [] then
            ((dilateHit offs bak1 j).map fun o => bak1 (j + o)).sum /
              (dilateHit offs bak1 j).length
          else buf.weight j) := by
  intro n
  induction n with
  | zero =>
    refine ⟨rfl, fun j => ?_⟩
    have hc : ¬ (wl ≤ j ∧ j < wl + ((0 : ℕ) : Int) ∧ bak1 j ≤ 0 ∧ dilateHit offs bak1 j ≠ []) := by
      rintro ⟨h1, h2, -⟩
      simp at h2
      omega
    rw [if_neg hc, if_neg hc]
    exact ⟨rfl, rfl⟩
  | succ n ih =>
    obtain ⟨ihpc, ihj⟩ := ih
    have hstep : forLoop (n + 1) (fun k => dilateCell offs bak1 (wl + k)) buf =
        dilateCell offs bak1 (wl + n)
          (forLoop n (fun k => dilateCell offs bak1 (wl + k)) buf) := rfl
    rw [hstep, dilateCell_eq]
    -- values read by the cell are those of `buf`
    have hread : ((dilateHit offs bak1 (wl + n)).map fun o =>
        (forLoop n (fun k => dilateCell offs bak1 (wl + k)) buf).idepth (wl + n + o)) =
        ((dilateHit offs bak1 (wl + n)).map fun o => buf.idepth (wl + n + o)) := by
      apply List.map_congr_left
      intro o ho
      have hpos : bak1 (wl + n + o) > 0 := by
        unfold dilateHit at ho
        simpa using (List.mem_filter.mp ho).2
      rw [(ihj (wl + n + o)).1, if_neg]
      rintro ⟨-, -, h3, -⟩
      exact absurd hpos (not_lt.mpr h3)
    by_cases hc : bak1 (wl + n) ≤ 0 ∧ dilateHit offs bak1 (wl + n) ≠ []
    · rw [if_pos hc]
      refine ⟨ihpc, fun j => ?_⟩
      by_cases hj : j = wl + n
      · subst hj
        have hcond : wl ≤ wl + (n : Int) ∧ wl + (n : Int) < wl + ((n + 1 : ℕ) : Int) ∧
            bak1 (wl + n) ≤ 0 ∧ dilateHit offs bak1 (wl + n) ≠ [] :=
          ⟨by omega, by push_cast; omega, hc.1, hc.2⟩
        rw [if_pos hcond, if_pos hcond]
        constructor
        · show Function.update _ _ _ _ = _
          rw [Function.update_same, hread]
        · show Function.update _ _ _ _ = _
          rw [Function.update_same]
      · have hiff : (wl ≤ j ∧ j < wl + ((n + 1 : ℕ) : Int) ∧ bak1 j ≤ 0 ∧
            dilateHit offs bak1 j ≠ []) ↔
            (wl ≤ j ∧ j < wl + (n : Int) ∧ bak1 j ≤ 0 ∧ dilateHit offs bak1 j ≠ []) := by
          constructor
          · rintro ⟨a, b, c, d⟩
            exact ⟨a, by push_cast at b; omega, c, d⟩
          · rintro ⟨a, b, c, d⟩
            exact ⟨a, by push_cast; omega, c, d⟩
        constructor
        · show Function.update _ _ _ _ = _
          rw [Function.update_noteq hj, (ihj j).1]
          exact if_congr hiff.symm rfl rfl
        · show Function.update _ _ _ _ = _
          rw [Function.update_noteq hj, (ihj j).2]
          exact if_congr hiff.symm rfl rfl
    · rw [if_neg hc]
      refine ⟨ihpc, fun j => ?_⟩
      have hiff : (wl ≤ j ∧ j < wl + ((n + 1 : ℕ) : Int) ∧ bak1 j ≤ 0 ∧
          dilateHit offs bak1 j ≠ []) ↔
          (wl ≤ j ∧ j < wl + (n : Int) ∧ bak1 j ≤ 0 ∧ dilateHit offs bak1 j ≠ []) := by
        constructor
        · rintro ⟨a, b, c, d⟩
          refine ⟨a, ?_, c, d⟩
          by_contra hlt
          have hj : j = wl + n := by push_cast at b; omega
          subst hj
          exact hc ⟨c, d⟩
        · rintro ⟨a, b, c, d⟩
          exact ⟨a, by push_cast; omega, c, d⟩
      rw [(ihj j).1, (ihj j).2]
      exact ⟨if_congr hiff.symm rfl rfl, if_congr hiff.symm rfl rfl⟩

/-- One dilation pass in closed form: a cell the pass fills gets the average
of the depths, and of the weights, of its neighbours with positive weight;
every other cell and the compact list are unchanged. -/
theorem dilatePass_closed (offs : List Int) (wl hl : Int) (bak : Int → ℚ) (buf : DepthBuf)
    (j : Int) :
    (dilatePass offs wl hl bak buf).2 = memcpyBak wl hl bak buf.weight ∧
    (dilatePass offs wl hl bak buf).1.pc = buf.pc ∧
    (DilateFills offs wl hl (memcpyBak wl hl bak buf.weight) j →
      (dilatePass offs wl hl bak buf).1.idepth j =
        ((dilateHit offs (memcpyBak wl hl bak buf.weight) j).map fun o =>
          buf.idepth (j + o)).sum / (dilateHit offs (memcpyBak wl hl bak buf.weight) j).length ∧
      (dilatePass offs wl hl bak buf).1.weight j =
        ((dilateHit offs (memcpyBak wl hl bak buf.weight) j).map fun o =>
          memcpyBak wl hl bak buf.weight (j + o)).sum /
          (dilateHit offs (memcpyBak wl hl bak buf.weight) j).length) ∧
    (¬ DilateFills offs wl hl (memcpyBak wl hl bak buf.weight) j →
      (dilatePass offs wl hl bak buf).1.idepth j = buf.idepth j ∧
      (dilatePass offs wl hl bak buf).1.weight j = buf.weight j) := by
  obtain ⟨hpc, hj⟩ := dilateLoop_closed offs wl (memcpyBak wl hl bak buf.weight) buf
    (wl * hl - wl - wl).toNat
  have hiff : (wl ≤ j ∧ j < wl + (((wl * hl - wl - wl).toNat : ℕ) : Int) ∧
      memcpyBak wl hl bak buf.weight j ≤ 0 ∧
      dilateHit offs (memcpyBak wl hl bak buf.weight) j ≠ []) ↔
      DilateFills offs wl hl (memcpyBak wl hl bak buf.weight) j := by
    unfold DilateFills
    constructor
    · rintro ⟨a, b, c, d⟩
      exact ⟨a, by omega, c, d⟩
    · rintro ⟨a, b, c, d⟩
      exact ⟨a, by omega, c, d⟩
  refine ⟨rfl, hpc, fun hf => ?_, fun hf => ?_⟩
  · have h := hj j
    rw [if_pos (hiff.mpr hf), if_pos (hiff.mpr hf)] at h
    exact h
  · have h := hj j
    rw [if_neg (fun hh => hf (hiff.mp hh)), if_neg (fun hh => hf (hiff.mp hh))] at h
    exact h

theorem levelEq_refl (l : Nat) (s : CoarseInitializer) : LevelEq l s s :=
  ⟨rfl, rfl, rfl, rfl, rfl, rfl⟩

theorem levelEq_trans {l : Nat} {a b c : CoarseInitializer} (h1 : LevelEq l a b)
    (h2 : LevelEq l b c) : LevelEq l a c :=
  ⟨h1.1.trans h2.1, h1.2.1.trans h2.2.1, h1.2.2.1.trans h2.2.2.1,
    h1.2.2.2.1.trans h2.2.2.2.1, h1.2.2.2.2.1.trans h2.2.2.2.2.1,
    h1.2.2.2.2.2.trans h2.2.2.2.2.2⟩

/-- A loop over the levels whose iteration `k` only touches level `k + c`
does to level `l` what its iteration for that level does. -/
theorem levelEq_forLoop (l c : Nat) (body : Nat → CoarseInitializer → CoarseInitializer)
    (h_other : ∀ k s, k + c ≠ l → LevelEq l (body k s) s)
    (h_same : ∀ k s t, k + c = l → LevelEq l s t → LevelEq l (body k s) (body k t)) :
    ∀ (n : Nat) (s t : CoarseInitializer), LevelEq l s t →
      LevelEq l (forLoop n body s) (if c ≤ l ∧ l < n + c then body (l - c) t else t) := by
  intro n
  induction n with
  | zero =>
    intro s t hst
    have hc : ¬ (c ≤ l ∧ l < 0 + c) := by omega
    rw [if_neg hc]
    exact hst
  | succ n ih =>
    intro s t hst
    have hstep : forLoop (n + 1) body s = body n (forLoop n body s) := rfl
    rw [hstep]
    by_cases hk : n + c = l
    · have hc : ¬ (c ≤ l ∧ l < n + c) := by omega
      have h1 := ih s t hst
      rw [if_neg hc] at h1
      have hc2 : c ≤ l ∧ l < n + 1 + c := by omega
      rw [if_pos hc2]
      have hn : l - c = n := by omega
      rw [hn]
      exact h_same n _ _ hk h1
    · have h1 := levelEq_trans (h_other n (forLoop n body s) hk) (ih s t hst)
      by_cases hc : c ≤ l ∧ l < n + c
      · have hc2 : c ≤ l ∧ l < n + 1 + c := by omega
        rw [if_pos hc2]
        rw [if_pos hc] at h1
        exact h1
      · have hc2 : ¬ (c ≤ l ∧ l < n + 1 + c) := by omega
        rw [if_neg hc2]
        rw [if_neg hc] at h1
        exact h1

theorem getBuf_splatLevel (l : Nat) (s : CoarseInitializer) :
    getBuf (splatLevel l s) l = (s.points l).foldl (splatPnt (s.w_ l)) (getBuf s l) :=
  getBuf_setBuf_same _ _ _

theorem getBuf_dilateLevel (offs : Int → List Int) (l : Nat) (s : CoarseInitializer) :
    getBuf (dilateLevel offs l s) l =
      (dilatePass (offs (s.w_ l)) (s.w_ l) (s.h_ l) (s.weight_sums_bak_ l) (getBuf s l)).1 := by
  simp [dilateLevel, getBuf, setBuf]

theorem getBuf_normalizeLvl (l : Nat) (s : CoarseInitializer) :
    getBuf (normalizeLvl l s) l =
      normalizeLevel (s.firstFrame.color0 l) (s.w_ l) (s.h_ l) (getBuf s l) :=
  getBuf_setBuf_same _ _ _

theorem levelEq_splat_other (l k : Nat) (s : CoarseInitializer) (h : k ≠ l) :
    LevelEq l (splatLevel k s) s :=
  ⟨getBuf_setBuf_other _ _ _ _ (Ne.symm h), rfl, rfl, rfl, rfl, rfl⟩

theorem levelEq_splat_same (l : Nat) (s t : CoarseInitializer) (h : LevelEq l s t) :
    LevelEq l (splatLevel l s) (splatLevel l t) := by
  obtain ⟨h1, h2, h3, h4, h5, h6⟩ := h
  refine ⟨?_, h2, h3, h4, h5, h6⟩
  rw [getBuf_splatLevel, getBuf_splatLevel, h1, h3, h4]

theorem levelEq_dilate_other (offs : Int → List Int) (l k : Nat) (s : CoarseInitializer)
    (h : k ≠ l) : LevelEq l (dilateLevel offs k s) s := by
  refine ⟨?_, ?_, rfl, rfl, rfl, rfl⟩
  · simp [getBuf, dilateLevel, setBuf, Function.update_noteq (Ne.symm h)]
  · simp [dilateLevel, Function.update_noteq (Ne.symm h)]

theorem levelEq_dilate_same (offs : Int → List Int) (l : Nat) (s t : CoarseInitializer)
    (h : LevelEq l s t) : LevelEq l (dilateLevel offs l s) (dilateLevel offs l t) := by
  obtain ⟨h1, h2, h3, h4, h5, h6⟩ := h
  refine ⟨?_, ?_, h3, h4, h5, h6⟩
  · rw [getBuf_dilateLevel, getBuf_dilateLevel, h1, h2, h4, h5]
  · simp [dilateLevel, h1, h2, h4, h5]

theorem levelEq_normalize_other (l k : Nat) (s : CoarseInitializer) (h : k ≠ l) :
    LevelEq l (normalizeLvl k s) s :=
  ⟨getBuf_setBuf_other _ _ _ _ (Ne.symm h), rfl, rfl, rfl, rfl, rfl⟩

theorem levelEq_normalize_same (l : Nat) (s t : CoarseInitializer) (h : LevelEq l s t) :
    LevelEq l (normalizeLvl l s) (normalizeLvl l t) := by
  obtain ⟨h1, h2, h3, h4, h5, h6⟩ := h
  refine ⟨?_, h2, h3, h4, h5, h6⟩
  rw [getBuf_normalizeLvl, getBuf_normalizeLvl, h1, h4, h5, h6]

/-- What `makeCoarseDepth` does to a level in use: after the clearing of level
0 it splats the points of the level, runs one dilation pass on the level, with
the diagonal neighbours on levels 0 and 1 and with the axis-aligned neighbours
on the levels from 2 on, and normalizes the level. -/
theorem makeCoarseDepth_level (cfg : Settings) (s : CoarseInitializer) (l : Nat)
    (hl : l < cfg.pyrLevelsUsed) :
    LevelEq l (makeCoarseDepth cfg s)
      (normalizeLvl l (dilateLevel (if l < 2 then diagOffsets else axisOffsets) l
        (splatLevel l (clearLevel0 s)))) := by
  unfold makeCoarseDepth
  simp only []
  have h1 := levelEq_forLoop l 0 splatLevel
    (fun k s h => levelEq_splat_other l k s h)
    (fun k s t h hst => by
      have hk : k = l := h
      subst hk
      exact levelEq_splat_same k s t hst)
    cfg.pyrLevelsUsed (clearLevel0 s) (clearLevel0 s) (levelEq_refl _ _)
  rw [if_pos (by omega : 0 ≤ l ∧ l < cfg.pyrLevelsUsed + 0)] at h1
  have h2 := levelEq_forLoop l 0 (dilateLevel diagOffsets)
    (fun k s h => levelEq_dilate_other diagOffsets l k s h)
    (fun k s t h hst => by
      have hk : k = l := h
      subst hk
      exact levelEq_dilate_same diagOffsets k s t hst)
    2 _ _ h1
  have h3 := levelEq_forLoop l 2 (fun k => dilateLevel axisOffsets (k + 2))
    (fun k s h => levelEq_dilate_other axisOffsets l (k + 2) s h)
    (fun k s t h hst => by
      subst h
      exact levelEq_dilate_same axisOffsets (k + 2) s t hst)
    (cfg.pyrLevelsUsed - 2) _ _ h2
  have h4 := levelEq_forLoop l 0 normalizeLvl
    (fun k s h => levelEq_normalize_other l k s h)
    (fun k s t h hst => by
      have hk : k = l := h
      subst hk
      exact levelEq_normalize_same k s t hst)
    cfg.pyrLevelsUsed _ _ h3
  rw [if_pos (by omega : 0 ≤ l ∧ l < cfg.pyrLevelsUsed + 0)] at h4
  by_cases h : l < 2
  · rw [if_pos (by omega : 0 ≤ l ∧ l < 2 + 0), if_neg (by omega)] at h4
    rw [if_pos h]
    exact h4
  · rw [if_neg (by omega : ¬ (0 ≤ l ∧ l < 2 + 0)),
      if_pos (by omega : 2 ≤ l ∧ l < cfg.pyrLevelsUsed - 2 + 2)] at h4
    rw [if_neg h]
    have e : l - 2 + 2 = l := by omega
    simp only [e] at h4
    exact h4

theorem dilateHit_length_le (offs : List Int) (bak1 : Int → ℚ) (j : Int) :
    (dilateHit offs bak1 j).length ≤ offs.length :=
  List.length_filter_le _ _

theorem splatIndex_sparsePnt : splatIndex 8 sparsePnt = 27 := by
  have hu : truncToInt (sparsePnt.u + 1 / 2) = 3 := truncToInt_seed 3
  have hv : truncToInt (sparsePnt.v + 1 / 2) = 3 := truncToInt_seed 3
  unfold splatIndex
  rw [hu, hv]
  rfl

/-- The buffers of level 2 of `sparseState` after the splatting loop: depth 2
and weight 1 in cell 27, the cell of pixel `(3, 3)`, and zero elsewhere. -/
theorem splat_sparseState :
    (sparseState.points 2).foldl (splatPnt (sparseState.w_ 2))
        (getBuf (clearLevel0 sparseState) 2) =
      ⟨fun j => if j = 27 then 2 else 0, fun j => if j = 27 then 1 else 0, []⟩ := by
  have hp : sparseState.points 2 = [sparsePnt] := rfl
  have hw : sparseState.w_ 2 = 8 := rfl
  have hb : getBuf (clearLevel0 sparseState) 2 = ⟨fun _ => 0, fun _ => 0, []⟩ := by
    simp [getBuf, clearLevel0, sparseState, exampleState]
  rw [hp, hw, hb]
  simp only [List.foldl_cons, List.foldl_nil]
  unfold splatPnt
  have hg : sparsePnt.isGood = true := rfl
  have hr : sparsePnt.iR = 2 := rfl
  rw [if_pos hg]
  simp only [splatIndex_sparsePnt, hr]
  congr 1
  · funext j
    by_cases h : j = 27
    · subst h
      simp
    · simp [Function.update_noteq h, h]
  · funext j
    by_cases h : j = 27
    · subst h
      simp
    · simp [Function.update_noteq h, h]

/-- The interior cells of level 2 of `sparseState` after one dilation pass
over the axis-aligned neighbours: the cells 19, 26 and 28 next to cell 27 are
filled, the cells 18, 20, 21 and 29 are not. -/
theorem dilate_sparse (bak : Int → ℚ) :
    ((dilatePass (axisOffsets 8) 8 6 bak
      ⟨fun j => if j = 27 then 2 else 0, fun j => if j = 27 then 1 else 0, []⟩).1.idepth 18 = 0 ∧
    (dilatePass (axisOffsets 8) 8 6 bak
      ⟨fun j => if j = 27 then 2 else 0, fun j => if j = 27 then 1 else 0, []⟩).1.weight 18 = 0) ∧
    ((dilatePass (axisOffsets 8) 8 6 bak
      ⟨fun j => if j = 27 then 2 else 0, fun j => if j = 27 then 1 else 0, []⟩).1.idepth 19 = 2 ∧
    (dilatePass (axisOffsets 8) 8 6 bak
      ⟨fun j => if j = 27 then 2 else 0, fun j => if j = 27 then 1 else 0, []⟩).1.weight 19 = 1) ∧
    ((dilatePass (axisOffsets 8) 8 6 bak
      ⟨fun j => if j = 27 then 2 else 0, fun j => if j = 27 then 1 else 0, []⟩).1.idepth 20 = 0 ∧
    (dilatePass (axisOffsets 8) 8 6 bak
      ⟨fun j => if j = 27 then 2 else 0, fun j => if j = 27 then 1 else 0, []⟩).1.weight 20 = 0) ∧
    ((dilatePass (axisOffsets 8) 8 6 bak
      ⟨fun j => if j = 27 then 2 else 0, fun j => if j = 27 then 1 else 0, []⟩).1.idepth 21 = 0 ∧
    (dilatePass (axisOffsets 8) 8 6 bak
      ⟨fun j => if j = 27 then 2 else 0, fun j => if j = 27 then 1 else 0, []⟩).1.weight 21 = 0) ∧
    ((dilatePass (axisOffsets 8) 8 6 bak
      ⟨fun j => if j = 27 then 2 else 0, fun j => if j = 27 then 1 else 0, []⟩).1.idepth 26 = 2 ∧
    (dilatePass (axisOffsets 8) 8 6 bak
      ⟨fun j => if j = 27 then 2 else 0, fun j => if j = 27 then 1 else 0, []⟩).1.weight 26 = 1) ∧
    ((dilatePass (axisOffsets 8) 8 6 bak
      ⟨fun j => if j = 27 then 2 else 0, fun j => if j = 27 then 1 else 0, []⟩).1.idepth 27 = 2 ∧
    (dilatePass (axisOffsets 8) 8 6 bak
      ⟨fun j => if j = 27 then 2 else 0, fun j => if j = 27 then 1 else 0, []⟩).1.weight 27 = 1) ∧
    ((dilatePass (axisOffsets 8) 8 6 bak
      ⟨fun j => if j = 27 then 2 else 0, fun j => if j = 27 then 1 else 0, []⟩).1.idepth 28 = 2 ∧
    (dilatePass (axisOffsets 8) 8 6 bak
      ⟨fun j => if j = 27 then 2 else 0, fun j => if j = 27 then 1 else 0, []⟩).1.weight 28 = 1) ∧
    ((dilatePass (axisOffsets 8) 8 6 bak
      ⟨fun j => if j = 27 then 2 else 0, fun j => if j = 27 then 1 else 0, []⟩).1.idepth 29 = 0 ∧
    (dilatePass (axisOffsets 8) 8 6 bak
      ⟨fun j => if j = 27 then 2 else 0, fun j => if j = 27 then 1 else 0, []⟩).1.weight 29 = 0) := by
  refine ⟨?_, ?_, ?_, ?_, ?_, ?_, ?_, ?_⟩
  · have h := (dilatePass_closed (axisOffsets 8) 8 6 bak
      ⟨fun j => if j = 27 then 2 else 0, fun j => if j = 27 then 1 else 0, []⟩ 18).2.2.2
      (by simp [DilateFills, dilateHit, axisOffsets, memcpyBak])
    simpa [dilateHit, axisOffsets, memcpyBak] using h
  · have h := (dilatePass_closed (axisOffsets 8) 8 6 bak
      ⟨fun j => if j = 27 then 2 else 0, fun j => if j = 27 then 1 else 0, []⟩ 19).2.2.1
      (by simp [DilateFills, dilateHit, axisOffsets, memcpyBak])
    simpa [dilateHit, axisOffsets, memcpyBak] using h
  · have h := (dilatePass_closed (axisOffsets 8) 8 6 bak
      ⟨fun j => if j = 27 then 2 else 0, fun j => if j = 27 then 1 else 0, []⟩ 20).2.2.2
      (by simp [DilateFills, dilateHit, axisOffsets, memcpyBak])
    simpa [dilateHit, axisOffsets, memcpyBak] using h
  · have h := (dilatePass_closed (axisOffsets 8) 8 6 bak
      ⟨fun j => if j = 27 then 2 else 0, fun j => if j = 27 then 1 else 0, []⟩ 21).2.2.2
      (by simp [DilateFills, dilateHit, axisOffsets, memcpyBak])
    simpa [dilateHit, axisOffsets, memcpyBak] using h
  · have h := (dilatePass_closed (axisOffsets 8) 8 6 bak
      ⟨fun j => if j = 27 then 2 else 0, fun j => if j = 27 then 1 else 0, []⟩ 26).2.2.1
      (by simp [DilateFills, dilateHit, axisOffsets, memcpyBak])
    simpa [dilateHit, axisOffsets, memcpyBak] using h
  · have h := (dilatePass_closed (axisOffsets 8) 8 6 bak
      ⟨fun j => if j = 27 then 2 else 0, fun j => if j = 27 then 1 else 0, []⟩ 27).2.2.2
      (by simp [DilateFills, dilateHit, axisOffsets, memcpyBak])
    simpa [dilateHit, axisOffsets, memcpyBak] using h
  · have h := (dilatePass_closed (axisOffsets 8) 8 6 bak
      ⟨fun j => if j = 27 then 2 else 0, fun j => if j = 27 then 1 else 0, []⟩ 28).2.2.1
      (by simp [DilateFills, dilateHit, axisOffsets, memcpyBak])
    simpa [dilateHit, axisOffsets, memcpyBak] using h
  · have h := (dilatePass_closed (axisOffsets 8) 8 6 bak
      ⟨fun j => if j = 27 then 2 else 0, fun j => if j = 27 then 1 else 0, []⟩ 29).2.2.2
      (by simp [DilateFills, dilateHit, axisOffsets, memcpyBak])
    simpa [dilateHit, axisOffsets, memcpyBak] using h

theorem normalize_sparse (c : Int → Sample1) (P : DepthBuf) (hc : ∀ i, c i = ⟨100, true⟩)
    (h18 : P.idepth 18 = 0 ∧ P.weight 18 = 0) (h19 : P.idepth 19 = 2 ∧ P.weight 19 = 1)
    (h20 : P.idepth 20 = 0 ∧ P.weight 20 = 0) (h21 : P.idepth 21 = 0 ∧ P.weight 21 = 0)
    (h26 : P.idepth 26 = 2 ∧ P.weight 26 = 1) (h27 : P.idepth 27 = 2 ∧ P.weight 27 = 1)
    (h28 : P.idepth 28 = 2 ∧ P.weight 28 = 1) (h29 : P.idepth 29 = 0 ∧ P.weight 29 = 0) :
    (normalizeLevel c 8 6 P).idepth 28 = 2 ∧ (normalizeLevel c 8 6 P).idepth 29 = -1 ∧
    (normalizeLevel c 8 6 P).pc =
      [(3, 2, 2, 100), (2, 3, 2, 100), (3, 3, 2, 100), (4, 3, 2, 100)] := by
  have e1 : ((6 : Int) - 4).toNat = 2 := rfl
  have e2 : ((8 : Int) - 4).toNat = 4 := rfl
  unfold normalizeLevel
  rw [e1, e2]
  simp [forLoop, normalizeCell, Function.update_apply, hc, h18.1, h18.2, h19.1, h19.2, h20.1,
    h20.2, h21.1, h21.2, h26.1, h26.2, h27.1, h27.2, h28.1, h28.2, h29.1, h29.2]

theorem getBuf_makeCoarseDepth (cfg : Settings) (s : CoarseInitializer) (l : Nat)
    (hl : l < cfg.pyrLevelsUsed) :
    getBuf (makeCoarseDepth cfg s) l =
      normalizeLevel (s.firstFrame.color0 l) (s.w_ l) (s.h_ l)
        (dilatePass ((if l < 2 then diagOffsets else axisOffsets) (s.w_ l)) (s.w_ l) (s.h_ l)
          (s.weight_sums_bak_ l)
          ((s.points l).foldl (splatPnt (s.w_ l)) (getBuf (clearLevel0 s) l))).1 := by
  rw [(makeCoarseDepth_level cfg s l hl).1, getBuf_normalizeLvl, getBuf_dilateLevel,
    getBuf_splatLevel]
  rfl

/-- The dilation in `makeCoarseDepth` as the code performs it.  Every level in
use gets exactly one dilation pass between the splatting of its points and its
normalization: over the four diagonal neighbours on the levels 0 and 1, over
the four axis-aligned neighbours on every level from 2 on.  In a pass, a cell
`w <= j < w * h - w` that is empty (weight `<= 0` before the pass) and has a
neighbour with positive weight takes the average of the depths, and of the
weights, of its at most 4 such neighbours, as they were before the pass; every
other cell is unchanged.  So a cell whose neighbours are all empty before the
pass, such as one whose nearest non-empty cell is two steps away, stays empty. -/
theorem dilation_single_pass (cfg : Settings) (s : CoarseInitializer) (l : Nat)
    (hl : l < cfg.pyrLevelsUsed) :
    getBuf (makeCoarseDepth cfg s) l =
      normalizeLevel (s.firstFrame.color0 l) (s.w_ l) (s.h_ l)
        (dilatePass ((if l < 2 then diagOffsets else axisOffsets) (s.w_ l)) (s.w_ l) (s.h_ l)
          (s.weight_sums_bak_ l)
          ((s.points l).foldl (splatPnt (s.w_ l)) (getBuf (clearLevel0 s) l))).1 ∧
    (∀ (bak : Int → ℚ) (buf : DepthBuf) (j : Int),
      (DilateFills ((if l < 2 then diagOffsets else axisOffsets) (s.w_ l)) (s.w_ l) (s.h_ l)
          (memcpyBak (s.w_ l) (s.h_ l) bak buf.weight) j →
        (dilatePass ((if l < 2 then diagOffsets else axisOffsets) (s.w_ l)) (s.w_ l) (s.h_ l)
            bak buf).1.idepth j =
          ((dilateHit ((if l < 2 then diagOffsets else axisOffsets) (s.w_ l))
              (memcpyBak (s.w_ l) (s.h_ l) bak buf.weight) j).map fun o =>
            buf.idepth (j + o)).sum /
            (dilateHit ((if l < 2 then diagOffsets else axisOffsets) (s.w_ l))
              (memcpyBak (s.w_ l) (s.h_ l) bak buf.weight) j).length ∧
        (dilatePass ((if l < 2 then diagOffsets else axisOffsets) (s.w_ l)) (s.w_ l) (s.h_ l)
            bak buf).1.weight j =
          ((dilateHit ((if l < 2 then diagOffsets else axisOffsets) (s.w_ l))
              (memcpyBak (s.w_ l) (s.h_ l) bak buf.weight) j).map fun o =>
            memcpyBak (s.w_ l) (s.h_ l) bak buf.weight (j + o)).sum /
            (dilateHit ((if l < 2 then diagOffsets else axisOffsets) (s.w_ l))
              (memcpyBak (s.w_ l) (s.h_ l) bak buf.weight) j).length) ∧
      (¬ DilateFills ((if l < 2 then diagOffsets else axisOffsets) (s.w_ l)) (s.w_ l) (s.h_ l)
          (memcpyBak (s.w_ l) (s.h_ l) bak buf.weight) j →
        (dilatePass ((if l < 2 then diagOffsets else axisOffsets) (s.w_ l)) (s.w_ l) (s.h_ l)
            bak buf).1.idepth j = buf.idepth j ∧
        (dilatePass ((if l < 2 then diagOffsets else axisOffsets) (s.w_ l)) (s.w_ l) (s.h_ l)
            bak buf).1.weight j = buf.weight j) ∧
      (dilateHit ((if l < 2 then diagOffsets else axisOffsets) (s.w_ l))
        (memcpyBak (s.w_ l) (s.h_ l) bak buf.weight) j).length ≤ 4) ∧
    (∀ wl : Int, diagOffsets wl = [1 + wl, -1 - wl, wl - 1, -wl + 1] ∧
      axisOffsets wl = [1, -1, wl, -wl]) := by
  refine ⟨getBuf_makeCoarseDepth cfg s l hl, fun bak buf j => ?_, fun wl => ⟨rfl, rfl⟩⟩
  have h := dilatePass_closed ((if l < 2 then diagOffsets else axisOffsets) (s.w_ l)) (s.w_ l)
    (s.h_ l) bak buf j
  refine ⟨h.2.2.1, h.2.2.2, ?_⟩
  refine le_trans (dilateHit_length_le _ _ _) ?_
  split_ifs <;> exact le_of_eq rfl

/-- Witness of `dilation_single_pass`: level 2 of the three-level object
`sparseState`. -/
theorem dilation_single_pass_witness :
    2 < sparseCfg.pyrLevelsUsed ∧
    getBuf (makeCoarseDepth sparseCfg sparseState) 2 =
      normalizeLevel (sparseState.firstFrame.color0 2) (sparseState.w_ 2) (sparseState.h_ 2)
        (dilatePass ((if 2 < 2 then diagOffsets else axisOffsets) (sparseState.w_ 2))
          (sparseState.w_ 2) (sparseState.h_ 2) (sparseState.weight_sums_bak_ 2)
          ((sparseState.points 2).foldl (splatPnt (sparseState.w_ 2))
            (getBuf (clearLevel0 sparseState) 2))).1 :=
  ⟨by decide, (dilation_single_pass sparseCfg sparseState 2 (by decide)).1⟩

/-- C22: `makeCoarseDepth` at an input on which a dilation by one cell and a
dilation by two cells differ.  The comment above the loop for the levels from
2 on reads "dilate idepth_ by 1 (2 on lower levels)", and a dilation by 2
fills an empty cell whose nearest non-empty cell is two axis-aligned steps
away; the loop has no iteration loop and runs over the cells once.  Level 2 of
`sparseState` is an 8×6 grid whose only point falls into cell 27, pixel
`(3, 3)`.  After `makeCoarseDepth` the cell 28 of pixel `(4, 3)`, one step
away, holds the depth 2 of the point, but the cell 29 of pixel `(5, 3)`, whose
nearest non-empty cell is two axis-aligned steps away, holds the marker `-1`
of an empty cell, and the compact list of the level has the four pixels
`(3, 2)`, `(2, 3)`, `(3, 3)` and `(4, 3)` only: the level got one pass. -/
theorem axis_dilation_once :
    2 < sparseCfg.pyrLevelsUsed ∧
    (sparseState.points 2).foldl (splatPnt (sparseState.w_ 2))
        (getBuf (clearLevel0 sparseState) 2) =
      ⟨fun j => if j = 27 then 2 else 0, fun j => if j = 27 then 1 else 0, []⟩ ∧
    (getBuf (makeCoarseDepth sparseCfg sparseState) 2).idepth 28 = 2 ∧
    (getBuf (makeCoarseDepth sparseCfg sparseState) 2).idepth 29 = -1 ∧
    (getBuf (makeCoarseDepth sparseCfg sparseState) 2).pc =
      [(3, 2, 2, 100), (2, 3, 2, 100), (3, 3, 2, 100), (4, 3, 2, 100)] := by
  have hb := getBuf_makeCoarseDepth sparseCfg sparseState 2 (by decide)
  rw [splat_sparseState] at hb
  have hw : sparseState.w_ 2 = 8 := rfl
  have hh : sparseState.h_ 2 = 6 := rfl
  have ho : (if 2 < 2 then diagOffsets else axisOffsets) = axisOffsets := rfl
  rw [hw, hh, ho] at hb
  obtain ⟨h18, h19, h20, h21, h26, h27, h28, h29⟩ :=
    dilate_sparse (sparseState.weight_sums_bak_ 2)
  have hn := normalize_sparse (sparseState.firstFrame.color0 2) _ (fun _ => rfl)
    h18 h19 h20 h21 h26 h27 h28 h29
  rw [hb]
  exact ⟨by decide, splat_sparseState, hn.1, hn.2.1, hn.2.2⟩

/-! ### A run of six trials at a level whose cap is five -/

theorem ratSqrt_nonneg (x : ℚ) : 0 ≤ ratSqrt x := by
  unfold ratSqrt
  positivity

theorem floor_add_frac (m : Int) (f : ℚ) (h0 : 0 ≤ f) (h1 : f < 1) : ⌊(m : ℚ) + f⌋ = m := by
  rw [Int.floor_eq_iff]
  constructor <;> linarith

theorem stripe_grad (x y : Int) :
    gradPixel stripePixel x y = ![stripePixel x y, 0, 0] := by
  have h : stripePixel (x + 1) y = stripePixel (x - 1) y := by
    unfold stripePixel
    have e : (x + 1) % 2 = (x - 1) % 2 := by omega
    rw [e]
  unfold gradPixel
  rw [h]
  have h2 : stripePixel x (y + 1) = stripePixel x (y - 1) := rfl
  rw [h2]
  simp

/-- Sampling the striped image at the distance `f` to the right of column `m`
and `g` below row `n`. -/
theorem bilinear_stripe (m n : Int) (f g : ℚ) (hf0 : 0 ≤ f) (hf1 : f < 1) (hg0 : 0 ≤ g)
    (hg1 : g < 1) :
    bilinear33 (gradPixel stripePixel) ((m : ℚ) + f) ((n : ℚ) + g) =
      ![(1 - f) * stripePixel m 0 + f * stripePixel (m + 1) 0, 0, 0] := by
  unfold bilinear33
  simp only [floor_add_frac m f hf0 hf1, floor_add_frac n g hg0 hg1, stripe_grad]
  have e : ∀ a b : Int, stripePixel a b = stripePixel a 0 := fun _ _ => rfl
  rw [e (m + 1) (n + 1), e m (n + 1), e (m + 1) n, e m n]
  funext k
  fin_cases k
  · simp
    ring
  · simp
  · simp

theorem mkResCtx_stripe (s : CoarseInitializer) (h : StripeObj s) (x : ℚ) :
    mkResCtx stripeEnv s 0 ⟨1, ![x, 0, 0]⟩ ⟨0, 0⟩ = stripeCtx x := by
  obtain ⟨-, -, -, -, -, a6, a7, a8, a9, a10, a11, a12, a13, a14, -⟩ := h
  unfold stripeCtx mkResCtx
  rw [a6, a7, a8, a9, a10, a11, a12, a13, a14]
  rfl

theorem project_stripe (x : ℚ) (p : Pnt) (hu : p.u = 81 / 10) (hv : p.v = 81 / 10)
    (hd : p.idepth_new = 1) (d : Int × Int) :
    project (stripeCtx x) p d =
      { pt := ![(81 / 10 + (d.1 : ℚ)) / 200 - 16 / 200 + x,
                (81 / 10 + (d.2 : ℚ)) / 200 - 12 / 200, 1]
        u := (81 / 10 + (d.1 : ℚ)) / 200 - 16 / 200 + x
        v := (81 / 10 + (d.2 : ℚ)) / 200 - 12 / 200
        Ku := ((8 + d.1 : Int) : ℚ) + (200 * x + 1 / 10)
        Kv := ((8 + d.2 : Int) : ℚ) + 1 / 10
        new_idepth := 1 } := by
  have hpt : (stripeCtx x).RKi.mulVec ![p.u + (d.1 : ℚ), p.v + (d.2 : ℚ), 1] +
      p.idepth_new • (stripeCtx x).t =
      ![(81 / 10 + (d.1 : ℚ)) / 200 - 16 / 200 + x,
        (81 / 10 + (d.2 : ℚ)) / 200 - 12 / 200, 1] := by
    rw [hu, hv, hd]
    funext k
    fin_cases k <;>
      simp [stripeCtx, mkResCtx, stripeState, Matrix.mulVec, Matrix.dotProduct,
        Fin.sum_univ_succ, Matrix.of_apply] <;> ring
  unfold project
  simp only [hpt]
  have hf : (stripeCtx x).fxl = 200 := rfl
  have hfy : (stripeCtx x).fyl = 200 := rfl
  have hcx : (stripeCtx x).cxl = 16 := by
    simp [stripeCtx, mkResCtx, stripeState, snappedState, exampleState]
  have hcy : (stripeCtx x).cyl = 12 := by
    simp [stripeCtx, mkResCtx, stripeState, snappedState, exampleState]
  rw [hf, hfy, hcx, hcy, hd]
  simp only [Matrix.cons_val_zero, Matrix.cons_val_one, Matrix.head_cons, Matrix.cons_val_two,
    Matrix.tail_cons, div_one]
  congr 1
  · push_cast
    ring
  · push_cast
    ring

theorem stripePixel_range (m : Int) : 100 ≤ stripePixel m 0 ∧ stripePixel m 0 ≤ 105 := by
  unfold stripePixel
  split_ifs <;> constructor <;> norm_num

theorem stripeSample_range (x : ℚ) (h0 : 0 ≤ 200 * x + 1 / 10) (h2 : 200 * x + 1 / 10 < 2)
    (dx : Int) : 100 ≤ stripeSample x dx ∧ stripeSample x dx ≤ 105 := by
  unfold stripeSample
  split_ifs with h
  · obtain ⟨a1, a2⟩ := stripePixel_range (8 + dx)
    obtain ⟨b1, b2⟩ := stripePixel_range (8 + dx + 1)
    constructor <;> nlinarith
  · obtain ⟨a1, a2⟩ := stripePixel_range (9 + dx)
    obtain ⟨b1, b2⟩ := stripePixel_range (9 + dx + 1)
    have h1 : 1 ≤ 200 * x + 1 / 10 := le_of_not_lt h
    constructor <;> nlinarith

theorem colorNew_stripe (x : ℚ) (h0 : 0 ≤ 200 * x + 1 / 10) (h2 : 200 * x + 1 / 10 < 2)
    (d : Int × Int) :
    (stripeCtx x).colorNew (((8 + d.1 : Int) : ℚ) + (200 * x + 1 / 10))
        (((8 + d.2 : Int) : ℚ) + 1 / 10) =
      ⟨![stripeSample x d.1, 0, 0], true⟩ := by
  show (⟨bilinear33 (gradPixel stripePixel) _ _, true⟩ : Sample3) = _
  congr 1
  unfold stripeSample
  split_ifs with h
  · exact bilinear_stripe (8 + d.1) (8 + d.2) _ _ h0 h (by norm_num) (by norm_num)
  · have h1 : 1 ≤ 200 * x + 1 / 10 := le_of_not_lt h
    have e : ((8 + d.1 : Int) : ℚ) + (200 * x + 1 / 10) =
        ((9 + d.1 : Int) : ℚ) + (200 * x + 1 / 10 - 1) := by
      push_cast
      ring
    rw [e]
    exact bilinear_stripe (9 + d.1) (8 + d.2) _ _ (by linarith) (by linarith) (by norm_num)
      (by norm_num)

theorem patternStep_stripe (x : ℚ) (h0 : 0 ≤ 200 * x + 1 / 10) (h2 : 200 * x + 1 / 10 < 2)
    (p : Pnt) (hu : p.u = 81 / 10) (hv : p.v = 81 / 10) (hd : p.idepth_new = 1)
    (st : PatState) (hg : st.isGood = true) (d : Int × Int)
    (hd1 : -2 ≤ d.1 ∧ d.1 ≤ 2) (hd2 : -2 ≤ d.2 ∧ d.2 ≤ 2) :
    (patternStep (stripeCtx x) p st d).isGood = true ∧
    (patternStep (stripeCtx x) p st d).energy =
      st.energy + (stripeSample x d.1 - 100) * (stripeSample x d.1 - 100) ∧
    (patternStep (stripeCtx x) p st d).jb = st.jb ∧
    (0 ≤ st.maxstep → 0 ≤ (patternStep (stripeCtx x) p st d).maxstep) ∧
    (patternStep (stripeCtx x) p st d).rows =
      st.rows ++ [![0, 0, 0, 0, 0, 0, -100, -1, stripeSample x d.1 - 100]] := by
  obtain ⟨r1, r2⟩ := stripeSample_range x h0 h2 d.1
  have hin : (project (stripeCtx x) p d).inside (stripeCtx x) := by
    rw [project_stripe x p hu hv hd d]
    unfold Proj.inside
    have hw : (stripeCtx x).wl = 32 := rfl
    have hh : (stripeCtx x).hl = 24 := rfl
    rw [hw, hh]
    have a1 : (-2 : ℚ) ≤ (d.1 : ℚ) := by exact_mod_cast hd1.1
    have a2 : (d.1 : ℚ) ≤ 2 := by exact_mod_cast hd1.2
    have a3 : (-2 : ℚ) ≤ (d.2 : ℚ) := by exact_mod_cast hd2.1
    have a4 : (d.2 : ℚ) ≤ 2 := by exact_mod_cast hd2.2
    push_cast
    refine ⟨?_, ?_, ?_, ?_, ?_⟩ <;> linarith
  have hK : (project (stripeCtx x) p d).Ku = ((8 + d.1 : Int) : ℚ) + (200 * x + 1 / 10) := by
    rw [project_stripe x p hu hv hd d]
  have hKv : (project (stripeCtx x) p d).Kv = ((8 + d.2 : Int) : ℚ) + 1 / 10 := by
    rw [project_stripe x p hu hv hd d]
  have hpt : (project (stripeCtx x) p d).pt 2 = 1 := by
    rw [project_stripe x p hu hv hd d]
    rfl
  have hcol := colorNew_stripe x h0 h2 d
  rw [← hK, ← hKv] at hcol
  have href : ∀ a b, (stripeCtx x).colorRef a b = ⟨100, true⟩ := fun _ _ => rfl
  have haff : (stripeCtx x).r2new_aff = (1, 0) := rfl
  have hth : (stripeCtx x).huberTH = 9 := rfl
  have ht : (stripeCtx x).t = ![x, 0, 0] := rfl
  have hhw : huberWeight 9 (stripeSample x d.1 - 1 * 100 - 0) = 1 := by
    unfold huberWeight
    rw [if_pos]
    rw [abs_lt]
    constructor <;> linarith
  unfold patternStep
  simp only [hg, Bool.not_true, Bool.false_eq_true, if_false, hin, not_true_eq_false, hcol, href,
    haff, hth, ht, Bool.or_self, hpt, Matrix.cons_val_zero, Matrix.cons_val_one,
    Matrix.head_cons, Matrix.cons_val_two, Matrix.tail_cons, hhw]
  have hlt : ¬ ((1 : ℚ) < 1) := lt_irrefl _
  simp only [hlt, if_false]
  refine ⟨trivial, ?_, ?_, ?_, ?_⟩
  · ring
  · rw [add_right_eq_self]
    funext k
    fin_cases k <;> simp <;> rfl
  · intro hm
    split_ifs with hc
    · exact div_nonneg (by norm_num) (ratSqrt_nonneg _)
    · exact hm
  · congr 2
    funext k
    fin_cases k <;> simp

theorem foldl_patternStep_stripe (x : ℚ) (h0 : 0 ≤ 200 * x + 1 / 10)
    (h2 : 200 * x + 1 / 10 < 2) (p : Pnt) (hu : p.u = 81 / 10) (hv : p.v = 81 / 10)
    (hd : p.idepth_new = 1) (pat : List (Int × Int)) :
    (∀ d ∈ pat, (-2 ≤ d.1 ∧ d.1 ≤ 2) ∧ (-2 ≤ d.2 ∧ d.2 ≤ 2)) →
    ∀ st : PatState, st.isGood = true →
      (pat.foldl (patternStep (stripeCtx x) p) st).isGood = true ∧
      (pat.foldl (patternStep (stripeCtx x) p) st).energy =
        st.energy + (pat.map fun d =>
          (stripeSample x d.1 - 100) * (stripeSample x d.1 - 100)).sum ∧
      (pat.foldl (patternStep (stripeCtx x) p) st).jb = st.jb ∧
      (0 ≤ st.maxstep → 0 ≤ (pat.foldl (patternStep (stripeCtx x) p) st).maxstep) ∧
      (pat.foldl (patternStep (stripeCtx x) p) st).rows =
        st.rows ++ pat.map fun d =>
          ![0, 0, 0, 0, 0, 0, -100, -1, stripeSample x d.1 - 100] := by
  induction pat with
  | nil =>
    intro _ st hg
    simp [hg]
  | cons d pat ih =>
    intro hr st hg
    obtain ⟨b1, b2, b3, b4, b5⟩ := patternStep_stripe x h0 h2 p hu hv hd st hg d
      (hr d (List.mem_cons_self _ _)).1 (hr d (List.mem_cons_self _ _)).2
    obtain ⟨c1, c2, c3, c4, c5⟩ := ih (fun e he => hr e (List.mem_cons_of_mem _ he)) _ b1
    simp only [List.foldl_cons, List.map_cons, List.sum_cons]
    refine ⟨c1, ?_, ?_, fun hm => c4 (b4 hm), ?_⟩
    · rw [c2, b2]
      ring
    · rw [c3, b3]
    · rw [c5, b5]
      simp

theorem stripeSample_even (x : ℚ) (dx : Int) (h : dx = 0 ∨ dx = 2 ∨ dx = -2) :
    stripeSample x dx - 100 = 5 * stripePhase x := by
  unfold stripeSample stripePhase
  rcases h with h | h | h <;> subst h <;> split_ifs <;> simp [stripePixel] <;> ring

theorem stripeSample_odd (x : ℚ) (dx : Int) (h : dx = 1 ∨ dx = -1) :
    stripeSample x dx - 100 = 5 - 5 * stripePhase x := by
  unfold stripeSample stripePhase
  rcases h with h | h <;> subst h <;> split_ifs <;> simp [stripePixel] <;> ring

/-- The loop over the sampling pattern for a point at `(8.1, 8.1)` with working
depth 1 under a translation `x` along the `x` axis: every sample passes the
tests, the derivatives with respect to the pose and the depth vanish, and the
energy is `stripeEnergy` at the phase of the translation. -/
theorem patternLoop_stripe (x : ℚ) (h0 : 0 ≤ 200 * x + 1 / 10) (h2 : 200 * x + 1 / 10 < 2)
    (p : Pnt) (hu : p.u = 81 / 10) (hv : p.v = 81 / 10) (hd : p.idepth_new = 1) :
    (patternLoop (stripeCtx x) stripeEnv.cfg.patternP p).isGood = true ∧
    (patternLoop (stripeCtx x) stripeEnv.cfg.patternP p).energy =
      stripeEnergy (stripePhase x) ∧
    (patternLoop (stripeCtx x) stripeEnv.cfg.patternP p).jb = 0 ∧
    0 ≤ (patternLoop (stripeCtx x) stripeEnv.cfg.patternP p).maxstep ∧
    ∀ J ∈ (patternLoop (stripeCtx x) stripeEnv.cfg.patternP p).rows,
      ∀ k : Fin 9, k.val < 6 → J k = 0 := by
  have hpat : stripeEnv.cfg.patternP =
      [(0, -2), (-1, -1), (1, -1), (-2, 0), (0, 0), (2, 0), (-1, 1), (0, 2)] := rfl
  have hr : ∀ d ∈ stripeEnv.cfg.patternP, (-2 ≤ d.1 ∧ d.1 ≤ 2) ∧ (-2 ≤ d.2 ∧ d.2 ≤ 2) := by
    rw [hpat]
    decide
  obtain ⟨c1, c2, c3, c4, c5⟩ := foldl_patternStep_stripe x h0 h2 p hu hv hd
    stripeEnv.cfg.patternP hr ⟨true, 0, 10 ^ 10, 0, []⟩ rfl
  unfold patternLoop
  refine ⟨c1, ?_, c3, c4 (by norm_num), ?_⟩
  · rw [c2, hpat]
    simp only [List.map_cons, List.map_nil, List.sum_cons, List.sum_nil]
    rw [stripeSample_even x 0 (Or.inl rfl), stripeSample_even x 2 (Or.inr (Or.inl rfl)),
      stripeSample_even x (-2) (Or.inr (Or.inr rfl)), stripeSample_odd x 1 (Or.inl rfl),
      stripeSample_odd x (-1) (Or.inr rfl)]
    unfold stripeEnergy
    ring
  · rw [c5]
    intro J hJ k hk
    simp only [List.nil_append, List.mem_map] at hJ
    obtain ⟨d, -, rfl⟩ := hJ
    fin_cases k <;> first | rfl | (exfalso; revert hk; decide)

theorem stripePhase_range (x : ℚ) (h0 : 0 ≤ 200 * x + 1 / 10) (h2 : 200 * x + 1 / 10 < 2) :
    0 ≤ stripePhase x ∧ stripePhase x ≤ 1 := by
  unfold stripePhase
  split_ifs with h
  · exact ⟨h0, le_of_lt h⟩
  · have h1 : 1 ≤ 200 * x + 1 / 10 := le_of_not_lt h
    constructor <;> linarith

theorem stripeEnergy_le (T : ℚ) (h0 : 0 ≤ T) (h1 : T ≤ 1) : stripeEnergy T ≤ 200 := by
  unfold stripeEnergy
  nlinarith

theorem resAccepted_stripe (x : ℚ) (h0 : 0 ≤ 200 * x + 1 / 10) (h2 : 200 * x + 1 / 10 < 2)
    (p : Pnt) (hu : p.u = 81 / 10) (hv : p.v = 81 / 10) (hd : p.idepth_new = 1)
    (hg : p.isGood = true) (ho : p.outlierTH = 1152) :
    resAccepted (stripeCtx x) stripeEnv.cfg.patternP p = true := by
  obtain ⟨c1, c2, -, -, -⟩ := patternLoop_stripe x h0 h2 p hu hv hd
  obtain ⟨t0, t1⟩ := stripePhase_range x h0 h2
  have hE := stripeEnergy_le _ t0 t1
  unfold resAccepted
  rw [hg, c1, c2, ho]
  have : ¬ stripeEnergy (stripePhase x) > 1152 * 20 := by
    intro h
    linarith
  simp [this]

theorem trialPnt_stripe (x : ℚ) (h0 : 0 ≤ 200 * x + 1 / 10) (h2 : 200 * x + 1 / 10 < 2)
    (p : Pnt) (hu : p.u = 81 / 10) (hv : p.v = 81 / 10) (hd : p.idepth_new = 1)
    (hg : p.isGood = true) (ho : p.outlierTH = 1152) (old : Vec10f) :
    trialPnt (stripeCtx x) stripeEnv.cfg.patternP p old =
      { p with
        maxstep := (patternLoop (stripeCtx x) stripeEnv.cfg.patternP p).maxstep
        energy_new := (stripeEnergy (stripePhase x), 0)
        isGood_new := true
        lastHessian_new := 0 } := by
  have hacc := resAccepted_stripe x h0 h2 p hu hv hd hg ho
  obtain ⟨c1, c2, c3, -, -⟩ := patternLoop_stripe x h0 h2 p hu hv hd
  unfold trialPnt schurPnt alphaPnt resPnt resJb
  simp [hg, hacc, c2, c3, hd]

theorem schurJb_stripe (a cw : ℚ) (q : Pnt) (hd : q.idepth_new = 1) (hr : q.iR = 1)
    (k : Fin 10) (hk : k ≠ 9) : schurJb a cw q 0 k = 0 := by
  obtain ⟨e8, -, eo⟩ := schurJb_entries a cw q 0
  by_cases h8 : k = 8
  · subst h8
    rw [e8, hd, hr]
    simp
  · rw [eo k h8 hk]
    rfl

theorem sum_vecMulVec_zero (rows : List (Fin 9 → ℚ))
    (h : ∀ J ∈ rows, ∀ k : Fin 9, k.val < 6 → J k = 0) (a b : Fin 9)
    (hab : a.val < 6 ∨ b.val < 6) :
    ((rows.map fun J => Matrix.vecMulVec J J).sum) a b = 0 := by
  induction rows with
  | nil => simp
  | cons J rows ih =>
    simp only [List.map_cons, List.sum_cons, Matrix.add_apply]
    rw [ih (fun J' hJ' => h J' (List.mem_cons_of_mem _ hJ'))]
    have hJ := h J (List.mem_cons_self _ _)
    simp only [Matrix.vecMulVec_apply, add_zero]
    rcases hab with ha | hb
    · rw [hJ a ha, zero_mul]
    · rw [hJ b hb, mul_zero]

theorem foldl_updateSingle (f : Pnt → ℚ) (l : List Pnt) :
    ∀ E0 : Accumulator11,
      (l.foldl (fun E p => E.updateSingle (f p)) E0).sum = E0.sum + (l.map f).sum ∧
      (l.foldl (fun E p => E.updateSingle (f p)) E0).A = E0.A := by
  induction l with
  | nil => intro E0; simp
  | cons p l ih =>
    intro E0
    simp only [List.foldl_cons, List.map_cons, List.sum_cons]
    obtain ⟨h1, h2⟩ := ih (E0.updateSingle (f p))
    rw [h1, h2]
    constructor
    · simp only [Accumulator11.updateSingle]
      ring
    · rfl

/-- The photometric energy `calcResAndGS` returns: the sum over the points of
the energy of the point when it is accepted and of its committed energy
otherwise. -/
theorem calcResAndGS_energy (env : Env) (s : CoarseInitializer) (lvl : Nat) (P : SE3)
    (aff : AffLight) :
    (calcResAndGS env s lvl P aff).2.res.1 =
      ((s.points lvl).map (resE (mkResCtx env s lvl P aff) env.cfg.patternP)).sum := by
  unfold calcResAndGS
  simp only [CoarseInitializer.numPoints]
  rw [resLoop_eq _ _ _ _ _ _ _ le_rfl]
  simp only [List.take_length]
  rw [(foldl_updateSingle _ _ _).2]
  simp only [Accumulator11.finish]
  rw [(foldl_updateSingle _ _ _).1]
  simp [ Accumulator11.initialize]

/-- What `calcResAndGS` returns and leaves for an object of the run under a
translation `x` along the `x` axis that is below the cap of the alpha
energy. -/
theorem calcResAndGS_stripe (s : CoarseInitializer) (hs : StripeObj s) (x : ℚ)
    (h0 : 0 ≤ 200 * x + 1 / 10) (h2 : 200 * x + 1 / 10 < 2) (hcap : 22500 * (x * x) ≤ 25 / 4) :
    StripeObj (calcResAndGS stripeEnv s 0 ⟨1, ![x, 0, 0]⟩ ⟨0, 0⟩).1 ∧
    (∀ p ∈ (calcResAndGS stripeEnv s 0 ⟨1, ![x, 0, 0]⟩ ⟨0, 0⟩).1.points 0,
      p.isGood_new = true) ∧
    (∀ k : Fin 10, k ≠ 9 →
      (calcResAndGS stripeEnv s 0 ⟨1, ![x, 0, 0]⟩ ⟨0, 0⟩).1.JbBuffer_new 0 k = 0) ∧
    (calcResAndGS stripeEnv s 0 ⟨1, ![x, 0, 0]⟩ ⟨0, 0⟩).1.JbBuffer = s.JbBuffer ∧
    (calcResAndGS stripeEnv s 0 ⟨1, ![x, 0, 0]⟩ ⟨0, 0⟩).2.res.1 =
      stripeEnergy (stripePhase x) ∧
    (calcResAndGS stripeEnv s 0 ⟨1, ![x, 0, 0]⟩ ⟨0, 0⟩).2.res.2.1 = 22500 * (x * x) ∧
    (∀ i j : Fin 6, (calcResAndGS stripeEnv s 0 ⟨1, ![x, 0, 0]⟩ ⟨0, 0⟩).2.H_out
        (Fin.castLE (by decide) i) (Fin.castLE (by decide) j) =
      if i = j ∧ i.val < 3 then 22500 else 0) ∧
    (∀ k : Fin 6, (calcResAndGS stripeEnv s 0 ⟨1, ![x, 0, 0]⟩ ⟨0, 0⟩).2.b_out
        (Fin.castLE (by decide) k) = if k.val = 0 then 22500 * x else 0) ∧
    (∀ i j : Fin 6, (calcResAndGS stripeEnv s 0 ⟨1, ![x, 0, 0]⟩ ⟨0, 0⟩).2.H_out_sc
        (Fin.castLE (by decide) i) (Fin.castLE (by decide) j) = 0) ∧
    (∀ k : Fin 6, (calcResAndGS stripeEnv s 0 ⟨1, ![x, 0, 0]⟩ ⟨0, 0⟩).2.b_out_sc
        (Fin.castLE (by decide) k) = 0) := by
  have hctx := mkResCtx_stripe s hs x
  obtain ⟨a1, a2, a3, a4, a5, a6, a7, a8, a9, a10, a11, a12, a13, a14, p, hp, pu, pv, pg, pd,
    pn, pr, po, pm, pnb⟩ := hs
  have htr := trialPnt_stripe x h0 h2 p pu pv pn pg po (s.JbBuffer_new 0)
  obtain ⟨c1, c2, c3, c4, c5⟩ := patternLoop_stripe x h0 h2 p pu pv pn
  have hacc := resAccepted_stripe x h0 h2 p pu pv pn pg po
  have hpts := calcResAndGS_single stripeEnv s 0 ⟨1, ![x, 0, 0]⟩ ⟨0, 0⟩ p hp
  rw [hctx, htr] at hpts
  have hN : (s.numPoints 0 : ℚ) = 1 := by
    unfold CoarseInitializer.numPoints
    rw [hp]
    simp
  have hopt : alphaOptOf s 0 ⟨1, ![x, 0, 0]⟩ = 22500 := by
    unfold alphaOptOf
    rw [a3, a2, hN, sqNorm_x]
    have : ¬ (22500 * ( Accumulator11.initialize.finish.A + x * x * 1) > 25 / 4 * 1) := by
      have e : Accumulator11.initialize.finish.A = 0 := rfl
      rw [e]
      intro h
      linarith
    rw [if_neg this]
  have hgn : (alphaPnt (resPnt (stripeCtx x) stripeEnv.cfg.patternP p)).isGood_new = true := by
    simp [alphaPnt, resPnt, pg, hacc]
  have hdn : (alphaPnt (resPnt (stripeCtx x) stripeEnv.cfg.patternP p)).idepth_new = 1 := by
    simp [alphaPnt, resPnt, pg, hacc, pn]
  have hrn : (alphaPnt (resPnt (stripeCtx x) stripeEnv.cfg.patternP p)).iR = 1 := by
    simp [alphaPnt, resPnt, pg, hacc, pr]
  have hrange : List.range 1 = [0] := rfl
  have hz : ∀ a b : Fin 9, a.val < 6 →
      resAcc9 (stripeCtx x) stripeEnv.cfg.patternP p a b = 0 := by
    intro a b ha
    unfold resAcc9
    rw [hacc]
    simp only [if_true]
    exact sum_vecMulVec_zero _ c5 _ _ (Or.inl ha)
  have hne : ∀ k : Fin 10, k.val < 6 → k ≠ 9 := by
    intro k hk h
    subst h
    revert hk
    decide
  have hjb : resJb (stripeCtx x) stripeEnv.cfg.patternP p (s.JbBuffer_new 0) = 0 := by
    simp [resJb, pg, c3]
  have hzero : ∀ (i : Fin 6) (h1 : 6 ≤ 8) (h2 : 8 ≤ 9) (h3 : 9 ≤ 10),
      schurJb 22500 s.couplingWeight
        (alphaPnt (resPnt (stripeCtx x) stripeEnv.cfg.patternP p)) 0
        (Fin.castLE h3 (Fin.castLE h2 (Fin.castLE h1 i))) = 0 :=
    fun i _ _ _ => schurJb_stripe _ _ _ hdn hrn _ (hne _ i.isLt)
  refine ⟨⟨a1, a2, a3, a4, a5, a6, a7, a8, a9, a10, a11, a12, a13, a14, _, hpts, pu, pv, pg,
    pd, pn, pr, po, c4, pnb⟩, ?_, ?_, rfl, ?_, ?_, ?_, ?_, ?_, ?_⟩
  · intro q hq
    rw [hpts] at hq
    rw [List.mem_singleton] at hq
    rw [hq]
  · intro k hk
    rw [calcResAndGS_JbBuffer_new stripeEnv s 0 _ _ 0 p (by rw [hp]; rfl), hctx, hjb]
    unfold schurJbOf
    rw [hgn]
    simp only [Bool.not_true, Bool.false_eq_true, if_false]
    exact schurJb_stripe _ _ _ hdn hrn k hk
  · rw [calcResAndGS_energy, hctx, hp]
    simp [resE, hacc, c2]
  · rw [calcResAndGS_alpha, a3, a2, hN, sqNorm_x]
    have : ¬ (22500 * (x * x * 1) > 25 / 4 * 1) := by
      intro h
      linarith
    rw [if_neg this]
    ring
  · intro i j
    rw [(calcResAndGS_acc stripeEnv s 0 _ _).1, hctx, hp, hopt, hN]
    simp only [List.map_cons, List.map_nil, List.sum_cons, List.sum_nil, add_zero,
      Matrix.add_apply, topLeft88]
    rw [hz]
    · rw [zero_add]
      fin_cases i <;> fin_cases j <;> simp [Matrix.diagonal, Fin.castLE] <;> decide
    · exact i.isLt
  · intro k
    rw [(calcResAndGS_acc stripeEnv s 0 _ _).2.1, hctx, hp, hopt, hN]
    simp only [List.map_cons, List.map_nil, List.sum_cons, List.sum_nil, add_zero,
      Pi.add_apply, topRight81]
    rw [hz]
    · rw [zero_add]
      fin_cases k <;> simp [stripeEnv, Fin.castLE] <;>
        first | (intro h _; exact absurd h (by decide)) | ring
    · exact k.isLt
  · intro i j
    rw [(calcResAndGS_acc stripeEnv s 0 _ _).2.2.1, hctx, hp, hopt]
    simp only [List.length_singleton, hrange, List.map_cons, List.map_nil,
      List.sum_cons, List.sum_nil, add_zero, List.getElem?_cons_zero, topLeft88, hjb]
    unfold schurAcc
    rw [hgn]
    simp only [Bool.not_true, Bool.false_eq_true, if_false, Matrix.smul_apply,
      Matrix.vecMulVec_apply]
    rw [hzero i]
    simp
  · intro k
    rw [(calcResAndGS_acc stripeEnv s 0 _ _).2.2.2, hctx, hp, hopt]
    simp only [List.length_singleton, hrange, List.map_cons, List.map_nil,
      List.sum_cons, List.sum_nil, add_zero, List.getElem?_cons_zero, topRight81, hjb]
    unfold schurAcc
    rw [hgn]
    simp only [Bool.not_true, Bool.false_eq_true, if_false, Matrix.smul_apply,
      Matrix.vecMulVec_apply]
    rw [hzero k]
    simp

theorem solveInc_system (env : Env) (st : LMState) (lvl : Nat) (h : st.s.fixAffine = true) :
    solveInc env st lvl = fun k =>
      if hk : k.val < 6 then
        -(Matrix.mulVec
          (fun i j : Fin 6 => wM env.cfg (Fin.castLE (by decide) i) (Fin.castLE (by decide) j))
          (env.ldltSolve6 (incSystem6 env st lvl).1 (incSystem6 env st lvl).2) ⟨k.val, hk⟩)
      else 0 := by
  unfold solveInc incSystem6
  simp only [h, if_true]

theorem incSystem6_stripe (st : LMState) (x : ℚ) (h : Striped x st) :
    (∀ i j : Fin 6, (incSystem6 stripeEnv st 0).1 i j =
      if i = j ∧ i.val < 3 then 1 / 76800 * (22500 * (1 + st.lambda)) else 0) ∧
    (∀ k : Fin 6, (incSystem6 stripeEnv st 0).2 k =
      if k.val = 0 then 1 / 76800 * (22500 * x) else 0) := by
  obtain ⟨hobj, -, -, -, hH, hb, hHsc, hbsc, -, -⟩ := h
  obtain ⟨-, -, -, -, -, a6, a7, -⟩ := hobj
  have hsc : (1 / 100 : ℚ) / ((st.s.w_ 0 * st.s.h_ 0 : Int) : ℚ) = 1 / 76800 := by
    rw [a6, a7]
    have e : (stripeState.w_ 0 * stripeState.h_ 0 : Int) = 768 := by decide
    rw [e]
    norm_num
  constructor
  · intro i j
    unfold incSystem6
    simp only [hsc, wM, Matrix.smul_apply, Matrix.mul_diagonal, Matrix.diagonal_mul,
      Matrix.sub_apply, smul_eq_mul, hH, hHsc]
    by_cases hij : i = j
    · subst hij
      fin_cases i <;> simp [stripeEnv, exampleEnv, exampleCfg, Fin.castLE]
    · have hne : (Fin.castLE (by decide : 6 ≤ 8) i) ≠ Fin.castLE (by decide : 6 ≤ 8) j := by
        intro he
        apply hij
        exact Fin.ext (by
          have := congrArg Fin.val he
          simpa [Fin.castLE] using this)
      simp [hij, hne]
  · intro k
    unfold incSystem6
    simp only [hsc, wM, Pi.smul_apply, Matrix.mulVec_diagonal, Pi.sub_apply, smul_eq_mul, hb,
      hbsc]
    fin_cases k <;> simp [stripeEnv, exampleEnv, exampleCfg, Fin.castLE]

theorem diagSolve6_stripe (st : LMState) (x : ℚ) (h : Striped x st) (hl : 0 < st.lambda) :
    diagSolve6 (incSystem6 stripeEnv st 0).1 (incSystem6 stripeEnv st 0).2 =
      ![x / (1 + st.lambda), 0, 0, 0, 0, 0] := by
  obtain ⟨hH, hb⟩ := incSystem6_stripe st x h
  have hne : (1 + st.lambda) ≠ 0 := by linarith
  funext k
  unfold diagSolve6
  rw [hH, hb]
  fin_cases k
  · show (if (if (0 : Fin 6) = 0 ∧ ((0 : Fin 6) : Nat) < 3 then
        1 / 76800 * (22500 * (1 + st.lambda)) else 0) = 0 then 0
      else (if ((0 : Fin 6) : Nat) = 0 then 1 / 76800 * (22500 * x) else 0) /
        (if (0 : Fin 6) = 0 ∧ ((0 : Fin 6) : Nat) < 3 then
          1 / 76800 * (22500 * (1 + st.lambda)) else 0)) = x / (1 + st.lambda)
    have c : ((0 : Fin 6) = 0 ∧ ((0 : Fin 6) : Nat) < 3) := ⟨rfl, by decide⟩
    have c2 : ((0 : Fin 6) : Nat) = 0 := rfl
    have hn : (1 / 76800 * (22500 * (1 + st.lambda)) : ℚ) ≠ 0 := by positivity
    rw [if_pos c, if_pos c2, if_neg hn]
    field_simp
    ring
  all_goals simp
  all_goals rfl

theorem incSystem6_solved (st : LMState) (x : ℚ) (h : Striped x st) (hl : 0 < st.lambda) :
    (incSystem6 stripeEnv st 0).1.mulVec
        (diagSolve6 (incSystem6 stripeEnv st 0).1 (incSystem6 stripeEnv st 0).2) =
      (incSystem6 stripeEnv st 0).2 := by
  rw [diagSolve6_stripe st x h hl]
  obtain ⟨hH, hb⟩ := incSystem6_stripe st x h
  have hne : (1 + st.lambda) ≠ 0 := by linarith
  funext k
  rw [hb]
  simp only [Matrix.mulVec, Matrix.dotProduct, hH, Fin.sum_univ_succ]
  fin_cases k <;> simp
  field_simp
  ring

theorem solveInc_stripe (st : LMState) (x : ℚ) (h : Striped x st) (hl : 0 < st.lambda) :
    solveInc stripeEnv st 0 = ![-(x / (1 + st.lambda)), 0, 0, 0, 0, 0, 0, 0] := by
  have hfix : st.s.fixAffine = true := h.1.2.2.2.2.1
  rw [solveInc_system stripeEnv st 0 hfix]
  have e : stripeEnv.ldltSolve6 = diagSolve6 := rfl
  rw [e, diagSolve6_stripe st x h hl]
  funext k
  fin_cases k <;>
    simp [stripeEnv, exampleEnv, exampleCfg, wM, Matrix.mulVec, Matrix.dotProduct,
      Fin.sum_univ_succ, Matrix.diagonal, Fin.castLE] <;>
    rfl

theorem incNorm_stripe (y : ℚ) (hy : 0 ≤ y) :
    incNorm stripeEnv ![-y, 0, 0, 0, 0, 0, 0, 0] = y := by
  unfold incNorm
  have e : (∑ k : Fin 8, (![-y, 0, 0, 0, 0, 0, 0, 0] : Vec8f) k *
      (![-y, 0, 0, 0, 0, 0, 0, 0] : Vec8f) k) = y * y := by
    simp [Fin.sum_univ_succ]
  rw [e]
  exact ratSqrt_mul_self _ hy

theorem trialPose_stripe (st : LMState) (x y : ℚ) (h : st.refToNew_current = ⟨1, ![x, 0, 0]⟩) :
    trialPose stripeEnv st ![-y, 0, 0, 0, 0, 0, 0, 0] = ⟨1, ![x - y, 0, 0]⟩ := by
  unfold trialPose SE3.mul
  rw [h]
  simp only [stripeEnv, Matrix.one_mul, Matrix.one_mulVec]
  congr 1
  funext k
  fin_cases k <;> simp [Fin.castLE]
  ring

theorem trialAff_stripe (st : LMState) (y : ℚ) (h : st.refToNew_aff_current = ⟨0, 0⟩) :
    trialAff st ![-y, 0, 0, 0, 0, 0, 0, 0] = ⟨0, 0⟩ := by
  unfold trialAff
  rw [h]
  simp
  constructor <;> rfl

theorem doStep_stripe (s : CoarseInitializer) (hs : StripeObj s)
    (hjb : ∀ k : Fin 10, k ≠ 9 → s.JbBuffer 0 k = 0) (lambda : ℚ) (inc : Vec8f) :
    doStep s 0 lambda inc = s := by
  obtain ⟨a1, a2, a3, a4, a5, a6, a7, a8, a9, a10, a11, a12, a13, a14, p, hp, pu, pv, pg, pd,
    pn, pr, po, pm, pnb⟩ := hs
  have hb : s.JbBuffer 0 8 + head8Dot (s.JbBuffer 0) inc = 0 := by
    unfold head8Dot
    rw [hjb 8 (by decide)]
    simp only [Fin.sum_univ_succ, Fin.sum_univ_zero]
    have e : ∀ k : Fin 8, s.JbBuffer 0 (Fin.castLE (by decide) k) = 0 := by
      intro k
      apply hjb
      intro hk
      have := congrArg Fin.val hk
      simp [Fin.castLE] at this
      omega
    simp only [e]
    ring
  have hpnt : doStepPnt s.JbBuffer lambda inc 0 p = p := by
    have key : doStepPnt s.JbBuffer lambda inc 0 p = { p with idepth_new := 1 } := by
      unfold doStepPnt
      simp only [pg, Bool.not_true, Bool.false_eq_true, if_false, hb, neg_zero, zero_mul, zero_div]
      have hm : (0 : ℚ) ≤ (if 1 / 4 * p.maxstep > 10 ^ 10 then 10 ^ 10 else 1 / 4 * p.maxstep) := by
        split_ifs
        · norm_num
        · linarith
      have h1 : ¬ (0 > (if 1 / 4 * p.maxstep > 10 ^ 10 then (10 : ℚ) ^ 10 else 1 / 4 * p.maxstep)) :=
        not_lt.mpr hm
      have h2 : ¬ (0 < -(if 1 / 4 * p.maxstep > 10 ^ 10 then (10 : ℚ) ^ 10 else 1 / 4 * p.maxstep)) := by
        linarith
      simp only [h1, if_false, h2, pd, add_zero]
      have e1 : ¬ ((1 : ℚ) < 1 / 1000) := by norm_num
      have e2 : ¬ ((1 : ℚ) > 50) := by norm_num
      simp only [e1, e2, if_false]
    rw [key]
    cases p
    simp only at pn
    subst pn
    rfl
  unfold doStep
  have : (s.points 0).mapIdx (doStepPnt s.JbBuffer lambda inc) = s.points 0 := by
    rw [hp]
    simp [List.mapIdx_cons, hpnt]
  rw [this, Function.update_eq_self]

theorem stripeObj_snap (s : CoarseInitializer) (hs : StripeObj s) :
    ({ s with snapped := true } : CoarseInitializer) = s := by
  have a1 : s.snapped = true := hs.1
  cases s
  simp only at a1
  subst a1
  rfl

theorem calcEC_stripe (s : CoarseInitializer) (hs : StripeObj s) :
    (calcEC s 0).1 = 0 ∧ (calcEC s 0).2.1 = 0 := by
  obtain ⟨a1, a2, a3, a4, a5, a6, a7, a8, a9, a10, a11, a12, a13, a14, p, hp, pu, pv, pg, pd,
    pn, pr, po, pm, pnb⟩ := hs
  unfold calcEC
  simp only [a1, Bool.not_true, Bool.false_eq_true, if_false, hp]
  cases hgn : p.isGood_new <;> simp [List.filter, hgn, pd, pn, pr]

theorem applyStep_stripe (s : CoarseInitializer) (hs : StripeObj s)
    (hg : ∀ p ∈ s.points 0, p.isGood_new = true) :
    StripeObj (applyStep s 0) ∧ (applyStep s 0).JbBuffer = s.JbBuffer_new := by
  obtain ⟨a1, a2, a3, a4, a5, a6, a7, a8, a9, a10, a11, a12, a13, a14, p, hp, pu, pv, pg, pd,
    pn, pr, po, pm, pnb⟩ := hs
  have hgn : p.isGood_new = true := hg p (by rw [hp]; exact List.mem_singleton.mpr rfl)
  refine ⟨⟨a1, a2, a3, a4, a5, a6, a7, a8, a9, a10, a11, a12, a13, a14, applyStepPnt p, ?_, ?_⟩,
    rfl⟩
  · show Function.update s.points 0 ((s.points 0).map applyStepPnt) 0 = _
    rw [Function.update_same, hp]
    rfl
  · unfold applyStepPnt
    simp only [pg, Bool.not_true, Bool.false_eq_true, if_false]
    exact ⟨pu, pv, hgn, pn, pn, pr, po, pm, pnb⟩

theorem optReg_stripe (s : CoarseInitializer) (hs : StripeObj s) : optReg s 0 = s := by
  obtain ⟨a1, a2, a3, a4, a5, a6, a7, a8, a9, a10, a11, a12, a13, a14, p, hp, pu, pv, pg, pd,
    pn, pr, po, pm, pnb⟩ := hs
  have h : optRegPts s.snapped s.regWeight (s.points 0) = s.points 0 := by
    unfold optRegPts
    rw [a1, hp]
    simp [forLoop, optRegStep, goodNeighbourIR, pnb, List.ofFn_succ, getPnt, pg]
  unfold optReg
  rw [h, Function.update_eq_self]

theorem resetPoints_stripe (s : CoarseInitializer) (hs : StripeObj s) :
    StripeObj (resetPoints stripeEnv.cfg s 0) ∧
      (resetPoints stripeEnv.cfg s 0).JbBuffer_new = s.JbBuffer_new := by
  obtain ⟨a1, a2, a3, a4, a5, a6, a7, a8, a9, a10, a11, a12, a13, a14, p, hp, pu, pv, pg, pd,
    pn, pr, po, pm, pnb⟩ := hs
  have h : forLoop (s.points 0).length (resetPointsStep stripeEnv.cfg.pyrLevelsUsed 0)
      (s.points 0) = [{ p with energy := (0, 0), idepth_new := p.idepth }] := by
    rw [hp]
    simp [forLoop, resetPointsStep, pg]
  refine ⟨⟨a1, a2, a3, a4, a5, a6, a7, a8, a9, a10, a11, a12, a13, a14,
    { p with energy := (0, 0), idepth_new := p.idepth }, ?_, pu, pv, pg, pd, pd, pr, po, pm,
    pnb⟩, rfl⟩
  have e : (resetPoints stripeEnv.cfg s 0).points 0 = Function.update s.points 0
      (forLoop (s.points 0).length (resetPointsStep stripeEnv.cfg.pyrLevelsUsed 0)
        (s.points 0)) 0 := rfl
  rw [e, Function.update_same, h]

theorem stripeObj_stripeState : StripeObj stripeState := by
  refine ⟨rfl, ?_, ?_, rfl, rfl, rfl, rfl, rfl, rfl, rfl, rfl, rfl, rfl, rfl, stripePnt, rfl,
    ?_, ?_, rfl, rfl, rfl, rfl, ?_, ?_, rfl⟩
  · show (5 / 2 * (5 / 2) : ℚ) = 25 / 4
    norm_num
  · show (150 * 150 : ℚ) = 22500
    norm_num
  · simp [stripePnt, examplePnt, seedPnt]
    norm_num
  · simp [stripePnt, examplePnt, seedPnt]
    norm_num
  · simp [stripePnt, examplePnt, seedPnt, exampleCfg, Settings.patternNum]
    norm_num
  · simp [stripePnt, examplePnt, seedPnt, blankPnt]

theorem stripeStep_range (x lam : ℚ) (hl : 0 < lam) (hx0 : 0 ≤ x) (hx1 : x ≤ 7 / 1000) :
    0 ≤ x / (1 + lam) ∧ 0 ≤ stripeStep x lam ∧ stripeStep x lam ≤ 7 / 1000 := by
  have h1 : (0 : ℚ) < 1 + lam := by linarith
  have h2 : 0 ≤ x / (1 + lam) := div_nonneg hx0 (le_of_lt h1)
  have h3 : x / (1 + lam) ≤ x := div_le_self hx0 (by linarith)
  unfold stripeStep
  exact ⟨h2, by linarith, by linarith⟩

theorem runTrial_stripe (st : LMState) (x : ℚ) (h : Striped x st) (hl : 0 < st.lambda) :
    runTrial stripeEnv 0 st =
      { inc := ![-(x / (1 + st.lambda)), 0, 0, 0, 0, 0, 0, 0]
        refToNew_new := ⟨1, ![stripeStep x st.lambda, 0, 0]⟩
        refToNew_aff_new := ⟨0, 0⟩
        s := (calcResAndGS stripeEnv st.s 0 ⟨1, ![stripeStep x st.lambda, 0, 0]⟩ ⟨0, 0⟩).1
        out := (calcResAndGS stripeEnv st.s 0 ⟨1, ![stripeStep x st.lambda, 0, 0]⟩ ⟨0, 0⟩).2
        regEnergy :=
          calcEC (calcResAndGS stripeEnv st.s 0 ⟨1, ![stripeStep x st.lambda, 0, 0]⟩ ⟨0, 0⟩).1
            0 } := by
  unfold runTrial
  simp only [solveInc_stripe st x h hl, trialPose_stripe st x _ h.2.2.1,
    trialAff_stripe st _ h.2.2.2.1, doStep_stripe st.s h.1 h.2.1]
  rfl

/-- One trial of the run from `stripeTrack`: the accept test compares the total
energies at the current and at the proposed translation; an accepted trial
moves to the proposed translation and a rejected trial keeps the current one. -/
theorem striped_trial (st : LMState) (x : ℚ) (h : Striped x st) (hl : 0 < st.lambda)
    (hx0 : 0 ≤ x) (hx1 : x ≤ 7 / 1000) :
    (runTrial stripeEnv 0 st).accept st =
      decide (stripeTotal x > stripeTotal (stripeStep x st.lambda)) ∧
    ((runTrial stripeEnv 0 st).accept st = true →
      Striped (stripeStep x st.lambda) (lmTrial stripeEnv 0 st)) ∧
    ((runTrial stripeEnv 0 st).accept st = false → Striped x (lmTrial stripeEnv 0 st)) := by
  obtain ⟨-, hy0, hy1⟩ := stripeStep_range x st.lambda hl hx0 hx1
  have htr := runTrial_stripe st x h hl
  obtain ⟨c1, c2, c3, c4, c5, c6, c7, c8, c9, c10⟩ :=
    calcResAndGS_stripe st.s h.1 (stripeStep x st.lambda) (by linarith) (by linarith)
      (by nlinarith)
  obtain ⟨e1, e2⟩ := calcEC_stripe _ c1
  obtain ⟨b1, b2, b3, b4, b5, b6, b7, b8, b9, b10⟩ := h
  have hacc : (runTrial stripeEnv 0 st).accept st =
      decide (stripeTotal x > stripeTotal (stripeStep x st.lambda)) := by
    rw [htr]
    unfold Trial.accept Trial.eTotalOld Trial.eTotalNew stripeTotal
    simp only [b9, b10, c5, c6, e1, e2, add_zero]
  refine ⟨hacc, ?_, ?_⟩
  · intro ha
    rw [lmTrial_accept stripeEnv 0 st ha, htr]
    unfold acceptTrial
    simp only [stripeObj_snap _ c1, ite_self, optReg_stripe _ (applyStep_stripe _ c1 c2).1]
    exact ⟨(applyStep_stripe _ c1 c2).1, c3, rfl, rfl, c7, c8, c9, c10, c5, c6⟩
  · intro ha
    rw [lmTrial_reject stripeEnv 0 st ha, htr]
    refine ⟨c1, ?_, b3, b4, b5, b6, b7, b8, b9, b10⟩
    intro k hk
    show (calcResAndGS stripeEnv st.s 0 _ _).1.JbBuffer 0 k = 0
    rw [c4]
    exact b2 k hk

theorem striped_incNorm (st : LMState) (x : ℚ) (h : Striped x st) (hl : 0 < st.lambda)
    (hx0 : 0 ≤ x) :
    incNorm stripeEnv (solveInc stripeEnv st 0) = x / (1 + st.lambda) := by
  rw [solveInc_stripe st x h hl]
  exact incNorm_stripe _ (div_nonneg hx0 (by linarith))

theorem striped_accept (st : LMState) (x lam : ℚ) (h : Striped x st) (hlam : st.lambda = lam)
    (hl : 1 / 5000 ≤ lam) (hx0 : 0 ≤ x) (hx1 : x ≤ 7 / 1000)
    (ha : stripeTotal x > stripeTotal (stripeStep x lam)) :
    (runTrial stripeEnv 0 st).accept st = true ∧
    Striped (stripeStep x lam) (lmTrial stripeEnv 0 st) ∧
    (lmTrial stripeEnv 0 st).lambda = lam / 2 ∧ (lmTrial stripeEnv 0 st).fails = 0 := by
  subst hlam
  obtain ⟨t1, t2, -⟩ := striped_trial st x h (by linarith) hx0 hx1
  have hacc : (runTrial stripeEnv 0 st).accept st = true := by
    rw [t1]
    exact decide_eq_true ha
  refine ⟨hacc, t2 hacc, ?_, ?_⟩
  · rw [lmTrial_accept stripeEnv 0 st hacc, (lambda_accept 0 st _).1]
    exact max_eq_left (by linarith)
  · rw [lmTrial_accept stripeEnv 0 st hacc]
    rfl

theorem striped_reject (st : LMState) (x lam : ℚ) (h : Striped x st) (hlam : st.lambda = lam)
    (hl : 0 < lam) (hl2 : lam ≤ 2500) (hx0 : 0 ≤ x) (hx1 : x ≤ 7 / 1000)
    (ha : ¬ stripeTotal x > stripeTotal (stripeStep x lam)) :
    (runTrial stripeEnv 0 st).accept st = false ∧
    Striped x (lmTrial stripeEnv 0 st) ∧
    (lmTrial stripeEnv 0 st).lambda = 4 * lam ∧
    (lmTrial stripeEnv 0 st).fails = st.fails + 1 := by
  subst hlam
  obtain ⟨t1, -, t3⟩ := striped_trial st x h hl hx0 hx1
  have hacc : (runTrial stripeEnv 0 st).accept st = false := by
    rw [t1]
    exact decide_eq_false ha
  refine ⟨hacc, t3 hacc, ?_, ?_⟩
  · rw [lmTrial_reject stripeEnv 0 st hacc, (lambda_reject 0 st _).1]
    exact min_eq_left (by linarith)
  · rw [lmTrial_reject stripeEnv 0 st hacc]
    rfl

theorem striped_noquit (k : Nat) (hk : k < 5) (st : LMState) (x lam : ℚ) (h : Striped x st)
    (hlam : st.lambda = lam) (hl : 0 < lam) (hx0 : 0 ≤ x)
    (hn : x / (1 + lam) > 1 / 10000) (hf : (lmTrial stripeEnv 0 st).fails < 2) :
    ¬ quitOpt stripeEnv 0 k (solveInc stripeEnv st 0) (lmTrial stripeEnv 0 st) = true := by
  subst hlam
  rw [quitOpt_iff, striped_incNorm st x h hl hx0]
  have hm : maxIterationsAt 0 = 5 := rfl
  rw [hm]
  intro hq
  rcases hq with hq | hq | hq
  · exact hq hn
  · omega
  · omega

theorem striped_lmInit :
    Striped (7 / 1000) (lmInit stripeEnv 0 stripeTrack) ∧
    (lmInit stripeEnv 0 stripeTrack).lambda = 1 / 10 ∧
    (lmInit stripeEnv 0 stripeTrack).fails = 0 := by
  obtain ⟨r1, r2⟩ := resetPoints_stripe stripeState stripeObj_stripeState
  obtain ⟨c1, c2, c3, c4, c5, c6, c7, c8, c9, c10⟩ :=
    calcResAndGS_stripe _ r1 (7 / 1000) (by norm_num) (by norm_num) (by norm_num)
  have hlt : ¬ (0 < stripeEnv.cfg.pyrLevelsUsed - 1) := by decide
  refine ⟨?_, rfl, rfl⟩
  unfold lmInit
  simp only [hlt, if_false]
  exact ⟨(applyStep_stripe _ c1 c2).1, c3, rfl, rfl, c7, c8, c9, c10, c5, c6⟩

theorem iterate_one_eq {α : Type} (f : α → α) (x : α) : f^[1] x = f x := rfl

theorem iterate_two_eq {α : Type} (f : α → α) (x : α) : f^[2] x = f (f x) := rfl

theorem iterate_three_eq {α : Type} (f : α → α) (x : α) : f^[3] x = f (f (f x)) := rfl

theorem iterate_four_eq {α : Type} (f : α → α) (x : α) : f^[4] x = f (f (f (f x))) := rfl

theorem iterate_five_eq {α : Type} (f : α → α) (x : α) : f^[5] x = f (f (f (f (f x)))) := rfl

theorem iterate_six_eq {α : Type} (f : α → α) (x : α) :
    f^[6] x = f (f (f (f (f (f x))))) := rfl

theorem stripeTotal_values :
    ¬ stripeTotal (7 / 1000) > stripeTotal (stripeStep (7 / 1000) (1 / 10)) ∧
    stripeTotal (7 / 1000) > stripeTotal (stripeStep (7 / 1000) (2 / 5)) ∧
    ¬ stripeTotal (1 / 500) > stripeTotal (stripeStep (1 / 500) (1 / 5)) ∧
    stripeTotal (1 / 500) > stripeTotal (stripeStep (1 / 500) (4 / 5)) ∧
    ¬ stripeTotal (1 / 1125) > stripeTotal (stripeStep (1 / 1125) (2 / 5)) ∧
    ¬ stripeTotal (1 / 1125) > stripeTotal (stripeStep (1 / 1125) (8 / 5)) := by
  unfold stripeTotal stripeStep stripeEnergy stripePhase
  norm_num

/-- The run of six trials from a state of the run at the translation `7/1000`
with the damping `1/10`: the state before each trial with its translation,
damping and count of rejections in a row, and the accept decisions
reject, accept, reject, accept, reject, reject. -/
theorem striped_chain (s : LMState) (h : Striped (7 / 1000) s) (hl : s.lambda = 1 / 10)
    (hf : s.fails = 0) :
    (Striped (7 / 1000) (lmTrial stripeEnv 0 s) ∧
      (lmTrial stripeEnv 0 s).lambda = 2 / 5 ∧
      (lmTrial stripeEnv 0 s).fails = 1) ∧
    (Striped (1 / 500) (lmTrial stripeEnv 0 (lmTrial stripeEnv 0 s)) ∧
      (lmTrial stripeEnv 0 (lmTrial stripeEnv 0 s)).lambda = 1 / 5 ∧
      (lmTrial stripeEnv 0 (lmTrial stripeEnv 0 s)).fails = 0) ∧
    (Striped (1 / 500) (lmTrial stripeEnv 0 (lmTrial stripeEnv 0 (lmTrial stripeEnv 0 s))) ∧
      (lmTrial stripeEnv 0 (lmTrial stripeEnv 0 (lmTrial stripeEnv 0 s))).lambda = 4 / 5 ∧
      (lmTrial stripeEnv 0 (lmTrial stripeEnv 0 (lmTrial stripeEnv 0 s))).fails = 1) ∧
    (Striped (1 / 1125) (lmTrial stripeEnv 0 (lmTrial stripeEnv 0 (lmTrial stripeEnv 0 (lmTrial stripeEnv 0 s)))) ∧
      (lmTrial stripeEnv 0 (lmTrial stripeEnv 0 (lmTrial stripeEnv 0 (lmTrial stripeEnv 0 s)))).lambda = 2 / 5 ∧
      (lmTrial stripeEnv 0 (lmTrial stripeEnv 0 (lmTrial stripeEnv 0 (lmTrial stripeEnv 0 s)))).fails = 0) ∧
    (Striped (1 / 1125) (lmTrial stripeEnv 0 (lmTrial stripeEnv 0 (lmTrial stripeEnv 0 (lmTrial stripeEnv 0 (lmTrial stripeEnv 0 s))))) ∧
      (lmTrial stripeEnv 0 (lmTrial stripeEnv 0 (lmTrial stripeEnv 0 (lmTrial stripeEnv 0 (lmTrial stripeEnv 0 s))))).lambda = 8 / 5 ∧
      (lmTrial stripeEnv 0 (lmTrial stripeEnv 0 (lmTrial stripeEnv 0 (lmTrial stripeEnv 0 (lmTrial stripeEnv 0 s))))).fails = 1) ∧
    (runTrial stripeEnv 0 s).accept s = false ∧
    (runTrial stripeEnv 0 (lmTrial stripeEnv 0 s)).accept (lmTrial stripeEnv 0 s) = true ∧
    (runTrial stripeEnv 0 (lmTrial stripeEnv 0 (lmTrial stripeEnv 0 s))).accept (lmTrial stripeEnv 0 (lmTrial stripeEnv 0 s)) = false ∧
    (runTrial stripeEnv 0 (lmTrial stripeEnv 0 (lmTrial stripeEnv 0 (lmTrial stripeEnv 0 s)))).accept (lmTrial stripeEnv 0 (lmTrial stripeEnv 0 (lmTrial stripeEnv 0 s))) = true ∧
    (runTrial stripeEnv 0 (lmTrial stripeEnv 0 (lmTrial stripeEnv 0 (lmTrial stripeEnv 0 (lmTrial stripeEnv 0 s))))).accept (lmTrial stripeEnv 0 (lmTrial stripeEnv 0 (lmTrial stripeEnv 0 (lmTrial stripeEnv 0 s)))) = false ∧
    (runTrial stripeEnv 0 (lmTrial stripeEnv 0 (lmTrial stripeEnv 0 (lmTrial stripeEnv 0 (lmTrial stripeEnv 0 (lmTrial stripeEnv 0 s)))))).accept (lmTrial stripeEnv 0 (lmTrial stripeEnv 0 (lmTrial stripeEnv 0 (lmTrial stripeEnv 0 (lmTrial stripeEnv 0 s))))) = false ∧
    (lmTrial stripeEnv 0 (lmTrial stripeEnv 0 (lmTrial stripeEnv 0 (lmTrial stripeEnv 0 (lmTrial stripeEnv 0 (lmTrial stripeEnv 0 s)))))).fails = 2 := by
  obtain ⟨v0, v1, v2, v3, v4, v5⟩ := stripeTotal_values
  have e2 : stripeStep (7 / 1000) (2 / 5) = 1 / 500 := by
    unfold stripeStep
    norm_num
  have e4 : stripeStep (1 / 500) (4 / 5) = 1 / 1125 := by
    unfold stripeStep
    norm_num
  obtain ⟨a0, s1, l1, f1⟩ := striped_reject s (7 / 1000) (1 / 10) h hl (by norm_num)
    (by norm_num) (by norm_num) (by norm_num) v0
  rw [hf] at f1
  have l1' : (lmTrial stripeEnv 0 s).lambda = 2 / 5 := by
    rw [l1]
    norm_num
  generalize lmTrial stripeEnv 0 s = t1 at *
  obtain ⟨a1, s2, l2, f2⟩ := striped_accept t1 (7 / 1000) (2 / 5) s1 l1' (by norm_num)
    (by norm_num) (by norm_num) v1
  rw [e2] at s2
  have l2' : (lmTrial stripeEnv 0 t1).lambda = 1 / 5 := by
    rw [l2]
    norm_num
  generalize lmTrial stripeEnv 0 t1 = t2 at *
  obtain ⟨a2, s3, l3, f3⟩ := striped_reject t2 (1 / 500) (1 / 5) s2 l2' (by norm_num)
    (by norm_num) (by norm_num) (by norm_num) v2
  rw [f2] at f3
  have l3' : (lmTrial stripeEnv 0 t2).lambda = 4 / 5 := by
    rw [l3]
    norm_num
  generalize lmTrial stripeEnv 0 t2 = t3 at *
  obtain ⟨a3, s4, l4, f4⟩ := striped_accept t3 (1 / 500) (4 / 5) s3 l3' (by norm_num)
    (by norm_num) (by norm_num) v3
  rw [e4] at s4
  have l4' : (lmTrial stripeEnv 0 t3).lambda = 2 / 5 := by
    rw [l4]
    norm_num
  generalize lmTrial stripeEnv 0 t3 = t4 at *
  obtain ⟨a4, s5, l5, f5⟩ := striped_reject t4 (1 / 1125) (2 / 5) s4 l4' (by norm_num)
    (by norm_num) (by norm_num) (by norm_num) v4
  rw [f4] at f5
  have l5' : (lmTrial stripeEnv 0 t4).lambda = 8 / 5 := by
    rw [l5]
    norm_num
  generalize lmTrial stripeEnv 0 t4 = t5 at *
  obtain ⟨a5, s6, l6, f6⟩ := striped_reject t5 (1 / 1125) (8 / 5) s5 l5' (by norm_num)
    (by norm_num) (by norm_num) (by norm_num) v5
  rw [f5] at f6
  exact ⟨⟨s1, l1', f1⟩, ⟨s2, l2', f2⟩, ⟨s3, l3', f3⟩, ⟨s4, l4', f4⟩, ⟨s5, l5', f5⟩,
    a0, a1, a2, a3, a4, a5, f6⟩

theorem striped_lmTrials (s : LMState) (h : Striped (7 / 1000) s) (hl : s.lambda = 1 / 10)
    (hf : s.fails = 0) : lmTrials stripeEnv 0 0 s = 6 := by
  obtain ⟨⟨s1, l1, f1⟩, ⟨s2, l2, f2⟩, ⟨s3, l3, f3⟩, ⟨s4, l4, f4⟩, ⟨s5, l5, f5⟩, -, -, -, -, -,
    -, f6⟩ := striped_chain s h hl hf
  have n0 := striped_noquit 0 (by decide) s (7 / 1000) (1 / 10) h hl (by norm_num)
    (by norm_num) (by norm_num) (by omega)
  have n1 := striped_noquit 1 (by decide) _ (7 / 1000) (2 / 5) s1 l1 (by norm_num)
    (by norm_num) (by norm_num) (by omega)
  have n2 := striped_noquit 2 (by decide) _ (1 / 500) (1 / 5) s2 l2 (by norm_num)
    (by norm_num) (by norm_num) (by omega)
  have n3 := striped_noquit 3 (by decide) _ (1 / 500) (4 / 5) s3 l3 (by norm_num)
    (by norm_num) (by norm_num) (by omega)
  have n4 := striped_noquit 4 (by decide) _ (1 / 1125) (2 / 5) s4 l4 (by norm_num)
    (by norm_num) (by norm_num) (by omega)
  have q5 : quitOpt stripeEnv 0 5 (solveInc stripeEnv (lmTrial stripeEnv 0 (lmTrial stripeEnv 0
      (lmTrial stripeEnv 0 (lmTrial stripeEnv 0 (lmTrial stripeEnv 0 s))))) 0)
      (lmTrial stripeEnv 0 (lmTrial stripeEnv 0 (lmTrial stripeEnv 0 (lmTrial stripeEnv 0
        (lmTrial stripeEnv 0 (lmTrial stripeEnv 0 s)))))) = true := by
    rw [quitOpt_iff]
    right
    left
    exact le_refl 5
  rw [lmTrials_cont stripeEnv 0 0 s n0, lmTrials_cont stripeEnv 0 1 _ n1,
    lmTrials_cont stripeEnv 0 2 _ n2, lmTrials_cont stripeEnv 0 3 _ n3,
    lmTrials_cont stripeEnv 0 4 _ n4, lmTrials_quit stripeEnv 0 5 _ q5]

theorem striped_lmAccepts (s : LMState) (h : Striped (7 / 1000) s) (hl : s.lambda = 1 / 10)
    (hf : s.fails = 0) : lmAccepts stripeEnv 0 s = 2 := by
  obtain ⟨-, -, -, -, -, a0, a1, a2, a3, a4, a5, -⟩ := striped_chain s h hl hf
  have t0 : trialAccepted stripeEnv 0 s 0 = false := by
    unfold trialAccepted
    rw [Function.iterate_zero_apply]
    exact a0
  have t1 : trialAccepted stripeEnv 0 s 1 = true := by
    unfold trialAccepted
    rw [iterate_one_eq]
    exact a1
  have t2 : trialAccepted stripeEnv 0 s 2 = false := by
    unfold trialAccepted
    rw [iterate_two_eq]
    exact a2
  have t3 : trialAccepted stripeEnv 0 s 3 = true := by
    unfold trialAccepted
    rw [iterate_three_eq]
    exact a3
  have t4 : trialAccepted stripeEnv 0 s 4 = false := by
    unfold trialAccepted
    rw [iterate_four_eq]
    exact a4
  have t5 : trialAccepted stripeEnv 0 s 5 = false := by
    unfold trialAccepted
    rw [iterate_five_eq]
    exact a5
  unfold lmAccepts
  rw [striped_lmTrials s h hl hf]
  have hr : List.range 6 = [0, 1, 2, 3, 4, 5] := by decide
  rw [hr]
  simp [List.countP_cons, t0, t1, t2, t3, t4, t5]

/-- What the library stand-ins of `stripeEnv` return in a state of the run
from `stripeTrack`: the solver returns a solution of the system it is handed,
the square root is the exact root of the squared norm of the increment, and
the increment has no rotation and no brightness part, so that the exponential
map is the one of a translation. -/
theorem striped_exact (st : LMState) (x : ℚ) (h : Striped x st) (hl : 0 < st.lambda)
    (hx0 : 0 ≤ x) :
    (incSystem6 stripeEnv st 0).1.mulVec
        (stripeEnv.ldltSolve6 (incSystem6 stripeEnv st 0).1 (incSystem6 stripeEnv st 0).2) =
      (incSystem6 stripeEnv st 0).2 ∧
    incNorm stripeEnv (solveInc stripeEnv st 0) * incNorm stripeEnv (solveInc stripeEnv st 0) =
      ∑ i, solveInc stripeEnv st 0 i * solveInc stripeEnv st 0 i ∧
    ∀ i : Fin 8, 3 ≤ i.val → solveInc stripeEnv st 0 i = 0 := by
  refine ⟨incSystem6_solved st x h hl, ?_, ?_⟩
  · rw [striped_incNorm st x h hl hx0, solveInc_stripe st x h hl]
    simp [Fin.sum_univ_succ]
  · intro i hi
    rw [solveInc_stripe st x h hl]
    fin_cases i <;> first | (exact absurd hi (by decide)) | rfl

theorem striped_exact_run (s : LMState) (h : Striped (7 / 1000) s) (hl : s.lambda = 1 / 10)
    (hf : s.fails = 0) (k : Nat) (hk : k < 6) :
    (incSystem6 stripeEnv ((lmTrial stripeEnv 0)^[k] s) 0).1.mulVec
        (stripeEnv.ldltSolve6 (incSystem6 stripeEnv ((lmTrial stripeEnv 0)^[k] s) 0).1
          (incSystem6 stripeEnv ((lmTrial stripeEnv 0)^[k] s) 0).2) =
      (incSystem6 stripeEnv ((lmTrial stripeEnv 0)^[k] s) 0).2 ∧
    incNorm stripeEnv (solveInc stripeEnv ((lmTrial stripeEnv 0)^[k] s) 0) *
        incNorm stripeEnv (solveInc stripeEnv ((lmTrial stripeEnv 0)^[k] s) 0) =
      ∑ i, solveInc stripeEnv ((lmTrial stripeEnv 0)^[k] s) 0 i *
        solveInc stripeEnv ((lmTrial stripeEnv 0)^[k] s) 0 i ∧
    ∀ i : Fin 8, 3 ≤ i.val → solveInc stripeEnv ((lmTrial stripeEnv 0)^[k] s) 0 i = 0 := by
  obtain ⟨⟨s1, l1, f1⟩, ⟨s2, l2, f2⟩, ⟨s3, l3, f3⟩, ⟨s4, l4, f4⟩, ⟨s5, l5, f5⟩, -, -, -, -, -,
    -, f6⟩ := striped_chain s h hl hf
  interval_cases k
  · rw [Function.iterate_zero_apply]
    exact striped_exact s _ h (by rw [hl]; norm_num) (by norm_num)
  · rw [iterate_one_eq]
    exact striped_exact _ _ s1 (by rw [l1]; norm_num) (by norm_num)
  · rw [iterate_two_eq]
    exact striped_exact _ _ s2 (by rw [l2]; norm_num) (by norm_num)
  · rw [iterate_three_eq]
    exact striped_exact _ _ s3 (by rw [l3]; norm_num) (by norm_num)
  · rw [iterate_four_eq]
    exact striped_exact _ _ s4 (by rw [l4]; norm_num) (by norm_num)
  · rw [iterate_five_eq]
    exact striped_exact _ _ s5 (by rw [l5]; norm_num) (by norm_num)

/-- Counterexample to the bound of C14 as the specification states it: at
level 0, whose cap is `maxIterations[0] = 5`, the inner loop runs six trials
from `stripeTrack`.  The new frame is striped with period 2, so that the
photometric energy of the single point is a triangle wave of the translation
and the image gradients, hence the Jacobians, vanish; the system is the one
of the alpha prior and a trial at the translation `x` with damping `lambda`
proposes `x - x / (1 + lambda)`.  From `x = 7/1000` and `lambda = 1/10` the
trials are rejected, accepted (`x = 1/500`), rejected, accepted
(`x = 1/1125`), rejected, rejected; the norm of each of the first five
increments exceeds `1e-4` and never two rejections in a row occur before the
sixth trial, so the loop first quits after the trial with `iteration = 5`.
In every trial the solver returns a solution of its system, the square root
is exact and the increment is a translation. -/
theorem inner_loop_exceeds_cap :
    lmTrials stripeEnv 0 0 (lmInit stripeEnv 0 stripeTrack) = 6 ∧ maxIterationsAt 0 = 5 ∧
    lmLoop stripeEnv 0 0 (lmInit stripeEnv 0 stripeTrack) =
      (lmTrial stripeEnv 0)^[6] (lmInit stripeEnv 0 stripeTrack) ∧
    ∀ k, k < 6 →
      (incSystem6 stripeEnv ((lmTrial stripeEnv 0)^[k] (lmInit stripeEnv 0 stripeTrack)) 0).1.mulVec
          (stripeEnv.ldltSolve6
            (incSystem6 stripeEnv
              ((lmTrial stripeEnv 0)^[k] (lmInit stripeEnv 0 stripeTrack)) 0).1
            (incSystem6 stripeEnv
              ((lmTrial stripeEnv 0)^[k] (lmInit stripeEnv 0 stripeTrack)) 0).2) =
        (incSystem6 stripeEnv ((lmTrial stripeEnv 0)^[k] (lmInit stripeEnv 0 stripeTrack)) 0).2 ∧
      incNorm stripeEnv
          (solveInc stripeEnv ((lmTrial stripeEnv 0)^[k] (lmInit stripeEnv 0 stripeTrack)) 0) *
        incNorm stripeEnv
          (solveInc stripeEnv ((lmTrial stripeEnv 0)^[k] (lmInit stripeEnv 0 stripeTrack)) 0) =
        ∑ i, solveInc stripeEnv ((lmTrial stripeEnv 0)^[k] (lmInit stripeEnv 0 stripeTrack)) 0 i *
          solveInc stripeEnv ((lmTrial stripeEnv 0)^[k] (lmInit stripeEnv 0 stripeTrack)) 0 i ∧
      ∀ i : Fin 8, 3 ≤ i.val →
        solveInc stripeEnv ((lmTrial stripeEnv 0)^[k] (lmInit stripeEnv 0 stripeTrack)) 0 i = 0 := by
  obtain ⟨h, hl, hf⟩ := striped_lmInit
  have hn := striped_lmTrials _ h hl hf
  refine ⟨hn, rfl, ?_, striped_exact_run _ h hl hf⟩
  have h2 := (lmLoop_trials stripeEnv 0 (maxIterationsAt 0) 0 (lmInit stripeEnv 0 stripeTrack)
    (le_of_eq (Nat.sub_zero _))).1
  rw [hn] at h2
  exact h2

/-- Counterexample to C25 as the specification states it: while level 0 is
processed from `stripeTrack`, two of the six trials are accepted and the two
buffers are swapped three times, once by the `applyStep` that follows the
first `calcResAndGS` of the level and once per accepted trial. -/
theorem swap_without_accepted_trial :
    lmTrials stripeEnv 0 0 (lmInit stripeEnv 0 stripeTrack) = 6 ∧
    lmAccepts stripeEnv 0 (lmInit stripeEnv 0 stripeTrack) = 2 ∧
    (levelOps stripeEnv 0 stripeTrack).countP PointOp.isApplyStep = 3 ∧
    runOps stripeEnv stripeTrack.s (levelOps stripeEnv 0 stripeTrack) =
      (trackLevel stripeEnv 0 stripeTrack).s := by
  obtain ⟨h, hl, hf⟩ := striped_lmInit
  refine ⟨striped_lmTrials _ h hl hf, striped_lmAccepts _ h hl hf, ?_, runOps_levelOps _ _ _⟩
  rw [countP_levelOps, striped_lmAccepts _ h hl hf]

/-! ## The neighbour weights `makeNN` stores -/

end dso
